import Mathlib

/-!
# The non-blocking HTTP client of `just-weather-lib`

A shallow embedding of `http/http_client.c` and `tcp/tcp_client.c`.

Conventions of the embedding:

* a byte is a natural number below 256, a buffer is a `List Nat`, a C string is
  the list of its bytes before the terminating NUL;
* `size_t`, `unsigned long` and `uint64_t` values are natural numbers, and every
  arithmetic step of the source that can leave the 64-bit range is written with an
  explicit `% SIZE_MOD`; an `int` that is assigned a pointer difference keeps its
  low 32 bits (`to_int`);
* `malloc`/`realloc` are answered by an allocator `heap : Nat → Bool` that tells
  whether a request of the given size is granted;
* a memory access outside the object it addresses, and a loop that never exits,
  are results of their own (`fault`, `hang`);
* the results of the system calls of one tick are inputs of the step functions.
-/

set_option linter.unusedVariables false

namespace JustWeather

/-! ## Machine constants -/

/-- Modulus of `size_t` / `unsigned long` / `uint64_t` arithmetic. -/
def SIZE_MOD : Nat := 18446744073709551616

/-- Largest `unsigned long` (and `size_t`) value. -/
def ULONG_MAX : Nat := 18446744073709551615

/-- Largest `int` value. -/
def INT_MAX : Nat := 2147483647

/-- Size of the largest object an implementation can address (`PTRDIFF_MAX`). -/
def PTRDIFF_MAX : Nat := 9223372036854775807

/-- Bytes of a string literal of the source. -/
def str (s : String) : List Nat := s.toList.map Char.toNat

/-- View of a buffer as a C string: the bytes before the first NUL. -/
def cstr (b : List Nat) : List Nat := b.takeWhile (fun c => c != 0)

/-! ## libc: `isspace`, `strtoul(_, _, 16)` -/

/-- The C locale `isspace`. -/
def isspace (c : Nat) : Bool := c == 32 || (9 ≤ c && c ≤ 13)

/-- Value of a base-16 digit. -/
def hexval (c : Nat) : Option Nat :=
  if 48 ≤ c ∧ c ≤ 57 then some (c - 48)
  else if 97 ≤ c ∧ c ≤ 102 then some (c - 87)
  else if 65 ≤ c ∧ c ≤ 70 then some (c - 55)
  else none

/-- Consume the longest run of base-16 digits: the accumulated value and the
number of digits consumed. -/
def hexRun : List Nat → Nat → Nat → Nat × Nat
  | [], acc, n => (acc, n)
  | c :: cs, acc, n =>
    match hexval c with
    | some d => hexRun cs (acc * 16 + d) (n + 1)
    | none => (acc, n)

/-- Drop an optional `0x`/`0X` prefix that is followed by a hex digit. -/
def skipHexPrefix (s : List Nat) : List Nat :=
  match s with
  | 48 :: x :: h :: r =>
    if (x = 120 ∨ x = 88) ∧ (hexval h).isSome then h :: r else s
  | _ => s

/-- Split an optional sign off the front: `(negative, rest)`. -/
def takeSign (s : List Nat) : Bool × List Nat :=
  match s with
  | 45 :: r => (true, r)
  | 43 :: r => (false, r)
  | _ => (false, s)

/-- Model of `strtoul(hex, &endptr, 16)`: leading white space, an optional sign,
an optional `0x`, then hex digits.  Returns the value and whether any conversion
was performed (`endptr != hex`).  A magnitude above `ULONG_MAX` gives
`ULONG_MAX`; a minus sign negates modulo `2^64`. -/
def strtoul16 (s : List Nat) : Nat × Bool :=
  let s1 := s.dropWhile isspace
  let sg := takeSign s1
  let s3 := skipHexPrefix sg.2
  let r := hexRun s3 0 0
  if r.2 = 0 then (0, false)
  else if r.1 > ULONG_MAX then (ULONG_MAX, true)
  else if sg.1 then ((SIZE_MOD - r.1) % SIZE_MOD, true)
  else (r.1, true)

/-! ## `decode_chunked` -/

/-- Outcome of `decode_chunked`. -/
inductive DecodeResult
  /-- Return value 0; `*out` holds these bytes (followed by a NUL) and `*out_len`
  is their number. -/
  | ok (out : List Nat)
  /-- A non-zero return value; nothing is stored in `*out`. -/
  | error (rc : Int)
  /-- A `memcpy` reads or writes outside its buffer. -/
  | fault
  /-- The loop doubling `alloc` never exits. -/
  | hang
  deriving DecidableEq, Repr

/-- The inner `while` of the size-line scan (lines 34-37), run on the bytes from
`pos` on: advance `pos` until it stands on a CR that is followed by LF, or reaches
`in_len`. -/
def scanLine : List Nat → Nat → Nat
  | [], pos => pos
  | [_], pos => pos + 1
  | a :: b :: rest, pos =>
    if a = 13 ∧ b = 10 then pos else scanLine (b :: rest) (pos + 1)

/-- The loop `while (buf_len + chunk_size + 1 > alloc) alloc *= 2;` (lines 87-89).
`alloc` is a `size_t`, so the doubling wraps; after 64 doublings `alloc` is 0 and
stays 0, so running out of the fuel given by `decode_chunked` means the loop never
exits. -/
def growAlloc (need : Nat) : Nat → Nat → Option Nat
  | 0, _ => none
  | fuel + 1, alloc =>
    if need > alloc then growAlloc need fuel (alloc * 2 % SIZE_MOD) else some alloc

/-- Lines 110-123: NUL-terminate and return. -/
def decodeFinish (heap : Nat → Bool) (buf : List Nat) (alloc : Nat) : DecodeResult :=
  if (buf.length + 1) % SIZE_MOD > alloc then
    if heap ((buf.length + 1) % SIZE_MOD) then .ok buf else .error (-10)
  else .ok buf

/-- The outer `while (pos < in_len)` of `decode_chunked` (lines 31-108).  `buf`
holds the `buf_len` bytes decoded so far. -/
def decodeLoop (heap : Nat → Bool) (inp : List Nat) :
    Nat → Nat → List Nat → Nat → DecodeResult
  | 0, _, _, _ => .hang
  | fuel + 1, pos, buf, alloc =>
    if ¬ pos < inp.length then decodeFinish heap buf alloc
    else
      let line_start := pos
      let pos := scanLine (inp.drop pos) pos
      if pos ≥ inp.length then .error (-3)
      else
        let line_len := pos - line_start
        if line_len = 0 then .error (-4)
        else if ¬ heap (line_len + 1) then .error (-5)
        else
          let hex := (inp.drop line_start).take line_len
          let conv := strtoul16 hex
          let chunk_size := conv.1
          if ¬ conv.2 then .error (-6)
          else
            let pos := pos + 2
            if chunk_size = 0 then
              -- a CRLF after the last chunk is skipped when present; then `break`
              decodeFinish heap buf alloc
            else if (pos + chunk_size) % SIZE_MOD > inp.length then .error (-7)
            else
              let need := (buf.length + chunk_size + 1) % SIZE_MOD
              match growAlloc need 65 alloc with
              | none => .hang
              | some alloc1 =>
                if need > alloc ∧ ¬ heap alloc1 then .error (-8)
                else if pos + chunk_size > inp.length ∨ buf.length + chunk_size > alloc1 then
                  .fault
                else
                  let buf := buf ++ (inp.drop pos).take chunk_size
                  let pos := pos + chunk_size
                  if pos + 1 ≥ inp.length ∨ inp[pos]? ≠ some 13 ∨ inp[pos + 1]? ≠ some 10 then
                    .error (-9)
                  else decodeLoop heap inp fuel (pos + 2) buf alloc1

/-- Model of `decode_chunked(in, in_len, out, out_len)`.  Every iteration of the
outer loop that does not return advances `pos`, so `in_len + 1` iterations are
enough. -/
def decode_chunked (heap : Nat → Bool) (inp : List Nat) : DecodeResult :=
  if ¬ heap 1024 then .error (-2)
  else decodeLoop heap inp (inp.length + 1) 0 [] 1024

/-! ## The chunk encoding of the specification -/

/-- ASCII code of a lower-case hex digit. -/
def hexDigit (d : Nat) : Nat := if d < 10 then 48 + d else 87 + d

/-- Hexadecimal numeral of `n`, most significant digit first. -/
def hexStrAux : Nat → Nat → List Nat
  | 0, _ => []
  | fuel + 1, n =>
    if n < 16 then [hexDigit n] else hexStrAux fuel (n / 16) ++ [hexDigit (n % 16)]

/-- Written `hex(n)` in the specification: the hexadecimal numeral of `n`, without
prefix or leading zeros. -/
def hexStr (n : Nat) : List Nat := hexStrAux (n + 1) n

/-- One chunk on the wire: `hex(len c) CRLF c CRLF`. -/
def encodeChunk (c : List Nat) : List Nat :=
  hexStr c.length ++ [13, 10] ++ c ++ [13, 10]

/-- The chunks on the wire, without the terminating zero chunk. -/
def encodeChunks : List (List Nat) → List Nat
  | [] => []
  | c :: cs => encodeChunk c ++ encodeChunks cs

/-- The terminating zero chunk `0 CRLF CRLF`. -/
def zeroChunk : List Nat := [48, 13, 10, 13, 10]

/-- Chunk encoding of the payload `cs.flatten` split into the chunks `cs`. -/
def encodeChunked (cs : List (List Nat)) : List Nat :=
  encodeChunks cs ++ zeroChunk

/-! ## libc: the `sscanf` conversions and `strstr` used by the header parser -/

/-- Consume the longest run of decimal digits: the accumulated value, the number
of digits and the unread rest. -/
def decRun : List Nat → Nat → Nat → Nat × Nat × List Nat
  | [], acc, n => (acc, n, [])
  | c :: cs, acc, n =>
    if 48 ≤ c ∧ c ≤ 57 then decRun cs (acc * 10 + (c - 48)) (n + 1) else (acc, n, c :: cs)

/-- The input field of a `%d` / `%zu` conversion: skipped white space, an optional
sign and at least one digit.  `none` is a matching failure. -/
def scanNumber (s : List Nat) : Option (Bool × Nat × List Nat) :=
  let sg := takeSign (s.dropWhile isspace)
  let r := decRun sg.2 0 0
  if r.2.1 = 0 then none else some (sg.1, r.1, r.2.2)

/-- Value stored by `%d` (glibc): the field converted as by `strtol` (saturating to
the range of `long`), then narrowed to `int`. -/
def scanf_d (neg : Bool) (v : Nat) : Int :=
  let l : Int := if neg then max (-(v : Int)) (-9223372036854775808)
    else min (v : Int) 9223372036854775807
  (l + 2147483648) % 4294967296 - 2147483648

/-- Value stored by `%zu` (glibc): the field converted as by `strtoul`. -/
def scanf_zu (neg : Bool) (v : Nat) : Nat :=
  if v > ULONG_MAX then ULONG_MAX
  else if neg then (SIZE_MOD - v) % SIZE_MOD
  else v

/-- Model of `strstr(s, pat)`: the suffix of `s` starting at the first occurrence of
`pat`, if there is one. -/
def strstr (pat : List Nat) : List Nat → Option (List Nat)
  | [] => if pat.isPrefixOf [] then some [] else none
  | c :: s => if pat.isPrefixOf (c :: s) then some (c :: s) else strstr pat s

/-- Value of `status_code` after
`sscanf(headers, "HTTP/1.%*d %d %63[^\r\n]", &status_code, status_text)` on a
`status_code` initialised to 0 (lines 439-442). -/
def scan_status (headers : List Nat) : Int :=
  let s := cstr headers
  if (str "HTTP/1.").isPrefixOf s then
    match scanNumber (s.drop 7) with
    | none => 0
    | some (_, _, s2) =>
      match scanNumber (s2.dropWhile isspace) with
      | none => 0
      | some (neg, v, _) => scanf_d neg v
  else 0

/-- Lines 445-450: `content_len`, 0 unless `strstr` finds `Content-Length:` and the
`%zu` conversion after it succeeds. -/
def scan_content_length (headers : List Nat) : Nat :=
  match strstr (str "Content-Length:") (cstr headers) with
  | none => 0
  | some p =>
    match scanNumber ((p.drop 15).dropWhile isspace) with
    | none => 0
    | some (neg, v, _) => scanf_zu neg v

/-! ## `tcp_client.c` -/

/-- Value of `EAGAIN` (Linux). -/
def EAGAIN : Nat := 11
/-- Value of `EWOULDBLOCK` (Linux, the same as `EAGAIN`). -/
def EWOULDBLOCK : Nat := 11
/-- Value of `EALREADY` (Linux). -/
def EALREADY : Nat := 114
/-- Value of `EINPROGRESS` (Linux). -/
def EINPROGRESS : Nat := 115

/-- Result of one `recv` call. -/
inductive Recv
  /-- The call returned `bytes.length` (at most the length asked for) and stored
  `bytes`; the empty list is the 0-byte receive of a connection closed by the
  peer. -/
  | got (bytes : List Nat)
  /-- The call returned -1 with this `errno`. -/
  | fail (errno : Nat)
  deriving DecidableEq, Repr

/-- Return value of the `recv` call. -/
def Recv.ret : Recv → Int
  | .got bytes => (bytes.length : Int)
  | .fail _ => -1

/-- Value of `errno` after the `recv` call (`tcp_client_read` clears it before). -/
def Recv.errno : Recv → Nat
  | .got _ => 0
  | .fail e => e

/-- The bytes the `recv` call stored at the start of the caller's buffer. -/
def Recv.bytes : Recv → List Nat
  | .got bytes => bytes
  | .fail _ => []

/-- Model of `tcp_client_read`: the value returned for a result of `recv`.  One
`recv` call transfers at most `len` bytes (4096 for the only caller) and never more
than `INT_MAX` on Linux, so `int n` holds its result. -/
def tcp_client_read (r : Recv) : Int :=
  let n := r.ret
  if n < 0 then
    if r.errno = EAGAIN ∨ r.errno = EWOULDBLOCK then 0 else -1
  else if n = 0 then -2
  else n

/-- One address returned by `getaddrinfo`, with the results of `socket` and
`connect` on it. -/
structure Candidate where
  fd : Int
  connect_result : Int
  errno : Nat
  deriving DecidableEq, Repr

/-- The loop over the candidate addresses in `tcp_client_connect` (lines 41-69):
the final `fd` and the descriptors closed on the way. -/
def connectLoop : List Candidate → Int → List Int → Int × List Int
  | [], fd, closed => (fd, closed)
  | rp :: rest, _, closed =>
    if rp.fd < 0 then connectLoop rest rp.fd closed
    else if rp.connect_result = 0 ∨ rp.errno = EINPROGRESS then (rp.fd, closed)
    else connectLoop rest (-1) (closed ++ [rp.fd])

/-- Model of `tcp_client_connect(c, host, port)`; `gai` is the list `getaddrinfo`
produced (`none` when it failed).  Returns the return value, `c->fd` afterwards and
the descriptors closed. -/
def tcp_client_connect (cfd : Int) (gai : Option (List Candidate)) : Int × Int × List Int :=
  if cfd ≥ 0 then (-1, cfd, [])
  else
    match gai with
    | none => (-1, cfd, [])
    | some res =>
      let r := connectLoop res (-1) []
      if r.1 < 0 then (-1, cfd, r.2) else (0, r.1, r.2)

/-- Model of `tcp_client_disconnect`: `c->fd` afterwards and the descriptors
closed. -/
def tcp_client_disconnect (cfd : Int) : Int × List Int :=
  if cfd ≥ 0 then (-1, [cfd]) else (-1, [])

/-! ## The client -/

/-- The states of `HttpClientState`. -/
inductive HttpClientState
  | INIT | CONNECT | CONNECTING | WRITING | READING | DONE | DISPOSE
  deriving DecidableEq, Repr

/-- The fields of `HttpClient`.  `callback` and `task` record whether the pointer is
non-null; `tcp_conn` is the `fd` of the `TCPClient` it points to; `read_buffer_size`
is the length of `read_buffer`; `body` holds the stored bytes without the NUL that
follows them. -/
structure HttpClient where
  state : HttpClientState
  task : Bool
  url : List Nat
  timeout : Nat
  callback : Bool
  timer : Nat
  write_buffer : Option (List Nat)
  write_size : Nat
  write_offset : Nat
  read_buffer : List Nat
  body_start : Nat
  content_len : Nat
  status_code : Int
  body : Option (List Nat)
  chunked : Bool
  connection_close : Bool
  tcp_conn : Option Int
  hostname : List Nat
  path : List Nat
  port : List Nat
  response : List Nat
  deriving DecidableEq, Repr

/-- The `read_buffer_size` field. -/
def HttpClient.read_buffer_size (c : HttpClient) : Nat := c.read_buffer.length

/-- One invocation `callback(event, response)`; `response = none` is a null
pointer, otherwise the C string passed. -/
structure Call where
  event : String
  response : Option (List Nat)
  deriving DecidableEq, Repr

/-- The statement `if (client->callback) client->callback(event, response);`. -/
def emit (c : HttpClient) (event : String) (response : Option (List Nat)) : List Call :=
  if c.callback then [⟨event, response⟩] else []

/-- What a state handler did: the client afterwards, the state it returned, the
callback invocations and the descriptors closed. -/
structure Step where
  client : HttpClient
  next : HttpClientState
  calls : List Call
  closed : List Int
  deriving DecidableEq, Repr

/-- A computation that may run into undefined behaviour or never return. -/
inductive Exec (α : Type)
  | ok (a : α)
  | fault
  | hang
  deriving DecidableEq, Repr

/-- An error exit of a handler: the callback gets `ERROR` with the message and the
handler returns `DISPOSE`. -/
def failStep (c : HttpClient) (msg : String) : Step :=
  ⟨c, .DISPOSE, emit c "ERROR" (some (str msg)), []⟩

/-! ### `parse_url` and INIT -/

/-- The value an `int` takes when the pointer difference `n` is assigned to it: the
low 32 bits, read in two's complement. -/
def to_int (n : Nat) : Int :=
  if n % 4294967296 < 2147483648 then ((n % 4294967296 : Nat) : Int)
  else ((n % 4294967296 : Nat) : Int) - 4294967296

/-- The string at `start` after lines 676-683: the URL behind `http://` or
`https://` when `strncmp` finds one of them at its beginning. -/
def url_start (url : List Nat) : List Nat :=
  if url.take 7 = str "http://" then url.drop 7
  else if url.take 8 = str "https://" then url.drop 8
  else url

/-- The contents of `port` after lines 672-683. -/
def default_port (url : List Nat) : List Nat :=
  if url.take 7 = str "http://" then str "80"
  else if url.take 8 = str "https://" then str "443"
  else str "80"

/-- The loop condition `*end && *end != ':' && *end != '/'` of line 687. -/
def in_host (c : Nat) : Bool := c != 0 && c != 58 && c != 47

/-- The loop condition `*end && *end != '/'` of line 705. -/
def in_port (c : Nat) : Bool := c != 0 && c != 47

/-- The characters from `start` up to `end` after the loop of lines 686-689. -/
def host_text (url : List Nat) : List Nat := (url_start url).takeWhile in_host

/-- The string at `end` after the loop of lines 686-689. -/
def host_end (url : List Nat) : List Nat := (url_start url).dropWhile in_host

/-- The variable `int hostname_len = end - start`. -/
def hostname_len (url : List Nat) : Int := to_int (host_text url).length

/-- The characters from `port_start` up to `end` after the loop of lines 705-707;
empty when `*end` was not `:` at line 701. -/
def port_text (url : List Nat) : List Nat :=
  match host_end url with
  | 58 :: r => r.takeWhile in_port
  | _ => []

/-- The string at `end` after lines 701-714. -/
def port_end (url : List Nat) : List Nat :=
  match host_end url with
  | 58 :: r => r.dropWhile in_port
  | e => e

/-- The variable `int port_len = end - port_start`. -/
def port_len (url : List Nat) : Int := to_int (port_text url).length

/-- The contents of `port` after lines 701-714: `strncpy` copies `port_len`
characters over the default when `port_len > 0 && port_len < 16`. -/
def port_out (url : List Nat) : List Nat :=
  match host_end url with
  | 58 :: _ =>
    if port_len url > 0 ∧ port_len url < 16 then (port_text url).take (port_len url).toNat
    else default_port url
  | _ => default_port url

/-- The contents of `path` after lines 717-720: `strncpy(path, end, 511)` and
`path[511] = 0` when `*end` is `/`, the default otherwise. -/
def path_out (url : List Nat) : List Nat :=
  match port_end url with
  | 47 :: r => (cstr (47 :: r)).take 511
  | _ => str "/"

/-- Model of `parse_url(url, hostname, port, path)` for non-null arguments (a null
argument returns -1 at line 668 before anything is written): the return value and
the contents of the three output strings afterwards.  The output buffers are those
of `HttpClient` or larger (256, 16 and 512 bytes).  A negative `hostname_len`
passes the test of line 693 and reaches `strncpy` as a size above `2^63`, which
writes past every buffer. -/
def parse_url (url hostname port path : List Nat) :
    Exec (Int × List Nat × List Nat × List Nat) :=
  if hostname_len url = 0 ∨ hostname_len url > 255 then
    .ok (-1, hostname, default_port url, str "/")
  else if hostname_len url < 0 then .fault
  else .ok (0, (host_text url).take (hostname_len url).toNat, port_out url, path_out url)

/-- The client once `parse_url(client->url, client->hostname, client->port,
client->path)` has written its outputs `r`. -/
def store_url_parts (c : HttpClient) (r : Int × List Nat × List Nat × List Nat) :
    HttpClient :=
  { c with hostname := r.2.1, port := r.2.2.1, path := r.2.2.2 }

/-- Model of `http_client_work_init`. -/
def http_client_work_init (c : HttpClient) : Exec Step :=
  match parse_url c.url c.hostname c.port c.path with
  | .fault => .fault
  | .hang => .hang
  | .ok r =>
    if r.1 ≠ 0 then .ok (failStep (store_url_parts c r) "Invalid URL")
    else if (store_url_parts c r).hostname.length = 0 then
      .ok (failStep (store_url_parts c r) "No hostname in URL")
    else .ok ⟨{ store_url_parts c r with response := [] }, .CONNECT, [], []⟩

/-! ### CONNECT and CONNECTING -/

/-- Size of a `TCPClient`: one `int`. -/
def sizeof_TCPClient : Nat := 4

/-- Model of `http_client_work_connect`; the new `TCPClient` starts with
`fd = -1`. -/
def http_client_work_connect (heap : Nat → Bool) (gai : Option (List Candidate))
    (c : HttpClient) : Step :=
  if ¬ heap sizeof_TCPClient then failStep c "Memory allocation failed"
  else if (tcp_client_connect (-1) gai).1 ≠ 0 then
    ⟨c, .DISPOSE, emit c "ERROR" (some (str "Failed to initiate connection")),
      (tcp_client_connect (-1) gai).2.2⟩
  else
    ⟨{ c with tcp_conn := some (tcp_client_connect (-1) gai).2.1 }, .CONNECTING, [],
      (tcp_client_connect (-1) gai).2.2⟩

/-- Result of `getsockopt(fd, SOL_SOCKET, SO_ERROR, &error, &len)`. -/
structure SockOpt where
  ret : Int
  error : Int
  deriving DecidableEq, Repr

/-- Model of `http_client_work_connecting`. -/
def http_client_work_connecting (so : SockOpt) (c : HttpClient) : Step :=
  match c.tcp_conn with
  | none => ⟨c, .DISPOSE, [], []⟩
  | some fd =>
    if fd < 0 then ⟨c, .DISPOSE, [], []⟩
    else if so.ret < 0 then ⟨c, .DISPOSE, [], []⟩
    else if so.error = 0 then ⟨c, .WRITING, [], []⟩
    else if so.error = EINPROGRESS ∨ so.error = EALREADY then ⟨c, .CONNECTING, [], []⟩
    else failStep c "Connection failed"

/-! ### WRITING -/

/-- The text `snprintf` formats at lines 292-303. -/
def request_text (path hostname : List Nat) : List Nat :=
  str "GET " ++ path ++ str " HTTP/1.1\r\n"
    ++ str "Host: " ++ hostname ++ str "\r\n"
    ++ str ("User-Agent: Mozilla/5.0 (X11; Linux x86_64) AppleWebKit/537.36 "
      ++ "(KHTML, like Gecko) Chrome/120.0.0.0 Safari/537.36\r\n")
    ++ str "Accept: application/json, text/html, application/xml, */*\r\n"
    ++ str "Accept-Language: en-US,en;q=0.9\r\n"
    ++ str "Accept-Encoding: identity\r\n"
    ++ str "Connection: close\r\n"
    ++ str "\r\n"

/-- Result of one `send` call. -/
inductive Send
  /-- The call accepted this many bytes. -/
  | sent (n : Nat)
  /-- The call returned -1 with this `errno`. -/
  | fail (errno : Nat)
  deriving DecidableEq, Repr

/-- Lines 282-307: on first entry the request is formatted into a new 2048-byte
`write_buffer`.  `none` when `malloc` fails. -/
def build_request (heap : Nat → Bool) (c : HttpClient) : Option HttpClient :=
  match c.write_buffer with
  | some _ => some c
  | none =>
    if ¬ heap 2048 then none
    else
      some { c with
        write_buffer := some ((request_text c.path c.hostname).take 2047)
        write_size := (request_text c.path c.hostname).length
        write_offset := 0 }

/-- Lines 309-336: one `send` of the unsent remainder. -/
def send_request (sr : Send) (c : HttpClient) : Exec Step :=
  match c.tcp_conn with
  | none => .fault
  | some _ =>
    match sr with
    | .fail e =>
      if e = EAGAIN ∨ e = EWOULDBLOCK then .ok ⟨c, .WRITING, [], []⟩
      else .ok (failStep c "Send failed")
    | .sent n =>
      if (c.write_offset + n) % SIZE_MOD ≥ c.write_size then
        .ok ⟨{ c with write_offset := (c.write_offset + n) % SIZE_MOD, write_buffer := none },
          .READING, [], []⟩
      else .ok ⟨{ c with write_offset := (c.write_offset + n) % SIZE_MOD }, .WRITING, [], []⟩

/-- Model of `http_client_work_writing`. -/
def http_client_work_writing (heap : Nat → Bool) (sr : Send) (c : HttpClient) : Exec Step :=
  match build_request heap c with
  | none => .ok (failStep c "Memory allocation failed")
  | some c1 => send_request sr c1

/-! ### READING -/

/-- Outcome of the header scan. -/
inductive ScanResult
  /-- The terminator starts at index `i`. -/
  | found (i : Nat)
  /-- The loop ended without a match. -/
  | notFound
  /-- The loop indexed `read_buffer` outside its bounds, or its `int` counter
  overflowed. -/
  | fault
  deriving DecidableEq, Repr

/-- The loop `for (int i = 0; i <= client->read_buffer_size - 4; i++)` of lines
420-469, from counter value `i`.  The bound is computed in `size_t`, so it wraps for
buffers shorter than 4 bytes; the four comparisons are evaluated left to right and
stop at the first mismatch. -/
def headerScan (buf : List Nat) : Nat → Nat → ScanResult
  | 0, _ => .fault
  | fuel + 1, i =>
    if ¬ i ≤ (buf.length + SIZE_MOD - 4) % SIZE_MOD then .notFound
    else if i ≥ buf.length then .fault
    else if buf[i]? = some 13 ∧ i + 1 ≥ buf.length then .fault
    else if buf[i]? = some 13 ∧ buf[i + 1]? = some 10 ∧ i + 2 ≥ buf.length then .fault
    else if buf[i]? = some 13 ∧ buf[i + 1]? = some 10 ∧ buf[i + 2]? = some 13
        ∧ i + 3 ≥ buf.length then .fault
    else if buf[i]? = some 13 ∧ buf[i + 1]? = some 10 ∧ buf[i + 2]? = some 13
        ∧ buf[i + 3]? = some 10 then
      if i + 5 > INT_MAX then .fault else .found i
    else if i + 1 > INT_MAX then .fault
    else headerScan buf fuel (i + 1)

/-- The header scan of lines 420-469 over the whole buffer.  The counter never
passes `read_buffer_size`, so `read_buffer_size + 1` iterations are enough. -/
def header_scan (buf : List Nat) : ScanResult := headerScan buf (buf.length + 1) 0

/-- The copy `headers` of the first `header_end = i + 4` bytes of `read_buffer`
(lines 426-436). -/
def headers_copy (c : HttpClient) (i : Nat) : List Nat := c.read_buffer.take (i + 4)

/-- Lines 426-467, run when the terminator was found at `i`: the client with the
parsed header fields, or `none` when `malloc(header_end + 1)` fails. -/
def parse_headers (heap : Nat → Bool) (c : HttpClient) (i : Nat) : Option HttpClient :=
  if ¬ heap (i + 4 + 1) then none
  else
    some { c with
      chunked := (strstr (str "Transfer-Encoding: chunked") (cstr (headers_copy c i))).isSome
      connection_close := (strstr (str "Connection: close") (cstr (headers_copy c i))).isSome
      status_code := scan_status (headers_copy c i)
      content_len := scan_content_length (headers_copy c i)
      body_start := i + 4 }

/-- The body copy written three times in `http_client_work_reading`, followed by
`return HTTP_CLIENT_STATE_DONE`: `client->body = malloc(content_len + 1)` and, when
the pointer is not null, the `memcpy` of `content_len` bytes from
`read_buffer + body_start` and the terminating NUL. -/
def done_with_body (heap : Nat → Bool) (c : HttpClient) : Exec Step :=
  if ¬ heap ((c.content_len + 1) % SIZE_MOD) then .ok ⟨{ c with body := none }, .DONE, [], []⟩
  else if c.body_start + c.content_len > c.read_buffer_size
      ∨ c.content_len + 1 > (c.content_len + 1) % SIZE_MOD then
    .fault
  else
    .ok ⟨{ c with body := some ((c.read_buffer.drop c.body_start).take c.content_len) },
      .DONE, [], []⟩

/-- The bytes buffered after `body_start`:
`read_buffer_size > body_start ? read_buffer_size - body_start : 0`. -/
def remaining (c : HttpClient) : Nat :=
  if c.read_buffer_size > c.body_start then c.read_buffer_size - c.body_start else 0

/-- Lines 383-393 and 531-544: `content_len` becomes the number of bytes buffered
after `body_start`, they are copied into `body` when there are any, and the step
returns DONE. -/
def finalize_remaining (heap : Nat → Bool) (c : HttpClient) : Exec Step :=
  if remaining c > 0 then done_with_body heap { c with content_len := remaining c }
  else .ok ⟨{ c with content_len := remaining c }, .DONE, [], []⟩

/-- The terminating chunk sequence `TERM`. -/
def TERM : List Nat := [48, 13, 10, 13, 10]

/-- The loop of lines 493-499 from index `j`: the first `j` with
`j + TERM_LEN <= read_buffer_size` at which `TERM` stands. -/
def termScan (buf : List Nat) : Nat → Nat → Option Nat
  | 0, _ => none
  | fuel + 1, j =>
    if ¬ j + 5 ≤ buf.length then none
    else if (buf.drop j).take 5 = TERM then some j
    else termScan buf fuel (j + 1)

/-- The scan of lines 493-499 from `body_start`; `found` stays `SIZE_MAX` (`none`)
when `TERM` does not occur. -/
def term_scan (buf : List Nat) (body_start : Nat) : Option Nat :=
  termScan buf (buf.length + 1) body_start

/-- The chunked body decoded into `body`, as both the EOF branch and the completion
check do it. -/
def store_decoded (heap : Nat → Bool) (c : HttpClient) (inp : List Nat) : Exec Step :=
  match decode_chunked heap inp with
  | .error _ => .ok (failStep c "Chunked decode failed")
  | .fault => .fault
  | .hang => .hang
  | .ok decoded =>
    .ok ⟨{ c with body := some decoded, content_len := decoded.length }, .DONE, [], []⟩

/-- Lines 359-398: the branch `bytes_read == -2`. -/
def reading_eof (heap : Nat → Bool) (c : HttpClient) : Exec Step :=
  if c.body_start > 0 then
    if c.chunked then
      store_decoded heap c ((c.read_buffer.drop c.body_start).take (remaining c))
    else finalize_remaining heap c
  else .ok ⟨c, .DISPOSE, [], []⟩

/-- Lines 419-470: while `body_start` is 0, look for the end of the headers in the
buffer and parse them.  Returns the client afterwards, or the error step taken. -/
def receive_headers (heap : Nat → Bool) (c : HttpClient) : Exec (HttpClient ⊕ Step) :=
  if c.body_start = 0 then
    match header_scan c.read_buffer with
    | .fault => .fault
    | .notFound => .ok (.inl c)
    | .found i =>
      match parse_headers heap c i with
      | none => .ok (.inr (failStep c "Memory allocation failed"))
      | some c1 => .ok (.inl c1)
  else .ok (.inl c)

/-- Lines 403-470: append the received bytes (`realloc` to `new_size`, `memcpy`) and
parse the headers.  Returns the client afterwards, or the error step taken. -/
def reading_receive (heap : Nat → Bool) (c : HttpClient) (bytes : List Nat) :
    Exec (HttpClient ⊕ Step) :=
  if ¬ heap ((c.read_buffer_size + bytes.length) % SIZE_MOD) then
    .ok (.inr (failStep c "Memory allocation failed"))
  else if c.read_buffer_size + bytes.length > (c.read_buffer_size + bytes.length) % SIZE_MOD then
    .fault
  else receive_headers heap { c with read_buffer := c.read_buffer ++ bytes }

/-- Lines 476-486: the completion check for a known `Content-Length`. -/
def complete_known_length (heap : Nat → Bool) (c : HttpClient) : Exec Step :=
  if c.read_buffer_size ≥ (c.body_start + c.content_len) % SIZE_MOD then done_with_body heap c
  else .ok ⟨c, .READING, [], []⟩

/-- Lines 488-520: the completion check for a chunked body. -/
def complete_chunked (heap : Nat → Bool) (c : HttpClient) : Exec Step :=
  match term_scan c.read_buffer c.body_start with
  | some found =>
    store_decoded heap c ((c.read_buffer.drop c.body_start).take ((found + 5) - c.body_start))
  | none => .ok ⟨c, .READING, [], []⟩

/-- The expression `client->tcp_conn ? client->tcp_conn->fd : -1`. -/
def conn_fd (c : HttpClient) : Int :=
  match c.tcp_conn with
  | some fd => fd
  | none => -1

/-- Lines 522-557: the completion check by a peek at the socket; `peek` is the
result of `recv(fd, peekbuf, 1, MSG_PEEK | MSG_DONTWAIT)`. -/
def complete_by_peek (heap : Nat → Bool) (peek : Recv) (c : HttpClient) : Exec Step :=
  if conn_fd c ≥ 0 then
    if peek.ret = 0 then finalize_remaining heap c
    else if peek.ret < 0 then
      if peek.errno = EAGAIN ∨ peek.errno = EWOULDBLOCK then .ok ⟨c, .READING, [], []⟩
      else .ok (failStep c "Peek failed")
    else .ok ⟨c, .READING, [], []⟩
  else .ok ⟨c, .READING, [], []⟩

/-- Lines 472-561: the completion check after a data tick. -/
def reading_complete (heap : Nat → Bool) (peek : Recv) (c : HttpClient) : Exec Step :=
  if c.body_start > 0 then
    if c.content_len > 0 then complete_known_length heap c
    else if c.chunked then complete_chunked heap c
    else complete_by_peek heap peek c
  else .ok ⟨c, .READING, [], []⟩

/-- Model of `http_client_work_reading`; `r` is the result of the `recv` inside
`tcp_client_read` (which fills `chunk_buffer` with `r.bytes`), `peek` that of the
`MSG_PEEK` call.  `bytes_read` is `tcp_client_read r`; the three tests on it are in
the order of the source. -/
def http_client_work_reading (heap : Nat → Bool) (r peek : Recv) (c : HttpClient) :
    Exec Step :=
  match c.tcp_conn with
  | none => .fault
  | some _ =>
    if tcp_client_read r < 0 then .ok (failStep c "Read failed")
    else if tcp_client_read r = 0 then .ok ⟨c, .READING, [], []⟩
    else if tcp_client_read r = -2 then reading_eof heap c
    else
      match reading_receive heap c (r.bytes.take (tcp_client_read r).toNat) with
      | .fault => .fault
      | .hang => .hang
      | .ok (.inr s) => .ok s
      | .ok (.inl c1) => reading_complete heap peek c1

/-! ### DONE -/

/-- Decimal digits of a natural number, most significant first. -/
def decDigits : Nat → Nat → List Nat
  | 0, _ => []
  | fuel + 1, n => if n < 10 then [48 + n] else decDigits fuel (n / 10) ++ [48 + n % 10]

/-- The text `%d` prints for an `int`. -/
def fmt_d (z : Int) : List Nat :=
  if z < 0 then 45 :: decDigits (z.natAbs + 1) z.natAbs else decDigits (z.natAbs + 1) z.natAbs

/-- The C string `client->body ? (char*)client->body : ""`. -/
def body_text (c : HttpClient) : List Nat :=
  match c.body with
  | some b => cstr b
  | none => []

/-- The message `snprintf(error_info, sizeof(error_info), "HTTP %d: %s", ...)`
leaves in the 256-byte `error_info`. -/
def error_info (c : HttpClient) : List Nat :=
  (str "HTTP " ++ fmt_d c.status_code ++ str ": " ++ body_text c).take 255

/-- Lines 565-578: the callback invocation of `http_client_work_done`. -/
def done_calls (c : HttpClient) : List Call :=
  if c.status_code ≥ 200 ∧ c.status_code < 300 then emit c "RESPONSE" (some (body_text c))
  else emit c "ERROR" (some (error_info c))

/-- Lines 597-600: the descriptors closed by `http_client_work_done`. -/
def done_closed (c : HttpClient) : List Int :=
  match c.tcp_conn with
  | some fd => (tcp_client_disconnect fd).2
  | none => []

/-- Model of `http_client_work_done`.  The released `read_buffer` is the empty
list afterwards. -/
def http_client_work_done (c : HttpClient) : Step :=
  ⟨{ c with read_buffer := [], body := none, write_buffer := none, tcp_conn := none },
    .DISPOSE, done_calls c, done_closed c⟩

/-! ### The tick -/

/-- The results of the system calls a tick may make. -/
structure Env where
  heap : Nat → Bool
  gai : Option (List Candidate)
  sockopt : SockOpt
  send : Send
  recv : Recv
  peek : Recv

/-- What a call of `http_client_work` did. -/
inductive Tick
  /-- The client is still registered, in this condition. -/
  | alive (c : HttpClient) (calls : List Call) (closed : List Int)
  /-- The function `http_client_dispose` destroyed the task and freed the client, which was in
  this condition. -/
  | freed (c : HttpClient) (calls : List Call)
  /-- Undefined behaviour. -/
  | fault
  /-- The call never returns. -/
  | hang
  deriving DecidableEq, Repr

/-- The client with the state a handler returned stored in it. -/
def Step.tick (s : Step) : Tick :=
  .alive { s.client with state := s.next } s.calls s.closed

/-- The same for a handler that may not return. -/
def Exec.tick : Exec Step → Tick
  | .ok s => s.tick
  | .fault => .fault
  | .hang => .hang

/-- The `switch (client->state)` of `http_client_work` (lines 619-647); the
`DISPOSE` case is `http_client_dispose`. -/
def work_switch (env : Env) (c : HttpClient) : Tick :=
  match c.state with
  | .INIT => (http_client_work_init c).tick
  | .CONNECT => (http_client_work_connect env.heap env.gai c).tick
  | .CONNECTING => (http_client_work_connecting env.sockopt c).tick
  | .WRITING => (http_client_work_writing env.heap env.send c).tick
  | .READING => (http_client_work_reading env.heap env.recv env.peek c).tick
  | .DONE => (http_client_work_done c).tick
  | .DISPOSE => .freed c []

/-- Model of `http_client_work(context, mon_time)`.  The sum `timer + timeout` is
a `uint64_t`. -/
def http_client_work (env : Env) (c : HttpClient) (mon_time : Nat) : Tick :=
  if c.timer = 0 then work_switch env { c with timer := mon_time }
  else if mon_time ≥ (c.timer + c.timeout) % SIZE_MOD then
    .freed c (emit c "TIMEOUT" none)
  else work_switch env c

/-! ### Creation -/

/-- Size of an `HttpClient` for the layout of `http_client.h` on a 64-bit target. -/
def sizeof_HttpClient : Nat := 10136

/-- The client `http_client_init` sets up in zeroed memory, with the `timeout` and
`callback` that `http_client_get` stores in it. -/
def new_client (task : Bool) (url : List Nat) (timeout : Nat) (callback : Bool) :
    HttpClient where
  state := .INIT
  task := task
  url := url
  timeout := timeout
  callback := callback
  timer := 0
  write_buffer := none
  write_size := 0
  write_offset := 0
  read_buffer := []
  body_start := 0
  content_len := 0
  status_code := 0
  body := none
  chunked := false
  connection_close := false
  tcp_conn := none
  hostname := []
  path := []
  port := []
  response := []

/-- Model of `http_client_init(u_rl, &client, port)`, whose `port` argument is not
used: the return value, the client stored through `client_ptr`, and the number of
calls of `smw_create_task`.  `u_rl` is the characters of the string, `none` a null
pointer; `task` tells whether `smw_create_task` returns a task. -/
def http_client_init (heap : Nat → Bool) (task : Bool) (u_rl : Option (List Nat)) :
    Int × Option HttpClient × Nat :=
  match u_rl with
  | none => (-1, none, 0)
  | some u =>
    if u.length > 1024 then (-2, none, 0)
    else if ¬ heap sizeof_HttpClient then (-3, none, 0)
    else (0, some (new_client task u 0 false), 1)

/-- Model of `http_client_get(url, timeout, callback, port)`: the return value, the
client created, and the number of calls of `smw_create_task`. -/
def http_client_get (heap : Nat → Bool) (task : Bool) (url : Option (List Nat))
    (timeout : Nat) (callback : Bool) : Int × Option HttpClient × Nat :=
  if (http_client_init heap task url).1 ≠ 0 then
    (-1, (http_client_init heap task url).2.1, (http_client_init heap task url).2.2)
  else
    (0, (http_client_init heap task url).2.1.map
          (fun c => { c with timeout := timeout, callback := callback }),
      (http_client_init heap task url).2.2)

/-- Successive calls of `http_client_work` by the scheduler, each with the results
of its system calls and its time, until the client is freed; the callback
invocations and closed descriptors of all ticks are collected. -/
def run : List (Env × Nat) → HttpClient → List Call → List Int → Tick
  | [], c, calls, closed => .alive c calls closed
  | (env, t) :: rest, c, calls, closed =>
    match http_client_work env c t with
    | .alive c1 cs cl => run rest c1 (calls ++ cs) (closed ++ cl)
    | .freed c1 cs => .freed c1 (calls ++ cs)
    | .fault => .fault
    | .hang => .hang

/-- The callback invocations of a tick. -/
def Tick.calls : Tick → List Call
  | .alive _ calls _ => calls
  | .freed _ calls => calls
  | .fault => []
  | .hang => []

/-! ## Example environments and clients -/

/-- An allocator that grants every request. -/
def heap_all : Nat → Bool := fun _ => true

/-- An allocator that grants exactly the requests of at most `PTRDIFF_MAX` bytes, as
glibc does while memory lasts. -/
def heap_glibc : Nat → Bool := fun n => decide (n ≤ PTRDIFF_MAX)

/-- System-call results of a tick on a healthy connection: name resolution yields
one address whose socket is descriptor 3 and whose connect is in progress, the
connect has completed, `send` accepts the 296 bytes of the request, and `recv` and the peek
return `r` and `peek`. -/
def env_ok (heap : Nat → Bool) (r peek : Recv) : Env where
  heap := heap
  gai := some [⟨3, -1, EINPROGRESS⟩]
  sockopt := ⟨0, 0⟩
  send := .sent 296
  recv := r
  peek := peek

/-- A client for `http://example.com/status` that has sent its request and is in
READING with nothing received yet (timeout 6, first tick at time 1). -/
def reading_client : HttpClient :=
  { new_client true (str "http://example.com/status") 6 true with
    state := .READING
    timer := 1
    hostname := str "example.com"
    port := str "80"
    path := str "/status"
    tcp_conn := some 3
    write_size := (request_text (str "/status") (str "example.com")).length
    write_offset := 296 }

/-- A client in READING that holds the response `HTTP/1.1 200 OK`, an empty line
and the body bytes `hello`, with the headers parsed. -/
def hello_client : HttpClient :=
  { reading_client with
    read_buffer := str "HTTP/1.1 200 OK\r\n\r\nhello"
    body_start := 19
    status_code := 200 }

/-- The client for `http://example.com/status` (timeout 10) after a first tick at
time 0: the URL is parsed, the state is CONNECT and `timer` is still 0. -/
def client_ticked_at_zero : HttpClient :=
  { new_client true (str "http://example.com/status") 10 true with
    state := .CONNECT
    hostname := str "example.com"
    port := str "80"
    path := str "/status" }

/-- The complete response of scenario A. -/
def response_a : List Nat := str "HTTP/1.1 200 OK\r\nContent-Length: 2\r\n\r\nOK"

/-- The complete response of scenario C: a chunked header block followed by
`4 CRLF test CRLF 0 CRLF CRLF`. -/
def response_c : List Nat :=
  str "HTTP/1.1 200 OK\r\nTransfer-Encoding: chunked\r\n\r\n4\r\ntest\r\n0\r\n\r\n"

/-- The complete response of scenario B. -/
def response_b : List Nat := str "HTTP/1.1 404 Not Found\r\nContent-Length: 0\r\n\r\n"

/-- A response whose header block holds a NUL byte (in the value of the header `X`)
in front of the line `Transfer-Encoding: chunked`; the block has 53 bytes. -/
def response_nul : List Nat :=
  str "HTTP/1.1 200 OK\r\nX: " ++ [0] ++ str "\r\nTransfer-Encoding: chunked\r\n\r\n"

/-- A response that spells the chunked header in lower case; the block has 47
bytes. -/
def response_lower : List Nat :=
  str "HTTP/1.1 200 OK\r\ntransfer-encoding: chunked\r\n\r\n"

/-- The header block of scenario C (47 bytes). -/
def header_c : List Nat := str "HTTP/1.1 200 OK\r\nTransfer-Encoding: chunked\r\n\r\n"

/-- A tick at time `t` on a healthy connection whose `recv` returns `r`; a peek
would block. -/
def tick_at (t : Nat) (r : Recv) : Env × Nat := (env_ok heap_all r (.fail EAGAIN), t)

/-- The client `reading_client` after `response_c` is appended and its headers are
parsed. -/
def parsed_c : HttpClient :=
  { reading_client with
    read_buffer := response_c
    body_start := 47
    status_code := 200
    chunked := true }

/-- Whether the tick freed the client. -/
def Tick.isFreed : Tick → Bool
  | .freed _ _ => true
  | _ => false

/-- The client of a tick that left it registered. -/
def Tick.client? : Tick → Option HttpClient
  | .alive c _ _ => some c
  | _ => none

/-! ## A chunked response arriving over several reads -/

/-- A header block of a chunked response: it ends with `CR LF CR LF`, which stands
nowhere earlier in it, and its text, the bytes before its first NUL (the header copy
is searched as a C string), contains `Transfer-Encoding: chunked` and does not
contain `Content-Length:`. -/
def ChunkedHeaders (H : List Nat) : Prop :=
  4 ≤ H.length
    ∧ (H.drop (H.length - 4)).take 4 = [13, 10, 13, 10]
    ∧ (∀ j, j + 4 < H.length → (H.drop j).take 4 ≠ [13, 10, 13, 10])
    ∧ str "Transfer-Encoding: chunked" <:+: cstr H
    ∧ ¬ str "Content-Length:" <:+: cstr H

/-- The ticks deliver `data` to a client whose buffer holds `n` bytes: every tick
comes before the time `deadline`, its allocator grants every request, and its
`recv` either would block or returns a non-empty piece of `data`, the pieces making
up `data` in order; no read leaves fewer than 4 bytes in the buffer. -/
def ReadsDeliver (deadline : Nat) : List (Env × Nat) → Nat → List Nat → Prop
  | [], _, data => data = []
  | (env, t) :: rest, n, data =>
    t < deadline ∧ (∀ k, env.heap k = true) ∧
      ((∃ e, env.recv = .fail e ∧ (e = EAGAIN ∨ e = EWOULDBLOCK)
          ∧ ReadsDeliver deadline rest n data)
        ∨ (∃ b tl, env.recv = .got b ∧ b ≠ [] ∧ 4 ≤ n + b.length ∧ data = b ++ tl
          ∧ ReadsDeliver deadline rest (n + b.length) tl))

/-- The condition of a client in READING that has received the first `n` bytes of
the stream `H ++ E`: the buffer holds them, and the headers are parsed (as chunked,
without length) exactly when the whole header block `H` has arrived. -/
def ReadInv (H E : List Nat) (deadline : Nat) (c : HttpClient) (n : Nat) : Prop :=
  c.state = .READING ∧ c.timer ≠ 0 ∧ (c.timer + c.timeout) % SIZE_MOD = deadline
    ∧ c.tcp_conn ≠ none ∧ c.read_buffer = (H ++ E).take n
    ∧ ((n < H.length ∧ c.body_start = 0)
      ∨ (H.length ≤ n ∧ c.body_start = H.length ∧ c.content_len = 0 ∧ c.chunked = true))

/-! ## The parts of a URL, in the words of the specification -/

/-- The URL behind its optional scheme `http://` or `https://`. -/
def after_scheme (url : List Nat) : List Nat :=
  if str "https://" <+: url then url.drop 8
  else if str "http://" <+: url then url.drop 7
  else url

/-- The default port of the scheme: `443` for `https://`, `80` for `http://` and
for a URL without a recognised scheme. -/
def scheme_port (url : List Nat) : List Nat :=
  if str "https://" <+: url then str "443" else str "80"

/-- The hostname component: the longest run of characters behind the optional
scheme that contains neither `:` nor `/`. -/
def hostname_component (url : List Nat) : List Nat :=
  (after_scheme url).takeWhile (fun c => decide (c ≠ 58 ∧ c ≠ 47))

/-- What follows the hostname component in the URL. -/
def after_hostname (url : List Nat) : List Nat :=
  (after_scheme url).drop (hostname_component url).length

/-- The port component: the characters between the `:` that follows the hostname and
the next `/` or the end of the string; empty when no `:` follows the hostname. -/
def port_component (url : List Nat) : List Nat :=
  match after_hostname url with
  | 58 :: t => t.takeWhile (fun c => decide (c ≠ 47))
  | _ => []

/-- What follows the hostname and the optional port in the URL. -/
def after_port (url : List Nat) : List Nat :=
  match after_hostname url with
  | 58 :: t => t.drop (t.takeWhile (fun c => decide (c ≠ 47))).length
  | e => e

/-- The characters of a C string: none of them is NUL. -/
def IsCString (s : List Nat) : Prop := ∀ b ∈ s, b ≠ 0

/-- A decimal digit. -/
def isdigit (c : Nat) : Bool := decide (48 ≤ c ∧ c ≤ 57)

/-! ## The error message and the transitions, in the words of the specification -/

/-- The decimal numeral of an integer: a minus sign for a negative value, then the
base-ten digits of the absolute value, most significant first (`0` for zero). -/
def decimal (z : Int) : List Nat :=
  (if z < 0 then [45] else [])
    ++ (if z = 0 then [48] else (Nat.digits 10 z.natAbs).reverse.map (fun d => 48 + d))

/-- The string `HTTP <code>: <body>`. -/
def remote_error_text (code : Int) (body : List Nat) : List Nat :=
  str "HTTP " ++ decimal code ++ str ": " ++ body

/-- The pairs (state before, state after) the specification lists for a tick. -/
def forward : HttpClientState → HttpClientState → Bool
  | .INIT, .CONNECT => true
  | .CONNECT, .CONNECTING => true
  | .CONNECTING, .CONNECTING => true
  | .CONNECTING, .WRITING => true
  | .WRITING, .WRITING => true
  | .WRITING, .READING => true
  | .READING, .READING => true
  | .READING, .DONE => true
  | .DONE, .DISPOSE => true
  | _, .DISPOSE => true
  | _, _ => false

/-! ## The request on the wire and its transmission -/

/-- The fixed value of the `User-Agent` header. -/
def user_agent : List Nat :=
  str ("Mozilla/5.0 (X11; Linux x86_64) AppleWebKit/537.36 "
    ++ "(KHTML, like Gecko) Chrome/120.0.0.0 Safari/537.36")

/-- The request as the specification writes it, for a path and a host. -/
def wire_request (path host : List Nat) : List Nat :=
  str "GET " ++ path ++ str " HTTP/1.1\r\nHost: " ++ host
    ++ str "\r\nUser-Agent: " ++ user_agent
    ++ str ("\r\nAccept: application/json, text/html, application/xml, */*"
      ++ "\r\nAccept-Language: en-US,en;q=0.9"
      ++ "\r\nAccept-Encoding: identity"
      ++ "\r\nConnection: close\r\n\r\n")

/-- The number of bytes a `send` call accepted. -/
def Send.count : Send → Nat
  | .sent n => n
  | .fail _ => 0

/-- The bytes offered to `send` at lines 310-312: `write_size - write_offset` bytes
at `write_buffer + write_offset`. -/
def send_buffer (c : HttpClient) : List Nat :=
  ((c.write_buffer.getD []).drop c.write_offset).take (c.write_size - c.write_offset)

/-- The bytes the `send` call of a WRITING tick accepted: the first `sent` of the
bytes offered, the write buffer being the one lines 282-307 leave. -/
def accepted_bytes (heap : Nat → Bool) (sr : Send) (c : HttpClient) : List Nat :=
  match build_request heap c with
  | some c1 => (send_buffer c1).take sr.count
  | none => []

/-- What a run of WRITING ticks did: the client afterwards, the state the last
handler call returned, the number of handler calls and the bytes the `send` calls
accepted, in tick order. -/
structure WriteRun where
  client : HttpClient
  state : HttpClientState
  ticks : Nat
  accepted : List Nat
  deriving DecidableEq, Repr

/-- Successive ticks of a client in WRITING, one `send` outcome per tick: the
scheduler calls `http_client_work_writing` as long as it returns WRITING. -/
def write_ticks (heap : Nat → Bool) :
    List Send → HttpClient → Nat → List Nat → Exec WriteRun
  | [], c, n, acc => .ok ⟨c, .WRITING, n, acc⟩
  | sr :: rest, c, n, acc =>
    match http_client_work_writing heap sr c with
    | .fault => .fault
    | .hang => .hang
    | .ok s =>
      if s.next = .WRITING then
        write_ticks heap rest s.client (n + 1) (acc ++ accepted_bytes heap sr c)
      else .ok ⟨s.client, s.next, n + 1, acc ++ accepted_bytes heap sr c⟩

/-- The outcomes a `send` can have on a socket with `rem` bytes left to send: it
accepts at most the bytes offered, or it would block. -/
def SendsWithin : List Send → Nat → Prop
  | [], _ => True
  | .sent k :: rest, rem => k ≤ rem ∧ SendsWithin rest (rem - k)
  | .fail e :: rest, rem => (e = EAGAIN ∨ e = EWOULDBLOCK) ∧ SendsWithin rest rem

/-- The bytes accepted by the first `n` of the `send` calls, added up. -/
def sent_total (srs : List Send) (n : Nat) : Nat := ((srs.take n).map Send.count).sum

/-! ## The situations of a receive attempt -/

/-- The four situations of a receive attempt that the specification tells apart. -/
inductive ReadSituation
  /-- `n > 0` bytes were received. -/
  | data (n : Nat)
  /-- The receive would block (`EAGAIN` / `EWOULDBLOCK`). -/
  | would_block
  /-- The receive returned 0 bytes: the peer closed the connection. -/
  | peer_closed
  /-- Any other receive error. -/
  | hard_error
  deriving DecidableEq, Repr

/-- The situation a result of `recv` stands for. -/
def Recv.situation : Recv → ReadSituation
  | .got [] => .peer_closed
  | .got (b :: bs) => .data (b :: bs).length
  | .fail e => if e = EAGAIN ∨ e = EWOULDBLOCK then .would_block else .hard_error

/-! ## Descriptors closed during a request -/

/-- The descriptors closed by the ticks of `run`, up to and including the tick
that frees the client (which closes none). -/
def run_closed : List (Env × Nat) → HttpClient → List Int → List Int
  | [], _, closed => closed
  | (env, t) :: rest, c, closed =>
    match http_client_work env c t with
    | .alive c1 _ cl => run_closed rest c1 (closed ++ cl)
    | _ => closed

/-! ## Size lines of a chunked body -/

/-- The sequence `CR LF` stands at index `i` of `l`. -/
def CRLFAt (l : List Nat) (i : Nat) : Prop := l[i]? = some 13 ∧ l[i + 1]? = some 10

/-- A response that carries both `Content-Length: 14` and
`Transfer-Encoding: chunked`: a header block of 67 bytes followed by the 14 bytes
`4 CRLF test CRLF 0 CRLF CRLF`. -/
def response_both : List Nat :=
  str ("HTTP/1.1 200 OK\r\nContent-Length: 14\r\nTransfer-Encoding: chunked\r\n\r\n"
    ++ "4\r\ntest\r\n0\r\n\r\n")

/-- The client `reading_client` after `response_both` is appended and its headers
are parsed. -/
def parsed_both : HttpClient :=
  { reading_client with
    read_buffer := response_both
    body_start := 67
    content_len := 14
    status_code := 200
    chunked := true }

/-! ## `utils/popular_cities.c` -/

/-- The character the loop of `normalize_query` stores for the input character `c`
(lines 278-291); `none` when `c` is skipped. -/
def normalize_char (c : Nat) : Option Nat :=
  if 65 ≤ c ∧ c ≤ 90 then some (c - 65 + 97)
  else if 97 ≤ c ∧ c ≤ 122 then some c
  else if 48 ≤ c ∧ c ≤ 57 then some c
  else if c = 32 ∨ c = 45 ∨ c = 95 then some c
  else none

/-- The loop `for (size_t i = 0; input[i] != '\0' && j + 1 < output_size; i++)` of
`normalize_query`, from the rest `input` of the string with `j` characters stored:
the characters it stores from there on.  The string ends at the first NUL or at the
end of the list. -/
def normalizeLoop (output_size : Nat) : List Nat → Nat → List Nat
  | [], _ => []
  | c :: rest, j =>
    if c = 0 ∨ ¬ j + 1 < output_size then []
    else
      match normalize_char c with
      | some d => d :: normalizeLoop output_size rest (j + 1)
      | none => normalizeLoop output_size rest j

/-- Model of `normalize_query(input, output, output_size)` with `output_size > 0`
(the callers pass 256 and 128): the C string left in `output`. -/
def normalize_query (input : List Nat) (output_size : Nat) : List Nat :=
  normalizeLoop output_size input 0

/-- Whether `strncmp(a, b, n) == 0` for two C strings given by their characters:
they agree on the first `n` characters, a string that ends earlier being equal only
to one that ends at the same place. -/
def strncmp_eq (a b : List Nat) (n : Nat) : Bool := decide (a.take n = b.take n)

/-- The struct `PopularCity`; `name` is the bytes of `char name[128]`.  The fields
`latitude` and `longitude` (doubles), which the search does not read, are left
out. -/
structure PopularCity where
  name : List Nat
  country : List Nat
  country_code : List Nat
  population : Int
  deriving DecidableEq, Repr

/-- The struct `PopularCitiesDB`.  `hot_count` and `full_count` are the lengths of
the arrays; `full_db_path` tells whether the pointer is non-null; `full_cities` is
`none` for a null pointer. -/
structure PopularCitiesDB where
  hot_cities : List PopularCity
  full_db_path : Bool
  full_cities : Option (List PopularCity)
  full_loaded : Bool
  deriving DecidableEq, Repr

/-- A pointer stored in `results`: `&db->hot_cities[i]` or `&db->full_cities[i]`. -/
inductive CityRef
  | hot (i : Nat)
  | full (i : Nat)
  deriving DecidableEq, Repr

/-- The loop of lines 82-92 (with `ref = hot`) and of lines 120-130 (with
`ref = full`) over the cities from index `i` on; `results` holds the `*count`
pointers stored so far. -/
def searchLoop (ref : Nat → CityRef) (normalized_query : List Nat) (max_results : Nat) :
    List PopularCity → Nat → List CityRef → List CityRef
  | [], _, results => results
  | city :: rest, i, results =>
    if ¬ results.length < max_results then results
    else if strncmp_eq (normalize_query city.name 128) normalized_query
        normalized_query.length then
      searchLoop ref normalized_query max_results rest (i + 1) (results ++ [ref i])
    else searchLoop ref normalized_query max_results rest (i + 1) results

/-- What `popular_cities_search` leaves: the return value, the pointers stored in
`results` (`*count` is their number) and the database. -/
structure SearchResult where
  ret : Int
  results : List CityRef
  db : PopularCitiesDB
  deriving DecidableEq, Repr

/-- Lines 118-133: the search in the full database. -/
def search_full (db : PopularCitiesDB) (normalized_query : List Nat) (max_results : Nat) :
    SearchResult :=
  match db.full_cities with
  | some cities =>
    if db.full_loaded then
      ⟨0, searchLoop .full normalized_query max_results cities 0 [], db⟩
    else ⟨0, [], db⟩
  | none => ⟨0, [], db⟩

/-- Model of `popular_cities_search(db, query, results, count, max_results)` for
non-null arguments.  `load` is the outcome of the call
`load_cities_from_json(db->full_db_path, ...)`, which reads a file through the JSON
library: the array it stores when it returns 0, `none` when it fails. -/
def popular_cities_search (db : PopularCitiesDB) (query : List Nat) (max_results : Nat)
    (load : Option (List PopularCity)) : SearchResult :=
  if (normalize_query query 256).length < 2 then ⟨-1, [], db⟩
  else if (searchLoop .hot (normalize_query query 256) max_results db.hot_cities 0 []).length > 0
  then ⟨0, searchLoop .hot (normalize_query query 256) max_results db.hot_cities 0 [], db⟩
  else if ¬ db.full_loaded ∧ db.full_db_path then
    match load with
    | none => ⟨0, [], db⟩
    | some cities =>
      search_full { db with full_cities := some cities, full_loaded := true }
        (normalize_query query 256) max_results
  else search_full db (normalize_query query 256) max_results

/-! ### The search, in the words of the specification -/

/-- An ASCII letter, a digit, a space, `-` or `_`. -/
def kept (c : Nat) : Bool :=
  decide ((65 ≤ c ∧ c ≤ 90) ∨ (97 ≤ c ∧ c ≤ 122) ∨ (48 ≤ c ∧ c ≤ 57)
    ∨ c = 32 ∨ c = 45 ∨ c = 95)

/-- The ASCII lower-case form of a character. -/
def ascii_lower (c : Nat) : Nat := if 65 ≤ c ∧ c ≤ 90 then c + 32 else c

/-- The normalised form of a string: ASCII-lowercased, keeping only letters,
digits, space, `-` and `_`. -/
def normalised (s : List Nat) : List Nat := ((cstr s).filter kept).map ascii_lower

/-- Whether the normalised name of the city has the normalised query as a
beginning. -/
def city_matches (query : List Nat) (city : PopularCity) : Bool :=
  (normalised query).isPrefixOf (normalised city.name)

/-- The indexes of the hot cities that match the query, in database order. -/
def hot_matches (db : PopularCitiesDB) (query : List Nat) : List Nat :=
  (db.hot_cities.enum.filter (fun p => city_matches query p.2)).map (fun p => p.1)

/-- A database with three hot cities and the full database not loaded. -/
def cities_db : PopularCitiesDB where
  hot_cities := [⟨str "Stockholm", str "Sweden", str "SE", 975000⟩,
                 ⟨str "St. Petersburg", str "Russia", str "RU", 5380000⟩,
                 ⟨str "Stoke-on-Trent", str "United Kingdom", str "GB", 256000⟩]
  full_db_path := true
  full_cities := none
  full_loaded := false

/-! ## `utils/linked_list.c` -/

/-- Modelled from the spec: the struct `Node` of `linked_list.h`, a header that is
not among the sources.  Its fields are those `linked_list.c` reads and writes: the
links `back` and `front` (`none` is NULL, otherwise the address of a node) and the
pointer `item`. -/
structure Node where
  back : Option Nat
  front : Option Nat
  item : Nat
  deriving DecidableEq, Repr

/-- Modelled from the spec: the struct `LinkedList` of `linked_list.h`, a header
that is not among the sources.  Its fields are those `linked_list.c` reads and
writes: the pointers `head` and `tail` and the `size_t` counter `size`. -/
structure LinkedList where
  head : Option Nat
  tail : Option Nat
  size : Nat
  deriving DecidableEq, Repr

/-- The memory after the node at address `p` is written. -/
def write_node (m : Nat → Option Node) (p : Nat) (nd : Node) : Nat → Option Node :=
  fun q => if q = p then some nd else m q

/-- The memory after `free` of the node at address `p`. -/
def free_node (m : Nat → Option Node) (p : Nat) : Nat → Option Node :=
  fun q => if q = p then none else m q

/-- The assignment `p->front = v`; `none` when no node is allocated at `p`. -/
def set_front (m : Nat → Option Node) (p : Nat) (v : Option Nat) :
    Option (Nat → Option Node) :=
  match m p with
  | none => none
  | some nd => some (write_node m p { nd with front := v })

/-- The assignment `p->back = v`; `none` when no node is allocated at `p`. -/
def set_back (m : Nat → Option Node) (p : Nat) (v : Option Nat) :
    Option (Nat → Option Node) :=
  match m p with
  | none => none
  | some nd => some (write_node m p { nd with back := v })

/-- A list in memory: the nodes allocated (`mem p` is the node at address `p`,
`none` where there is none) and the `LinkedList` object itself. -/
structure ListState where
  mem : Nat → Option Node
  list : LinkedList

/-- Model of `linked_list_create()` when `calloc` succeeds: the zeroed list. -/
def linked_list_create : LinkedList := ⟨none, none, 0⟩

/-- The loop `while (pos < index) { cur = cur->front; pos++; }`: `k` iterations
from `cur`.  Following a link out of a null pointer, or out of an address where no
node is allocated, is undefined. -/
def walk_front (m : Nat → Option Node) : Nat → Option Nat → Exec (Option Nat)
  | 0, cur => .ok cur
  | k + 1, cur =>
    match cur with
    | none => .fault
    | some p =>
      match m p with
      | none => .fault
      | some nd => walk_front m k nd.front

/-- The loop `while (pos > index) { cur = cur->back; pos--; }`: `k` iterations
from `cur`. -/
def walk_back (m : Nat → Option Node) : Nat → Option Nat → Exec (Option Nat)
  | 0, cur => .ok cur
  | k + 1, cur =>
    match cur with
    | none => .fault
    | some p =>
      match m p with
      | none => .fault
      | some nd => walk_back m k nd.back

/-- Model of `linked_list_get_index(list, index)` for a non-null `list`: the node
returned, `none` for NULL.  The forward loop runs `index` times from `head`, the
backward loop `size - 1 - index` times from `tail`. -/
def linked_list_get_index (m : Nat → Option Node) (list : LinkedList) (index : Nat) :
    Exec (Option Nat) :=
  if index ≥ list.size then .ok none
  else if index ≤ list.size / 2 then walk_front m index list.head
  else walk_back m (list.size - 1 - index) list.tail

/-- Model of `linked_list_append(list, item)` for a non-null `list`: the return
value and the list afterwards.  `new_node` is the result of `calloc`: `none` when it
fails, otherwise the address of the new zeroed node. -/
def linked_list_append (s : ListState) (item : Nat) (new_node : Option Nat) :
    Exec (Int × ListState) :=
  match new_node with
  | none => .ok (1, s)
  | some p =>
    match s.list.tail with
    | none =>
      .ok (0, ⟨write_node s.mem p ⟨none, none, item⟩,
        ⟨some p, some p, (s.list.size + 1) % SIZE_MOD⟩⟩)
    | some t =>
      match set_front (write_node s.mem p ⟨some t, none, item⟩) t (some p) with
      | none => .fault
      | some m1 => .ok (0, ⟨m1, ⟨s.list.head, some p, (s.list.size + 1) % SIZE_MOD⟩⟩)

/-- Lines 81-94 of `linked_list_insert`: the new node at address `p` is filled in
and linked in front of the node `target`. -/
def insert_before (s : ListState) (target : Nat) (item : Nat) (p : Nat) :
    Exec (Int × ListState) :=
  match write_node s.mem p ⟨none, none, item⟩ target with
  | none => .fault
  | some tn =>
    match tn.back with
    | some b =>
      match set_front (write_node s.mem p ⟨tn.back, some target, item⟩) b (some p) with
      | none => .fault
      | some m1 =>
        match set_back m1 target (some p) with
        | none => .fault
        | some m2 => .ok (0, ⟨m2, { s.list with size := (s.list.size + 1) % SIZE_MOD }⟩)
    | none =>
      match set_back (write_node s.mem p ⟨tn.back, some target, item⟩) target (some p) with
      | none => .fault
      | some m2 =>
        .ok (0, ⟨m2, { s.list with head := some p, size := (s.list.size + 1) % SIZE_MOD }⟩)

/-- Model of `linked_list_insert(list, index, item)` for a non-null `list`;
`new_node` is the result of the one `calloc` the call makes, if it makes one. -/
def linked_list_insert (s : ListState) (index : Nat) (item : Nat) (new_node : Option Nat) :
    Exec (Int × ListState) :=
  if index ≥ s.list.size then linked_list_append s item new_node
  else
    match linked_list_get_index s.mem s.list index with
    | .fault => .fault
    | .hang => .hang
    | .ok none => .ok (1, s)
    | .ok (some target) =>
      match new_node with
      | none => .ok (1, s)
      | some p => insert_before s target item p

/-- Lines 106-110 of `linked_list_remove`. -/
def unlink_back (s : ListState) (back front : Option Nat) : Option ListState :=
  match back with
  | some b =>
    match set_front s.mem b front with
    | none => none
    | some m1 => some ⟨m1, s.list⟩
  | none => some ⟨s.mem, { s.list with head := front }⟩

/-- Lines 112-116 of `linked_list_remove`. -/
def unlink_front (s : ListState) (back front : Option Nat) : Option ListState :=
  match front with
  | some f =>
    match set_back s.mem f back with
    | none => none
    | some m1 => some ⟨m1, s.list⟩
  | none => some ⟨s.mem, { s.list with tail := back }⟩

/-- Model of `linked_list_remove(list, item, free_function)` for a non-null `list`:
the return value, the list afterwards and the pointers handed to `free_function`
(`free_function` tells whether that pointer is non-null).  The counter `size` is a
`size_t`, so `size--` on 0 gives the largest value. -/
def linked_list_remove (s : ListState) (item : Option Nat) (free_function : Bool) :
    Exec (Int × ListState × List Nat) :=
  match item with
  | none => .ok (1, s, [])
  | some t =>
    match s.mem t with
    | none => .fault
    | some tn =>
      match unlink_back s tn.back tn.front with
      | none => .fault
      | some s1 =>
        match unlink_front s1 tn.back tn.front with
        | none => .fault
        | some s2 =>
          match s2.mem t with
          | none => .fault
          | some tn2 =>
            .ok (0,
              ⟨free_node s2.mem t,
                { s2.list with
                  size := if s2.list.size = 0 then ULONG_MAX else s2.list.size - 1 }⟩,
              if free_function then [tn2.item] else [])

/-- Model of `linked_list_pop(list, index, free_function)` for a non-null `list`. -/
def linked_list_pop (s : ListState) (index : Nat) (free_function : Bool) :
    Exec (Int × ListState × List Nat) :=
  match linked_list_get_index s.mem s.list index with
  | .fault => .fault
  | .hang => .hang
  | .ok none => .ok (1, s, [])
  | .ok (some t) => linked_list_remove s (some t) free_function

/-! ### The list a `LinkedList` holds -/

/-- The address of the first of the cells (address, item), or `next` when there
is none. -/
def first_or (cells : List (Nat × Nat)) (next : Option Nat) : Option Nat :=
  match cells with
  | [] => next
  | c :: _ => some c.1

/-- The address of the last of the cells, or `prev` when there is none. -/
def last_or : List (Nat × Nat) → Option Nat → Option Nat
  | [], prev => prev
  | c :: rest, _ => last_or rest (some c.1)

/-- The cells are a chain of nodes in memory: each node holds its item, its `back`
is the node before it (`prev` for the first) and its `front` the node after it
(`next` for the last). -/
def Links (m : Nat → Option Node) : Option Nat → List (Nat × Nat) → Option Nat → Prop
  | _, [], _ => True
  | prev, c :: rest, next =>
    m c.1 = some ⟨prev, first_or rest next, c.2⟩ ∧ Links m (some c.1) rest next

/-- A well-formed list holding the cells (address of the node, item) from head to
tail: the nodes are distinct and chained in both directions, with NULL at both
ends; `head` and `tail` are the first and the last node, and `size` is their number
(a `size_t`). -/
def WellFormed (s : ListState) (cells : List (Nat × Nat)) : Prop :=
  (cells.map Prod.fst).Nodup
    ∧ s.list.size = cells.length
    ∧ cells.length < SIZE_MOD
    ∧ s.list.head = first_or cells none
    ∧ s.list.tail = last_or cells none
    ∧ Links s.mem none cells none

/-- In the words of the specification: the node reached by following `i`
front-links from the head. -/
def head_walk (s : ListState) (i : Nat) : Exec (Option Nat) :=
  walk_front s.mem i s.list.head

/-- Three nodes at the addresses 100, 200, 300 holding the items 7, 8, 9. -/
def three_nodes : ListState where
  mem := fun p =>
    if p = 100 then some ⟨none, some 200, 7⟩
    else if p = 200 then some ⟨some 100, some 300, 8⟩
    else if p = 300 then some ⟨some 200, none, 9⟩
    else none
  list := ⟨some 100, some 300, 3⟩

/-! ## `utils/cache.c` -/

/-- The struct `CacheEntry`: `key` is the string `entry->key` points to, `data` the
`data_size` bytes `entry->data` points to. -/
structure CacheEntry where
  key : List Nat
  data : List Nat
  data_size : Nat
  timestamp : Int
  expiry : Int
  deriving DecidableEq, Repr

/-- A cache in memory: the fields `max_size` and `default_ttl` of the struct
`Cache`, the list `entries` points to with its nodes (`nodes`), and the cache entries
allocated (`slots a` is the entry at address `a`, `none` where there is none).  The
`item` of a node is the address of its entry. -/
structure Cache where
  nodes : ListState
  slots : Nat → Option CacheEntry
  max_size : Nat
  default_ttl : Int

/-- Model of `cache_create(max_size, default_ttl)`; `cache_ok` and `list_ok` tell
whether `malloc(sizeof(Cache))` and the `calloc` of `linked_list_create` succeed. -/
def cache_create (max_size : Nat) (default_ttl : Int) (cache_ok list_ok : Bool) :
    Option Cache :=
  if ¬ cache_ok then none
  else if ¬ list_ok then none
  else some ⟨⟨fun _ => none, linked_list_create⟩, fun _ => none, max_size, default_ttl⟩

/-- Modelled from the spec: the macro `LinkedList_foreach(list, node)` of
`linked_list.h`, a header that is not among the sources.  It is taken to be the loop
`for (Node* node = list->head; node != NULL; node = node->front)`, the traversal
that `linked_list_clear` writes out.  This is that loop with the body of
`cache_remove` and `cache_get` up to the comparison `strcmp(entry->key, key) == 0`,
from the node `node` at position `index`: the position and the entry address of the
first node whose entry has the key, `none` when the loop ends without one. -/
def find_key (c : Cache) (key : List Nat) : Nat → Option Nat → Nat → Exec (Option (Nat × Nat))
  | 0, _, _ => .hang
  | _ + 1, none, _ => .ok none
  | fuel + 1, some p, index =>
    match c.nodes.mem p with
    | none => .fault
    | some nd =>
      match c.slots nd.item with
      | none => .fault
      | some entry =>
        if cstr entry.key = cstr key then .ok (some (index, nd.item))
        else find_key c key fuel nd.front (index + 1)

/-- The entries after `free_cache_entry` of those at the addresses `freed`. -/
def free_entries (slots : Nat → Option CacheEntry) (freed : List Nat) :
    Nat → Option CacheEntry :=
  fun a => if a ∈ freed then none else slots a

/-- Model of `cache_remove(cache, key)` for non-null arguments.  The traversal of
a well-formed list ends within `size + 1` steps. -/
def cache_remove (c : Cache) (key : List Nat) : Exec Cache :=
  match find_key c key (c.nodes.list.size + 1) c.nodes.list.head 0 with
  | .fault => .fault
  | .hang => .hang
  | .ok none => .ok c
  | .ok (some found) =>
    match linked_list_pop c.nodes found.1 true with
    | .fault => .fault
    | .hang => .hang
    | .ok r => .ok { c with nodes := r.2.1, slots := free_entries c.slots r.2.2 }

/-- Lines 57-64 of `cache_set`: when the list holds `max_size` entries or more, the
entry of the head node is removed by its key. -/
def evict_oldest (c : Cache) : Exec Cache :=
  if c.nodes.list.size ≥ c.max_size then
    match c.nodes.list.head with
    | none => .ok c
    | some h =>
      match c.nodes.mem h with
      | none => .fault
      | some nd =>
        match c.slots nd.item with
        | none => .fault
        | some oldest => cache_remove c oldest.key
  else .ok c

/-- What the environment returns to one call of `cache_set`: `time(NULL)`, the
address `malloc(sizeof(CacheEntry))` returns (`none` for NULL), whether `strdup(key)`
and `malloc(data_size)` succeed, and the address the `calloc` of
`linked_list_append` returns. -/
structure SetEnv where
  now : Int
  entry : Option Nat
  key_ok : Bool
  data_ok : Bool
  node : Option Nat
  deriving DecidableEq, Repr

/-- Lines 66-90 of `cache_set`: the new entry is created and appended to the
list.  `data` holds the bytes `data` points to, at least `data_size` of them. -/
def store_entry (c : Cache) (key data : List Nat) (data_size : Nat) (ttl : Int)
    (env : SetEnv) : Exec (Int × Cache) :=
  match env.entry with
  | none => .ok (-1, c)
  | some e =>
    if ¬ env.key_ok ∨ ¬ env.data_ok then .ok (-1, c)
    else if data.length < data_size then .fault
    else
      match linked_list_append c.nodes e env.node with
      | .fault => .fault
      | .hang => .hang
      | .ok r =>
        if r.1 ≠ 0 then .ok (-1, c)
        else
          .ok (0, { c with
            nodes := r.2
            slots := fun a =>
              if a = e then
                some ⟨cstr key, data.take data_size, data_size, env.now,
                  env.now + (if ttl > 0 then ttl else c.default_ttl)⟩
              else c.slots a })

/-- Model of `cache_set(cache, key, data, data_size, ttl)` for non-null
arguments: the return value and the cache afterwards. -/
def cache_set (c : Cache) (key data : List Nat) (data_size : Nat) (ttl : Int)
    (env : SetEnv) : Exec (Int × Cache) :=
  match cache_remove c key with
  | .fault => .fault
  | .hang => .hang
  | .ok c1 =>
    match evict_oldest c1 with
    | .fault => .fault
    | .hang => .hang
    | .ok c2 => store_entry c2 key data data_size ttl env

/-- Model of `cache_get(cache, key, data_size)` for non-null `cache` and `key`: the
copy returned (`none` for NULL) and the cache afterwards.  `now` is `time(NULL)`,
`copy_ok` tells whether `malloc(entry->data_size)` succeeds.  The value stored
through `data_size` when an unexpired entry is found is its `data_size` field. -/
def cache_get (c : Cache) (key : List Nat) (now : Int) (copy_ok : Bool) :
    Exec (Option (List Nat) × Cache) :=
  match find_key c key (c.nodes.list.size + 1) c.nodes.list.head 0 with
  | .fault => .fault
  | .hang => .hang
  | .ok none => .ok (none, c)
  | .ok (some found) =>
    match c.slots found.2 with
    | none => .fault
    | some entry =>
      if now > entry.expiry then
        match cache_remove c key with
        | .fault => .fault
        | .hang => .hang
        | .ok c1 => .ok (none, c1)
      else .ok (if copy_ok then some entry.data else none, c)

/-- The number of nodes reached from `node` along the `front` links, for a chain
that ends within `fuel` nodes. -/
def count_nodes (m : Nat → Option Node) : Nat → Option Nat → Nat
  | 0, _ => 0
  | _ + 1, none => 0
  | fuel + 1, some p =>
    match m p with
    | none => 0
    | some nd => 1 + count_nodes m fuel nd.front

/-- The number of entries a cache stores: the nodes of its list. -/
def Cache.stored (c : Cache) : Nat :=
  count_nodes c.nodes.mem (c.nodes.list.size + 1) c.nodes.list.head

/-! ## Auxiliary notions used in the proofs -/

/-- No invocation in the list carries the event `TIMEOUT`. -/
def NoTimeout (calls : List Call) : Prop := ∀ call ∈ calls, call.event ≠ "TIMEOUT"

/-- Value of a run of hex digits, most significant first. -/
def hexValue (ds : List Nat) : Nat :=
  ds.foldl (fun a c => a * 16 + (hexval c).getD 0) 0

/-- The allocation sizes `decode_chunked` goes through: powers of two from `2^10`
to `2^63`. -/
def AllocOK (alloc : Nat) : Prop := ∃ k, k ≤ 63 ∧ alloc = 2 ^ k

/-! ## Chunks as they stand in the input -/

/-- A chunk in the input: the size line `ch.1`, `CR LF`, the data `ch.2`,
`CR LF`. -/
def wireChunk (ch : List Nat × List Nat) : List Nat :=
  ch.1 ++ 13 :: 10 :: (ch.2 ++ [13, 10])

/-- The concatenation of the chunks. -/
def wireChunks : List (List Nat × List Nat) → List Nat
  | [] => []
  | ch :: rest => wireChunk ch ++ wireChunks rest

/-- A well-formed non-zero chunk: the size line is a non-empty run of hexadecimal
digits (of either case, leading zeros allowed) whose value is the length of the
data, and the data is not empty. -/
def WellFormedChunk (ch : List Nat × List Nat) : Prop :=
  ch.1 ≠ [] ∧ (∀ c ∈ ch.1, (hexval c).isSome) ∧ hexValue ch.1 = ch.2.length ∧ ch.2 ≠ []

/-- The data of the chunks, concatenated. -/
def chunkData (chs : List (List Nat × List Nat)) : List Nat :=
  (chs.map Prod.snd).flatten

/-! ## Chunks in any spelling -/

/-- A chunk the decoder reads as a non-zero chunk: the size line is not empty and
holds no `CR LF`, `strtoul` reads from it the length of the data (behind optional
white space, a sign or `0x`, and whatever follows the number, a chunk extension for
one), and the data is not empty. -/
def ReadableChunk (ch : List Nat × List Nat) : Prop :=
  ch.1 ≠ [] ∧ (∀ i, ¬ CRLFAt ch.1 i) ∧ strtoul16 ch.1 = (ch.2.length, true) ∧ ch.2 ≠ []

/-- A non-zero chunk in any spelling: a well-formed chunk (hexadecimal digits of
either case, leading zeros allowed), or any other chunk the decoder reads. -/
def NonZeroChunk (ch : List Nat × List Nat) : Prop :=
  WellFormedChunk ch ∨ ReadableChunk ch

/-- The size line begins with a number, said in words: behind optional white space
and an optional sign, the line begins with a hexadecimal digit.  (`strtoul` converts
something exactly then, see `strtoul16_converts`.) -/
def begins_with_number (line : List Nat) : Bool :=
  match (takeSign (line.dropWhile isspace)).2 with
  | c :: _ => (hexval c).isSome
  | [] => false

/-! ## The length a header block declares, and the clients that hold it -/

/-- Value of a run of decimal digits, most significant first. -/
def decValue (ds : List Nat) : Nat := ds.foldl (fun a c => a * 10 + (c - 48)) 0

/-- The header block `H` declares the length `N`: its text (the bytes before its
first NUL) holds the byte string `Content-Length:`, and behind the first occurrence
of that string stand optional white space and then the decimal number `N`, written
in digits without a sign and fitting a `size_t`. -/
def DeclaresLength (H : List Nat) (N : Nat) : Prop :=
  ∃ pre ws ds rest : List Nat,
    cstr H = pre ++ (str "Content-Length:" ++ (ws ++ (ds ++ rest)))
    ∧ (∀ j, j < pre.length → ¬ str "Content-Length:" <+: (cstr H).drop j)
    ∧ (∀ c ∈ ws, isspace c = true)
    ∧ ds ≠ [] ∧ (∀ c ∈ ds, 48 ≤ c ∧ c ≤ 57)
    ∧ (∀ c, rest.head? = some c → ¬ (48 ≤ c ∧ c ≤ 57))
    ∧ decValue ds = N ∧ N ≤ ULONG_MAX

/-- The condition of a client whose header fields come from its header block:
either the headers are not parsed yet (`body_start = 0`), or the block lies in the
buffer and `content_len` is the value the parser reads from it. -/
def HeadersInv (c : HttpClient) : Prop :=
  c.body_start = 0
    ∨ (c.body_start ≤ c.read_buffer.length
      ∧ c.content_len = scan_content_length (c.read_buffer.take c.body_start))

/-- A response whose header block carries `X-Content-Length: 0` in front of
`Content-Length: 14` and `Transfer-Encoding: chunked`: a header block of 88 bytes
followed by the 14 bytes `4 CRLF test CRLF 0 CRLF CRLF`. -/
def response_shadowed : List Nat :=
  str ("HTTP/1.1 200 OK\r\nX-Content-Length: 0\r\nContent-Length: 14\r\n"
    ++ "Transfer-Encoding: chunked\r\n\r\n4\r\ntest\r\n0\r\n\r\n")

/-- The condition of a client between two ticks: it is in DONE or DISPOSE, or its
header fields come from its header block (`HeadersInv`). -/
def ReachInv (c : HttpClient) : Prop :=
  c.state = .DONE ∨ c.state = .DISPOSE ∨ HeadersInv c

/-- A handler result that leaves the client in DONE or DISPOSE or keeps
`HeadersInv`. -/
def KeepsHeaders (s : Step) : Prop :=
  s.next = .DONE ∨ s.next = .DISPOSE ∨ HeadersInv s.client

/-! # Theorems -/

set_option maxRecDepth 100000

/-! ## Facts about the hexadecimal numeral -/

theorem hexval_range {c : Nat} (h : (hexval c).isSome) : 48 ≤ c ∧ c ≤ 102 := by
  unfold hexval at h
  split_ifs at h with h1 h2 h3
  · omega
  · omega
  · omega
  · simp at h

theorem hexval_hexDigit {d : Nat} (h : d < 16) : hexval (hexDigit d) = some d := by
  unfold hexDigit hexval
  by_cases h1 : d < 10
  · simp only [h1, if_true]
    rw [if_pos (by omega)]
    congr 1
    omega
  · simp only [h1, if_false]
    rw [if_neg (by omega), if_pos (by omega)]
    congr 1
    omega

theorem hexRun_append (ds rest : List Nat) (h : ∀ c ∈ ds, (hexval c).isSome) (acc k : Nat) :
    hexRun (ds ++ rest) acc k
      = hexRun rest (ds.foldl (fun a c => a * 16 + (hexval c).getD 0) acc) (k + ds.length) := by
  induction ds generalizing acc k with
  | nil => simp
  | cons d ds ih =>
    have hd := h d (List.mem_cons_self _ _)
    obtain ⟨v, hv⟩ := Option.isSome_iff_exists.mp hd
    have ih2 := ih (fun c hc => h c (List.mem_cons_of_mem _ hc)) (acc * 16 + v) (k + 1)
    show hexRun (d :: (ds ++ rest)) acc k = _
    simp only [hexRun, hv, List.foldl_cons, Option.getD_some, List.length_cons]
    rw [ih2]
    congr 1
    omega

theorem hexStrAux_spec (fuel n : Nat) (h : n < fuel) :
    (∀ c ∈ hexStrAux fuel n, (hexval c).isSome) ∧ hexValue (hexStrAux fuel n) = n
      ∧ hexStrAux fuel n ≠ [] := by
  induction fuel generalizing n with
  | zero => omega
  | succ fuel ih =>
    unfold hexStrAux
    by_cases h16 : n < 16
    · simp only [h16, if_true]
      refine ⟨?_, ?_, by simp⟩
      · intro c hc
        simp only [List.mem_singleton] at hc
        rw [hc, hexval_hexDigit h16]; rfl
      · simp [hexValue, hexval_hexDigit h16]
    · simp only [h16, if_false]
      have hlt : n / 16 < fuel := by omega
      obtain ⟨h1, h2, _⟩ := ih (n / 16) hlt
      refine ⟨?_, ?_, by simp⟩
      · intro c hc
        rcases List.mem_append.mp hc with hc | hc
        · exact h1 c hc
        · simp only [List.mem_singleton] at hc
          rw [hc, hexval_hexDigit (Nat.mod_lt _ (by norm_num))]; rfl
      · unfold hexValue at h2 ⊢
        rw [List.foldl_append, h2]
        simp only [List.foldl_cons, List.foldl_nil, hexval_hexDigit (Nat.mod_lt n (by norm_num : 16 > 0)),
          Option.getD_some]
        omega

theorem hexStr_spec (n : Nat) :
    (∀ c ∈ hexStr n, (hexval c).isSome) ∧ hexValue (hexStr n) = n ∧ hexStr n ≠ [] :=
  hexStrAux_spec (n + 1) n (Nat.lt_succ_self n)

/-- The value `strtoul` reads from a line made of hex digits only. -/
theorem strtoul16_hexDigits (ds : List Nat) (h : ∀ c ∈ ds, (hexval c).isSome) (hne : ds ≠ []) :
    strtoul16 ds = (if hexValue ds > ULONG_MAX then ULONG_MAX else hexValue ds, true) := by
  obtain ⟨d, ds', rfl⟩ := List.exists_cons_of_ne_nil hne
  have hd := hexval_range (h d (List.mem_cons_self _ _))
  have hsp : isspace d = false := by
    unfold isspace
    simp only [Bool.or_eq_false_iff, beq_eq_false_iff_ne, Bool.and_eq_false_iff, decide_eq_false_iff_not]
    omega
  have hdrop : (d :: ds').dropWhile isspace = d :: ds' := by
    simp [List.dropWhile, hsp]
  have hsign : takeSign (d :: ds') = (false, d :: ds') := by
    unfold takeSign
    split
    · rename_i heq; simp only [List.cons.injEq] at heq; omega
    · rename_i heq; simp only [List.cons.injEq] at heq; omega
    · rfl
  have hpre : skipHexPrefix (d :: ds') = d :: ds' := by
    unfold skipHexPrefix
    split
    · rename_i x hh r heq
      simp only [List.cons.injEq] at heq
      have hx : x ∈ d :: ds' := by rw [heq.2]; simp
      have hx2 := h x hx
      rw [if_neg]
      rintro ⟨hc | hc, _⟩
      · rw [hc] at hx2; exact absurd hx2 (by decide)
      · rw [hc] at hx2; exact absurd hx2 (by decide)
    · rfl
  have hrun : hexRun (d :: ds') 0 0 = (hexValue (d :: ds'), (d :: ds').length) := by
    have h0 := hexRun_append (d :: ds') [] h 0 0
    rw [List.append_nil] at h0
    rw [h0]
    simp [hexRun, hexValue]
  have hlen : (d :: ds').length ≠ 0 := by simp
  unfold strtoul16
  simp only [hdrop, hsign, hpre, hrun, if_neg hlen, Bool.false_eq_true, if_false]
  split_ifs <;> rfl

/-! ## The size-line scan and the growth of `alloc` -/

theorem scanLine_line (ds rest : List Nat) (h : ∀ c ∈ ds, c ≠ 13) (pos : Nat) :
    scanLine (ds ++ 13 :: 10 :: rest) pos = pos + ds.length := by
  induction ds generalizing pos with
  | nil => simp [scanLine]
  | cons a ds ih =>
    have ha : a ≠ 13 := h a (List.mem_cons_self _ _)
    have ih2 := ih (fun c hc => h c (List.mem_cons_of_mem _ hc)) (pos + 1)
    cases ds with
    | nil =>
      show scanLine (a :: 13 :: 10 :: rest) pos = pos + 1
      rw [scanLine, if_neg (fun hc => ha hc.1)]
      exact ih2
    | cons b ds =>
      show scanLine (a :: b :: (ds ++ 13 :: 10 :: rest)) pos = pos + (ds.length + 1 + 1)
      rw [scanLine, if_neg (fun hc => ha hc.1)]
      have ih3 : scanLine (b :: (ds ++ 13 :: 10 :: rest)) (pos + 1) = pos + 1 + (ds.length + 1) := ih2
      rw [ih3]
      omega

theorem allocOK_1024 : AllocOK 1024 := ⟨10, by norm_num, by norm_num⟩

theorem growAlloc_some (need : Nat) (hneed : need ≤ 2 ^ 63) (fuel k : Nat) (hk : k ≤ 63)
    (hfuel : 64 ≤ fuel + k) :
    ∃ a, growAlloc need fuel (2 ^ k) = some a ∧ AllocOK a ∧ need ≤ a
      ∧ (a = 2 ^ k ∨ a < 2 * need) := by
  induction fuel generalizing k with
  | zero => omega
  | succ fuel ih =>
    unfold growAlloc
    by_cases hgt : need > 2 ^ k
    · have hk2 : k < 63 := by
        by_contra hc
        have : k = 63 := by omega
        subst this
        omega
      have hpow : (2 : Nat) ^ (k + 1) = 2 ^ k * 2 := pow_succ 2 k
      have hmod : 2 ^ k * 2 % SIZE_MOD = 2 ^ (k + 1) := by
        rw [← hpow]
        apply Nat.mod_eq_of_lt
        have : (2 : Nat) ^ (k + 1) ≤ 2 ^ 63 := Nat.pow_le_pow_right (by norm_num) (by omega)
        unfold SIZE_MOD
        omega
      obtain ⟨a, h1, h2, h3, h4⟩ := ih (k + 1) (by omega) (by omega)
      refine ⟨a, ?_, h2, h3, ?_⟩
      · simp only [hgt, if_true, hmod, h1]
      · right
        rcases h4 with h4 | h4
        · omega
        · exact h4
    · refine ⟨2 ^ k, ?_, ⟨k, hk, rfl⟩, by omega, Or.inl rfl⟩
      simp only [hgt, if_false]

theorem growAlloc_ok (need alloc : Nat) (hneed : need ≤ 2 ^ 63) (ha : AllocOK alloc) :
    ∃ a, growAlloc need 65 alloc = some a ∧ AllocOK a ∧ need ≤ a
      ∧ (a = alloc ∨ a < 2 * need) := by
  obtain ⟨k, hk, rfl⟩ := ha
  exact growAlloc_some need hneed 65 k hk (by omega)

/-! ## One well-formed chunk through the outer loop -/

theorem encodeChunk_length (c : List Nat) :
    (encodeChunk c).length = (hexStr c.length).length + 2 + c.length + 2 := by
  simp only [encodeChunk, List.length_append, List.length_cons, List.length_nil]

theorem decodeLoop_chunk (heap : Nat → Bool) (inp pre c rest buf : List Nat) (alloc fuel : Nat)
    (hheap : ∀ n, n ≤ 2 * inp.length + 1024 → heap n = true)
    (hinp : inp = pre ++ (encodeChunk c ++ rest))
    (hc : c ≠ []) (hlen : inp.length ≤ PTRDIFF_MAX)
    (ha : AllocOK alloc) (hal : alloc ≤ 2 * inp.length + 1024)
    (hbp : buf.length ≤ pre.length) :
    ∃ a, AllocOK a ∧ a ≤ 2 * inp.length + 1024 ∧
      decodeLoop heap inp (fuel + 1) pre.length buf alloc
        = decodeLoop heap inp fuel (pre ++ encodeChunk c).length (buf ++ c) a := by
  obtain ⟨hhex, hval, hne⟩ := hexStr_spec c.length
  generalize hL : hexStr c.length = L at hhex hval hne
  have hinp2 : inp = pre ++ (L ++ 13 :: 10 :: (c ++ 13 :: 10 :: rest)) := by
    rw [hinp, encodeChunk, hL]; simp
  have hilen : inp.length = pre.length + L.length + 2 + c.length + 2 + rest.length := by
    rw [hinp2]; simp; omega
  have hclen : c.length ≠ 0 := by
    intro h0; exact hc (List.length_eq_zero.mp h0)
  have hLlen : L.length ≠ 0 := by
    intro h0; exact hne (List.length_eq_zero.mp h0)
  have hPD : PTRDIFF_MAX = 9223372036854775807 := rfl
  have hSM : SIZE_MOD = 18446744073709551616 := rfl
  have hUM : ULONG_MAX = 18446744073709551615 := rfl
  -- the size line
  have hdrop : inp.drop pre.length = L ++ 13 :: 10 :: (c ++ 13 :: 10 :: rest) := by
    rw [hinp2, List.drop_left]
  have hscan : scanLine (inp.drop pre.length) pre.length = pre.length + L.length := by
    rw [hdrop]
    exact scanLine_line L _ (fun x hx h13 => by
      have := hexval_range (hhex x hx); omega) _
  have hhexline : (inp.drop pre.length).take (pre.length + L.length - pre.length) = L := by
    rw [hdrop, Nat.add_sub_cancel_left, List.take_left]
  have hconv : strtoul16 L = (c.length, true) := by
    rw [strtoul16_hexDigits L hhex hne, hval, if_neg (by omega)]
  -- the chunk data
  have hdata : (inp.drop (pre.length + L.length + 2)).take c.length = c := by
    have : inp = (pre ++ L ++ [13, 10]) ++ (c ++ 13 :: 10 :: rest) := by
      rw [hinp2]; simp
    have hl : (pre ++ L ++ [13, 10]).length = pre.length + L.length + 2 := by
      simp only [List.length_append, List.length_cons, List.length_nil]
    rw [this, ← hl, List.drop_left, List.take_left]
  have hcr : inp[pre.length + L.length + 2 + c.length]? = some 13 := by
    have : inp = (pre ++ L ++ [13, 10] ++ c) ++ (13 :: 10 :: rest) := by
      rw [hinp2]; simp
    have hl : (pre ++ L ++ [13, 10] ++ c).length = pre.length + L.length + 2 + c.length := by
      simp only [List.length_append, List.length_cons, List.length_nil]
    rw [this, ← hl, List.getElem?_append_right (le_refl _)]
    simp
  have hlf : inp[pre.length + L.length + 2 + c.length + 1]? = some 10 := by
    have : inp = (pre ++ L ++ [13, 10] ++ c ++ [13]) ++ (10 :: rest) := by
      rw [hinp2]; simp
    have hl : (pre ++ L ++ [13, 10] ++ c ++ [13]).length
        = pre.length + L.length + 2 + c.length + 1 := by
      simp only [List.length_append, List.length_cons, List.length_nil]
    rw [this, ← hl, List.getElem?_append_right (le_refl _)]
    simp
  -- the growth of the output buffer
  have hneed : (buf.length + c.length + 1) % SIZE_MOD = buf.length + c.length + 1 :=
    Nat.mod_eq_of_lt (by omega)
  obtain ⟨a, hg, haOK, hna, hgrow⟩ :=
    growAlloc_ok (buf.length + c.length + 1) alloc (by norm_num; omega) ha
  have hale : a ≤ 2 * inp.length + 1024 := by
    rcases hgrow with h | h <;> omega
  refine ⟨a, haOK, hale, ?_⟩
  rw [decodeLoop]
  simp only [hscan, hhexline, hconv, hneed, hg]
  rw [if_neg (by omega), if_neg (by omega), if_neg (by omega), if_neg (by simp [hheap _ (show L.length + 1 ≤ 2 * inp.length + 1024 by omega)]),
    if_neg (by simp), if_neg hclen,
    if_neg (by rw [Nat.mod_eq_of_lt (by omega)]; omega)]
  rw [if_neg (by simp [hheap a hale]), if_neg (by omega), hdata, hcr, hlf,
    if_neg (by simp; omega)]
  congr 1
  rw [List.length_append, encodeChunk_length, hL]
  omega

theorem encodeChunks_length_ge (cs : List (List Nat)) : cs.length ≤ (encodeChunks cs).length := by
  induction cs with
  | nil => simp [encodeChunks]
  | cons c cs ih =>
    simp only [encodeChunks, List.length_cons, List.length_append, encodeChunk_length]
    omega

/-- The outer loop consumes a run of well-formed non-empty chunks, one per
iteration, appending their data to the output. -/
theorem decodeLoop_chunks (heap : Nat → Bool) (inp : List Nat)
    (hheap : ∀ n, n ≤ 2 * inp.length + 1024 → heap n = true)
    (hlen : inp.length ≤ PTRDIFF_MAX) (rest : List Nat) (fuel : Nat) :
    ∀ (cs : List (List Nat)) (pre buf : List Nat) (alloc : Nat),
      inp = pre ++ (encodeChunks cs ++ rest) → (∀ c ∈ cs, c ≠ []) →
      AllocOK alloc → alloc ≤ 2 * inp.length + 1024 → buf.length ≤ pre.length →
      ∃ a, AllocOK a ∧ a ≤ 2 * inp.length + 1024 ∧
        decodeLoop heap inp (fuel + cs.length) pre.length buf alloc
          = decodeLoop heap inp fuel (pre ++ encodeChunks cs).length (buf ++ cs.flatten) a := by
  intro cs
  induction cs with
  | nil =>
    intro pre buf alloc _ _ ha hal _
    exact ⟨alloc, ha, hal, by simp [encodeChunks]⟩
  | cons c cs ih =>
    intro pre buf alloc hinp hcs ha hal hbp
    have hinp1 : inp = pre ++ (encodeChunk c ++ (encodeChunks cs ++ rest)) := by
      rw [hinp, encodeChunks, List.append_assoc]
    obtain ⟨a1, ha1, hal1, hstep⟩ :=
      decodeLoop_chunk heap inp pre c (encodeChunks cs ++ rest) buf alloc (fuel + cs.length)
        hheap hinp1 (hcs c (List.mem_cons_self _ _)) hlen ha hal hbp
    have hinp2 : inp = (pre ++ encodeChunk c) ++ (encodeChunks cs ++ rest) := by
      rw [hinp1, List.append_assoc]
    have hbp2 : (buf ++ c).length ≤ (pre ++ encodeChunk c).length := by
      simp only [List.length_append, encodeChunk_length]
      omega
    obtain ⟨a2, ha2, hal2, hrest⟩ :=
      ih (pre ++ encodeChunk c) (buf ++ c) a1 hinp2
        (fun x hx => hcs x (List.mem_cons_of_mem _ hx)) ha1 hal1 hbp2
    refine ⟨a2, ha2, hal2, ?_⟩
    have hf : fuel + (c :: cs).length = fuel + cs.length + 1 := by simp; omega
    rw [hf, hstep, hrest]
    simp [encodeChunks, List.append_assoc]

/-- A size line `0` ends the decoding with the output collected so far. -/
theorem decodeLoop_zero (heap : Nat → Bool) (inp pre rest buf : List Nat) (alloc fuel : Nat)
    (hheap : ∀ n, n ≤ 2 * inp.length + 1024 → heap n = true)
    (hinp : inp = pre ++ (48 :: 13 :: 10 :: rest)) (hlen : inp.length ≤ PTRDIFF_MAX)
    (hbp : buf.length ≤ pre.length) :
    decodeLoop heap inp (fuel + 1) pre.length buf alloc = .ok buf := by
  have hilen : inp.length = pre.length + 3 + rest.length := by
    rw [hinp]; simp only [List.length_append, List.length_cons]; omega
  have hPD : PTRDIFF_MAX = 9223372036854775807 := rfl
  have hSM : SIZE_MOD = 18446744073709551616 := rfl
  have hdrop : inp.drop pre.length = [48] ++ 13 :: 10 :: rest := by
    rw [hinp, List.drop_left]; rfl
  have hscan : scanLine (inp.drop pre.length) pre.length = pre.length + 1 := by
    rw [hdrop]
    exact scanLine_line [48] _ (by simp) _
  have hhexline : (inp.drop pre.length).take (pre.length + 1 - pre.length) = [48] := by
    rw [hdrop, Nat.add_sub_cancel_left]; rfl
  have hconv : strtoul16 [48] = (0, true) := by decide
  have hfin : decodeFinish heap buf alloc = .ok buf := by
    unfold decodeFinish
    have hm : (buf.length + 1) % SIZE_MOD = buf.length + 1 := Nat.mod_eq_of_lt (by omega)
    rw [hm, hheap _ (by omega)]
    simp
  rw [decodeLoop]
  simp only [hscan, hhexline, hconv, hfin]
  rw [if_neg (by omega), if_neg (by omega), if_neg (by omega),
    if_neg (by simp [hheap 2 (by omega)]), if_neg (by simp)]
  simp

theorem flatten_length_le (cs : List (List Nat)) :
    cs.flatten.length ≤ (encodeChunks cs).length := by
  induction cs with
  | nil => simp
  | cons c cs ih =>
    simp only [List.flatten_cons, List.length_append, encodeChunks, encodeChunk_length]
    omega

/-- Decoding the chunk encoding of a payload returns the payload. -/
theorem decode_encodeChunked (heap : Nat → Bool) (p : List Nat) (cs : List (List Nat))
    (hsplit : cs.flatten = p) (hcs : ∀ c ∈ cs, c ≠ [])
    (hlen : (encodeChunked cs).length ≤ PTRDIFF_MAX)
    (hheap : ∀ n, n ≤ 2 * (encodeChunked cs).length + 1024 → heap n = true) :
    decode_chunked heap (encodeChunked cs) = .ok p := by
  have hge := encodeChunks_length_ge cs
  have hil : (encodeChunked cs).length = (encodeChunks cs).length + 5 := by
    simp [encodeChunked, zeroChunk]
  obtain ⟨a, _, _, hrun⟩ :=
    decodeLoop_chunks heap (encodeChunked cs) hheap hlen zeroChunk
      ((encodeChunked cs).length + 1 - cs.length) cs [] [] 1024
      (by simp [encodeChunked]) hcs allocOK_1024 (by omega) (le_refl _)
  have hfuel : (encodeChunked cs).length + 1 - cs.length + cs.length
      = (encodeChunked cs).length + 1 := by omega
  have hfuel2 : (encodeChunked cs).length + 1 - cs.length
      = ((encodeChunked cs).length - cs.length) + 1 := by omega
  unfold decode_chunked
  rw [if_neg (by simp [hheap 1024 (by omega)])]
  rw [hfuel] at hrun
  simp only [List.length_nil] at hrun
  rw [hrun, hfuel2, List.nil_append, List.nil_append, hsplit]
  exact decodeLoop_zero heap (encodeChunked cs) (encodeChunks cs) [13, 10] p a _ hheap
    (by simp [encodeChunked, zeroChunk]) hlen
    (by rw [← hsplit]; exact flatten_length_le cs)

/-- C1. Round trip of `decode_chunked`: for every payload `p` (the empty one
included) and every split of `p` into non-empty chunks `cs`, decoding
`hex(len c1) CRLF c1 CRLF ... hex(len ck) CRLF ck CRLF "0" CRLF CRLF` returns 0 with
output bytes equal to `p` (so `out_len` is the length of `p`).  The encoded input is
a real object (at most `PTRDIFF_MAX` bytes) and the allocator grants the requests
the decoder makes, all of at most twice the input length plus 1024 bytes. -/
theorem decode_chunked_roundtrip (heap : Nat → Bool) (p : List Nat) (cs : List (List Nat))
    (hsplit : cs.flatten = p) (hcs : ∀ c ∈ cs, c ≠ [])
    (hlen : (encodeChunked cs).length ≤ PTRDIFF_MAX)
    (hheap : ∀ n, n ≤ 2 * (encodeChunked cs).length + 1024 → heap n = true) :
    decode_chunked heap (encodeChunked cs) = .ok p :=
  decode_encodeChunked heap p cs hsplit hcs hlen hheap

/-- Witness for C1: the payload `test` sent as the chunks `te`, `st`. -/
theorem decode_chunked_roundtrip_witness :
    decode_chunked (fun _ => true) (encodeChunked [[116, 101], [115, 116]])
      = .ok [116, 101, 115, 116] :=
  decode_chunked_roundtrip (fun _ => true) [116, 101, 115, 116] [[116, 101], [115, 116]]
    (by decide) (by decide) (by decide) (fun _ _ => rfl)

/-! ## The example client is reachable -/

/-- Four ticks take the client created for `http://example.com/status` through
INIT, CONNECT, CONNECTING and WRITING into `reading_client`. -/
theorem reading_client_reached :
    run [(env_ok heap_all (.fail EAGAIN) (.fail EAGAIN), 1),
         (env_ok heap_all (.fail EAGAIN) (.fail EAGAIN), 2),
         (env_ok heap_all (.fail EAGAIN) (.fail EAGAIN), 3),
         (env_ok heap_all (.fail EAGAIN) (.fail EAGAIN), 4)]
        (new_client true (str "http://example.com/status") 6 true) [] []
      = .alive reading_client [] [] := by
  decide

/-! ## Content-Length completion -/

/-- C2 (the code at the failing input). A response declaring
`Content-Length: 18446744073709551614` arrives in one read of 57 bytes, headers only.
The sum `body_start + content_len` wraps to 55, the test
`read_buffer_size >= body_start + content_len` succeeds, `malloc(content_len + 1)` is
refused, and the step returns DONE with no body although no body byte is
buffered.  With an allocator that grants the request, the `memcpy` of `content_len`
bytes reads past the end of `read_buffer`. -/
theorem content_length_wraps_done :
    ∃ s, http_client_work_reading heap_glibc
          (.got (str "HTTP/1.1 200 OK\r\nContent-Length: 18446744073709551614\r\n\r\n"))
          (.fail EAGAIN) reading_client = .ok s
      ∧ s.next = .DONE
      ∧ s.client.content_len = 18446744073709551614
      ∧ s.client.body_start = 57
      ∧ s.client.read_buffer_size = 57
      ∧ s.client.body = none
      ∧ http_client_work_reading heap_all
          (.got (str "HTTP/1.1 200 OK\r\nContent-Length: 18446744073709551614\r\n\r\n"))
          (.fail EAGAIN) reading_client = .fault := by
  refine ⟨_, rfl, ?_, ?_, ?_, ?_, ?_, ?_⟩ <;> decide

/-! ## Peer-closed finalisation -/

/-- C5 (the code at the failing input). The peer closes: `recv` returns 0 and
`tcp_client_read` returns -2.  The test `bytes_read < 0` comes first in
`http_client_work_reading`, so the step reports `ERROR` `Read failed` and returns
DISPOSE; the branch `bytes_read == -2` is never reached. -/
theorem eof_reported_as_read_failure :
    tcp_client_read (.got []) = -2
      ∧ http_client_work_reading heap_all (.got []) (.got []) hello_client
          = .ok ⟨hello_client, .DISPOSE, [⟨"ERROR", some (str "Read failed")⟩], []⟩ := by
  constructor <;> decide

/-! ## Which events the handlers emit -/

theorem noTimeout_nil : NoTimeout [] := by
  intro call h; cases h

theorem noTimeout_emit (c : HttpClient) (ev : String) (r : Option (List Nat))
    (h : ev ≠ "TIMEOUT") : NoTimeout (emit c ev r) := by
  intro call hc
  unfold emit at hc
  split at hc
  · simp only [List.mem_singleton] at hc
    rw [hc]; exact h
  · cases hc

theorem noTimeout_failStep (c : HttpClient) (msg : String) :
    NoTimeout (failStep c msg).calls :=
  noTimeout_emit c "ERROR" _ (by decide)

theorem noTimeout_store_decoded (heap : Nat → Bool) (c : HttpClient) (inp : List Nat)
    (s : Step) (h : store_decoded heap c inp = .ok s) : NoTimeout s.calls := by
  unfold store_decoded at h
  split at h
  · injection h with h; rw [← h]; exact noTimeout_failStep _ _
  · cases h
  · cases h
  · injection h with h; rw [← h]; exact noTimeout_nil

theorem noTimeout_done_with_body (heap : Nat → Bool) (c : HttpClient)
    (s : Step) (h : done_with_body heap c = .ok s) : NoTimeout s.calls := by
  unfold done_with_body at h
  split at h
  · injection h with h; rw [← h]; exact noTimeout_nil
  · split at h
    · cases h
    · injection h with h; rw [← h]; exact noTimeout_nil

theorem noTimeout_finalize_remaining (heap : Nat → Bool) (c : HttpClient)
    (s : Step) (h : finalize_remaining heap c = .ok s) : NoTimeout s.calls := by
  unfold finalize_remaining at h
  split at h
  · exact noTimeout_done_with_body _ _ s h
  · injection h with h; rw [← h]; exact noTimeout_nil

theorem noTimeout_reading_complete (heap : Nat → Bool) (peek : Recv) (c : HttpClient)
    (s : Step) (h : reading_complete heap peek c = .ok s) : NoTimeout s.calls := by
  unfold reading_complete at h
  split at h
  · split at h
    · unfold complete_known_length at h
      split at h
      · exact noTimeout_done_with_body _ _ s h
      · injection h with h; rw [← h]; exact noTimeout_nil
    · split at h
      · unfold complete_chunked at h
        split at h
        · exact noTimeout_store_decoded _ _ _ s h
        · injection h with h; rw [← h]; exact noTimeout_nil
      · unfold complete_by_peek at h
        split at h
        · split at h
          · exact noTimeout_finalize_remaining _ _ s h
          · split at h
            · split at h
              · injection h with h; rw [← h]; exact noTimeout_nil
              · injection h with h; rw [← h]; exact noTimeout_failStep _ _
            · injection h with h; rw [← h]; exact noTimeout_nil
        · injection h with h; rw [← h]; exact noTimeout_nil
  · injection h with h; rw [← h]; exact noTimeout_nil

theorem noTimeout_reading_eof (heap : Nat → Bool) (c : HttpClient)
    (s : Step) (h : reading_eof heap c = .ok s) : NoTimeout s.calls := by
  unfold reading_eof at h
  split at h
  · split at h
    · exact noTimeout_store_decoded _ _ _ s h
    · exact noTimeout_finalize_remaining _ _ s h
  · injection h with h; rw [← h]; exact noTimeout_nil

theorem noTimeout_receive_headers (heap : Nat → Bool) (c : HttpClient)
    (s : Step) (h : receive_headers heap c = .ok (.inr s)) : NoTimeout s.calls := by
  unfold receive_headers at h
  split at h
  · split at h
    · cases h
    · cases h
    · split at h
      · injection h with h; injection h with h
        rw [← h]; exact noTimeout_failStep _ _
      · cases h
  · cases h

theorem noTimeout_reading_receive (heap : Nat → Bool) (c : HttpClient) (bytes : List Nat)
    (s : Step) (h : reading_receive heap c bytes = .ok (.inr s)) : NoTimeout s.calls := by
  unfold reading_receive at h
  split at h
  · injection h with h; injection h with h
    rw [← h]; exact noTimeout_failStep _ _
  · split at h
    · cases h
    · exact noTimeout_receive_headers _ _ s h

theorem noTimeout_reading (heap : Nat → Bool) (r peek : Recv) (c : HttpClient)
    (s : Step) (h : http_client_work_reading heap r peek c = .ok s) : NoTimeout s.calls := by
  unfold http_client_work_reading at h
  split at h
  · cases h
  · split at h
    · injection h with h; rw [← h]; exact noTimeout_failStep _ _
    · split at h
      · injection h with h; rw [← h]; exact noTimeout_nil
      · split at h
        · exact noTimeout_reading_eof _ _ s h
        · split at h
          · cases h
          · cases h
          · rename_i s1 heq
            injection h with h; rw [← h]
            exact noTimeout_reading_receive _ _ _ s1 heq
          · exact noTimeout_reading_complete _ _ _ s h

theorem noTimeout_send_request (sr : Send) (c : HttpClient)
    (s : Step) (h : send_request sr c = .ok s) : NoTimeout s.calls := by
  unfold send_request at h
  split at h
  · cases h
  · split at h
    · split at h
      · injection h with h; rw [← h]; exact noTimeout_nil
      · injection h with h; rw [← h]; exact noTimeout_failStep _ _
    · split at h
      · injection h with h; rw [← h]; exact noTimeout_nil
      · injection h with h; rw [← h]; exact noTimeout_nil

theorem noTimeout_writing (heap : Nat → Bool) (sr : Send) (c : HttpClient)
    (s : Step) (h : http_client_work_writing heap sr c = .ok s) : NoTimeout s.calls := by
  unfold http_client_work_writing at h
  split at h
  · injection h with h; rw [← h]; exact noTimeout_failStep _ _
  · exact noTimeout_send_request _ _ s h

theorem noTimeout_init (c : HttpClient) (s : Step) (h : http_client_work_init c = .ok s) :
    NoTimeout s.calls := by
  unfold http_client_work_init at h
  split at h
  · cases h
  · cases h
  · split at h
    · injection h with h; rw [← h]; exact noTimeout_failStep _ _
    · split at h
      · injection h with h; rw [← h]; exact noTimeout_failStep _ _
      · injection h with h; rw [← h]; exact noTimeout_nil

theorem noTimeout_connect (heap : Nat → Bool) (gai : Option (List Candidate)) (c : HttpClient) :
    NoTimeout (http_client_work_connect heap gai c).calls := by
  unfold http_client_work_connect
  split
  · exact noTimeout_failStep _ _
  · split
    · exact noTimeout_emit _ _ _ (by decide)
    · exact noTimeout_nil

theorem noTimeout_connecting (so : SockOpt) (c : HttpClient) :
    NoTimeout (http_client_work_connecting so c).calls := by
  unfold http_client_work_connecting
  split
  · exact noTimeout_nil
  · split
    · exact noTimeout_nil
    · split
      · exact noTimeout_nil
      · split
        · exact noTimeout_nil
        · split
          · exact noTimeout_nil
          · exact noTimeout_failStep _ _

theorem noTimeout_done (c : HttpClient) : NoTimeout (http_client_work_done c).calls := by
  show NoTimeout (done_calls c)
  unfold done_calls
  split
  · exact noTimeout_emit _ _ _ (by decide)
  · exact noTimeout_emit _ _ _ (by decide)

/-- The state handlers never emit `TIMEOUT`. -/
theorem noTimeout_work_switch (env : Env) (c : HttpClient) :
    NoTimeout (work_switch env c).calls := by
  unfold work_switch
  split
  · cases h : http_client_work_init c with
    | ok s => exact noTimeout_init _ s h
    | fault => exact noTimeout_nil
    | hang => exact noTimeout_nil
  · exact noTimeout_connect _ _ c
  · exact noTimeout_connecting _ c
  · cases h : http_client_work_writing env.heap env.send c with
    | ok s => exact noTimeout_writing _ _ _ s h
    | fault => exact noTimeout_nil
    | hang => exact noTimeout_nil
  · cases h : http_client_work_reading env.heap env.recv env.peek c with
    | ok s => exact noTimeout_reading _ _ _ _ s h
    | fault => exact noTimeout_nil
    | hang => exact noTimeout_nil
  · exact noTimeout_done c
  · exact noTimeout_nil

/-! ## The timeout check -/

/-- C7 (amended). On a tick that finds the start timestamp set (`timer ≠ 0`) and
`timer + timeout` within 64 bits, for every state of the client: if
`mon_time ≥ timer + timeout` the work function frees the client without running a
state handler, and the callback invocations of the tick are exactly one `TIMEOUT`
with a null payload when a callback is registered (none otherwise); if
`mon_time < timer + timeout` the tick is the state handler's and emits no
`TIMEOUT`.  A tick that finds `timer = 0` stores `mon_time` as the start timestamp,
runs the state handler and emits no `TIMEOUT`. -/
theorem timeout_check (env : Env) (c : HttpClient) (mon_time : Nat) :
    (c.timer ≠ 0 → c.timer + c.timeout < SIZE_MOD → mon_time ≥ c.timer + c.timeout →
        http_client_work env c mon_time
          = .freed c (if c.callback then [⟨"TIMEOUT", none⟩] else []))
    ∧ (c.timer ≠ 0 → c.timer + c.timeout < SIZE_MOD → mon_time < c.timer + c.timeout →
        http_client_work env c mon_time = work_switch env c
          ∧ NoTimeout (http_client_work env c mon_time).calls)
    ∧ (c.timer = 0 →
        http_client_work env c mon_time = work_switch env { c with timer := mon_time }
          ∧ NoTimeout (http_client_work env c mon_time).calls) := by
  refine ⟨?_, ?_, ?_⟩
  · intro ht hsum hge
    unfold http_client_work
    rw [if_neg ht, Nat.mod_eq_of_lt hsum, if_pos hge]
    rfl
  · intro ht hsum hlt
    have h : http_client_work env c mon_time = work_switch env c := by
      unfold http_client_work
      rw [if_neg ht, Nat.mod_eq_of_lt hsum, if_neg (by omega)]
    exact ⟨h, h ▸ noTimeout_work_switch env c⟩
  · intro ht
    have h : http_client_work env c mon_time
        = work_switch env { c with timer := mon_time } := by
      unfold http_client_work
      rw [if_pos ht]
    exact ⟨h, h ▸ noTimeout_work_switch env _⟩

/-- Witness for C7: `reading_client` has `timer = 1` and `timeout = 6`; a tick at
time 7 frees it with one `TIMEOUT`, a tick at time 6 emits none. -/
theorem timeout_check_witness :
    http_client_work (env_ok heap_all (.fail EAGAIN) (.fail EAGAIN)) reading_client 7
        = .freed reading_client [⟨"TIMEOUT", none⟩]
      ∧ NoTimeout
          (http_client_work (env_ok heap_all (.fail EAGAIN) (.fail EAGAIN)) reading_client 6).calls :=
  ⟨(timeout_check _ reading_client 7).1 (by decide) (by decide) (by decide),
    ((timeout_check _ reading_client 6).2.1 (by decide) (by decide) (by decide)).2⟩

/-- C7 (counterexample). The first tick of a client with `timeout = 10` comes at
time 0 and leaves `timer = 0`.  The second tick comes at time 100, so
`mon_time ≥ timer + timeout`, yet the work function emits no `TIMEOUT` and does not
dispose the client: it stores 100 in `timer` and runs the CONNECT handler. -/
theorem timeout_skipped_after_first_tick_at_zero :
    http_client_work (env_ok heap_all (.fail EAGAIN) (.fail EAGAIN))
        (new_client true (str "http://example.com/status") 10 true) 0
      = .alive client_ticked_at_zero [] []
    ∧ 100 ≥ client_ticked_at_zero.timer + client_ticked_at_zero.timeout
    ∧ http_client_work (env_ok heap_all (.fail EAGAIN) (.fail EAGAIN)) client_ticked_at_zero 100
      = .alive { client_ticked_at_zero with
          timer := 100, state := .CONNECTING, tcp_conn := some 3 } [] [] := by
  refine ⟨?_, ?_, ?_⟩ <;> decide

/-! ## The callback over a whole request -/

/-- C8 (the code at the failing input). A request with `timeout = 6` whose first
tick is at time 1: ticks at times 1 to 4 reach READING, the tick at time 5 receives
the complete response of scenario A, the tick at time 6 runs the DONE handler, which
invokes the callback with `RESPONSE`, and leaves the client in DISPOSE; the tick at
time 7 finds `mon_time ≥ timer + timeout` and invokes the callback again, with
`TIMEOUT`, before freeing the client. -/
theorem callback_invoked_twice :
    (run [(env_ok heap_all (.fail EAGAIN) (.fail EAGAIN), 1),
          (env_ok heap_all (.fail EAGAIN) (.fail EAGAIN), 2),
          (env_ok heap_all (.fail EAGAIN) (.fail EAGAIN), 3),
          (env_ok heap_all (.fail EAGAIN) (.fail EAGAIN), 4),
          (env_ok heap_all (.got response_a) (.fail EAGAIN), 5),
          (env_ok heap_all (.fail EAGAIN) (.fail EAGAIN), 6)]
        (new_client true (str "http://example.com/status") 6 true) [] []).client?.map
          (fun c => c.state) = some .DISPOSE
    ∧ run [(env_ok heap_all (.fail EAGAIN) (.fail EAGAIN), 1),
          (env_ok heap_all (.fail EAGAIN) (.fail EAGAIN), 2),
          (env_ok heap_all (.fail EAGAIN) (.fail EAGAIN), 3),
          (env_ok heap_all (.fail EAGAIN) (.fail EAGAIN), 4),
          (env_ok heap_all (.got response_a) (.fail EAGAIN), 5),
          (env_ok heap_all (.fail EAGAIN) (.fail EAGAIN), 6),
          (env_ok heap_all (.fail EAGAIN) (.fail EAGAIN), 7)]
        (new_client true (str "http://example.com/status") 6 true) [] []
      = .freed
          { new_client true (str "http://example.com/status") 6 true with
            state := .DISPOSE, timer := 1, write_size := 296, write_offset := 296,
            body_start := 38, content_len := 2, status_code := 200,
            hostname := str "example.com", port := str "80", path := str "/status" }
          [⟨"RESPONSE", some (str "OK")⟩, ⟨"TIMEOUT", none⟩] := by
  constructor <;> decide

/-! ## Errors in CONNECTING -/

/-- C9 (the code at the failing input). The client has a callback and reaches
CONNECTING after two ticks; on the third tick `getsockopt` fails (returns -1).  The
handler returns DISPOSE without invoking the callback, and the fourth tick frees
the client: the request ends with no callback invocation at all. -/
theorem connecting_failure_is_silent :
    run [(env_ok heap_all (.fail EAGAIN) (.fail EAGAIN), 1),
         (env_ok heap_all (.fail EAGAIN) (.fail EAGAIN), 2),
         ({ env_ok heap_all (.fail EAGAIN) (.fail EAGAIN) with sockopt := ⟨-1, 0⟩ }, 3)]
        (new_client true (str "http://example.com/status") 6 true) [] []
      = .alive
          { new_client true (str "http://example.com/status") 6 true with
            state := .DISPOSE, timer := 1, tcp_conn := some 3,
            hostname := str "example.com", port := str "80", path := str "/status" } [] []
    ∧ run [(env_ok heap_all (.fail EAGAIN) (.fail EAGAIN), 1),
         (env_ok heap_all (.fail EAGAIN) (.fail EAGAIN), 2),
         ({ env_ok heap_all (.fail EAGAIN) (.fail EAGAIN) with sockopt := ⟨-1, 0⟩ }, 3),
         (env_ok heap_all (.fail EAGAIN) (.fail EAGAIN), 4)]
        (new_client true (str "http://example.com/status") 6 true) [] []
      = .freed
          { new_client true (str "http://example.com/status") 6 true with
            state := .DISPOSE, timer := 1, tcp_conn := some 3,
            hostname := str "example.com", port := str "80", path := str "/status" } [] := by
  constructor <;> decide

/-! ## The DONE handler -/

theorem body_text_none (c : HttpClient) (h : c.body = none) : body_text c = [] := by
  unfold body_text; rw [h]

/-- C10. `http_client_work_done` invokes a non-null callback exactly once: with
`RESPONSE` and the body text (the empty string when no body is stored) when
`200 ≤ status_code < 300`, and with `ERROR` otherwise, so the event is `RESPONSE`
exactly for those codes; it always returns DISPOSE. -/
theorem done_event_selection (c : HttpClient) (hcb : c.callback = true) :
    (http_client_work_done c).next = .DISPOSE
    ∧ ((200 ≤ c.status_code ∧ c.status_code < 300) →
        (http_client_work_done c).calls = [⟨"RESPONSE", some (body_text c)⟩])
    ∧ (¬ (200 ≤ c.status_code ∧ c.status_code < 300) →
        (http_client_work_done c).calls = [⟨"ERROR", some (error_info c)⟩])
    ∧ (∃ call, (http_client_work_done c).calls = [call]
        ∧ (call.event = "RESPONSE" ↔ (200 ≤ c.status_code ∧ c.status_code < 300))
        ∧ (call.event ≠ "RESPONSE" → call.event = "ERROR"))
    ∧ (c.body = none → body_text c = []) := by
  have hcalls : (http_client_work_done c).calls = done_calls c := rfl
  have h1 : (200 ≤ c.status_code ∧ c.status_code < 300) →
      (http_client_work_done c).calls = [⟨"RESPONSE", some (body_text c)⟩] := by
    intro h
    rw [hcalls, done_calls, if_pos h, emit, hcb]
    rfl
  have h2 : ¬ (200 ≤ c.status_code ∧ c.status_code < 300) →
      (http_client_work_done c).calls = [⟨"ERROR", some (error_info c)⟩] := by
    intro h
    rw [hcalls, done_calls, if_neg h, emit, hcb]
    rfl
  refine ⟨rfl, h1, h2, ?_, body_text_none c⟩
  by_cases h : 200 ≤ c.status_code ∧ c.status_code < 300
  · exact ⟨_, h1 h, by simp [h], by simp⟩
  · exact ⟨_, h2 h, by simp [h], by simp⟩

/-- Witness for C10 (scenario A): the response
`HTTP/1.1 200 OK\r\nContent-Length: 2\r\n\r\nOK` read by `reading_client` leads to
DONE, and the DONE handler then invokes the callback once, with `RESPONSE` and
payload `OK`. -/
theorem done_event_selection_witness :
    ∃ s, http_client_work_reading heap_all (.got response_a) (.fail EAGAIN) reading_client
          = .ok s
      ∧ s.next = .DONE
      ∧ (http_client_work_done s.client).next = .DISPOSE
      ∧ (http_client_work_done s.client).calls = [⟨"RESPONSE", some (str "OK")⟩] := by
  refine ⟨_, rfl, by decide, ?_, ?_⟩
  · exact (done_event_selection _ (by decide)).1
  · rw [(done_event_selection _ (by decide)).2.1 (by decide)]
    decide


/-! ## A data tick -/

theorem tcp_client_read_got (bytes : List Nat) (h : bytes ≠ []) :
    tcp_client_read (.got bytes) = (bytes.length : Int) := by
  have hpos : 0 < bytes.length := List.length_pos.mpr h
  unfold tcp_client_read
  simp only [Recv.ret]
  rw [if_neg (by omega), if_neg (by omega)]

/-- On a tick that receives data the step is the append-and-parse phase followed
by the completion check. -/
theorem reading_data_tick (heap : Nat → Bool) (peek : Recv) (c : HttpClient) (bytes : List Nat)
    (hconn : c.tcp_conn ≠ none) (hbytes : bytes ≠ []) :
    http_client_work_reading heap (.got bytes) peek c
      = match reading_receive heap c bytes with
        | .fault => .fault
        | .hang => .hang
        | .ok (.inr s) => .ok s
        | .ok (.inl c1) => reading_complete heap peek c1 := by
  have hpos : 0 < bytes.length := List.length_pos.mpr hbytes
  obtain ⟨fd, hfd⟩ := Option.ne_none_iff_exists'.mp hconn
  unfold http_client_work_reading
  rw [hfd]
  simp only [tcp_client_read_got bytes hbytes, Recv.bytes, Int.toNat_ofNat, List.take_length]
  rw [if_neg (by omega), if_neg (by omega), if_neg (by omega)]

/-- What header parsing leaves untouched. -/
theorem receive_headers_frame (heap : Nat → Bool) (c c1 : HttpClient)
    (h : receive_headers heap c = .ok (.inl c1)) :
    c1.read_buffer = c.read_buffer ∧ c1.body = c.body ∧ c1.tcp_conn = c.tcp_conn
      ∧ c1.callback = c.callback := by
  unfold receive_headers at h
  split at h
  · split at h
    · cases h
    · injection h with h; injection h with h
      rw [← h]; exact ⟨rfl, rfl, rfl, rfl⟩
    · rename_i i _
      split at h
      · cases h
      · rename_i c2 heq
        unfold parse_headers at heq
        split at heq
        · cases heq
        · injection heq with heq
          injection h with h; injection h with h
          rw [← h, ← heq]; exact ⟨rfl, rfl, rfl, rfl⟩
  · injection h with h; injection h with h
    rw [← h]; exact ⟨rfl, rfl, rfl, rfl⟩

/-- What the append-and-parse phase leaves untouched, and what it appends. -/
theorem reading_receive_frame (heap : Nat → Bool) (c c1 : HttpClient) (bytes : List Nat)
    (h : reading_receive heap c bytes = .ok (.inl c1)) :
    c1.read_buffer = c.read_buffer ++ bytes ∧ c1.body = c.body ∧ c1.tcp_conn = c.tcp_conn
      ∧ c1.callback = c.callback ∧ c1.read_buffer_size < SIZE_MOD := by
  unfold reading_receive at h
  split at h
  · cases h
  · split at h
    · cases h
    · rename_i h1 h2
      obtain ⟨f1, f2, f3, f4⟩ := receive_headers_frame heap _ c1 h
      refine ⟨f1, f2, f3, f4, ?_⟩
      have hlt : (c.read_buffer_size + bytes.length) % SIZE_MOD < SIZE_MOD :=
        Nat.mod_lt _ (by unfold SIZE_MOD; omega)
      have : c1.read_buffer_size = c.read_buffer_size + bytes.length := by
        unfold HttpClient.read_buffer_size
        rw [f1]; simp
      omega


/-! ## The scan for the terminating chunk -/

theorem termScan_some (buf : List Nat) (fuel j k : Nat) (h : termScan buf fuel j = some k) :
    j ≤ k ∧ (buf.drop k).take 5 = TERM
      ∧ ∀ i, j ≤ i → i < k → (buf.drop i).take 5 ≠ TERM := by
  induction fuel generalizing j with
  | zero => simp [termScan] at h
  | succ fuel ih =>
    unfold termScan at h
    split at h
    · cases h
    · split at h
      · rename_i hm
        injection h with h
        subst h
        exact ⟨le_refl _, hm, fun i h1 h2 => by omega⟩
      · rename_i hm
        obtain ⟨h1, h2, h3⟩ := ih (j + 1) h
        refine ⟨by omega, h2, fun i hi hk => ?_⟩
        by_cases hij : i = j
        · rw [hij]; exact hm
        · exact h3 i (by omega) hk

theorem take5_short (buf : List Nat) (i : Nat) (h : ¬ i + 5 ≤ buf.length) :
    (buf.drop i).take 5 ≠ TERM := by
  intro hc
  have hl := congrArg List.length hc
  simp only [List.length_take, List.length_drop, TERM, List.length_cons, List.length_nil] at hl
  omega

theorem termScan_none (buf : List Nat) (fuel j : Nat) (hf : buf.length + 1 ≤ fuel + j)
    (h : termScan buf fuel j = none) :
    ∀ i, j ≤ i → (buf.drop i).take 5 ≠ TERM := by
  induction fuel generalizing j with
  | zero =>
    intro i hi
    exact take5_short buf i (by omega)
  | succ fuel ih =>
    unfold termScan at h
    split at h
    · rename_i hlen
      intro i hi
      exact take5_short buf i (by omega)
    · split at h
      · cases h
      · rename_i hm
        intro i hi
        by_cases hij : i = j
        · rw [hij]; exact hm
        · exact ih (j + 1) (by omega) h i (by omega)

/-- The scan `term_scan` returns the first index from `body_start` on at which `TERM`
stands. -/
theorem term_scan_some (buf : List Nat) (j k : Nat) (h : term_scan buf j = some k) :
    j ≤ k ∧ (buf.drop k).take 5 = TERM
      ∧ ∀ i, j ≤ i → i < k → (buf.drop i).take 5 ≠ TERM :=
  termScan_some buf _ j k h

/-- The scan `term_scan` finds nothing only when `TERM` does not stand anywhere from
`body_start` on. -/
theorem term_scan_none (buf : List Nat) (j : Nat) (h : term_scan buf j = none) :
    ∀ i, j ≤ i → (buf.drop i).take 5 ≠ TERM :=
  termScan_none buf _ j (by omega) h

theorem term_scan_first (buf : List Nat) (j k : Nat) (hjk : j ≤ k)
    (hm : (buf.drop k).take 5 = TERM)
    (hfirst : ∀ i, j ≤ i → i < k → (buf.drop i).take 5 ≠ TERM) :
    term_scan buf j = some k := by
  cases h : term_scan buf j with
  | none => exact absurd hm (term_scan_none buf j h k hjk)
  | some k1 =>
    obtain ⟨h1, h2, h3⟩ := term_scan_some buf j k1 h
    have : k1 = k := by
      rcases Nat.lt_trichotomy k1 k with hlt | heq | hgt
      · exact absurd h2 (hfirst k1 h1 hlt)
      · exact heq
      · exact absurd hm (h3 k hjk hgt)
    rw [this]

theorem term_scan_absent (buf : List Nat) (j : Nat)
    (habs : ∀ i, j ≤ i → (buf.drop i).take 5 ≠ TERM) : term_scan buf j = none := by
  cases h : term_scan buf j with
  | none => rfl
  | some k =>
    obtain ⟨h1, h2, _⟩ := term_scan_some buf j k h
    exact absurd h2 (habs k h1)

/-! ## Chunked completion -/

theorem store_decoded_done (heap : Nat → Bool) (c : HttpClient) (inp : List Nat) (s : Step)
    (h : store_decoded heap c inp = .ok s) (hd : s.next = .DONE) :
    ∃ out, decode_chunked heap inp = .ok out ∧ s.client.body = some out
      ∧ s.client.content_len = out.length := by
  unfold store_decoded at h
  split at h
  · injection h with h
    rw [← h] at hd
    cases hd
  · cases h
  · cases h
  · rename_i out heq
    injection h with h
    rw [← h]
    exact ⟨out, heq, rfl, rfl⟩

/-- The completion check of a chunked response whose headers are parsed. -/
theorem reading_complete_chunked (heap : Nat → Bool) (peek : Recv) (c : HttpClient)
    (hstart : 0 < c.body_start) (hlen : c.content_len = 0) (hch : c.chunked = true) :
    reading_complete heap peek c = complete_chunked heap c := by
  unfold reading_complete
  rw [if_pos hstart, if_neg (by omega), if_pos hch]

/-- C3. Chunked completion.  A data tick leaves the client `c1` after the received
bytes are appended and the headers parsed; `c1` is chunked with `content_len = 0`.
The step returns DONE only if `0 CR LF CR LF` stands somewhere in the buffer from
`body_start` on, and then the stored body and `content_len` are the result of
`decode_chunked` on the bytes from `body_start` through the end of the first
occurrence; whenever the sequence stands there the step is the decoding of those
bytes; when it is absent the step returns READING, changes nothing in `c1` and the
body is the one the client had before the tick. -/
theorem chunked_completion (heap : Nat → Bool) (peek : Recv) (c c1 : HttpClient)
    (bytes : List Nat) (hconn : c.tcp_conn ≠ none) (hbytes : bytes ≠ [])
    (hrecv : reading_receive heap c bytes = .ok (.inl c1))
    (hstart : 0 < c1.body_start) (hlen : c1.content_len = 0) (hch : c1.chunked = true) :
    c1.read_buffer = c.read_buffer ++ bytes
    ∧ (∀ s, http_client_work_reading heap (.got bytes) peek c = .ok s → s.next = .DONE →
        ∃ j out, c1.body_start ≤ j ∧ (c1.read_buffer.drop j).take 5 = TERM
          ∧ (∀ i, c1.body_start ≤ i → i < j → (c1.read_buffer.drop i).take 5 ≠ TERM)
          ∧ decode_chunked heap
              ((c1.read_buffer.drop c1.body_start).take (j + 5 - c1.body_start)) = .ok out
          ∧ s.client.body = some out ∧ s.client.content_len = out.length)
    ∧ (∀ j, c1.body_start ≤ j → (c1.read_buffer.drop j).take 5 = TERM →
        (∀ i, c1.body_start ≤ i → i < j → (c1.read_buffer.drop i).take 5 ≠ TERM) →
        http_client_work_reading heap (.got bytes) peek c
          = store_decoded heap c1
              ((c1.read_buffer.drop c1.body_start).take (j + 5 - c1.body_start)))
    ∧ ((∀ i, c1.body_start ≤ i → (c1.read_buffer.drop i).take 5 ≠ TERM) →
        http_client_work_reading heap (.got bytes) peek c = .ok ⟨c1, .READING, [], []⟩
          ∧ c1.body = c.body) := by
  have hstep : http_client_work_reading heap (.got bytes) peek c = complete_chunked heap c1 := by
    rw [reading_data_tick heap peek c bytes hconn hbytes, hrecv]
    exact reading_complete_chunked heap peek c1 hstart hlen hch
  obtain ⟨hbuf, hbody, _, _, _⟩ := reading_receive_frame heap c c1 bytes hrecv
  refine ⟨hbuf, ?_, ?_, ?_⟩
  · intro s hs hd
    rw [hstep] at hs
    unfold complete_chunked at hs
    split at hs
    · rename_i found hfound
      obtain ⟨h1, h2, h3⟩ := term_scan_some _ _ _ hfound
      obtain ⟨out, ho1, ho2, ho3⟩ := store_decoded_done heap c1 _ s hs hd
      exact ⟨found, out, h1, h2, h3, ho1, ho2, ho3⟩
    · injection hs with hs
      rw [← hs] at hd
      cases hd
  · intro j hj hm hfirst
    rw [hstep]
    unfold complete_chunked
    rw [term_scan_first _ _ _ hj hm hfirst]
  · intro habs
    rw [hstep]
    unfold complete_chunked
    rw [term_scan_absent _ _ habs]
    exact ⟨rfl, hbody⟩


/-- Witness for C3 (scenario C): `reading_client` receives `response_c` in one
read; the terminator first stands at index 56 and the step is the decoding of the
14 bytes `4 CRLF test CRLF 0 CRLF CRLF`, which stores the body `test`. -/
theorem chunked_completion_witness :
    http_client_work_reading heap_all (.got response_c) (.fail EAGAIN) reading_client
        = store_decoded heap_all parsed_c
            ((parsed_c.read_buffer.drop parsed_c.body_start).take (56 + 5 - parsed_c.body_start))
      ∧ store_decoded heap_all parsed_c
            ((parsed_c.read_buffer.drop parsed_c.body_start).take (56 + 5 - parsed_c.body_start))
        = .ok ⟨{ parsed_c with body := some (str "test"), content_len := 4 }, .DONE, [], []⟩ :=
  ⟨(chunked_completion heap_all (.fail EAGAIN) reading_client parsed_c response_c
      (by decide) (by decide) (by decide) (by decide) (by decide) (by decide)).2.2.1 56
      (by decide) (by decide)
      (by intro i h1 h2
          have h1 : 47 ≤ i := h1
          interval_cases i <;> decide),
    by decide⟩

/-! ## Completion by peek -/

theorem remaining_eq_drop (c : HttpClient) :
    remaining c = (c.read_buffer.drop c.body_start).length := by
  unfold remaining HttpClient.read_buffer_size
  rw [List.length_drop]
  split <;> omega

/-- The finalisation used by the peek and EOF policies, when the allocator grants
the body buffer. -/
theorem finalize_remaining_done (heap : Nat → Bool) (c : HttpClient)
    (hsize : c.read_buffer_size < SIZE_MOD) (hstart : 0 < c.body_start)
    (hheap : heap (remaining c + 1) = true) :
    ∃ s, finalize_remaining heap c = .ok s ∧ s.next = .DONE ∧ s.calls = []
      ∧ s.client.content_len = (c.read_buffer.drop c.body_start).length
      ∧ s.client.read_buffer = c.read_buffer
      ∧ (s.client.body = some (c.read_buffer.drop c.body_start)
          ∨ (c.read_buffer.drop c.body_start = [] ∧ s.client.body = c.body)) := by
  have hrem := remaining_eq_drop c
  have hle : remaining c + 1 ≤ c.read_buffer_size ∨ remaining c = 0 := by
    unfold remaining; split <;> omega
  have hSM : SIZE_MOD = 18446744073709551616 := rfl
  unfold finalize_remaining
  by_cases hpos : remaining c > 0
  · rw [if_pos hpos]
    have hmod : (remaining c + 1) % SIZE_MOD = remaining c + 1 :=
      Nat.mod_eq_of_lt (by omega)
    have hin : c.body_start + remaining c ≤ c.read_buffer_size := by
      unfold remaining at hpos ⊢
      split at hpos
      · rw [if_pos (by assumption)]; omega
      · omega
    unfold done_with_body
    simp only [hmod, hheap]
    rw [if_neg (by simp), if_neg (by simp only [HttpClient.read_buffer_size] at hin ⊢; omega)]
    refine ⟨_, rfl, rfl, rfl, hrem, rfl, Or.inl ?_⟩
    show some (List.take (remaining c) (List.drop c.body_start c.read_buffer)) = _
    rw [hrem, List.take_length]
  · rw [if_neg hpos]
    refine ⟨_, rfl, rfl, rfl, hrem, rfl, Or.inr ⟨?_, rfl⟩⟩
    apply List.length_eq_zero.mp
    omega

/-- C6. Completion by peek.  A data tick leaves the client `c1` after the received
bytes are appended and the headers parsed; `c1` has `content_len = 0` and is not
chunked, and the client holds an open descriptor.  Then the step follows the peek:
a 0-byte peek gives DONE with `content_len` the number of bytes buffered from
`body_start` on and the body those bytes (no body is stored when there are none);
a would-block peek gives READING; any other peek error reports `ERROR`
`Peek failed` to the callback and gives DISPOSE; a positive peek gives READING.  In
the READING outcomes the client is `c1`, whose buffer is the old one followed by the
received bytes. -/
theorem peek_completion (heap : Nat → Bool) (peek : Recv) (c c1 : HttpClient)
    (bytes : List Nat) (fd : Int) (hconn : c.tcp_conn = some fd) (hfd : 0 ≤ fd)
    (hbytes : bytes ≠ [])
    (hrecv : reading_receive heap c bytes = .ok (.inl c1))
    (hstart : 0 < c1.body_start) (hlen : c1.content_len = 0) (hch : c1.chunked = false)
    (hbody : c.body = none) (hheap : heap (remaining c1 + 1) = true) :
    c1.read_buffer = c.read_buffer ++ bytes
    ∧ (peek = .got [] →
        ∃ s, http_client_work_reading heap (.got bytes) peek c = .ok s
          ∧ s.next = .DONE ∧ s.calls = []
          ∧ s.client.content_len = (c1.read_buffer.drop c1.body_start).length
          ∧ s.client.body.getD [] = c1.read_buffer.drop c1.body_start
          ∧ s.client.read_buffer = c1.read_buffer)
    ∧ (∀ e, peek = .fail e → (e = EAGAIN ∨ e = EWOULDBLOCK) →
        http_client_work_reading heap (.got bytes) peek c = .ok ⟨c1, .READING, [], []⟩)
    ∧ (∀ e, peek = .fail e → ¬ (e = EAGAIN ∨ e = EWOULDBLOCK) →
        http_client_work_reading heap (.got bytes) peek c
          = .ok ⟨c1, .DISPOSE,
              if c.callback then [⟨"ERROR", some (str "Peek failed")⟩] else [], []⟩)
    ∧ (∀ b bs, peek = .got (b :: bs) →
        http_client_work_reading heap (.got bytes) peek c = .ok ⟨c1, .READING, [], []⟩) := by
  obtain ⟨hbuf, hb1, hconn1, hcb1, hsize⟩ := reading_receive_frame heap c c1 bytes hrecv
  have hfd1 : conn_fd c1 ≥ 0 := by
    unfold conn_fd; rw [hconn1, hconn]; exact hfd
  have hstep : http_client_work_reading heap (.got bytes) peek c
      = complete_by_peek heap peek c1 := by
    rw [reading_data_tick heap peek c bytes (by rw [hconn]; simp) hbytes, hrecv]
    show reading_complete heap peek c1 = _
    unfold reading_complete
    rw [if_pos hstart, if_neg (by omega), if_neg (by simp [hch])]
  refine ⟨hbuf, ?_, ?_, ?_, ?_⟩
  · intro hp
    obtain ⟨s, hs, h1, h2, h3, h4, h5⟩ := finalize_remaining_done heap c1 hsize hstart hheap
    refine ⟨s, ?_, h1, h2, h3, ?_, h4⟩
    · rw [hstep, hp]
      unfold complete_by_peek
      rw [if_pos hfd1, if_pos (by decide)]
      exact hs
    · rcases h5 with h5 | ⟨h5, h6⟩
      · rw [h5]; rfl
      · rw [h6, hb1, hbody, h5]; rfl
  · intro e hp he
    rw [hstep, hp]
    unfold complete_by_peek
    simp only [Recv.ret, Recv.errno]
    rw [if_pos hfd1, if_neg (by omega), if_pos (by omega), if_pos he]
  · intro e hp he
    rw [hstep, hp]
    unfold complete_by_peek
    simp only [Recv.ret, Recv.errno]
    rw [if_pos hfd1, if_neg (by omega), if_pos (by omega), if_neg he, failStep, emit, hcb1]
  · intro b bs hp
    have hpos : (0 : Int) < ((b :: bs).length : Int) := by
      simp only [List.length_cons]; omega
    rw [hstep, hp]
    unfold complete_by_peek
    simp only [Recv.ret]
    rw [if_pos hfd1, if_neg (by omega), if_neg (by omega)]

/-- Witness for C6: `reading_client` receives `HTTP/1.1 200 OK`, an empty line and
`hello` in one read and the peek returns 0: the step gives DONE with body `hello`
and `content_len = 5`. -/
theorem peek_completion_witness :
    ∃ s, http_client_work_reading heap_all (.got hello_client.read_buffer) (.got [])
          reading_client = .ok s
      ∧ s.next = .DONE ∧ s.calls = []
      ∧ s.client.content_len = 5
      ∧ s.client.body.getD [] = str "hello"
      ∧ s.client.read_buffer = hello_client.read_buffer :=
  (peek_completion heap_all (.got []) reading_client hello_client hello_client.read_buffer 3
    (by decide) (by decide) (by decide) (by decide) (by decide) (by decide) (by decide)
    (by decide) (by decide)).2.1 rfl

/-! ## The header scan -/

theorem take4_iff (buf : List Nat) (i : Nat) :
    (buf.drop i).take 4 = [13, 10, 13, 10]
      ↔ (buf[i]? = some 13 ∧ buf[i + 1]? = some 10 ∧ buf[i + 2]? = some 13
          ∧ buf[i + 3]? = some 10) := by
  have h0 : buf[i]? = (buf.drop i)[0]? := by rw [List.getElem?_drop]; rfl
  have h1 : buf[i + 1]? = (buf.drop i)[1]? := by rw [List.getElem?_drop]
  have h2 : buf[i + 2]? = (buf.drop i)[2]? := by rw [List.getElem?_drop]
  have h3 : buf[i + 3]? = (buf.drop i)[3]? := by rw [List.getElem?_drop]
  rw [h0, h1, h2, h3]
  generalize buf.drop i = l
  rcases l with _ | ⟨a, _ | ⟨b, _ | ⟨c, _ | ⟨d, l⟩⟩⟩⟩ <;> simp

theorem scan_bound (buf : List Nat) (h4 : 4 ≤ buf.length) (hlen : buf.length < SIZE_MOD) :
    (buf.length + SIZE_MOD - 4) % SIZE_MOD = buf.length - 4 := by
  have hSM : SIZE_MOD = 18446744073709551616 := rfl
  have : buf.length + SIZE_MOD - 4 = (buf.length - 4) + SIZE_MOD := by omega
  rw [this, Nat.add_mod_right]
  exact Nat.mod_eq_of_lt (by omega)

theorem headerScan_step_end (buf : List Nat) (fuel i : Nat) (h4 : 4 ≤ buf.length)
    (hlen : buf.length < SIZE_MOD) (hi : buf.length < i + 4) :
    headerScan buf (fuel + 1) i = .notFound := by
  unfold headerScan
  rw [scan_bound buf h4 hlen, if_pos (by omega)]

theorem headerScan_step_found (buf : List Nat) (fuel i : Nat)
    (hlen : buf.length < SIZE_MOD) (hi : i + 4 ≤ buf.length) (hint : i + 5 ≤ INT_MAX)
    (hm : (buf.drop i).take 4 = [13, 10, 13, 10]) :
    headerScan buf (fuel + 1) i = .found i := by
  have hm4 := (take4_iff buf i).mp hm
  unfold headerScan
  rw [scan_bound buf (by omega) hlen, if_neg (by omega), if_neg (by omega),
    if_neg (fun h => by have := h.2; omega), if_neg (fun h => by have := h.2.2; omega),
    if_neg (fun h => by have := h.2.2.2; omega), if_pos hm4, if_neg (by omega)]

theorem headerScan_step_next (buf : List Nat) (fuel i : Nat)
    (hlen : buf.length < SIZE_MOD) (hi : i + 4 ≤ buf.length) (hint : i + 1 ≤ INT_MAX)
    (hm : (buf.drop i).take 4 ≠ [13, 10, 13, 10]) :
    headerScan buf (fuel + 1) i = headerScan buf fuel (i + 1) := by
  have hm4 : ¬ (buf[i]? = some 13 ∧ buf[i + 1]? = some 10 ∧ buf[i + 2]? = some 13
      ∧ buf[i + 3]? = some 10) := fun h => hm ((take4_iff buf i).mpr h)
  rw [headerScan]
  rw [scan_bound buf (by omega) hlen, if_neg (by omega), if_neg (by omega),
    if_neg (fun h => by have := h.2; omega), if_neg (fun h => by have := h.2.2; omega),
    if_neg (fun h => by have := h.2.2.2; omega), if_neg hm4, if_neg (by omega)]

/-- The scan returns the first index at which `CR LF CR LF` stands. -/
theorem headerScan_found (buf : List Nat) (k : Nat) (hk : k + 4 ≤ buf.length)
    (hmax : buf.length < INT_MAX) (hm : (buf.drop k).take 4 = [13, 10, 13, 10]) :
    ∀ fuel i, i ≤ k → k - i < fuel →
      (∀ j, i ≤ j → j < k → (buf.drop j).take 4 ≠ [13, 10, 13, 10]) →
      headerScan buf fuel i = .found k := by
  have hIM : INT_MAX = 2147483647 := rfl
  have hSM : SIZE_MOD = 18446744073709551616 := rfl
  intro fuel
  induction fuel with
  | zero => intro i _ h; omega
  | succ fuel ih =>
    intro i hik hf hno
    by_cases heq : i = k
    · subst heq
      exact headerScan_step_found buf fuel i (by omega) hk (by omega) hm
    · rw [headerScan_step_next buf fuel i (by omega) (by omega) (by omega)
        (hno i (le_refl _) (by omega))]
      exact ih (i + 1) (by omega) (by omega) (fun j h1 h2 => hno j (by omega) h2)

/-- The scan finds nothing in a buffer of at least four bytes in which
`CR LF CR LF` does not stand. -/
theorem headerScan_notFound (buf : List Nat) (h4 : 4 ≤ buf.length)
    (hmax : buf.length < INT_MAX)
    (hno : ∀ j, (buf.drop j).take 4 ≠ [13, 10, 13, 10]) :
    ∀ fuel i, i + 3 ≤ buf.length → buf.length - 3 - i < fuel →
      headerScan buf fuel i = .notFound := by
  have hIM : INT_MAX = 2147483647 := rfl
  have hSM : SIZE_MOD = 18446744073709551616 := rfl
  intro fuel
  induction fuel with
  | zero => intro i _ h; omega
  | succ fuel ih =>
    intro i hi hf
    by_cases hend : buf.length < i + 4
    · exact headerScan_step_end buf fuel i h4 (by omega) hend
    · rw [headerScan_step_next buf fuel i (by omega) (by omega) (by omega) (hno i)]
      exact ih (i + 1) (by omega) (by omega)

theorem header_scan_found (buf : List Nat) (k : Nat) (hk : k + 4 ≤ buf.length)
    (hmax : buf.length < INT_MAX) (hm : (buf.drop k).take 4 = [13, 10, 13, 10])
    (hno : ∀ j, j < k → (buf.drop j).take 4 ≠ [13, 10, 13, 10]) :
    header_scan buf = .found k :=
  headerScan_found buf k hk hmax hm _ 0 (Nat.zero_le _) (by omega) (fun j _ h => hno j h)

theorem header_scan_notFound (buf : List Nat) (h4 : 4 ≤ buf.length)
    (hmax : buf.length < INT_MAX)
    (hno : ∀ j, (buf.drop j).take 4 ≠ [13, 10, 13, 10]) :
    header_scan buf = .notFound :=
  headerScan_notFound buf h4 hmax hno _ 0 (by omega) (by omega)

/-! ## `strstr` -/

theorem strstr_isSome_iff (pat s : List Nat) : (strstr pat s).isSome ↔ pat <:+: s := by
  induction s with
  | nil =>
    unfold strstr
    by_cases h : pat.isPrefixOf [] = true
    · rw [if_pos h]
      have := List.isPrefixOf_iff_prefix.mp h
      simp only [Option.isSome_some, true_iff]
      exact this.isInfix
    · rw [if_neg h]
      simp only [Option.isSome_none, Bool.false_eq_true, false_iff]
      intro hc
      have hnil : pat = [] := List.eq_nil_of_infix_nil hc
      exact h (by rw [hnil]; rfl)
  | cons c s ih =>
    unfold strstr
    by_cases h : pat.isPrefixOf (c :: s) = true
    · rw [if_pos h]
      simp only [Option.isSome_some, true_iff]
      exact (List.isPrefixOf_iff_prefix.mp h).isInfix
    · rw [if_neg h, ih]
      constructor
      · intro hi
        exact hi.trans (List.suffix_cons c s).isInfix
      · intro hi
        rcases List.infix_cons_iff.mp hi with hp | hi2
        · exact absurd (List.isPrefixOf_iff_prefix.mpr hp) h
        · exact hi2

/-! ## Windows of a buffer that holds a prefix of the stream -/

theorem window_length {l pat : List Nat} {i k : Nat} (h : (l.drop i).take k = pat)
    (hk : pat.length = k) : i + k ≤ l.length ∨ k = 0 := by
  have hl := congrArg List.length h
  simp only [List.length_take, List.length_drop] at hl
  omega

theorem window_take (s : List Nat) (n i k : Nat) (h : i + k ≤ n) :
    ((s.take n).drop i).take k = (s.drop i).take k := by
  rw [List.drop_take, List.take_take]
  congr 1
  omega

theorem window_append_left (h e : List Nat) (i k : Nat) (hik : i + k ≤ h.length) :
    ((h ++ e).drop i).take k = (h.drop i).take k := by
  rw [List.drop_append_of_le_length (by omega), List.take_append_of_le_length]
  rw [List.length_drop]; omega

theorem window_append_right (h e : List Nat) (i : Nat) (hi : h.length ≤ i) :
    (h ++ e).drop i = e.drop (i - h.length) := by
  have : i = h.length + (i - h.length) := by omega
  rw [this, List.drop_append]
  congr 1
  omega

theorem encodeChunked_ends (cs : List (List Nat)) :
    5 ≤ (encodeChunked cs).length
      ∧ ((encodeChunked cs).drop ((encodeChunked cs).length - 5)).take 5 = TERM := by
  unfold encodeChunked
  constructor
  · simp [zeroChunk]
  · have : (encodeChunks cs ++ zeroChunk).length - 5 = (encodeChunks cs).length := by
      simp [zeroChunk]
    rw [this, List.drop_left]
    rfl

/-! ## A chunked response arriving over several reads -/

theorem receive_headers_frame2 (heap : Nat → Bool) (c c1 : HttpClient)
    (h : receive_headers heap c = .ok (.inl c1)) :
    c1.state = c.state ∧ c1.timer = c.timer ∧ c1.timeout = c.timeout := by
  unfold receive_headers at h
  split at h
  · split at h
    · cases h
    · injection h with h; injection h with h
      rw [← h]; exact ⟨rfl, rfl, rfl⟩
    · split at h
      · cases h
      · rename_i c2 heq
        unfold parse_headers at heq
        split at heq
        · cases heq
        · injection heq with heq
          injection h with h; injection h with h
          rw [← h, ← heq]; exact ⟨rfl, rfl, rfl⟩
  · injection h with h; injection h with h
    rw [← h]; exact ⟨rfl, rfl, rfl⟩

theorem reading_receive_frame2 (heap : Nat → Bool) (c c1 : HttpClient) (bytes : List Nat)
    (h : reading_receive heap c bytes = .ok (.inl c1)) :
    c1.state = c.state ∧ c1.timer = c.timer ∧ c1.timeout = c.timeout := by
  unfold reading_receive at h
  split at h
  · cases h
  · split at h
    · cases h
    · obtain ⟨f1, f2, f3⟩ := receive_headers_frame2 heap _ c1 h
      exact ⟨f1, f2, f3⟩

theorem receive_headers_parsed (heap : Nat → Bool) (c : HttpClient) (h : c.body_start ≠ 0) :
    receive_headers heap c = .ok (.inl c) := by
  unfold receive_headers
  rw [if_neg h]

theorem receive_headers_notFound (heap : Nat → Bool) (c : HttpClient) (h : c.body_start = 0)
    (hs : header_scan c.read_buffer = .notFound) :
    receive_headers heap c = .ok (.inl c) := by
  unfold receive_headers
  rw [if_pos h, hs]

theorem receive_headers_found (heap : Nat → Bool) (c : HttpClient) (i : Nat)
    (h : c.body_start = 0) (hs : header_scan c.read_buffer = .found i)
    (hh : heap (i + 4 + 1) = true) :
    receive_headers heap c = .ok (.inl { c with
      chunked := (strstr (str "Transfer-Encoding: chunked") (cstr (headers_copy c i))).isSome
      connection_close := (strstr (str "Connection: close") (cstr (headers_copy c i))).isSome
      status_code := scan_status (headers_copy c i)
      content_len := scan_content_length (headers_copy c i)
      body_start := i + 4 }) := by
  unfold receive_headers
  rw [if_pos h, hs]
  simp only [parse_headers, hh, not_true_eq_false, if_false]

theorem scan_content_length_absent (H : List Nat)
    (h : ¬ str "Content-Length:" <:+: cstr H) : scan_content_length H = 0 := by
  have hn : strstr (str "Content-Length:") (cstr H) = none := by
    cases hs : strstr (str "Content-Length:") (cstr H) with
    | none => rfl
    | some x =>
      exact absurd ((strstr_isSome_iff _ _).mp (by rw [hs]; rfl)) h
  unfold scan_content_length
  rw [hn]

/-- The header scan on a buffer that holds the first `m` bytes of the stream, at
least four and fewer than the header block. -/
theorem header_scan_partial (H E : List Nat) (hH : ChunkedHeaders H)
    (hsize : (H ++ E).length < INT_MAX) (m : Nat) (h4 : 4 ≤ m) (hm : m < H.length) :
    header_scan ((H ++ E).take m) = .notFound := by
  obtain ⟨_, _, hno, _, _⟩ := hH
  have hlen : ((H ++ E).take m).length = m := by
    rw [List.length_take, List.length_append]; omega
  apply header_scan_notFound _ (by omega) (by rw [hlen, List.length_append] at *; omega)
  intro j hc
  have hw := window_length hc rfl
  have hj : j + 4 ≤ m := by omega
  rw [window_take _ _ _ _ hj, window_append_left _ _ _ _ (by omega)] at hc
  exact hno j (by omega) hc

/-- The header scan on a buffer that holds the whole header block. -/
theorem header_scan_complete (H E : List Nat) (hH : ChunkedHeaders H)
    (hsize : (H ++ E).length < INT_MAX) (m : Nat) (hm : H.length ≤ m)
    (hle : m ≤ (H ++ E).length) :
    header_scan ((H ++ E).take m) = .found (H.length - 4) := by
  obtain ⟨h4, hend, hno, _, _⟩ := hH
  have hlen : ((H ++ E).take m).length = m := by
    rw [List.length_take]; omega
  apply header_scan_found _ _ (by omega) (by omega)
  · rw [window_take _ _ _ _ (by omega), window_append_left _ _ _ _ (by omega)]
    exact hend
  · intro j hj
    rw [window_take _ _ _ _ (by omega), window_append_left _ _ _ _ (by omega)]
    exact hno j (by omega)

/-- The append-and-parse phase on the next piece of the stream. -/
theorem receive_stream (heap : Nat → Bool) (hheap : ∀ k, heap k = true) (H E : List Nat)
    (hH : ChunkedHeaders H) (hsize : (H ++ E).length < INT_MAX) (d : Nat)
    (c : HttpClient) (n : Nat) (b : List Nat)
    (h4 : 4 ≤ n + b.length) (hle : n + b.length ≤ (H ++ E).length)
    (hnext : (H ++ E).take (n + b.length) = (H ++ E).take n ++ b)
    (hinv : ReadInv H E d c n) :
    ∃ c1, reading_receive heap c b = .ok (.inl c1) ∧ ReadInv H E d c1 (n + b.length) := by
  obtain ⟨hst, htm, hdl, hcn, hbuf, hhdr⟩ := hinv
  have hIM : INT_MAX = 2147483647 := rfl
  have hSM : SIZE_MOD = 18446744073709551616 := rfl
  have hnlen : c.read_buffer_size = n := by
    unfold HttpClient.read_buffer_size
    rw [hbuf, List.length_take]; omega
  have hmod : (c.read_buffer_size + b.length) % SIZE_MOD = c.read_buffer_size + b.length :=
    Nat.mod_eq_of_lt (by omega)
  have hrr : reading_receive heap c b
      = receive_headers heap { c with read_buffer := c.read_buffer ++ b } := by
    unfold reading_receive
    rw [hmod, if_neg (by simp [hheap]), if_neg (by omega)]
  have hbuf1 : c.read_buffer ++ b = (H ++ E).take (n + b.length) := by
    rw [hnext, hbuf]
  rw [hrr]
  rcases hhdr with ⟨hn, hbs⟩ | ⟨hn, hbs, hcl, hch⟩
  · by_cases hm : n + b.length < H.length
    · refine ⟨{ c with read_buffer := c.read_buffer ++ b }, ?_, hst, htm, hdl, hcn, hbuf1,
        Or.inl ⟨hm, hbs⟩⟩
      have hs : header_scan (c.read_buffer ++ b) = .notFound := by
        rw [hbuf1, header_scan_partial H E hH hsize _ h4 hm]
      exact receive_headers_notFound heap { c with read_buffer := c.read_buffer ++ b } hbs hs
    · have hscan := header_scan_complete H E hH hsize (n + b.length) (by omega) hle
      obtain ⟨hH4, _, _, hHch, hHcl⟩ := hH
      have hcopy : headers_copy { c with read_buffer := c.read_buffer ++ b } (H.length - 4)
          = H := by
        show List.take (H.length - 4 + 4) (c.read_buffer ++ b) = H
        rw [hbuf1, List.take_take, Nat.sub_add_cancel hH4, Nat.min_eq_left (by omega),
          List.take_left]
      have hs : header_scan (c.read_buffer ++ b) = .found (H.length - 4) := by
        rw [hbuf1, hscan]
      have hfound := receive_headers_found heap { c with read_buffer := c.read_buffer ++ b }
        (H.length - 4) hbs hs (hheap _)
      rw [hcopy] at hfound
      refine ⟨_, hfound, hst, htm, hdl, hcn, hbuf1, Or.inr ⟨by omega, ?_, ?_, ?_⟩⟩
      · show H.length - 4 + 4 = H.length
        omega
      · exact scan_content_length_absent H hHcl
      · exact (strstr_isSome_iff _ _).mpr hHch
  · refine ⟨{ c with read_buffer := c.read_buffer ++ b }, ?_, hst, htm, hdl, hcn, hbuf1,
      Or.inr ⟨by omega, hbs, hcl, hch⟩⟩
    have hne : c.body_start ≠ 0 := by
      have := hH.1
      omega
    exact receive_headers_parsed heap { c with read_buffer := c.read_buffer ++ b } hne

/-- The completion check while part of the stream is still to come: READING. -/
theorem complete_stream_partial (heap : Nat → Bool) (peek : Recv) (H : List Nat)
    (E : List Nat)
    (hterm : ∀ j, j + 5 < E.length → (E.drop j).take 5 ≠ TERM)
    (d : Nat) (c : HttpClient) (m : Nat) (hm : m < (H ++ E).length)
    (hinv : ReadInv H E d c m) :
    reading_complete heap peek c = .ok ⟨c, .READING, [], []⟩ := by
  obtain ⟨_, _, _, _, hbuf, hhdr⟩ := hinv
  rcases hhdr with ⟨_, hbs⟩ | ⟨hn, hbs, hcl, hch⟩
  · unfold reading_complete
    rw [if_neg (by omega)]
  · by_cases hpos : 0 < c.body_start
    swap
    · unfold reading_complete
      rw [if_neg hpos]
    rw [reading_complete_chunked heap peek c hpos hcl hch]
    unfold complete_chunked
    rw [term_scan_absent]
    intro i hi hc
    rw [hbuf] at hc
    have hw := window_length hc rfl
    have hi5 : i + 5 ≤ m := by
      rw [List.length_take] at hw
      omega
    rw [window_take _ _ _ _ hi5, window_append_right _ _ _ (by omega)] at hc
    rw [List.length_append] at hm
    exact hterm (i - H.length) (by omega) hc

/-- The completion check once the whole stream is buffered: the body is decoded
and the step returns DONE. -/
theorem complete_stream_whole (heap : Nat → Bool) (peek : Recv)
    (H : List Nat) (hH : ChunkedHeaders H) (E p : List Nat)
    (hE5 : 5 ≤ E.length) (hEend : (E.drop (E.length - 5)).take 5 = TERM)
    (hdec : decode_chunked heap E = .ok p)
    (hterm : ∀ j, j + 5 < E.length → (E.drop j).take 5 ≠ TERM)
    (hsize : (H ++ E).length < INT_MAX)
    (d : Nat) (c : HttpClient)
    (hinv : ReadInv H E d c (H ++ E).length) :
    reading_complete heap peek c
      = .ok ⟨{ c with body := some p, content_len := p.length }, .DONE, [], []⟩ := by
  obtain ⟨_, _, _, _, hbuf, hhdr⟩ := hinv
  have hH4 := hH.1
  have hIM : INT_MAX = 2147483647 := rfl
  have hPD : PTRDIFF_MAX = 9223372036854775807 := rfl
  rw [List.take_length] at hbuf
  rcases hhdr with ⟨hn, _⟩ | ⟨hn, hbs, hcl, hch⟩
  · rw [List.length_append] at hn; omega
  · rw [reading_complete_chunked heap peek c (by omega) hcl hch]
    unfold complete_chunked
    rw [List.length_append] at hsize
    have hfirst : term_scan c.read_buffer c.body_start
        = some (H.length + (E.length - 5)) := by
      apply term_scan_first
      · omega
      · rw [hbuf, window_append_right _ _ _ (by omega)]
        rw [show H.length + (E.length - 5) - H.length
          = E.length - 5 by omega]
        exact hEend
      · intro i hi hlt
        rw [hbuf, window_append_right _ _ _ (by omega)]
        exact hterm (i - H.length) (by omega)
    rw [hfirst]
    have hslice : (c.read_buffer.drop c.body_start).take
        (H.length + (E.length - 5) + 5 - c.body_start) = E := by
      rw [hbuf, hbs, List.drop_left]
      rw [show H.length + (E.length - 5) + 5 - H.length
        = E.length by omega, List.take_length]
    simp only [hslice, store_decoded, hdec]

theorem readInv_state (H E : List Nat) (d : Nat) (c : HttpClient) (n : Nat)
    (h : ReadInv H E d c n) : ReadInv H E d { c with state := .READING } n := by
  obtain ⟨_, h2, h3, h4, h5, h6⟩ := h
  exact ⟨rfl, h2, h3, h4, h5, h6⟩

/-- Before the deadline, the tick of a client in READING is its READING handler. -/
theorem work_reading_tick (env : Env) (c : HttpClient) (t : Nat)
    (hst : c.state = .READING) (htm : c.timer ≠ 0) (ht : t < (c.timer + c.timeout) % SIZE_MOD) :
    http_client_work env c t
      = (http_client_work_reading env.heap env.recv env.peek c).tick := by
  unfold http_client_work
  rw [if_neg htm, if_neg (by omega)]
  unfold work_switch
  rw [hst]

theorem reading_would_block (heap : Nat → Bool) (peek : Recv) (c : HttpClient) (e : Nat)
    (hconn : c.tcp_conn ≠ none) (he : e = EAGAIN ∨ e = EWOULDBLOCK) :
    http_client_work_reading heap (.fail e) peek c = .ok ⟨c, .READING, [], []⟩ := by
  obtain ⟨fd, hfd⟩ := Option.ne_none_iff_exists'.mp hconn
  have hr : tcp_client_read (.fail e) = 0 := by
    unfold tcp_client_read
    simp only [Recv.ret, Recv.errno]
    rw [if_pos (by omega), if_pos he]
  unfold http_client_work_reading
  rw [hfd]
  simp only [hr]
  rw [if_neg (by omega)]
  simp

theorem stream_next (s b tl : List Nat) (n : Nat) (h : s.drop n = b ++ tl) (hb : b ≠ []) :
    n + b.length ≤ s.length ∧ s.take (n + b.length) = s.take n ++ b
      ∧ s.drop (n + b.length) = tl := by
  have hlen := congrArg List.length h
  rw [List.length_drop, List.length_append] at hlen
  have hbpos : 0 < b.length := List.length_pos.mpr hb
  have hle : n + b.length ≤ s.length := by omega
  have hdrop : s.drop (n + b.length) = tl := by
    rw [← List.drop_drop, h, List.drop_left]
  refine ⟨hle, ?_, hdrop⟩
  have h1 : s.take (n + b.length) = s.take n ++ (s.drop n).take b.length := by
    rw [List.take_add]
  rw [h1, h, List.take_left]

/-- The ticks of `ReadsDeliver` take the client to DONE with the payload as body,
without any callback invocation on the way. -/
theorem deliver_run (H : List Nat) (hH : ChunkedHeaders H) (E p : List Nat)
    (hE5 : 5 ≤ E.length) (hEend : (E.drop (E.length - 5)).take 5 = TERM)
    (hdec : ∀ heap : Nat → Bool, (∀ k, heap k = true) → decode_chunked heap E = .ok p)
    (hterm : ∀ j, j + 5 < E.length → (E.drop j).take 5 ≠ TERM)
    (hsize : (H ++ E).length < INT_MAX) (d : Nat) :
    ∀ (ticks : List (Env × Nat)) (n : Nat) (c : HttpClient),
      ReadInv H E d c n → n < (H ++ E).length →
      ReadsDeliver d ticks n ((H ++ E).drop n) →
      ∃ k c1, run (ticks.take k) c [] [] = .alive c1 [] [] ∧ c1.state = .DONE
        ∧ c1.body = some p ∧ c1.content_len = p.length := by
  intro ticks
  induction ticks with
  | nil =>
    intro n c _ hn hd
    have hnil : (H ++ E).drop n = [] := hd
    have := congrArg List.length hnil
    rw [List.length_drop] at this
    simp only [List.length_nil] at this
    omega
  | cons tick rest ih =>
    intro n c hinv hn hd
    obtain ⟨env, t⟩ := tick
    obtain ⟨ht, hheap, hcase⟩ := hd
    have hinv0 := hinv
    obtain ⟨hst, htm, hdl, hcn, hbuf, hhdr⟩ := hinv
    have hwork := work_reading_tick env c t hst htm (by rw [hdl]; exact ht)
    rcases hcase with ⟨e, hrecv, he, hrest⟩ | ⟨b, tl, hrecv, hb, h4, hdata, hrest⟩
    · -- the read would block
      have hstep : http_client_work env c t = .alive { c with state := .READING } [] [] := by
        rw [hwork, hrecv, reading_would_block env.heap env.peek c e hcn he]
        rfl
      obtain ⟨k, c1, hrun, hres⟩ :=
        ih n { c with state := .READING } (readInv_state _ _ _ _ _ hinv0) hn hrest
      refine ⟨k + 1, c1, ?_, hres⟩
      rw [List.take_succ_cons, run, hstep]
      exact hrun
    · -- the read delivers `b`
      obtain ⟨hle, hnext, hdrop⟩ := stream_next _ b tl n hdata hb
      obtain ⟨c1, hrcv, hinv1⟩ :=
        receive_stream env.heap hheap H E hH hsize d c n b h4 hle hnext hinv0
      have hread : http_client_work_reading env.heap (.got b) env.peek c
          = reading_complete env.heap env.peek c1 := by
        rw [reading_data_tick env.heap env.peek c b hcn hb, hrcv]
      by_cases hmore : n + b.length < (H ++ E).length
      · have hstep : http_client_work env c t
            = .alive { c1 with state := .READING } [] [] := by
          rw [hwork, hrecv, hread,
            complete_stream_partial env.heap env.peek H E hterm d c1 _ hmore hinv1]
          rfl
        rw [← hdrop] at hrest
        obtain ⟨k, c2, hrun, hres⟩ :=
          ih (n + b.length) { c1 with state := .READING } (readInv_state _ _ _ _ _ hinv1)
            hmore hrest
        refine ⟨k + 1, c2, ?_, hres⟩
        rw [List.take_succ_cons, run, hstep]
        exact hrun
      · have hall : n + b.length = (H ++ E).length := by omega
        rw [hall] at hinv1
        have hstep : http_client_work env c t
            = .alive { c1 with body := some p, content_len := p.length, state := .DONE }
                [] [] := by
          rw [hwork, hrecv, hread,
            complete_stream_whole env.heap env.peek H hH E p hE5 hEend (hdec env.heap hheap)
              hterm hsize d c1 hinv1]
          rfl
        refine ⟨1, { c1 with body := some p, content_len := p.length, state := .DONE }, ?_,
          rfl, rfl, rfl⟩
        rw [List.take_succ_cons, List.take_zero, run, hstep]
        rfl

theorem header_c_chunked : ChunkedHeaders header_c := by
  refine ⟨by decide, by decide, ?_, by decide, by decide⟩
  intro j hj
  have hj2 : j < 43 := by
    have : header_c.length = 47 := by decide
    omega
  interval_cases j <;> decide

/-- C4 (counterexample). The payload is the five bytes `0 CR LF CR LF`, sent as one
chunk after `header_c` and received in one read.  The scan for the terminator
stops inside the chunk data, the decoder is given the truncated input
`5 CRLF 0 CRLF CRLF`, fails, and the client goes to DISPOSE with `ERROR`
`Chunked decode failed`; the next tick frees it.  It never reaches DONE. -/
theorem chunked_payload_holding_terminator :
    run [tick_at 2 (.got (header_c ++ encodeChunked [[48, 13, 10, 13, 10]]))]
        reading_client [] []
      = .alive
          { reading_client with
            state := .DISPOSE
            read_buffer := header_c ++ encodeChunked [[48, 13, 10, 13, 10]]
            body_start := 47, status_code := 200, chunked := true }
          [⟨"ERROR", some (str "Chunked decode failed")⟩] []
    ∧ (run [tick_at 2 (.got (header_c ++ encodeChunked [[48, 13, 10, 13, 10]])),
            tick_at 3 (.fail EAGAIN)]
        reading_client [] []).isFreed = true := by
  constructor <;> decide

/-! ## The message of a remote error -/

theorem decDigits_digits (fuel n : Nat) (hf : n < fuel) (hn : 0 < n) :
    decDigits fuel n = (Nat.digits 10 n).reverse.map (fun d => 48 + d) := by
  induction fuel generalizing n with
  | zero => omega
  | succ k ih =>
    unfold decDigits
    by_cases h10 : n < 10
    · rw [if_pos h10, Nat.digits_of_lt 10 n (by omega) h10]
      rfl
    · rw [if_neg h10, Nat.digits_def' (by norm_num) hn, List.reverse_cons, List.map_append,
        ih (n / 10) (by omega) (by omega)]
      rfl

theorem fmt_d_eq_decimal (z : Int) : fmt_d z = decimal z := by
  unfold fmt_d decimal
  by_cases hneg : z < 0
  · have hz : z ≠ 0 := by omega
    rw [if_pos hneg, if_pos hneg, if_neg hz,
      decDigits_digits _ _ (Nat.lt_succ_self _) (by omega)]
    rfl
  · rw [if_neg hneg, if_neg hneg]
    by_cases hz : z = 0
    · rw [if_pos hz, hz]
      rfl
    · rw [if_neg hz, decDigits_digits _ _ (Nat.lt_succ_self _) (by omega)]
      rfl

theorem error_info_eq (c : HttpClient) :
    error_info c = (remote_error_text c.status_code (body_text c)).take 255 := by
  unfold error_info remote_error_text
  rw [fmt_d_eq_decimal]

/-- C11 (counterexample). A client with a callback whose response had status 500
and a body of 300 letters `a`: the `ERROR` payload passed by `http_client_work_done`
is `HTTP 500: ` followed by 245 letters, 255 bytes in all, whereas the string made
of `HTTP `, the code, `: ` and the whole body has 310 bytes. -/
theorem remote_error_message_truncated :
    (http_client_work_done
        { hello_client with status_code := 500, body := some (List.replicate 300 97) }).calls
      = [⟨"ERROR", some (str "HTTP 500: " ++ List.replicate 245 97)⟩]
    ∧ remote_error_text 500 (List.replicate 300 97) = str "HTTP 500: " ++ List.replicate 300 97
    ∧ str "HTTP 500: " ++ List.replicate 245 97 ≠ str "HTTP 500: " ++ List.replicate 300 97 := by
  refine ⟨by decide, ?_, by decide⟩
  unfold remote_error_text
  rw [← fmt_d_eq_decimal]
  decide

/-- C11 (amended). For every status code outside `[200, 300)` and every body, the
`ERROR` payload that `http_client_work_done` passes to a registered callback is the
first 255 bytes of the string made of `HTTP `, the decimal status code, `: ` and the
body text (the bytes of the body before its first NUL, nothing for a null body):
the whole string when it has at most 255 bytes. -/
theorem remote_error_message (c : HttpClient) (hcb : c.callback = true)
    (hcode : ¬ (200 ≤ c.status_code ∧ c.status_code < 300)) :
    (http_client_work_done c).calls
        = [⟨"ERROR", some ((remote_error_text c.status_code (body_text c)).take 255)⟩]
    ∧ ((remote_error_text c.status_code (body_text c)).length ≤ 255 →
        (http_client_work_done c).calls
          = [⟨"ERROR", some (remote_error_text c.status_code (body_text c))⟩]) := by
  have h1 : (http_client_work_done c).calls
      = [⟨"ERROR", some ((remote_error_text c.status_code (body_text c)).take 255)⟩] := by
    show done_calls c = _
    rw [done_calls, if_neg hcode, emit, hcb, error_info_eq]
    rfl
  refine ⟨h1, fun hlen => ?_⟩
  rw [h1, List.take_of_length_le hlen]

/-- Witness for C11 (amended): status 404 with the body `gone` gives the payload
`HTTP 404: gone`. -/
theorem remote_error_message_witness :
    (http_client_work_done
        { hello_client with status_code := 404, body := some (str "gone") }).calls
      = [⟨"ERROR", some (str "HTTP 404: gone")⟩] := by
  have h := (remote_error_message
    { hello_client with status_code := 404, body := some (str "gone") } (by decide)
    (by decide)).1
  rw [h, ← error_info_eq]
  decide

/-! ## Scenario B -/

/-- C12 (the code at the failing input, and at the other timing). The client for
`http://example.com/status` reaches READING in four ticks and receives the whole of
`response_b` on the fifth.  When the peer has not closed yet, the peek of that tick
would block and the client stays in READING; the `recv` of the sixth tick returns 0,
`tcp_client_read` returns -2, and the handler reports `ERROR` with `Read failed`:
that is the only callback invocation of the request.  When the close is already seen
by the peek of the fifth tick, the only invocation is `ERROR` with `HTTP 404: `. -/
theorem scenario_b_late_close_is_read_failure :
    run [(env_ok heap_all (.fail EAGAIN) (.fail EAGAIN), 1),
         (env_ok heap_all (.fail EAGAIN) (.fail EAGAIN), 2),
         (env_ok heap_all (.fail EAGAIN) (.fail EAGAIN), 3),
         (env_ok heap_all (.fail EAGAIN) (.fail EAGAIN), 4),
         (env_ok heap_all (.got response_b) (.fail EAGAIN), 5),
         (env_ok heap_all (.got []) (.fail EAGAIN), 6),
         (env_ok heap_all (.fail EAGAIN) (.fail EAGAIN), 7)]
        (new_client true (str "http://example.com/status") 60 true) [] []
      = .freed
          { new_client true (str "http://example.com/status") 60 true with
            state := .DISPOSE, timer := 1, write_size := 296, write_offset := 296,
            read_buffer := response_b, body_start := 45, status_code := 404,
            tcp_conn := some 3,
            hostname := str "example.com", port := str "80", path := str "/status" }
          [⟨"ERROR", some (str "Read failed")⟩]
    ∧ run [(env_ok heap_all (.fail EAGAIN) (.fail EAGAIN), 1),
         (env_ok heap_all (.fail EAGAIN) (.fail EAGAIN), 2),
         (env_ok heap_all (.fail EAGAIN) (.fail EAGAIN), 3),
         (env_ok heap_all (.fail EAGAIN) (.fail EAGAIN), 4),
         (env_ok heap_all (.got response_b) (.got []), 5),
         (env_ok heap_all (.fail EAGAIN) (.fail EAGAIN), 6),
         (env_ok heap_all (.fail EAGAIN) (.fail EAGAIN), 7)]
        (new_client true (str "http://example.com/status") 60 true) [] []
      = .freed
          { new_client true (str "http://example.com/status") 60 true with
            state := .DISPOSE, timer := 1, write_size := 296, write_offset := 296,
            body_start := 45, status_code := 404,
            hostname := str "example.com", port := str "80", path := str "/status" }
          [⟨"ERROR", some (str "HTTP 404: ")⟩] := by
  constructor <;> decide

/-! ## The URL parser -/

theorem takeWhile_agree (p q : Nat → Bool) (l : List Nat) (h : ∀ b ∈ l, p b = q b) :
    l.takeWhile p = l.takeWhile q := by
  induction l with
  | nil => rfl
  | cons a t ih =>
    have ha : p a = q a := h a (List.mem_cons_self _ _)
    have ht : ∀ b ∈ t, p b = q b := fun b hb => h b (List.mem_cons_of_mem _ hb)
    simp only [List.takeWhile_cons, ha, ih ht]

theorem dropWhile_agree (p q : Nat → Bool) (l : List Nat) (h : ∀ b ∈ l, p b = q b) :
    l.dropWhile p = l.dropWhile q := by
  induction l with
  | nil => rfl
  | cons a t ih =>
    have ha : p a = q a := h a (List.mem_cons_self _ _)
    have ht : ∀ b ∈ t, p b = q b := fun b hb => h b (List.mem_cons_of_mem _ hb)
    simp only [List.dropWhile_cons, ha, ih ht]

theorem dropWhile_eq_drop (p : Nat → Bool) (l : List Nat) :
    l.dropWhile p = l.drop (l.takeWhile p).length := by
  induction l with
  | nil => rfl
  | cons a t ih =>
    by_cases ha : p a = true
    · simp only [List.dropWhile_cons, List.takeWhile_cons, ha, if_true, List.length_cons,
        List.drop_succ_cons, ih]
    · simp only [List.dropWhile_cons, List.takeWhile_cons, ha, if_false, List.length_nil,
        List.drop_zero]
      simp

theorem cstr_of_isCString (s : List Nat) (h : IsCString s) : cstr s = s := by
  unfold cstr
  rw [List.takeWhile_eq_self_iff]
  intro b hb
  simpa using h b hb

theorem to_int_small (n : Nat) (h : n ≤ INT_MAX) : to_int n = (n : Int) := by
  unfold INT_MAX at h
  unfold to_int
  have h1 : n % 4294967296 = n := Nat.mod_eq_of_lt (by omega)
  rw [h1, if_pos (by omega)]

theorem url_start_eq (url : List Nat) : url_start url = after_scheme url := by
  unfold url_start after_scheme
  have e7 : (str "http://" <+: url) ↔ url.take 7 = str "http://" := by
    rw [List.prefix_iff_eq_take]
    constructor
    · intro h; exact h.symm
    · intro h; exact h.symm
  have e8 : (str "https://" <+: url) ↔ url.take 8 = str "https://" := by
    rw [List.prefix_iff_eq_take]
    constructor
    · intro h; exact h.symm
    · intro h; exact h.symm
  by_cases h8 : url.take 8 = str "https://"
  · have h7 : ¬ url.take 7 = str "http://" := by
      intro h7
      have : (url.take 8).take 7 = url.take 7 := by
        rw [List.take_take]; rfl
      rw [h8, h7] at this
      revert this; decide
    rw [if_neg h7, if_pos h8, if_pos (e8.mpr h8)]
  · rw [if_neg h8, if_neg (fun h => h8 (e8.mp h))]
    by_cases h7 : url.take 7 = str "http://"
    · rw [if_pos h7, if_pos (e7.mpr h7)]
    · rw [if_neg h7, if_neg (fun h => h7 (e7.mp h))]

theorem default_port_eq (url : List Nat) : default_port url = scheme_port url := by
  unfold default_port scheme_port
  have e8 : (str "https://" <+: url) ↔ url.take 8 = str "https://" := by
    rw [List.prefix_iff_eq_take]
    constructor
    · intro h; exact h.symm
    · intro h; exact h.symm
  by_cases h8 : url.take 8 = str "https://"
  · have h7 : ¬ url.take 7 = str "http://" := by
      intro h7
      have : (url.take 8).take 7 = url.take 7 := by
        rw [List.take_take]; rfl
      rw [h8, h7] at this
      revert this; decide
    rw [if_neg h7, if_pos h8, if_pos (e8.mpr h8)]
  · rw [if_neg h8, if_neg (fun h => h8 (e8.mp h))]
    by_cases h7 : url.take 7 = str "http://"
    · rw [if_pos h7]
    · rw [if_neg h7]

theorem isCString_drop (s : List Nat) (k : Nat) (h : IsCString s) : IsCString (s.drop k) :=
  fun b hb => h b (List.mem_of_mem_drop hb)

theorem isCString_after_scheme (url : List Nat) (h : IsCString url) :
    IsCString (after_scheme url) := by
  unfold after_scheme
  split
  · exact isCString_drop _ _ h
  · split
    · exact isCString_drop _ _ h
    · exact h

theorem in_host_eq (b : Nat) (hb : b ≠ 0) : in_host b = decide (b ≠ 58 ∧ b ≠ 47) := by
  unfold in_host
  by_cases h1 : b = 58
  · subst h1; decide
  · by_cases h2 : b = 47
    · subst h2; decide
    · simp [hb, h1, h2]

theorem in_port_eq (b : Nat) (hb : b ≠ 0) : in_port b = decide (b ≠ 47) := by
  unfold in_port
  by_cases h2 : b = 47
  · subst h2; decide
  · simp [hb, h2]

theorem host_text_eq (url : List Nat) (h : IsCString url) :
    host_text url = hostname_component url := by
  unfold host_text hostname_component
  rw [url_start_eq]
  exact takeWhile_agree _ _ _ (fun b hb => in_host_eq b (isCString_after_scheme url h b hb))

theorem host_end_eq (url : List Nat) (h : IsCString url) :
    host_end url = after_hostname url := by
  unfold host_end after_hostname hostname_component
  rw [url_start_eq, ← dropWhile_eq_drop]
  exact dropWhile_agree _ _ _ (fun b hb => in_host_eq b (isCString_after_scheme url h b hb))

theorem isCString_after_hostname (url : List Nat) (h : IsCString url) :
    IsCString (after_hostname url) :=
  isCString_drop _ _ (isCString_after_scheme url h)

theorem port_text_eq (url : List Nat) (h : IsCString url) :
    port_text url = port_component url := by
  unfold port_text port_component
  rw [host_end_eq url h]
  have hc := isCString_after_hostname url h
  split
  · rename_i r heq
    rw [heq] at hc
    exact takeWhile_agree _ _ _
      (fun b hb => in_port_eq b (hc b (List.mem_cons_of_mem _ hb)))
  · rfl

theorem port_end_eq (url : List Nat) (h : IsCString url) :
    port_end url = after_port url := by
  unfold port_end after_port
  rw [host_end_eq url h]
  have hc := isCString_after_hostname url h
  split
  · rename_i r heq
    rw [heq] at hc
    rw [← dropWhile_eq_drop]
    exact dropWhile_agree _ _ _
      (fun b hb => in_port_eq b (hc b (List.mem_cons_of_mem _ hb)))
  · rfl

/-- The hostname component and what follows it make up the URL behind the scheme. -/
theorem hostname_component_append (url : List Nat) :
    hostname_component url ++ after_hostname url = after_scheme url := by
  unfold after_hostname hostname_component
  rw [← dropWhile_eq_drop]
  exact List.takeWhile_append_dropWhile _ _

theorem hostname_component_chars (url : List Nat) :
    ∀ b ∈ hostname_component url, b ≠ 58 ∧ b ≠ 47 := by
  intro b hb
  unfold hostname_component at hb
  simpa using List.mem_takeWhile_imp hb

theorem after_hostname_head (url : List Nat) :
    after_hostname url = [] ∨ (∃ t, after_hostname url = 58 :: t)
      ∨ (∃ t, after_hostname url = 47 :: t) := by
  unfold after_hostname hostname_component
  rw [← dropWhile_eq_drop]
  cases hd : (after_scheme url).dropWhile (fun c => decide (c ≠ 58 ∧ c ≠ 47)) with
  | nil => exact Or.inl rfl
  | cons a t =>
    have := List.head_dropWhile_not (fun c => decide (c ≠ 58 ∧ c ≠ 47)) (after_scheme url)
      (by rw [hd]; exact List.cons_ne_nil _ _)
    simp only [hd, List.head_cons] at this
    have h2 : ¬ (a ≠ 58 ∧ a ≠ 47) := by simpa using this
    by_cases h58 : a = 58
    · exact Or.inr (Or.inl ⟨t, by rw [h58]⟩)
    · have h47 : a = 47 := by
        by_contra h47
        exact h2 ⟨h58, h47⟩
      exact Or.inr (Or.inr ⟨t, by rw [h47]⟩)

theorem after_port_head (url : List Nat) :
    after_port url = [] ∨ (∃ t, after_port url = 47 :: t)
      ∨ ((¬ ∃ t, after_hostname url = 58 :: t) ∧ after_port url = after_hostname url) := by
  unfold after_port
  split
  · rename_i r heq
    rw [← dropWhile_eq_drop]
    cases hd : r.dropWhile (fun c => decide (c ≠ 47)) with
    | nil => exact Or.inl rfl
    | cons a t =>
      have := List.head_dropWhile_not (fun c => decide (c ≠ 47)) r
        (by rw [hd]; exact List.cons_ne_nil _ _)
      simp only [hd, List.head_cons] at this
      have h47 : a = 47 := by simpa using this
      exact Or.inr (Or.inl ⟨t, by rw [h47]⟩)
  · rename_i hne
    exact Or.inr (Or.inr ⟨fun ⟨t, ht⟩ => hne t ht, rfl⟩)

theorem after_scheme_length_le (url : List Nat) : (after_scheme url).length ≤ url.length := by
  unfold after_scheme
  split
  · rw [List.length_drop]; omega
  · split
    · rw [List.length_drop]; omega
    · exact Nat.le_refl _

theorem takeWhile_length_le (p : Nat → Bool) (l : List Nat) :
    (l.takeWhile p).length ≤ l.length :=
  (List.takeWhile_sublist p).length_le

theorem hostname_component_length_le (url : List Nat) :
    (hostname_component url).length ≤ url.length :=
  Nat.le_trans (takeWhile_length_le _ _) (after_scheme_length_le url)

theorem after_hostname_length_le (url : List Nat) :
    (after_hostname url).length ≤ url.length := by
  unfold after_hostname
  rw [List.length_drop]
  have := after_scheme_length_le url
  omega

theorem port_component_length_le (url : List Nat) :
    (port_component url).length ≤ url.length := by
  have h := after_hostname_length_le url
  unfold port_component
  split
  · rename_i r heq
    rw [heq] at h
    have := takeWhile_length_le (fun c => decide (c ≠ 47)) r
    simp only [List.length_cons] at h
    omega
  · exact Nat.zero_le _

theorem hostname_len_eq (url : List Nat) (h : IsCString url)
    (hl : (hostname_component url).length ≤ INT_MAX) :
    hostname_len url = ((hostname_component url).length : Int) := by
  unfold hostname_len
  rw [host_text_eq url h, to_int_small _ hl]

theorem port_len_eq (url : List Nat) (h : IsCString url)
    (hl : (port_component url).length ≤ INT_MAX) :
    port_len url = ((port_component url).length : Int) := by
  unfold port_len
  rw [port_text_eq url h, to_int_small _ hl]

/-- The error exit of `parse_url`: `hostname` is left as it was, `port` and `path`
hold the defaults written at the start. -/
theorem parse_url_error (url hostname port path : List Nat) (h : IsCString url)
    (hl : (hostname_component url).length ≤ INT_MAX)
    (hbad : hostname_component url = [] ∨ 255 < (hostname_component url).length) :
    parse_url url hostname port path = .ok (-1, hostname, scheme_port url, str "/") := by
  unfold parse_url
  rw [hostname_len_eq url h hl, default_port_eq]
  have hc : ((hostname_component url).length : Int) = 0
      ∨ ((hostname_component url).length : Int) > 255 := by
    rcases hbad with h0 | h1
    · left; rw [h0]; rfl
    · right; omega
  rw [if_pos hc]

/-- The regular exit of `parse_url`. -/
theorem parse_url_success (url hostname port path : List Nat) (h : IsCString url)
    (hne : hostname_component url ≠ []) (h255 : (hostname_component url).length ≤ 255) :
    parse_url url hostname port path
      = .ok (0, hostname_component url, port_out url, path_out url) := by
  have hpos : 0 < (hostname_component url).length := List.length_pos.mpr hne
  have hl : (hostname_component url).length ≤ INT_MAX := by unfold INT_MAX; omega
  unfold parse_url
  rw [hostname_len_eq url h hl]
  have hc : ¬ (((hostname_component url).length : Int) = 0
      ∨ ((hostname_component url).length : Int) > 255) := by omega
  rw [if_neg hc, if_neg (by omega), host_text_eq url h, Int.toNat_natCast, List.take_length]

/-- The port output: the port component when it has 1 to 15 characters, the default
of the scheme otherwise. -/
theorem port_out_eq (url : List Nat) (h : IsCString url)
    (hl : (port_component url).length ≤ INT_MAX) :
    port_out url
      = if 1 ≤ (port_component url).length ∧ (port_component url).length ≤ 15 then
          port_component url
        else scheme_port url := by
  have hlen := port_len_eq url h hl
  have htext := port_text_eq url h
  have hcomp : (∀ t, after_hostname url ≠ 58 :: t) → port_component url = [] := by
    intro hne
    unfold port_component
    split
    · rename_i r heq; exact absurd heq (hne r)
    · rfl
  unfold port_out
  rw [host_end_eq url h, default_port_eq]
  split
  · rw [hlen, htext]
    by_cases hc : 1 ≤ (port_component url).length ∧ (port_component url).length ≤ 15
    · rw [if_pos hc, if_pos (by omega), Int.toNat_natCast, List.take_length]
    · rw [if_neg hc, if_neg (by omega)]
  · rename_i hne
    have : port_component url = [] := hcomp (fun t ht => hne t ht)
    rw [this]
    rfl

/-- The path output when no `/` follows host and port. -/
theorem path_out_default (url : List Nat) (h : IsCString url)
    (hr : ∀ r, after_port url ≠ 47 :: r) : path_out url = str "/" := by
  unfold path_out
  rw [port_end_eq url h]
  split
  · rename_i r heq; exact absurd heq (hr r)
  · rfl

theorem port_component_nil (url : List Nat) (h : (after_hostname url).head? ≠ some 58) :
    port_component url = [] := by
  unfold port_component
  split
  · rename_i r heq
    exact absurd (by rw [heq]; rfl) h
  · rfl

theorem after_port_no_colon (url : List Nat) (h : (after_hostname url).head? ≠ some 58) :
    after_port url = after_hostname url := by
  unfold after_port
  split
  · rename_i r heq
    exact absurd (by rw [heq]; rfl) h
  · rfl

theorem http_not_https (url : List Nat) (h : str "http://" <+: url) :
    ¬ str "https://" <+: url := by
  intro h8
  have := List.prefix_of_prefix_length_le h h8 (by decide)
  revert this
  decide

/-- A URL without scheme that consists of host characters only. -/
theorem parse_url_bare_host (url : List Nat) (h7 : url.take 7 ≠ str "http://")
    (h8 : url.take 8 ≠ str "https://") (hall : ∀ b ∈ url, in_host b = true) :
    host_text url = url ∧ port_out url = str "80" ∧ path_out url = str "/" := by
  have hstart : url_start url = url := by
    unfold url_start
    rw [if_neg h7, if_neg h8]
  have hdef : default_port url = str "80" := by
    unfold default_port
    rw [if_neg h7, if_neg h8]
  have hhost : host_text url = url := by
    unfold host_text
    rw [hstart, List.takeWhile_eq_self_iff]
    exact hall
  have hend : host_end url = [] := by
    unfold host_end
    rw [hstart, List.dropWhile_eq_nil_iff]
    exact hall
  refine ⟨hhost, ?_, ?_⟩
  · unfold port_out
    rw [hend, hdef]
  · unfold path_out port_end
    rw [hend]

/-- Beyond `INT_MAX` characters `hostname_len` no longer is the length of the
hostname component: a URL of `2^32 + 1` letters `a` is parsed as the host `a`. -/
theorem parse_url_of_long_host (hostname port path : List Nat) :
    hostname_component (List.replicate 4294967297 97) = List.replicate 4294967297 97
    ∧ parse_url (List.replicate 4294967297 97) hostname port path
        = .ok (0, [97], str "80", str "/") := by
  have e7 : (List.replicate 4294967297 97).take 7 = List.replicate 7 97 := by
    rw [List.take_replicate]; rfl
  have e8 : (List.replicate 4294967297 97).take 8 = List.replicate 8 97 := by
    rw [List.take_replicate]; rfl
  have hmem : ∀ b ∈ List.replicate 4294967297 97, b = 97 :=
    fun b hb => List.eq_of_mem_replicate hb
  obtain ⟨hhost, hport, hpath⟩ := parse_url_bare_host (List.replicate 4294967297 97)
    (by rw [e7]; decide) (by rw [e8]; decide) (fun b hb => by rw [hmem b hb]; decide)
  have hlen : hostname_len (List.replicate 4294967297 97) = 1 := by
    unfold hostname_len
    rw [hhost, List.length_replicate]
    decide
  constructor
  · rw [← host_text_eq _ (fun b hb => by rw [hmem b hb]; decide), hhost]
  · unfold parse_url
    rw [hlen, if_neg (by decide), if_neg (by decide), hhost, hport, hpath]
    rfl

/-! ## Claims about the URL parser -/

/-- C13. For every URL (a C string) whose hostname component is non-empty and at
most 255 characters long and is not followed by `:`, `parse_url` returns 0 with
that non-empty component as hostname; the port output is `80` when the URL starts
with `http://` or with neither scheme and `443` when it starts with `https://`;
and when no `/` follows the host the path output is `/`. -/
theorem url_defaults (url hostname port path : List Nat) (hs : IsCString url)
    (hne : hostname_component url ≠ []) (h255 : (hostname_component url).length ≤ 255)
    (hport : (after_hostname url).head? ≠ some 58) :
    ∃ h p q, parse_url url hostname port path = .ok (0, h, p, q)
      ∧ h = hostname_component url ∧ h ≠ []
      ∧ (str "http://" <+: url → p = str "80")
      ∧ (str "https://" <+: url → p = str "443")
      ∧ (¬ str "http://" <+: url → ¬ str "https://" <+: url → p = str "80")
      ∧ ((after_hostname url).head? ≠ some 47 → q = str "/") := by
  have hpc : port_component url = [] := port_component_nil url hport
  have hpo : port_out url = scheme_port url := by
    rw [port_out_eq url hs (by rw [hpc]; exact Nat.zero_le _), hpc]
    rfl
  refine ⟨_, _, _, parse_url_success url hostname port path hs hne h255, rfl, hne, ?_, ?_, ?_, ?_⟩
  · intro h7
    rw [hpo]; unfold scheme_port
    rw [if_neg (http_not_https url h7)]
  · intro h8
    rw [hpo]; unfold scheme_port
    rw [if_pos h8]
  · intro _ h8
    rw [hpo]; unfold scheme_port
    rw [if_neg h8]
  · intro hslash
    apply path_out_default url hs
    intro r hr
    rw [after_port_no_colon url hport] at hr
    exact hslash (by rw [hr]; rfl)

/-- Witness for C13: `https://example.com` gives hostname `example.com`, port `443`
and path `/`. -/
theorem url_defaults_witness :
    ∃ h p q, parse_url (str "https://example.com") [] [] [] = .ok (0, h, p, q)
      ∧ h = str "example.com" ∧ p = str "443" ∧ q = str "/" := by
  obtain ⟨h, p, q, h1, h2, _, _, h4, _, h6⟩ :=
    url_defaults (str "https://example.com") [] [] [] (by unfold IsCString; decide)
      (by decide) (by decide) (by decide)
  exact ⟨h, p, q, h1, by rw [h2]; decide, h4 (by decide), h6 (by decide)⟩

/-- C14. For every URL (a C string of at most `INT_MAX` characters) the hostname
component, the longest run behind the optional scheme that contains neither `:` nor
`/` (it is followed by `:`, by `/` or by the end of the string), decides the result of
`parse_url`: the call returns the error -1, leaving the hostname output as it was,
when the component is empty or longer than 255 characters, and returns 0 with the
hostname output equal to the component otherwise. -/
theorem hostname_extraction (url hostname port path : List Nat) (hs : IsCString url)
    (hlen : url.length ≤ INT_MAX) :
    (hostname_component url ++ after_hostname url = after_scheme url
      ∧ (∀ b ∈ hostname_component url, b ≠ 58 ∧ b ≠ 47)
      ∧ (after_hostname url = [] ∨ (∃ t, after_hostname url = 58 :: t)
          ∨ (∃ t, after_hostname url = 47 :: t)))
    ∧ ((hostname_component url = [] ∨ 255 < (hostname_component url).length) →
        ∃ p q, parse_url url hostname port path = .ok (-1, hostname, p, q))
    ∧ (¬ (hostname_component url = [] ∨ 255 < (hostname_component url).length) →
        ∃ p q, parse_url url hostname port path = .ok (0, hostname_component url, p, q)) := by
  refine ⟨⟨hostname_component_append url, hostname_component_chars url,
    after_hostname_head url⟩, ?_, ?_⟩
  · intro hbad
    exact ⟨_, _, parse_url_error url hostname port path hs
      (Nat.le_trans (hostname_component_length_le url) hlen) hbad⟩
  · intro hgood
    have hne : hostname_component url ≠ [] := fun h => hgood (Or.inl h)
    have h255 : (hostname_component url).length ≤ 255 := by
      by_contra h
      exact hgood (Or.inr (by omega))
    exact ⟨_, _, parse_url_success url hostname port path hs hne h255⟩

/-- Witness for C14: `http://example.com:8080/a` has the hostname component
`example.com` and is parsed; `http://:8080/a` has an empty one and is refused. -/
theorem hostname_extraction_witness :
    (∃ p q, parse_url (str "http://example.com:8080/a") [] [] []
        = .ok (0, str "example.com", p, q))
    ∧ (∃ p q, parse_url (str "http://:8080/a") [] [] [] = .ok (-1, [], p, q)) :=
  ⟨(hostname_extraction (str "http://example.com:8080/a") [] [] []
      (by unfold IsCString; decide) (by decide)).2.2 (by decide),
    (hostname_extraction (str "http://:8080/a") [] [] []
      (by unfold IsCString; decide) (by decide)).2.1 (by decide)⟩

/-- The port output of a successful call, by the length of the port component. -/
theorem parse_url_port (url hostname port path : List Nat) (hs : IsCString url)
    (hlen : url.length ≤ INT_MAX)
    (hne : hostname_component url ≠ []) (h255 : (hostname_component url).length ≤ 255) :
    ((1 ≤ (port_component url).length ∧ (port_component url).length ≤ 15) →
        ∃ q, parse_url url hostname port path
          = .ok (0, hostname_component url, port_component url, q))
    ∧ ((port_component url = [] ∨ 16 ≤ (port_component url).length) →
        ∃ q, parse_url url hostname port path
          = .ok (0, hostname_component url, scheme_port url, q)) := by
  have hpo := port_out_eq url hs (Nat.le_trans (port_component_length_le url) hlen)
  have hok := parse_url_success url hostname port path hs hne h255
  constructor
  · intro hc
    rw [if_pos hc] at hpo
    exact ⟨_, by rw [hok, hpo]⟩
  · intro hc
    have hn : ¬ (1 ≤ (port_component url).length ∧ (port_component url).length ≤ 15) := by
      rcases hc with h0 | h16
      · rw [h0]; simp
      · omega
    rw [if_neg hn] at hpo
    exact ⟨_, by rw [hok, hpo]⟩

/-- C16 (counterexample). The URL `http://host:abc/x` has the port component `abc`,
which holds no digit at all; `parse_url` returns 0 and the port output is `abc`, not
the default `80` of the scheme. -/
theorem malformed_port_is_copied :
    port_component (str "http://host:abc/x") = str "abc"
    ∧ (∀ b ∈ port_component (str "http://host:abc/x"), isdigit b = false)
    ∧ scheme_port (str "http://host:abc/x") = str "80"
    ∧ parse_url (str "http://host:abc/x") [] [] []
        = .ok (0, str "host", str "abc", str "/x")
    ∧ str "abc" ≠ str "80" := by
  refine ⟨by decide, by decide, by decide, by decide, by decide⟩

/-- C16 (amended). For every URL (a C string of at most `INT_MAX` characters) with
a hostname component of 1 to 255 characters whose port component contains a
character that is not a decimal digit, `parse_url` returns 0; the port output is the
port component itself when it has at most 15 characters, and the default of the
scheme when it has 16 or more. -/
theorem malformed_port (url hostname port path : List Nat) (hs : IsCString url)
    (hlen : url.length ≤ INT_MAX)
    (hne : hostname_component url ≠ []) (h255 : (hostname_component url).length ≤ 255)
    (hbad : ∃ b ∈ port_component url, isdigit b = false) :
    ((port_component url).length ≤ 15 →
        ∃ q, parse_url url hostname port path
          = .ok (0, hostname_component url, port_component url, q))
    ∧ (16 ≤ (port_component url).length →
        ∃ q, parse_url url hostname port path
          = .ok (0, hostname_component url, scheme_port url, q)) := by
  obtain ⟨b, hb, _⟩ := hbad
  have hpos : 0 < (port_component url).length := List.length_pos_of_mem hb
  exact ⟨fun h => (parse_url_port url hostname port path hs hlen hne h255).1 ⟨hpos, h⟩,
    fun h => (parse_url_port url hostname port path hs hlen hne h255).2 (Or.inr h)⟩

/-- Witness for C16 (amended): the port `abc` is kept, the 16-character port
`abcdefghijklmnop` is replaced by `80`. -/
theorem malformed_port_witness :
    (∃ q, parse_url (str "http://host:abc/x") [] [] [] = .ok (0, str "host", str "abc", q))
    ∧ (∃ q, parse_url (str "http://host:abcdefghijklmnop/x") [] [] []
        = .ok (0, str "host", str "80", q)) :=
  ⟨(malformed_port (str "http://host:abc/x") [] [] [] (by unfold IsCString; decide)
      (by decide) (by decide) (by decide) ⟨97, by decide, by decide⟩).1 (by decide),
    (malformed_port (str "http://host:abcdefghijklmnop/x") [] [] []
      (by unfold IsCString; decide)
      (by decide) (by decide) (by decide) ⟨97, by decide, by decide⟩).2 (by decide)⟩

/-- C18 (counterexample). A client created for `https://` has empty `hostname`,
`port` and `path`.  `parse_url` returns -1 on this URL (the hostname component is
empty) with `port` holding `443` and `path` holding `/`: two of the outputs were
written although the call failed. -/
theorem parse_url_failure_writes_defaults :
    (new_client true (str "https://") 6 true).hostname = []
    ∧ (new_client true (str "https://") 6 true).port = []
    ∧ (new_client true (str "https://") 6 true).path = []
    ∧ ∃ r, parse_url (str "https://") [] [] [] = .ok r ∧ r.1 ≠ 0
        ∧ r.2.1 = [] ∧ r.2.2.1 = str "443" ∧ r.2.2.2 = str "/"
        ∧ r.2.2.1 ≠ [] ∧ r.2.2.2 ≠ [] := by
  refine ⟨rfl, rfl, rfl, (-1, [], str "443", str "/"), by decide, by decide, rfl, rfl, rfl,
    by decide, by decide⟩

/-- C18 (amended). Whenever `parse_url`, called with non-null arguments, returns an
error, the hostname output holds the same contents as before the call, the port
output holds the default of the scheme and the path output holds `/`, whatever
the two held before. -/
theorem parse_url_failure_outputs (url hostname port path : List Nat)
    (r : Int × List Nat × List Nat × List Nat)
    (h : parse_url url hostname port path = .ok r) (herr : r.1 ≠ 0) :
    r = (-1, hostname, scheme_port url, str "/") := by
  unfold parse_url at h
  split at h
  · injection h with h
    rw [← h, default_port_eq]
  · split at h
    · cases h
    · injection h with h
      rw [← h] at herr
      exact absurd rfl herr

/-- Witness for C18 (amended): the failing call on `https://` with outputs that
held `old`, `8080` and `/old`. -/
theorem parse_url_failure_outputs_witness :
    parse_url (str "https://") (str "old") (str "8080") (str "/old")
        = .ok (-1, str "old", str "443", str "/")
      ∧ ((-1 : Int), str "old", str "443", str "/")
        = (-1, str "old", scheme_port (str "https://"), str "/") :=
  ⟨by decide, parse_url_failure_outputs (str "https://") (str "old") (str "8080") (str "/old")
    _ (by decide) (by decide)⟩

/-! ## Creation of a client -/

/-- C19. `http_client_get` returns the error -1, creates no client and never calls
`smw_create_task` when the URL is null or longer than 1024 characters.  For every
URL of at most 1024 characters it returns 0, provided `calloc` grants the memory of
the client, after one call of `smw_create_task`; the client created holds the URL
unchanged, is in INIT, has empty `hostname`, `port` and `path`, no write buffer, read
buffer or body, and `body_start = 0`. -/
theorem get_validates_url (heap : Nat → Bool) (task : Bool) (timeout : Nat)
    (callback : Bool) :
    http_client_get heap task none timeout callback = (-1, none, 0)
    ∧ (∀ u : List Nat, 1024 < u.length →
        http_client_get heap task (some u) timeout callback = (-1, none, 0))
    ∧ (∀ u : List Nat, u.length ≤ 1024 → heap sizeof_HttpClient = true →
        ∃ c, http_client_get heap task (some u) timeout callback = (0, some c, 1)
          ∧ c.url = u ∧ c.state = .INIT ∧ c.hostname = [] ∧ c.port = [] ∧ c.path = []
          ∧ c.write_buffer = none ∧ c.read_buffer = [] ∧ c.read_buffer_size = 0
          ∧ c.body = none ∧ c.body_start = 0
          ∧ c.timeout = timeout ∧ c.callback = callback ∧ c.task = task) := by
  refine ⟨rfl, ?_, ?_⟩
  · intro u hu
    have hi : http_client_init heap task (some u) = (-2, none, 0) := by
      show (if u.length > 1024 then _ else _) = _
      rw [if_pos hu]
    unfold http_client_get
    rw [hi]
    rfl
  · intro u hu hheap
    have hi : http_client_init heap task (some u) = (0, some (new_client task u 0 false), 1) := by
      show (if u.length > 1024 then _ else _) = _
      rw [if_neg (by omega), if_neg (by simp [hheap])]
    refine ⟨new_client task u timeout callback, ?_, rfl, rfl, rfl, rfl, rfl, rfl, rfl, rfl,
      rfl, rfl, rfl, rfl, rfl⟩
    unfold http_client_get
    rw [hi]
    rfl

/-- Witness for C19: the URL of the scenarios is accepted. -/
theorem get_validates_url_witness :
    ∃ c, http_client_get heap_all true (some (str "http://example.com/status")) 6 true
        = (0, some c, 1)
      ∧ c.url = str "http://example.com/status" ∧ c.state = .INIT := by
  obtain ⟨c, h1, h2, h3, _⟩ :=
    (get_validates_url heap_all true 6 true).2.2 (str "http://example.com/status")
      (by decide) rfl
  exact ⟨c, h1, h2, h3⟩

/-! ## The state a handler returns -/

theorem forward_dispose (a : HttpClientState) : forward a .DISPOSE = true := by
  cases a <;> rfl

theorem next_store_decoded (heap : Nat → Bool) (c : HttpClient) (inp : List Nat)
    (s : Step) (h : store_decoded heap c inp = .ok s) : forward .READING s.next = true := by
  unfold store_decoded at h
  split at h
  · injection h with h; rw [← h]; rfl
  · cases h
  · cases h
  · injection h with h; rw [← h]; rfl

theorem next_done_with_body (heap : Nat → Bool) (c : HttpClient)
    (s : Step) (h : done_with_body heap c = .ok s) : forward .READING s.next = true := by
  unfold done_with_body at h
  split at h
  · injection h with h; rw [← h]; rfl
  · split at h
    · cases h
    · injection h with h; rw [← h]; rfl

theorem next_finalize_remaining (heap : Nat → Bool) (c : HttpClient)
    (s : Step) (h : finalize_remaining heap c = .ok s) : forward .READING s.next = true := by
  unfold finalize_remaining at h
  split at h
  · exact next_done_with_body _ _ s h
  · injection h with h; rw [← h]; rfl

theorem next_reading_complete (heap : Nat → Bool) (peek : Recv) (c : HttpClient)
    (s : Step) (h : reading_complete heap peek c = .ok s) : forward .READING s.next = true := by
  unfold reading_complete at h
  split at h
  · split at h
    · unfold complete_known_length at h
      split at h
      · exact next_done_with_body _ _ s h
      · injection h with h; rw [← h]; rfl
    · split at h
      · unfold complete_chunked at h
        split at h
        · exact next_store_decoded _ _ _ s h
        · injection h with h; rw [← h]; rfl
      · unfold complete_by_peek at h
        split at h
        · split at h
          · exact next_finalize_remaining _ _ s h
          · split at h
            · split at h
              · injection h with h; rw [← h]; rfl
              · injection h with h; rw [← h]; rfl
            · injection h with h; rw [← h]; rfl
        · injection h with h; rw [← h]; rfl
  · injection h with h; rw [← h]; rfl

theorem next_reading_eof (heap : Nat → Bool) (c : HttpClient)
    (s : Step) (h : reading_eof heap c = .ok s) : forward .READING s.next = true := by
  unfold reading_eof at h
  split at h
  · split at h
    · exact next_store_decoded _ _ _ s h
    · exact next_finalize_remaining _ _ s h
  · injection h with h; rw [← h]; rfl

theorem next_receive_headers (heap : Nat → Bool) (c : HttpClient)
    (s : Step) (h : receive_headers heap c = .ok (.inr s)) :
    forward .READING s.next = true := by
  unfold receive_headers at h
  split at h
  · split at h
    · cases h
    · cases h
    · split at h
      · have h1 := Sum.inr.inj (Exec.ok.inj h)
        rw [← h1]; rfl
      · cases h
  · cases h

theorem next_reading_receive (heap : Nat → Bool) (c : HttpClient) (bytes : List Nat)
    (s : Step) (h : reading_receive heap c bytes = .ok (.inr s)) :
    forward .READING s.next = true := by
  unfold reading_receive at h
  split at h
  · have h1 := Sum.inr.inj (Exec.ok.inj h)
    rw [← h1]; rfl
  · split at h
    · cases h
    · exact next_receive_headers _ _ s h

theorem next_reading (heap : Nat → Bool) (r peek : Recv) (c : HttpClient)
    (s : Step) (h : http_client_work_reading heap r peek c = .ok s) :
    forward .READING s.next = true := by
  unfold http_client_work_reading at h
  split at h
  · cases h
  · split at h
    · injection h with h; rw [← h]; rfl
    · split at h
      · injection h with h; rw [← h]; rfl
      · split at h
        · exact next_reading_eof _ _ s h
        · split at h
          · cases h
          · cases h
          · rename_i s1 heq
            injection h with h; rw [← h]
            exact next_reading_receive _ _ _ s1 heq
          · exact next_reading_complete _ _ _ s h

theorem next_send_request (sr : Send) (c : HttpClient)
    (s : Step) (h : send_request sr c = .ok s) : forward .WRITING s.next = true := by
  unfold send_request at h
  split at h
  · cases h
  · split at h
    · split at h
      · injection h with h; rw [← h]; rfl
      · injection h with h; rw [← h]; rfl
    · split at h
      · injection h with h; rw [← h]; rfl
      · injection h with h; rw [← h]; rfl

theorem next_writing (heap : Nat → Bool) (sr : Send) (c : HttpClient)
    (s : Step) (h : http_client_work_writing heap sr c = .ok s) :
    forward .WRITING s.next = true := by
  unfold http_client_work_writing at h
  split at h
  · injection h with h; rw [← h]; rfl
  · exact next_send_request _ _ s h

theorem next_init (c : HttpClient) (s : Step) (h : http_client_work_init c = .ok s) :
    forward .INIT s.next = true := by
  unfold http_client_work_init at h
  split at h
  · cases h
  · cases h
  · split at h
    · injection h with h; rw [← h]; rfl
    · split at h
      · injection h with h; rw [← h]; rfl
      · injection h with h; rw [← h]; rfl

theorem next_connect (heap : Nat → Bool) (gai : Option (List Candidate)) (c : HttpClient) :
    forward .CONNECT (http_client_work_connect heap gai c).next = true := by
  unfold http_client_work_connect
  split
  · rfl
  · split
    · rfl
    · rfl

theorem next_connecting (so : SockOpt) (c : HttpClient) :
    forward .CONNECTING (http_client_work_connecting so c).next = true := by
  unfold http_client_work_connecting
  split
  · rfl
  · split
    · rfl
    · split
      · rfl
      · split
        · rfl
        · split
          · rfl
          · rfl

theorem tick_alive_state (s : Step) (c1 : HttpClient) (calls : List Call) (closed : List Int)
    (h : s.tick = .alive c1 calls closed) : c1.state = s.next := by
  unfold Step.tick at h
  injection h with h1 _ _
  rw [← h1]

theorem exec_tick_alive (e : Exec Step) (c1 : HttpClient) (calls : List Call)
    (closed : List Int) (h : e.tick = .alive c1 calls closed) :
    ∃ s, e = .ok s ∧ c1.state = s.next := by
  cases e with
  | ok s => exact ⟨s, rfl, tick_alive_state s c1 calls closed h⟩
  | fault => cases h
  | hang => cases h

/-- The state a handler leaves is one the specification allows after the state it
was entered in. -/
theorem work_switch_forward (env : Env) (c c1 : HttpClient) (calls : List Call)
    (closed : List Int) (h : work_switch env c = .alive c1 calls closed) :
    forward c.state c1.state = true := by
  unfold work_switch at h
  split at h
  · rename_i hst
    obtain ⟨s, hs, hn⟩ := exec_tick_alive _ _ _ _ h
    rw [hst, hn]; exact next_init _ s hs
  · rename_i hst
    rw [hst, tick_alive_state _ _ _ _ h]; exact next_connect _ _ _
  · rename_i hst
    rw [hst, tick_alive_state _ _ _ _ h]; exact next_connecting _ _
  · rename_i hst
    obtain ⟨s, hs, hn⟩ := exec_tick_alive _ _ _ _ h
    rw [hst, hn]; exact next_writing _ _ _ s hs
  · rename_i hst
    obtain ⟨s, hs, hn⟩ := exec_tick_alive _ _ _ _ h
    rw [hst, hn]; exact next_reading _ _ _ _ s hs
  · rename_i hst
    rw [hst, tick_alive_state _ _ _ _ h]; rfl
  · cases h

/-- C20. Every tick of `http_client_work` that does not end in the timeout branch
and returns with the client still registered leaves it in a state the specification
allows after the state before: with every result of the system calls, the pair
(state before, state after) is INIT→CONNECT, CONNECT→CONNECTING,
CONNECTING→CONNECTING, CONNECTING→WRITING, WRITING→WRITING, WRITING→READING,
READING→READING, READING→DONE, DONE→DISPOSE or X→DISPOSE.  A tick on a client in
DISPOSE frees the client instead, and so does the timeout branch. -/
theorem forward_only (env : Env) (c : HttpClient) (mon_time : Nat) :
    (∀ c1 calls closed, http_client_work env c mon_time = .alive c1 calls closed →
        forward c.state c1.state = true)
    ∧ (c.state = .DISPOSE → (http_client_work env c mon_time).isFreed = true) := by
  constructor
  · intro c1 calls closed h
    unfold http_client_work at h
    split at h
    · exact work_switch_forward env { c with timer := mon_time } c1 calls closed h
    · split at h
      · cases h
      · exact work_switch_forward env c c1 calls closed h
  · intro hd
    unfold http_client_work
    split
    · unfold work_switch
      simp only [hd]
      rfl
    · split
      · rfl
      · unfold work_switch
        simp only [hd]
        rfl

/-- Witness for C20: the tick that delivers the whole of `response_c` takes
`reading_client` from READING to DONE. -/
theorem forward_only_witness :
    http_client_work (env_ok heap_all (.got response_c) (.fail EAGAIN)) reading_client 2
        = .alive { parsed_c with state := .DONE, body := some (str "test"), content_len := 4 }
            [] []
      ∧ forward HttpClientState.READING HttpClientState.DONE = true :=
  ⟨by decide, (forward_only (env_ok heap_all (.got response_c) (.fail EAGAIN)) reading_client 2).1
    { parsed_c with state := .DONE, body := some (str "test"), content_len := 4 } [] []
    (by decide)⟩

/-! ## The outcomes of `tcp_client_read` -/

/-- C23. `tcp_client_read` returns the positive count `n` when `n` bytes were
received, 0 when the receive would block, -2 when the receive returned 0 bytes and
-1 for any other receive error; these four kinds of value are pairwise distinct, so
two receive attempts with the same return value are in the same situation. -/
theorem read_outcomes_distinct :
    (∀ (r : Recv) (n : Nat), r.situation = .data n → tcp_client_read r = (n : Int) ∧ 0 < n)
    ∧ (∀ r : Recv, r.situation = .would_block → tcp_client_read r = 0)
    ∧ (∀ r : Recv, r.situation = .peer_closed → tcp_client_read r = -2)
    ∧ (∀ r : Recv, r.situation = .hard_error → tcp_client_read r = -1)
    ∧ (∀ r1 r2 : Recv, tcp_client_read r1 = tcp_client_read r2 → r1.situation = r2.situation) := by
  have key : ∀ r : Recv,
      (∃ n, r.situation = .data n ∧ tcp_client_read r = (n : Int) ∧ 0 < n)
      ∨ (r.situation = .would_block ∧ tcp_client_read r = 0)
      ∨ (r.situation = .peer_closed ∧ tcp_client_read r = -2)
      ∨ (r.situation = .hard_error ∧ tcp_client_read r = -1) := by
    intro r
    cases r with
    | got bytes =>
      cases bytes with
      | nil => exact Or.inr (Or.inr (Or.inl ⟨rfl, rfl⟩))
      | cons b bs =>
        refine Or.inl ⟨(b :: bs).length, rfl, ?_, by simp⟩
        exact tcp_client_read_got (b :: bs) (by simp)
    | fail e =>
      by_cases he : e = EAGAIN ∨ e = EWOULDBLOCK
      · refine Or.inr (Or.inl ⟨?_, ?_⟩)
        · simp only [Recv.situation, if_pos he]
        · unfold tcp_client_read
          simp only [Recv.ret, Recv.errno]
          rw [if_pos (by decide), if_pos he]
      · refine Or.inr (Or.inr (Or.inr ⟨?_, ?_⟩))
        · simp only [Recv.situation, if_neg he]
        · unfold tcp_client_read
          simp only [Recv.ret, Recv.errno]
          rw [if_pos (by decide), if_neg he]
  refine ⟨?_, ?_, ?_, ?_, ?_⟩
  · intro r n h
    rcases key r with ⟨m, h1, h2, h3⟩ | ⟨h1, _⟩ | ⟨h1, _⟩ | ⟨h1, _⟩
    · rw [h] at h1; injection h1 with h1; subst h1; exact ⟨h2, h3⟩
    · rw [h] at h1; cases h1
    · rw [h] at h1; cases h1
    · rw [h] at h1; cases h1
  · intro r h
    rcases key r with ⟨m, h1, _⟩ | ⟨_, h2⟩ | ⟨h1, _⟩ | ⟨h1, _⟩
    · rw [h] at h1; cases h1
    · exact h2
    · rw [h] at h1; cases h1
    · rw [h] at h1; cases h1
  · intro r h
    rcases key r with ⟨m, h1, _⟩ | ⟨h1, _⟩ | ⟨_, h2⟩ | ⟨h1, _⟩
    · rw [h] at h1; cases h1
    · rw [h] at h1; cases h1
    · exact h2
    · rw [h] at h1; cases h1
  · intro r h
    rcases key r with ⟨m, h1, _⟩ | ⟨h1, _⟩ | ⟨h1, _⟩ | ⟨_, h2⟩
    · rw [h] at h1; cases h1
    · rw [h] at h1; cases h1
    · rw [h] at h1; cases h1
    · exact h2
  · intro r1 r2 h
    rcases key r1 with ⟨m, h1, v1, p1⟩ | ⟨h1, v1⟩ | ⟨h1, v1⟩ | ⟨h1, v1⟩ <;>
    rcases key r2 with ⟨k, h2, v2, p2⟩ | ⟨h2, v2⟩ | ⟨h2, v2⟩ | ⟨h2, v2⟩ <;>
    rw [v1, v2] at h <;> first
      | (rw [h1, h2]; done)
      | (rw [h1, h2]; congr 1; omega)

/-- Witness for C23: 3 bytes give 3, `EAGAIN` gives 0, a 0-byte receive gives -2 and
`ECONNRESET` (104) gives -1. -/
theorem read_outcomes_distinct_witness :
    tcp_client_read (.got [72, 84, 84]) = 3 ∧ tcp_client_read (.fail EAGAIN) = 0
      ∧ tcp_client_read (.got []) = -2 ∧ tcp_client_read (.fail 104) = -1 :=
  ⟨(read_outcomes_distinct.1 (.got [72, 84, 84]) 3 rfl).1,
    read_outcomes_distinct.2.1 (.fail EAGAIN) rfl,
    read_outcomes_distinct.2.2.1 (.got []) rfl,
    read_outcomes_distinct.2.2.2.1 (.fail 104) rfl⟩

/-! ## The request on the wire -/

theorem append_frame (P Q R Q2 R2 path host : List Nat) (hQ : Q = Q2) (hR : R = R2) :
    P ++ (path ++ (Q ++ (host ++ R))) = P ++ (path ++ (Q2 ++ (host ++ R2))) := by
  rw [hQ, hR]

/-- The text formatted by `snprintf` is the request of the specification. -/
theorem request_text_eq (path host : List Nat) :
    request_text path host = wire_request path host := by
  unfold request_text wire_request user_agent
  simp only [List.append_assoc]
  rw [← List.append_assoc (str " HTTP/1.1\r\n") (str "Host: ")]
  exact append_frame _ _ _ _ _ _ _ (by decide) (by decide)

theorem wire_request_length (path host : List Nat) :
    (wire_request path host).length = path.length + host.length + 278 := by
  unfold wire_request user_agent
  simp only [List.length_append]
  have h1 : (str "GET ").length = 4 := by decide
  have h2 : (str " HTTP/1.1\r\nHost: ").length = 17 := by decide
  have h3 : (str "\r\nUser-Agent: ").length = 14 := by decide
  have h4 : (str ("Mozilla/5.0 (X11; Linux x86_64) AppleWebKit/537.36 "
    ++ "(KHTML, like Gecko) Chrome/120.0.0.0 Safari/537.36")).length = 101 := by decide
  have h5 : (str ("\r\nAccept: application/json, text/html, application/xml, */*"
      ++ "\r\nAccept-Language: en-US,en;q=0.9"
      ++ "\r\nAccept-Encoding: identity"
      ++ "\r\nConnection: close\r\n\r\n")).length = 142 := by decide
  rw [h1, h2, h3, h4, h5]
  omega

theorem cstr_isCString (s : List Nat) : IsCString (cstr s) := by
  intro b hb
  unfold cstr at hb
  simpa using List.mem_takeWhile_imp hb

/-- The strings a successful `parse_url` leaves in `hostname` and `path`. -/
theorem parse_url_outputs (url h0 p0 q0 host port path : List Nat)
    (h : parse_url url h0 p0 q0 = .ok (0, host, port, path)) :
    host.length ≤ 255 ∧ path.length ≤ 511 ∧ IsCString host ∧ IsCString path := by
  unfold parse_url at h
  split at h
  · injection h with h
    injection h with h1 _
    exact absurd h1 (by decide)
  · rename_i hc
    split at h
    · cases h
    · rename_i hneg
      injection h with h
      injection h with _ h2
      injection h2 with hh h3
      injection h3 with _ hp
      have hlen : (hostname_len url).toNat ≤ 255 := by omega
      refine ⟨?_, ?_, ?_, ?_⟩
      · rw [← hh, List.length_take]; omega
      · rw [← hp]
        unfold path_out
        split
        · rw [List.length_take]; omega
        · decide
      · rw [← hh]
        intro b hb
        have hb2 : b ∈ host_text url := List.mem_of_mem_take hb
        unfold host_text at hb2
        have := List.mem_takeWhile_imp hb2
        unfold in_host at this
        intro h0
        rw [h0] at this
        exact absurd this (by decide)
      · rw [← hp]
        unfold path_out
        split
        · intro b hb
          exact cstr_isCString _ b (List.mem_of_mem_take hb)
        · unfold IsCString; decide

/-- C21. For every hostname and path that `parse_url` produces (they have at most
255 and 511 bytes and hold no NUL), the first entry to WRITING, once `malloc(2048)`
succeeds, builds a write buffer that is exactly the request of the specification,
`GET <path> HTTP/1.1`, `Host: <host>`, the fixed `User-Agent` and the four fixed
header lines, each ended by CR LF, then an empty line; the request has at most
1044 bytes, so the 2048-byte buffer does not cut it, and `write_size` is its length;
the handler then sends from this buffer. -/
theorem wire_request_format (heap : Nat → Bool) (c : HttpClient)
    (url h0 p0 q0 port : List Nat)
    (hparse : parse_url url h0 p0 q0 = .ok (0, c.hostname, port, c.path))
    (hwb : c.write_buffer = none) (hheap : heap 2048 = true) :
    c.hostname.length ≤ 255 ∧ c.path.length ≤ 511
    ∧ IsCString c.hostname ∧ IsCString c.path
    ∧ (wire_request c.path c.hostname).length < 2048
    ∧ ∃ c1, build_request heap c = some c1
      ∧ c1.write_buffer = some (wire_request c.path c.hostname)
      ∧ c1.write_size = (wire_request c.path c.hostname).length
      ∧ c1.write_offset = 0
      ∧ ∀ sr, http_client_work_writing heap sr c = send_request sr c1 := by
  obtain ⟨hh, hp, chh, chp⟩ := parse_url_outputs url h0 p0 q0 _ port _ hparse
  have hlen := wire_request_length c.path c.hostname
  have hb : build_request heap c
      = some { c with
          write_buffer := some ((request_text c.path c.hostname).take 2047)
          write_size := (request_text c.path c.hostname).length
          write_offset := 0 } := by
    unfold build_request
    rw [hwb]
    simp only [hheap, not_true_eq_false, if_false]
  refine ⟨hh, hp, chh, chp, by omega, _, hb, ?_, ?_, rfl, ?_⟩
  · show some ((request_text c.path c.hostname).take 2047) = _
    rw [request_text_eq, List.take_of_length_le (by omega)]
  · show (request_text c.path c.hostname).length = _
    rw [request_text_eq]
  · intro sr
    unfold http_client_work_writing
    rw [hb]

/-- Witness for C21: the request for `http://example.com/status`. -/
theorem wire_request_format_witness :
    ∃ c1, build_request heap_all
        { reading_client with state := .WRITING, write_size := 0, write_offset := 0 } = some c1
      ∧ c1.write_buffer = some (wire_request (str "/status") (str "example.com"))
      ∧ c1.write_size = 296 := by
  obtain ⟨_, _, _, _, _, c1, h1, h2, h3, _⟩ :=
    wire_request_format heap_all
      { reading_client with state := .WRITING, write_size := 0, write_offset := 0 }
      (str "http://example.com/status") [] [] [] (str "80") (by decide) rfl rfl
  exact ⟨c1, h1, h2, by rw [h3]; decide⟩

/-! ## Sending the request in pieces -/

theorem writing_built (heap : Nat → Bool) (sr : Send) (c : HttpClient) (req : List Nat)
    (hwb : c.write_buffer = some req) :
    http_client_work_writing heap sr c = send_request sr c := by
  have hb : build_request heap c = some c := by
    unfold build_request
    rw [hwb]
  unfold http_client_work_writing
  rw [hb]

theorem accepted_built (heap : Nat → Bool) (k : Nat) (c : HttpClient) (req : List Nat)
    (hwb : c.write_buffer = some req) (hsize : c.write_size = req.length)
    (hk : k ≤ req.length - c.write_offset) :
    accepted_bytes heap (.sent k) c = (req.drop c.write_offset).take k := by
  have hb : build_request heap c = some c := by
    unfold build_request
    rw [hwb]
  unfold accepted_bytes
  rw [hb]
  show (send_buffer c).take k = _
  unfold send_buffer
  rw [hwb, hsize, Option.getD_some, List.take_take, Nat.min_eq_left hk]

theorem accepted_fail (heap : Nat → Bool) (e : Nat) (c : HttpClient) :
    accepted_bytes heap (.fail e) c = [] := by
  unfold accepted_bytes
  split
  · show List.take 0 _ = []
    rfl
  · rfl

theorem send_request_block (c : HttpClient) (e : Nat) (hconn : c.tcp_conn ≠ none)
    (he : e = EAGAIN ∨ e = EWOULDBLOCK) :
    send_request (.fail e) c = .ok ⟨c, .WRITING, [], []⟩ := by
  unfold send_request
  split
  · rename_i h; exact absurd h hconn
  · simp only [if_pos he]

theorem send_request_last (c : HttpClient) (k : Nat) (hconn : c.tcp_conn ≠ none)
    (hk : c.write_offset + k < SIZE_MOD) (hge : c.write_offset + k ≥ c.write_size) :
    send_request (.sent k) c
      = .ok ⟨{ c with write_offset := c.write_offset + k, write_buffer := none },
          .READING, [], []⟩ := by
  unfold send_request
  split
  · rename_i h; exact absurd h hconn
  · simp only [Nat.mod_eq_of_lt hk, if_pos hge]

theorem send_request_part (c : HttpClient) (k : Nat) (hconn : c.tcp_conn ≠ none)
    (hk : c.write_offset + k < SIZE_MOD) (hlt : c.write_offset + k < c.write_size) :
    send_request (.sent k) c
      = .ok ⟨{ c with write_offset := c.write_offset + k }, .WRITING, [], []⟩ := by
  unfold send_request
  split
  · rename_i h; exact absurd h hconn
  · simp only [Nat.mod_eq_of_lt hk, if_neg (Nat.not_le.mpr hlt)]

theorem sent_total_zero (srs : List Send) : sent_total srs 0 = 0 := rfl

theorem sent_total_succ (sr : Send) (rest : List Send) (j : Nat) :
    sent_total (sr :: rest) (j + 1) = sr.count + sent_total rest j := by
  unfold sent_total
  simp only [List.take_succ_cons, List.map_cons, List.sum_cons]

/-- A run of WRITING ticks on a client whose request `req` is built and whose
first `o` bytes are sent. -/
theorem write_ticks_built (heap : Nat → Bool) (req : List Nat) (hreq : req.length < SIZE_MOD) :
    ∀ (srs : List Send) (c : HttpClient) (n : Nat) (acc : List Nat) (o : Nat),
      c.tcp_conn ≠ none → c.write_buffer = some req → c.write_size = req.length →
      c.write_offset = o → o < req.length → SendsWithin srs (req.length - o) →
      ∃ r m, write_ticks heap srs c n acc = .ok r
        ∧ r.ticks = n + m ∧ m ≤ srs.length
        ∧ r.client.write_size = req.length
        ∧ r.client.write_offset = o + sent_total srs m
        ∧ r.accepted = acc ++ (req.drop o).take (sent_total srs m)
        ∧ ((r.state = .READING ∧ o + sent_total srs m = req.length ∧ 0 < m)
            ∨ (r.state = .WRITING ∧ o + sent_total srs m < req.length ∧ m = srs.length))
        ∧ (∀ j, j < m → o + sent_total srs j < req.length) := by
  intro srs
  induction srs with
  | nil =>
    intro c n acc o _ _ hsize hoff ho _
    refine ⟨⟨c, .WRITING, n, acc⟩, 0, rfl, rfl, Nat.le_refl _, hsize, ?_, ?_, ?_, ?_⟩
    · rw [sent_total_zero]; exact hoff
    · rw [sent_total_zero]; simp
    · right; exact ⟨rfl, by rw [sent_total_zero]; omega, rfl⟩
    · intro j hj; omega
  | cons sr rest ih =>
    intro c n acc o hconn hwb hsize hoff ho hs
    cases sr with
    | fail e =>
      obtain ⟨he, hs2⟩ := hs
      have hstep : http_client_work_writing heap (.fail e) c = .ok ⟨c, .WRITING, [], []⟩ := by
        rw [writing_built heap _ c req hwb, send_request_block c e hconn he]
      obtain ⟨r, m, h1, h2, h3, h4, h5, h6, h7, h8⟩ :=
        ih c (n + 1) (acc ++ accepted_bytes heap (.fail e) c) o hconn hwb hsize hoff ho hs2
      have hrun : write_ticks heap (.fail e :: rest) c n acc = .ok r := by
        rw [write_ticks, hstep]
        simp only [if_true]
        exact h1
      have hst : ∀ j, sent_total (Send.fail e :: rest) (j + 1) = sent_total rest j := by
        intro j
        rw [sent_total_succ]
        show 0 + _ = _
        omega
      refine ⟨r, m + 1, hrun, by omega, by simp only [List.length_cons]; omega, h4, ?_, ?_, ?_, ?_⟩
      · rw [hst]; exact h5
      · rw [hst, h6, accepted_fail, List.append_nil]
      · rw [hst]
        rcases h7 with ⟨a, b, _⟩ | ⟨a, b, d⟩
        · exact Or.inl ⟨a, b, by omega⟩
        · exact Or.inr ⟨a, b, by simp only [List.length_cons]; omega⟩
      · intro j hj
        cases j with
        | zero => rw [sent_total_zero]; omega
        | succ j => rw [hst]; exact h8 j (by omega)
    | sent k =>
      obtain ⟨hk, hs2⟩ := hs
      have hko : c.write_offset + k < SIZE_MOD := by omega
      have hacc : accepted_bytes heap (.sent k) c = (req.drop o).take k := by
        rw [accepted_built heap k c req hwb hsize (by omega), hoff]
      have hst : ∀ j, sent_total (Send.sent k :: rest) (j + 1) = k + sent_total rest j := by
        intro j
        rw [sent_total_succ]
        rfl
      by_cases hlast : o + k = req.length
      · have hstep : http_client_work_writing heap (.sent k) c
            = .ok ⟨{ c with write_offset := c.write_offset + k, write_buffer := none },
                .READING, [], []⟩ := by
          rw [writing_built heap _ c req hwb, send_request_last c k hconn hko (by omega)]
        have hrun : write_ticks heap (.sent k :: rest) c n acc
            = .ok ⟨{ c with write_offset := c.write_offset + k, write_buffer := none },
                .READING, n + 1, acc ++ accepted_bytes heap (.sent k) c⟩ := by
          rw [write_ticks, hstep]
          simp only [if_neg (show ¬ HttpClientState.READING = HttpClientState.WRITING by decide)]
        refine ⟨_, 1, hrun, rfl, by simp only [List.length_cons]; omega, hsize, ?_, ?_, ?_, ?_⟩
        · show c.write_offset + k = _
          rw [hst, sent_total_zero]; omega
        · show acc ++ accepted_bytes heap (.sent k) c = _
          rw [hst, sent_total_zero, hacc]; rfl
        · left
          exact ⟨rfl, by rw [hst, sent_total_zero]; omega, by omega⟩
        · intro j hj
          have : j = 0 := by omega
          rw [this, sent_total_zero]; omega
      · have hlt : o + k < req.length := by omega
        have hstep : http_client_work_writing heap (.sent k) c
            = .ok ⟨{ c with write_offset := c.write_offset + k }, .WRITING, [], []⟩ := by
          rw [writing_built heap _ c req hwb, send_request_part c k hconn hko (by omega)]
        have hs3 : SendsWithin rest (req.length - (o + k)) := by
          have : req.length - o - k = req.length - (o + k) := by omega
          rw [← this]; exact hs2
        obtain ⟨r, m, h1, h2, h3, h4, h5, h6, h7, h8⟩ :=
          ih { c with write_offset := c.write_offset + k } (n + 1)
            (acc ++ accepted_bytes heap (.sent k) c) (o + k) hconn hwb hsize
            (by show c.write_offset + k = o + k; omega) hlt hs3
        have hrun : write_ticks heap (.sent k :: rest) c n acc = .ok r := by
          rw [write_ticks, hstep]
          simp only [if_true]
          exact h1
        refine ⟨r, m + 1, hrun, by omega, by simp only [List.length_cons]; omega, h4, ?_, ?_,
          ?_, ?_⟩
        · rw [hst, h5]; omega
        · rw [hst, h6, hacc, List.append_assoc]
          congr 1
          rw [List.take_add, List.drop_drop]
        · rw [hst]
          rcases h7 with ⟨a, b, _⟩ | ⟨a, b, d⟩
          · exact Or.inl ⟨a, by omega, by omega⟩
          · exact Or.inr ⟨a, by omega, by simp only [List.length_cons]; omega⟩
        · intro j hj
          cases j with
          | zero => rw [sent_total_zero]; omega
          | succ j =>
            rw [hst]
            have := h8 j (by omega)
            omega

theorem sendsWithin_take (srs : List Send) (rem n : Nat) (h : SendsWithin srs rem) :
    SendsWithin (srs.take n) rem := by
  induction srs generalizing rem n with
  | nil => simp only [List.take_nil]; exact h
  | cons sr rest ih =>
    cases n with
    | zero => exact trivial
    | succ n =>
      cases sr with
      | sent k => exact ⟨h.1, ih _ _ h.2⟩
      | fail e => exact ⟨h.1, ih _ _ h.2⟩

/-- A run of WRITING ticks that starts with the first entry to WRITING. -/
theorem write_ticks_first_entry (heap : Nat → Bool) (c : HttpClient) (srs : List Send)
    (hconn : c.tcp_conn ≠ none) (hwb : c.write_buffer = none) (hheap : heap 2048 = true)
    (hfit : (wire_request c.path c.hostname).length ≤ 2047)
    (hs : SendsWithin srs (wire_request c.path c.hostname).length) (hne : srs ≠ []) :
    ∃ r, write_ticks heap srs c 0 [] = .ok r
      ∧ r.ticks ≤ srs.length
      ∧ r.client.write_size = (wire_request c.path c.hostname).length
      ∧ r.client.write_offset = sent_total srs r.ticks
      ∧ r.client.write_offset ≤ r.client.write_size
      ∧ r.accepted = (wire_request c.path c.hostname).take (sent_total srs r.ticks)
      ∧ (r.state = .READING ∨ r.state = .WRITING)
      ∧ (r.state = .READING ↔ sent_total srs r.ticks = (wire_request c.path c.hostname).length)
      ∧ (r.state = .WRITING → r.ticks = srs.length)
      ∧ (∀ j, j < r.ticks → sent_total srs j < (wire_request c.path c.hostname).length) := by
  have hpos : 0 < (wire_request c.path c.hostname).length := by
    rw [wire_request_length]; omega
  have hb : build_request heap c
      = some { c with
          write_buffer := some (wire_request c.path c.hostname)
          write_size := (wire_request c.path c.hostname).length
          write_offset := 0 } := by
    unfold build_request
    rw [hwb]
    simp only [hheap, not_true_eq_false, if_false, request_text_eq,
      List.take_of_length_le hfit]
  have hb1 : build_request heap { c with
          write_buffer := some (wire_request c.path c.hostname)
          write_size := (wire_request c.path c.hostname).length
          write_offset := 0 }
      = some { c with
          write_buffer := some (wire_request c.path c.hostname)
          write_size := (wire_request c.path c.hostname).length
          write_offset := 0 } := rfl
  obtain ⟨sr, rest, rfl⟩ := List.exists_cons_of_ne_nil hne
  have hsame : write_ticks heap (sr :: rest) c 0 []
      = write_ticks heap (sr :: rest) { c with
          write_buffer := some (wire_request c.path c.hostname)
          write_size := (wire_request c.path c.hostname).length
          write_offset := 0 } 0 [] := by
    rw [write_ticks, write_ticks]
    unfold http_client_work_writing accepted_bytes
    rw [hb, hb1]
  have hunsigned : (wire_request c.path c.hostname).length < SIZE_MOD := by
    unfold SIZE_MOD; omega
  obtain ⟨r, m, h1, h2, h3, h4, h5, h6, h7, h8⟩ :=
    write_ticks_built heap (wire_request c.path c.hostname) hunsigned (sr :: rest)
      { c with
          write_buffer := some (wire_request c.path c.hostname)
          write_size := (wire_request c.path c.hostname).length
          write_offset := 0 } 0 [] 0 hconn rfl rfl rfl hpos hs
  have hm : r.ticks = m := by omega
  rw [← hm] at h3 h5 h6 h7 h8
  simp only [Nat.zero_add, List.nil_append, List.drop_zero] at h5 h6 h7 h8
  refine ⟨r, by rw [hsame]; exact h1, h3, h4, h5, ?_, h6, ?_, ?_, ?_, h8⟩
  · rw [h4, h5]
    rcases h7 with ⟨_, b, _⟩ | ⟨_, b, _⟩ <;> omega
  · rcases h7 with ⟨a, _, _⟩ | ⟨a, _, _⟩
    · exact Or.inl a
    · exact Or.inr a
  · rcases h7 with ⟨a, b, _⟩ | ⟨a, b, _⟩
    · exact ⟨fun _ => b, fun _ => a⟩
    · constructor
      · intro hr; rw [a] at hr; cases hr
      · intro hq; omega
  · rcases h7 with ⟨a, _, _⟩ | ⟨_, _, d⟩
    · intro hw; rw [a] at hw; cases hw
    · intro _; exact d

/-- C22. A client enters WRITING with a connection and no write buffer; the
request fits the buffer and `malloc(2048)` succeeds.  For every non-empty sequence
of `send` outcomes, one per tick, in which each successful `send` accepts at most
the bytes still unsent and every other tick would block: the ticks run without
fault; `write_offset` is the sum of the accepted counts and `write_offset ≤
write_size` holds after every tick; the handler returns READING on the first tick at
which the accepted counts sum to `write_size`, and on no earlier tick; and the
accepted bytes, concatenated in tick order, are the first `write_offset` bytes of the
request, the whole request on entry to READING. -/
theorem partial_write_accumulation (heap : Nat → Bool) (c : HttpClient) (srs : List Send)
    (hconn : c.tcp_conn ≠ none) (hwb : c.write_buffer = none) (hheap : heap 2048 = true)
    (hfit : (wire_request c.path c.hostname).length ≤ 2047)
    (hs : SendsWithin srs (wire_request c.path c.hostname).length) (hne : srs ≠ []) :
    (∃ r, write_ticks heap srs c 0 [] = .ok r
      ∧ r.ticks ≤ srs.length
      ∧ r.client.write_size = (wire_request c.path c.hostname).length
      ∧ r.client.write_offset = sent_total srs r.ticks
      ∧ r.accepted = (wire_request c.path c.hostname).take r.client.write_offset
      ∧ (r.state = .READING ∨ r.state = .WRITING)
      ∧ (r.state = .READING ↔ sent_total srs r.ticks = r.client.write_size)
      ∧ (r.state = .READING → r.accepted = wire_request c.path c.hostname)
      ∧ (r.state = .WRITING → r.ticks = srs.length)
      ∧ (∀ j, j < r.ticks → sent_total srs j < r.client.write_size))
    ∧ (∀ n, 0 < n → ∃ r, write_ticks heap (srs.take n) c 0 [] = .ok r
        ∧ r.client.write_offset ≤ r.client.write_size) := by
  constructor
  · obtain ⟨r, h1, h2, h3, h4, h5, h6, h7, h8, h9, h10⟩ :=
      write_ticks_first_entry heap c srs hconn hwb hheap hfit hs hne
    refine ⟨r, h1, h2, h3, h4, by rw [h4]; exact h6, h7, by rw [h3]; exact h8, ?_, h9,
      by rw [h3]; exact h10⟩
    intro hr
    rw [h6, h8.mp hr, List.take_length]
  · intro n hn
    have hne2 : srs.take n ≠ [] := by
      obtain ⟨sr, rest, rfl⟩ := List.exists_cons_of_ne_nil hne
      obtain ⟨k, rfl⟩ : ∃ k, n = k + 1 := ⟨n - 1, by omega⟩
      simp
    obtain ⟨r, h1, _, _, _, h5, _⟩ :=
      write_ticks_first_entry heap c (srs.take n) hconn hwb hheap hfit
        (sendsWithin_take srs _ n hs) hne2
    exact ⟨r, h1, h5⟩

/-- Witness for C22: the 296-byte request for `http://example.com/status` is
accepted in pieces of 100, 0 and 196 bytes with a tick that would block in between;
the fourth tick enters READING, and the accepted bytes are the request. -/
theorem partial_write_accumulation_witness :
    ∃ r, write_ticks heap_all [.sent 100, .fail EAGAIN, .sent 0, .sent 196]
          { reading_client with state := .WRITING, write_size := 0, write_offset := 0 } 0 []
        = .ok r
      ∧ r.ticks = 4 ∧ r.state = .READING
      ∧ r.accepted = wire_request (str "/status") (str "example.com") := by
  obtain ⟨r, h1, h2, _, _, _, h6, h7, h8, h9, _⟩ :=
    (partial_write_accumulation heap_all
      { reading_client with state := .WRITING, write_size := 0, write_offset := 0 }
      [.sent 100, .fail EAGAIN, .sent 0, .sent 196] (by decide) rfl rfl (by decide)
      ⟨by decide, Or.inl rfl, by decide, by decide, trivial⟩ (by decide)).1
  have hrun : write_ticks heap_all [.sent 100, .fail EAGAIN, .sent 0, .sent 196]
      { reading_client with state := .WRITING, write_size := 0, write_offset := 0 } 0 []
      = .ok ⟨{ reading_client with state := .WRITING }, .READING, 4,
          wire_request (str "/status") (str "example.com")⟩ := by decide
  rw [hrun] at h1
  injection h1 with h1
  subst h1
  exact ⟨_, hrun, rfl, rfl, rfl⟩

/-! ## The size-line scan in general -/

theorem crlfAt_cons_succ (a : Nat) (t : List Nat) (i : Nat) :
    CRLFAt (a :: t) (i + 1) ↔ CRLFAt t i := by
  unfold CRLFAt
  simp only [List.getElem?_cons_succ]

theorem crlfAt_zero (a b : Nat) (r : List Nat) :
    CRLFAt (a :: b :: r) 0 ↔ a = 13 ∧ b = 10 := by
  unfold CRLFAt
  simp

/-- Without a `CR LF` the scan runs to the end of the input. -/
theorem scanLine_unterminated (l : List Nat) (h : ∀ i, ¬ CRLFAt l i) (pos : Nat) :
    scanLine l pos = pos + l.length := by
  induction l generalizing pos with
  | nil => rfl
  | cons a t ih =>
    have ht : ∀ i, ¬ CRLFAt t i := fun i hi => h (i + 1) ((crlfAt_cons_succ a t i).mpr hi)
    cases t with
    | nil => rfl
    | cons b r =>
      have h0 : ¬ (a = 13 ∧ b = 10) := fun hc => h 0 ((crlfAt_zero a b r).mpr hc)
      rw [scanLine, if_neg h0, ih ht (pos + 1)]
      simp only [List.length_cons]
      omega

/-- The scan stops at the first `CR LF`. -/
theorem scanLine_first (l : List Nat) (n : Nat) (hn : CRLFAt l n)
    (h : ∀ i, i < n → ¬ CRLFAt l i) (pos : Nat) :
    scanLine l pos = pos + n := by
  induction l generalizing pos n with
  | nil =>
    unfold CRLFAt at hn
    simp at hn
  | cons a t ih =>
    cases t with
    | nil =>
      unfold CRLFAt at hn
      cases n with
      | zero => simp at hn
      | succ n => simp at hn
    | cons b r =>
      cases n with
      | zero =>
        rw [scanLine, if_pos ((crlfAt_zero a b r).mp hn)]
        rfl
      | succ n =>
        have h0 : ¬ (a = 13 ∧ b = 10) :=
          fun hc => h 0 (Nat.succ_pos n) ((crlfAt_zero a b r).mpr hc)
        have hn2 : CRLFAt (b :: r) n := (crlfAt_cons_succ a _ n).mp hn
        have h2 : ∀ i, i < n → ¬ CRLFAt (b :: r) i :=
          fun i hi hc => h (i + 1) (by omega) ((crlfAt_cons_succ a _ i).mpr hc)
        rw [scanLine, if_neg h0, ih n hn2 h2 (pos + 1)]
        omega

theorem crlfAt_lt (l : List Nat) (n : Nat) (h : CRLFAt l n) : n + 1 < l.length := by
  unfold CRLFAt at h
  by_contra hc
  have : l[n + 1]? = none := List.getElem?_eq_none (by omega)
  rw [this] at h
  exact absurd h.2 (by simp)

/-! ## Errors at a size line -/

/-- An empty size line is the error -4. -/
theorem decodeLoop_empty_line (heap : Nat → Bool) (inp pre rest buf : List Nat)
    (alloc fuel : Nat) (hinp : inp = pre ++ rest) (h0 : CRLFAt rest 0) :
    decodeLoop heap inp (fuel + 1) pre.length buf alloc = .error (-4) := by
  have hlt := crlfAt_lt rest 0 h0
  have hilen : inp.length = pre.length + rest.length := by rw [hinp, List.length_append]
  have hdrop : inp.drop pre.length = rest := by rw [hinp, List.drop_left]
  have hscan : scanLine (inp.drop pre.length) pre.length = pre.length := by
    rw [hdrop, scanLine_first rest 0 h0 (fun i hi => by omega)]
    rfl
  rw [decodeLoop]
  simp only [hscan]
  rw [if_neg (by omega), if_neg (by omega), if_pos (by omega)]

/-- A size line without `CR LF` behind it is the error -3. -/
theorem decodeLoop_unterminated (heap : Nat → Bool) (inp pre rest buf : List Nat)
    (alloc fuel : Nat) (hinp : inp = pre ++ rest) (hne : rest ≠ [])
    (h : ∀ i, ¬ CRLFAt rest i) :
    decodeLoop heap inp (fuel + 1) pre.length buf alloc = .error (-3) := by
  have hpos : 0 < rest.length := List.length_pos.mpr hne
  have hilen : inp.length = pre.length + rest.length := by rw [hinp, List.length_append]
  have hdrop : inp.drop pre.length = rest := by rw [hinp, List.drop_left]
  have hscan : scanLine (inp.drop pre.length) pre.length = pre.length + rest.length := by
    rw [hdrop, scanLine_unterminated rest h]
  rw [decodeLoop]
  simp only [hscan]
  rw [if_neg (by omega), if_pos (by omega)]

/-- A size line in which `strtoul` finds no number is the error -6, or -5 when the
copy of the line cannot be allocated. -/
theorem decodeLoop_no_number (heap : Nat → Bool) (inp pre rest buf : List Nat)
    (alloc fuel n : Nat) (hinp : inp = pre ++ rest) (hn : CRLFAt rest n) (hpos : 0 < n)
    (hfirst : ∀ i, i < n → ¬ CRLFAt rest i) (hconv : (strtoul16 (rest.take n)).2 = false) :
    decodeLoop heap inp (fuel + 1) pre.length buf alloc
      = if heap (n + 1) then .error (-6) else .error (-5) := by
  have hlt := crlfAt_lt rest n hn
  have hilen : inp.length = pre.length + rest.length := by rw [hinp, List.length_append]
  have hdrop : inp.drop pre.length = rest := by rw [hinp, List.drop_left]
  have hscan : scanLine rest pre.length = pre.length + n :=
    scanLine_first rest n hn hfirst _
  have hsub : pre.length + n - pre.length = n := by omega
  rw [decodeLoop]
  simp only [hdrop, hscan, hsub, hconv]
  rw [if_neg (by omega), if_neg (by omega), if_neg (by omega)]
  by_cases hh : heap (n + 1) = true
  · rw [if_neg (by simp [hh]), if_pos (by simp), if_pos hh]
  · rw [if_pos (by simpa using hh), if_neg hh]

/-! ## A chunk under an arbitrary allocator -/

/-- One chunk with the size line `ds` (hex digits) and the data `data`, up to the
test for the `CR LF` behind the data: either an allocation fails (error -5 or -8),
or the data is appended and the test of line 103 decides. -/
theorem decodeLoop_chunk_head (heap : Nat → Bool) (inp pre ds data tail buf : List Nat)
    (alloc fuel : Nat)
    (hinp : inp = pre ++ (ds ++ 13 :: 10 :: (data ++ tail)))
    (hds : ∀ c ∈ ds, (hexval c).isSome) (hne : ds ≠ []) (hval : hexValue ds = data.length)
    (hdata : data ≠ []) (hlen : inp.length ≤ PTRDIFF_MAX)
    (ha : AllocOK alloc) (hal : alloc ≤ 2 * inp.length + 1024)
    (hbp : buf.length ≤ pre.length) :
    (∃ n rc, n ≤ 2 * inp.length + 1024 ∧ heap n = false ∧ (rc = -5 ∨ rc = -8)
        ∧ decodeLoop heap inp (fuel + 1) pre.length buf alloc = .error rc)
    ∨ (∃ a, AllocOK a ∧ a ≤ 2 * inp.length + 1024
        ∧ decodeLoop heap inp (fuel + 1) pre.length buf alloc
          = if pre.length + ds.length + 2 + data.length + 1 ≥ inp.length
                ∨ inp[pre.length + ds.length + 2 + data.length]? ≠ some 13
                ∨ inp[pre.length + ds.length + 2 + data.length + 1]? ≠ some 10 then
              .error (-9)
            else decodeLoop heap inp fuel (pre.length + ds.length + 2 + data.length + 2)
              (buf ++ data) a) := by
  have hilen : inp.length = pre.length + ds.length + 2 + data.length + tail.length := by
    rw [hinp]; simp only [List.length_append, List.length_cons]; omega
  have hclen : data.length ≠ 0 := by
    intro h0; exact hdata (List.length_eq_zero.mp h0)
  have hLlen : ds.length ≠ 0 := by
    intro h0; exact hne (List.length_eq_zero.mp h0)
  have hPD : PTRDIFF_MAX = 9223372036854775807 := rfl
  have hSM : SIZE_MOD = 18446744073709551616 := rfl
  have hUM : ULONG_MAX = 18446744073709551615 := rfl
  have hdrop : inp.drop pre.length = ds ++ 13 :: 10 :: (data ++ tail) := by
    rw [hinp, List.drop_left]
  have hscan : scanLine (inp.drop pre.length) pre.length = pre.length + ds.length := by
    rw [hdrop]
    exact scanLine_line ds _ (fun x hx h13 => by
      have := hexval_range (hds x hx); omega) _
  have hhexline : (inp.drop pre.length).take (pre.length + ds.length - pre.length) = ds := by
    rw [hdrop, Nat.add_sub_cancel_left, List.take_left]
  have hconv : strtoul16 ds = (data.length, true) := by
    rw [strtoul16_hexDigits ds hds hne, hval, if_neg (by omega)]
  have hcopy : (inp.drop (pre.length + ds.length + 2)).take data.length = data := by
    have : inp = (pre ++ ds ++ [13, 10]) ++ (data ++ tail) := by
      rw [hinp]; simp
    have hl : (pre ++ ds ++ [13, 10]).length = pre.length + ds.length + 2 := by
      simp only [List.length_append, List.length_cons, List.length_nil]
    rw [this, ← hl, List.drop_left, List.take_left]
  have hneed : (buf.length + data.length + 1) % SIZE_MOD = buf.length + data.length + 1 :=
    Nat.mod_eq_of_lt (by omega)
  obtain ⟨a, hg, haOK, hna, hgrow⟩ :=
    growAlloc_ok (buf.length + data.length + 1) alloc (by norm_num; omega) ha
  have hale : a ≤ 2 * inp.length + 1024 := by
    rcases hgrow with h | h <;> omega
  rw [decodeLoop]
  simp only [hscan, hhexline, hconv, hneed, hg]
  rw [if_neg (by omega), if_neg (by omega), if_neg (by omega)]
  by_cases h5 : heap (ds.length + 1) = true
  · rw [if_neg (by simp [h5]), if_neg (by simp), if_neg hclen,
      if_neg (by rw [Nat.mod_eq_of_lt (by omega)]; omega)]
    by_cases h8 : buf.length + data.length + 1 > alloc ∧ ¬ heap a = true
    · left
      refine ⟨a, -8, hale, by simpa using h8.2, Or.inr rfl, ?_⟩
      rw [if_pos h8]
    · right
      refine ⟨a, haOK, hale, ?_⟩
      rw [if_neg h8, if_neg (by omega), hcopy]
  · left
    refine ⟨ds.length + 1, -5, by omega, by simpa using h5, Or.inl rfl, ?_⟩
    rw [if_pos (by simpa using h5)]

/-- How a decoding that meets a failing allocation ends: with one of the errors
-2, -5, -8 of `decode_chunked`, some request within the bound being refused. -/
theorem decodeLoop_chunk_any (heap : Nat → Bool) (inp pre c rest buf : List Nat)
    (alloc fuel : Nat)
    (hinp : inp = pre ++ (encodeChunk c ++ rest))
    (hc : c ≠ []) (hlen : inp.length ≤ PTRDIFF_MAX)
    (ha : AllocOK alloc) (hal : alloc ≤ 2 * inp.length + 1024)
    (hbp : buf.length ≤ pre.length) :
    (∃ n rc, n ≤ 2 * inp.length + 1024 ∧ heap n = false ∧ (rc = -5 ∨ rc = -8)
        ∧ decodeLoop heap inp (fuel + 1) pre.length buf alloc = .error rc)
    ∨ (∃ a, AllocOK a ∧ a ≤ 2 * inp.length + 1024
        ∧ decodeLoop heap inp (fuel + 1) pre.length buf alloc
          = decodeLoop heap inp fuel (pre ++ encodeChunk c).length (buf ++ c) a) := by
  obtain ⟨hhex, hval, hne⟩ := hexStr_spec c.length
  have hinp2 : inp = pre ++ (hexStr c.length ++ 13 :: 10 :: (c ++ 13 :: 10 :: rest)) := by
    rw [hinp, encodeChunk]; simp
  rcases decodeLoop_chunk_head heap inp pre (hexStr c.length) c (13 :: 10 :: rest) buf alloc
      fuel hinp2 hhex hne hval hc hlen ha hal hbp with h | ⟨a, h1, h2, h3⟩
  · exact Or.inl h
  · right
    refine ⟨a, h1, h2, ?_⟩
    have hilen : inp.length
        = pre.length + (hexStr c.length).length + 2 + c.length + 2 + rest.length := by
      rw [hinp2]; simp only [List.length_append, List.length_cons]; omega
    have hcr : inp[pre.length + (hexStr c.length).length + 2 + c.length]? = some 13 := by
      have : inp = (pre ++ hexStr c.length ++ [13, 10] ++ c) ++ (13 :: 10 :: rest) := by
        rw [hinp2]; simp
      have hl : (pre ++ hexStr c.length ++ [13, 10] ++ c).length
          = pre.length + (hexStr c.length).length + 2 + c.length := by
        simp only [List.length_append, List.length_cons, List.length_nil]
      rw [this, ← hl, List.getElem?_append_right (le_refl _)]
      simp
    have hlf : inp[pre.length + (hexStr c.length).length + 2 + c.length + 1]? = some 10 := by
      have : inp = (pre ++ hexStr c.length ++ [13, 10] ++ c ++ [13]) ++ (10 :: rest) := by
        rw [hinp2]; simp
      have hl : (pre ++ hexStr c.length ++ [13, 10] ++ c ++ [13]).length
          = pre.length + (hexStr c.length).length + 2 + c.length + 1 := by
        simp only [List.length_append, List.length_cons, List.length_nil]
      rw [this, ← hl, List.getElem?_append_right (le_refl _)]
      simp
    rw [h3, hcr, hlf, if_neg (by simp; omega)]
    congr 1
    rw [List.length_append, encodeChunk_length]
    omega

/-- A run of well-formed chunks under an arbitrary allocator. -/
theorem decodeLoop_chunks_any (heap : Nat → Bool) (inp : List Nat)
    (hlen : inp.length ≤ PTRDIFF_MAX) (rest : List Nat) (fuel : Nat) :
    ∀ (cs : List (List Nat)) (pre buf : List Nat) (alloc : Nat),
      inp = pre ++ (encodeChunks cs ++ rest) → (∀ c ∈ cs, c ≠ []) →
      AllocOK alloc → alloc ≤ 2 * inp.length + 1024 → buf.length ≤ pre.length →
      (∃ n rc, n ≤ 2 * inp.length + 1024 ∧ heap n = false ∧ (rc = -5 ∨ rc = -8)
          ∧ decodeLoop heap inp (fuel + cs.length) pre.length buf alloc = .error rc)
      ∨ (∃ a, AllocOK a ∧ a ≤ 2 * inp.length + 1024 ∧
          decodeLoop heap inp (fuel + cs.length) pre.length buf alloc
            = decodeLoop heap inp fuel (pre ++ encodeChunks cs).length
                (buf ++ cs.flatten) a) := by
  intro cs
  induction cs with
  | nil =>
    intro pre buf alloc _ _ ha hal _
    exact Or.inr ⟨alloc, ha, hal, by simp [encodeChunks]⟩
  | cons c cs ih =>
    intro pre buf alloc hinp hcs ha hal hbp
    have hinp1 : inp = pre ++ (encodeChunk c ++ (encodeChunks cs ++ rest)) := by
      rw [hinp, encodeChunks, List.append_assoc]
    have hf : fuel + (c :: cs).length = fuel + cs.length + 1 := by simp; omega
    rcases decodeLoop_chunk_any heap inp pre c (encodeChunks cs ++ rest) buf alloc
        (fuel + cs.length) hinp1 (hcs c (List.mem_cons_self _ _)) hlen ha hal hbp
      with ⟨n, rc, h1, h2, h3, h4⟩ | ⟨a1, ha1, hal1, hstep⟩
    · exact Or.inl ⟨n, rc, h1, h2, h3, by rw [hf]; exact h4⟩
    · have hinp2 : inp = (pre ++ encodeChunk c) ++ (encodeChunks cs ++ rest) := by
        rw [hinp1, List.append_assoc]
      have hbp2 : (buf ++ c).length ≤ (pre ++ encodeChunk c).length := by
        simp only [List.length_append, encodeChunk_length]
        omega
      rcases ih (pre ++ encodeChunk c) (buf ++ c) a1 hinp2
          (fun x hx => hcs x (List.mem_cons_of_mem _ hx)) ha1 hal1 hbp2
        with ⟨n, rc, h1, h2, h3, h4⟩ | ⟨a2, ha2, hal2, hrest⟩
      · exact Or.inl ⟨n, rc, h1, h2, h3, by rw [hf, hstep]; exact h4⟩
      · refine Or.inr ⟨a2, ha2, hal2, ?_⟩
        rw [hf, hstep, hrest]
        simp [encodeChunks, List.append_assoc]

/-- The decoder on well-formed chunks followed by more input: unless an allocation
fails, it reaches the position behind the chunks with their data as output. -/
theorem decode_chunked_prefix (heap : Nat → Bool) (cs : List (List Nat)) (rest : List Nat)
    (hcs : ∀ c ∈ cs, c ≠ []) (hrest : rest ≠ [])
    (hlen : (encodeChunks cs ++ rest).length ≤ PTRDIFF_MAX) :
    (∃ n rc, n ≤ 2 * (encodeChunks cs ++ rest).length + 1024 ∧ heap n = false
        ∧ (rc = -2 ∨ rc = -5 ∨ rc = -8)
        ∧ decode_chunked heap (encodeChunks cs ++ rest) = .error rc)
    ∨ (∃ a fuel, AllocOK a ∧ a ≤ 2 * (encodeChunks cs ++ rest).length + 1024
        ∧ decode_chunked heap (encodeChunks cs ++ rest)
          = decodeLoop heap (encodeChunks cs ++ rest) (fuel + 1) (encodeChunks cs).length
              cs.flatten a) := by
  have hge := encodeChunks_length_ge cs
  have hpos : 0 < rest.length := List.length_pos.mpr hrest
  have hil : (encodeChunks cs ++ rest).length = (encodeChunks cs).length + rest.length :=
    List.length_append _ _
  by_cases h2 : heap 1024 = true
  · have hd : decode_chunked heap (encodeChunks cs ++ rest)
        = decodeLoop heap (encodeChunks cs ++ rest)
            ((encodeChunks cs ++ rest).length - cs.length + 1 + cs.length) 0 [] 1024 := by
      unfold decode_chunked
      rw [if_neg (by simp [h2])]
      congr 1
      omega
    rcases decodeLoop_chunks_any heap (encodeChunks cs ++ rest) hlen rest
        ((encodeChunks cs ++ rest).length - cs.length + 1) cs [] [] 1024
        (by simp) hcs allocOK_1024 (by omega) (le_refl _)
      with ⟨n, rc, h1, h3, h4, h5⟩ | ⟨a, ha, hal, hrun⟩
    · left
      refine ⟨n, rc, h1, h3, ?_, ?_⟩
      · rcases h4 with h | h
        · exact Or.inr (Or.inl h)
        · exact Or.inr (Or.inr h)
      · rw [hd]; exact h5
    · right
      refine ⟨a, (encodeChunks cs ++ rest).length - cs.length, ha, hal, ?_⟩
      rw [hd]
      simp only [List.length_nil, List.nil_append] at hrun
      exact hrun
  · left
    refine ⟨1024, -2, by omega, by simpa using h2, Or.inl rfl, ?_⟩
    unfold decode_chunked
    rw [if_pos (by simpa using h2)]

/-! ## Claims about the errors of `decode_chunked` -/

/-- From the loop at the position behind well-formed chunks to `decode_chunked`: when
the loop there ends in the error `k` unless an allocation is refused, the decoder
returns a non-zero error, which is `k` when every allocation is granted. -/
theorem decode_error_behind_chunks (heap : Nat → Bool) (cs : List (List Nat))
    (rest : List Nat) (hcs : ∀ c ∈ cs, c ≠ []) (hrest : rest ≠ [])
    (hlen : (encodeChunks cs ++ rest).length ≤ PTRDIFF_MAX) (k : Int) (hk : k ≠ 0)
    (hloop : ∀ a fuel, AllocOK a → a ≤ 2 * (encodeChunks cs ++ rest).length + 1024 →
      decodeLoop heap (encodeChunks cs ++ rest) (fuel + 1) (encodeChunks cs).length
          cs.flatten a = .error k
      ∨ ∃ n rc, n ≤ 2 * (encodeChunks cs ++ rest).length + 1024 ∧ heap n = false ∧ rc ≠ 0
          ∧ decodeLoop heap (encodeChunks cs ++ rest) (fuel + 1) (encodeChunks cs).length
              cs.flatten a = .error rc) :
    ∃ rc, decode_chunked heap (encodeChunks cs ++ rest) = .error rc ∧ rc ≠ 0
      ∧ ((∀ n, n ≤ 2 * (encodeChunks cs ++ rest).length + 1024 → heap n = true) → rc = k) := by
  rcases decode_chunked_prefix heap cs rest hcs hrest hlen
    with ⟨n, rc, h1, h2, h3, h4⟩ | ⟨a, fuel, ha, hal, hrun⟩
  · refine ⟨rc, h4, ?_, ?_⟩
    · rcases h3 with h | h | h <;> rw [h] <;> decide
    · intro hg
      rw [hg n h1] at h2
      cases h2
  · rcases hloop a fuel ha hal with h | ⟨n, rc, h1, h2, h3, h4⟩
    · exact ⟨k, by rw [hrun, h], hk, fun _ => rfl⟩
    · refine ⟨rc, by rw [hrun, h4], h3, ?_⟩
      intro hg
      rw [hg n h1] at h2
      cases h2

/-- C24 (counterexample). The size line of the first chunk is a blank followed by
`5`: it does not begin with a hexadecimal number, yet `strtoul` skips the blank and
reads 5, and `decode_chunked` returns 0 with the output `hello`.  A size line `+5`
is read the same way. -/
theorem size_line_with_leading_blank :
    hexval 32 = none ∧ hexval 43 = none
    ∧ decode_chunked heap_all (str " 5\r\nhello\r\n0\r\n\r\n") = .ok (str "hello")
    ∧ decode_chunked heap_all (str "+5\r\nhello\r\n0\r\n\r\n") = .ok (str "hello") := by
  refine ⟨by decide, by decide, by decide, by decide⟩

/-! ## A declared chunk size near the largest `unsigned long` -/

/-- C25 (the code at the failing input). The 18-byte input `ffffffffffffffff`
CR LF declares a chunk of `2^64 - 1` bytes, of which none is present.  The sum
`pos + chunk_size` wraps to 17, which is not above `in_len = 18`, so the test of
line 80 passes; `buf_len + chunk_size + 1` wraps to 0, so the output buffer keeps
its 1024 bytes; and the `memcpy` of line 98 is asked to copy `2^64 - 1` bytes from
the end of the input.  The same happens inside the READING handler when a chunked
response carries this size line in front of the terminating chunk. -/
theorem declared_size_wraps :
    strtoul16 (str "ffffffffffffffff") = (ULONG_MAX, true)
    ∧ (18 + ULONG_MAX) % SIZE_MOD = 17
    ∧ decode_chunked heap_all (str "ffffffffffffffff\r\n") = .fault
    ∧ decode_chunked heap_glibc (str "ffffffffffffffff\r\n") = .fault
    ∧ http_client_work_reading heap_glibc
        (.got (str ("HTTP/1.1 200 OK\r\nTransfer-Encoding: chunked\r\n\r\n"
          ++ "ffffffffffffffff\r\n0\r\n\r\n")))
        (.fail EAGAIN) reading_client = .fault := by
  refine ⟨by decide, by decide, by decide, by decide, by decide⟩

/-! ## The header scan on a short buffer -/

/-- C28 (the code at the failing input). The first `recv` of a client in READING
returns the two bytes `HT`.  The buffer holds no `CR LF CR LF`, yet the handler does
not return READING: the loop bound `read_buffer_size - 4` wraps to `2^64 - 2`, the
loop runs on and reads `read_buffer[2]`, outside the 2-byte buffer.  With four bytes
or more the scan does what the specification says: `HTTP` leaves `body_start = 0`
and READING, and the response of scenario B sets `body_start` to 45. -/
theorem header_scan_short_buffer :
    http_client_work_reading heap_all (.got (str "HT")) (.fail EAGAIN) reading_client = .fault
    ∧ http_client_work_reading heap_all (.got (str "HTTP")) (.fail EAGAIN) reading_client
        = .ok ⟨{ reading_client with read_buffer := str "HTTP" }, .READING, [], []⟩
    ∧ http_client_work_reading heap_all (.got response_b) (.fail EAGAIN) reading_client
        = .ok ⟨{ reading_client with
                  read_buffer := response_b, body_start := 45, status_code := 404 },
              .READING, [], []⟩ := by
  refine ⟨by decide, by decide, by decide⟩

/-! ## The connection at teardown -/

/-- C30 (the code at the failing inputs). A client with `timeout = 6` reaches
READING at time 4 holding descriptor 3.  When the tick at time 7 finds the timeout
expired, the client is freed with `tcp_conn` still set and no descriptor has been
closed.  The same holds when the `recv` of tick 5 fails with `ECONNRESET` (104): the
handler reports `Read failed`, and the tick at time 6 frees the client without a
close.  Only the way through DONE (the response of scenario A) closes descriptor 3
before the client is freed. -/
theorem connection_left_open :
    (run [(env_ok heap_all (.fail EAGAIN) (.fail EAGAIN), 1),
          (env_ok heap_all (.fail EAGAIN) (.fail EAGAIN), 2),
          (env_ok heap_all (.fail EAGAIN) (.fail EAGAIN), 3),
          (env_ok heap_all (.fail EAGAIN) (.fail EAGAIN), 4),
          (env_ok heap_all (.fail EAGAIN) (.fail EAGAIN), 7)]
        (new_client true (str "http://example.com/status") 6 true) [] []
      = .freed reading_client [⟨"TIMEOUT", none⟩]
      ∧ reading_client.tcp_conn = some 3
      ∧ run_closed [(env_ok heap_all (.fail EAGAIN) (.fail EAGAIN), 1),
          (env_ok heap_all (.fail EAGAIN) (.fail EAGAIN), 2),
          (env_ok heap_all (.fail EAGAIN) (.fail EAGAIN), 3),
          (env_ok heap_all (.fail EAGAIN) (.fail EAGAIN), 4),
          (env_ok heap_all (.fail EAGAIN) (.fail EAGAIN), 7)]
        (new_client true (str "http://example.com/status") 6 true) [] = [])
    ∧ (run [(env_ok heap_all (.fail EAGAIN) (.fail EAGAIN), 1),
          (env_ok heap_all (.fail EAGAIN) (.fail EAGAIN), 2),
          (env_ok heap_all (.fail EAGAIN) (.fail EAGAIN), 3),
          (env_ok heap_all (.fail EAGAIN) (.fail EAGAIN), 4),
          (env_ok heap_all (.fail 104) (.fail EAGAIN), 5),
          (env_ok heap_all (.fail EAGAIN) (.fail EAGAIN), 6)]
        (new_client true (str "http://example.com/status") 6 true) [] []
      = .freed { reading_client with state := .DISPOSE } [⟨"ERROR", some (str "Read failed")⟩]
      ∧ run_closed [(env_ok heap_all (.fail EAGAIN) (.fail EAGAIN), 1),
          (env_ok heap_all (.fail EAGAIN) (.fail EAGAIN), 2),
          (env_ok heap_all (.fail EAGAIN) (.fail EAGAIN), 3),
          (env_ok heap_all (.fail EAGAIN) (.fail EAGAIN), 4),
          (env_ok heap_all (.fail 104) (.fail EAGAIN), 5),
          (env_ok heap_all (.fail EAGAIN) (.fail EAGAIN), 6)]
        (new_client true (str "http://example.com/status") 6 true) [] = [])
    ∧ run_closed [(env_ok heap_all (.fail EAGAIN) (.fail EAGAIN), 1),
          (env_ok heap_all (.fail EAGAIN) (.fail EAGAIN), 2),
          (env_ok heap_all (.fail EAGAIN) (.fail EAGAIN), 3),
          (env_ok heap_all (.fail EAGAIN) (.fail EAGAIN), 4),
          (env_ok heap_all (.got response_a) (.fail EAGAIN), 5),
          (env_ok heap_all (.fail EAGAIN) (.fail EAGAIN), 6),
          (env_ok heap_all (.fail EAGAIN) (.fail EAGAIN), 7)]
        (new_client true (str "http://example.com/status") 60 true) [] = [3] := by
  refine ⟨⟨by decide, rfl, by decide⟩, ⟨by decide, by decide⟩, by decide⟩

/-! ## The header flags -/

theorem cstr_infix (pat b : List Nat) (h : pat <:+: cstr b) : pat <:+: b := by
  unfold cstr at h
  exact List.IsInfix.trans h (List.takeWhile_prefix _).isInfix

/-- C29 (counterexample). The header block of `response_nul` contains the byte string
`Transfer-Encoding: chunked`, but a NUL byte stands in front of it; after header
parsing `chunked` is false. -/
theorem header_flag_behind_nul :
    http_client_work_reading heap_all (.got response_nul) (.fail EAGAIN) reading_client
      = .ok ⟨{ reading_client with
                read_buffer := response_nul, body_start := 53, status_code := 200,
                chunked := false },
            .READING, [], []⟩
    ∧ str "Transfer-Encoding: chunked" <:+: response_nul.take 53 := by
  refine ⟨by decide, ?_⟩
  exact ⟨str "HTTP/1.1 200 OK\r\nX: " ++ [0] ++ str "\r\n", str "\r\n\r\n", by decide⟩

/-- C29 (amended). After header parsing, with the header block being the bytes of
the read buffer before `body_start`: `chunked` is true if and only if the text of the
block, its bytes before the first NUL, contains `Transfer-Encoding: chunked`;
`connection_close` is true if and only if that text contains `Connection: close`;
so each flag is set only if the block contains the string, and if and only if when
the block holds no NUL byte; and `content_len` is 0 whenever the block does not
contain `Content-Length:`.  The matches are exact, byte for byte. -/
theorem header_flags (heap : Nat → Bool) (c c1 : HttpClient) (i : Nat)
    (h : parse_headers heap c i = some c1) :
    c1.body_start = i + 4 ∧ c1.read_buffer = c.read_buffer
    ∧ (c1.chunked = true
        ↔ str "Transfer-Encoding: chunked" <:+: cstr (c1.read_buffer.take c1.body_start))
    ∧ (c1.connection_close = true
        ↔ str "Connection: close" <:+: cstr (c1.read_buffer.take c1.body_start))
    ∧ (c1.chunked = true
        → str "Transfer-Encoding: chunked" <:+: c1.read_buffer.take c1.body_start)
    ∧ (c1.connection_close = true
        → str "Connection: close" <:+: c1.read_buffer.take c1.body_start)
    ∧ (IsCString (c1.read_buffer.take c1.body_start) →
        (c1.chunked = true
          ↔ str "Transfer-Encoding: chunked" <:+: c1.read_buffer.take c1.body_start)
        ∧ (c1.connection_close = true
          ↔ str "Connection: close" <:+: c1.read_buffer.take c1.body_start))
    ∧ (¬ str "Content-Length:" <:+: c1.read_buffer.take c1.body_start
        → c1.content_len = 0) := by
  unfold parse_headers at h
  split at h
  · cases h
  · injection h with h
    subst h
    have hblock : ∀ pat : List Nat,
        pat <:+: cstr (c.read_buffer.take (i + 4)) → pat <:+: c.read_buffer.take (i + 4) :=
      fun pat => cstr_infix pat _
    have e1 : (strstr (str "Transfer-Encoding: chunked") (cstr (headers_copy c i))).isSome = true
        ↔ str "Transfer-Encoding: chunked" <:+: cstr (c.read_buffer.take (i + 4)) :=
      strstr_isSome_iff _ _
    have e2 : (strstr (str "Connection: close") (cstr (headers_copy c i))).isSome = true
        ↔ str "Connection: close" <:+: cstr (c.read_buffer.take (i + 4)) :=
      strstr_isSome_iff _ _
    refine ⟨rfl, rfl, e1, e2, fun hc => hblock _ (e1.mp hc), fun hc => hblock _ (e2.mp hc),
      ?_, ?_⟩
    · intro hs
      have hcs : cstr (c.read_buffer.take (i + 4)) = c.read_buffer.take (i + 4) :=
        cstr_of_isCString _ hs
      rw [hcs] at e1 e2
      exact ⟨e1, e2⟩
    · intro hno
      exact scan_content_length_absent (headers_copy c i) (fun hc => hno (hblock _ hc))

/-- Witness for C29 (amended): the lower-case spelling `transfer-encoding: chunked`
does not set `chunked`, the spelling of scenario C does. -/
theorem header_flags_witness :
    (∃ c1, parse_headers heap_all { reading_client with read_buffer := response_lower } 43
          = some c1 ∧ c1.chunked = false)
    ∧ (∃ c1, parse_headers heap_all { reading_client with read_buffer := response_c } 43
          = some c1 ∧ c1.chunked = true) := by
  constructor
  · refine ⟨_, rfl, ?_⟩
    have h := (header_flags heap_all { reading_client with read_buffer := response_lower } _ 43
      rfl).2.2.1
    by_contra hc
    have hin := h.mp (Bool.eq_true_of_not_eq_false hc)
    revert hin
    decide
  · refine ⟨_, rfl, ?_⟩
    exact (header_flags heap_all { reading_client with read_buffer := response_c } _ 43
      rfl).2.2.1.mpr
        ⟨str "HTTP/1.1 200 OK\r\n", str "\r\n\r\n", by decide⟩

/-! ## The growth loop of `decode_chunked` -/

/-- Once `alloc` is 0 or a power of two up to `2^63`, a request above `2^63` keeps the
condition of the loop `while (buf_len + chunk_size + 1 > alloc) alloc *= 2;` true
through every number of iterations. -/
theorem growAlloc_stuck (need : Nat) (hneed : 2 ^ 63 < need) :
    ∀ (fuel alloc : Nat), alloc = 0 ∨ AllocOK alloc → growAlloc need fuel alloc = none := by
  intro fuel
  induction fuel with
  | zero => intro alloc _; rfl
  | succ n ih =>
    intro alloc ha
    have hle : alloc ≤ 2 ^ 63 := by
      rcases ha with h | ⟨k, hk, h⟩
      · omega
      · rw [h]; exact Nat.pow_le_pow_right (by omega) hk
    unfold growAlloc
    rw [if_pos (by omega)]
    apply ih
    rcases ha with h | ⟨k, hk, h⟩
    · left; rw [h]; simp
    · by_cases hk63 : k = 63
      · left; rw [h, hk63]; decide
      · right
        refine ⟨k + 1, by omega, ?_⟩
        have hlt : 2 ^ (k + 1) ≤ 2 ^ 63 := Nat.pow_le_pow_right (by omega) (by omega)
        rw [h, ← pow_succ]
        apply Nat.mod_eq_of_lt
        unfold SIZE_MOD
        omega

/-- C39 (the code at the failing input). The input `ffffffffffffffee CRLF` declares
a chunk of `2^64 - 18` bytes.  After the size line `pos` is 18, so `pos + chunk_size`
wraps to 0 and the availability test passes; the output then needs `2^64 - 17`
bytes, and the loop `while (buf_len + chunk_size + 1 > alloc) alloc *= 2;` never
ends: `alloc` doubles from 1024 to `2^63`, wraps to 0 and stays 0, so the condition
is true after every number of doublings and `decode_chunked` does not return.  The
same size line reaches the decoder from the network: the READING step on a chunked
response with the body `ffffffffffffffee CRLF 0 CRLF CRLF` does not return either. -/
theorem growth_loop_never_ends :
    decode_chunked heap_all (str "ffffffffffffffee\r\n") = .hang
      ∧ (∀ fuel, growAlloc 18446744073709551599 fuel 1024 = none)
      ∧ growAlloc 18446744073709551599 65 1024 = none
      ∧ http_client_work_reading heap_all
          (.got (str ("HTTP/1.1 200 OK\r\nTransfer-Encoding: chunked\r\n\r\n"
            ++ "ffffffffffffffee\r\n0\r\n\r\n")))
          (.fail EAGAIN) reading_client = .hang := by
  refine ⟨by decide, ?_, by decide, by decide⟩
  intro fuel
  exact growAlloc_stuck _ (by norm_num) fuel 1024 (Or.inr ⟨10, by omega, by norm_num⟩)

/-! ## What the handlers leave untouched -/

theorem keep_store_decoded (heap : Nat → Bool) (c : HttpClient) (inp : List Nat)
    (s : Step) (h : store_decoded heap c inp = .ok s) :
    s.client.read_buffer = c.read_buffer ∧ s.client.timer = c.timer
      ∧ s.client.timeout = c.timeout := by
  unfold store_decoded at h
  split at h
  · injection h with h; rw [← h]; exact ⟨rfl, rfl, rfl⟩
  · cases h
  · cases h
  · injection h with h; rw [← h]; exact ⟨rfl, rfl, rfl⟩

theorem keep_done_with_body (heap : Nat → Bool) (c : HttpClient)
    (s : Step) (h : done_with_body heap c = .ok s) :
    s.client.read_buffer = c.read_buffer ∧ s.client.timer = c.timer
      ∧ s.client.timeout = c.timeout := by
  unfold done_with_body at h
  split at h
  · injection h with h; rw [← h]; exact ⟨rfl, rfl, rfl⟩
  · split at h
    · cases h
    · injection h with h; rw [← h]; exact ⟨rfl, rfl, rfl⟩

theorem keep_finalize_remaining (heap : Nat → Bool) (c : HttpClient)
    (s : Step) (h : finalize_remaining heap c = .ok s) :
    s.client.read_buffer = c.read_buffer ∧ s.client.timer = c.timer
      ∧ s.client.timeout = c.timeout := by
  unfold finalize_remaining at h
  split at h
  · exact keep_done_with_body heap { c with content_len := remaining c } s h
  · injection h with h; rw [← h]; exact ⟨rfl, rfl, rfl⟩

theorem keep_reading_complete (heap : Nat → Bool) (peek : Recv) (c : HttpClient)
    (s : Step) (h : reading_complete heap peek c = .ok s) :
    s.client.read_buffer = c.read_buffer ∧ s.client.timer = c.timer
      ∧ s.client.timeout = c.timeout := by
  unfold reading_complete at h
  split at h
  · split at h
    · unfold complete_known_length at h
      split at h
      · exact keep_done_with_body _ _ s h
      · injection h with h; rw [← h]; exact ⟨rfl, rfl, rfl⟩
    · split at h
      · unfold complete_chunked at h
        split at h
        · exact keep_store_decoded _ _ _ s h
        · injection h with h; rw [← h]; exact ⟨rfl, rfl, rfl⟩
      · unfold complete_by_peek at h
        split at h
        · split at h
          · exact keep_finalize_remaining _ _ s h
          · split at h
            · split at h
              · injection h with h; rw [← h]; exact ⟨rfl, rfl, rfl⟩
              · injection h with h; rw [← h]; exact ⟨rfl, rfl, rfl⟩
            · injection h with h; rw [← h]; exact ⟨rfl, rfl, rfl⟩
        · injection h with h; rw [← h]; exact ⟨rfl, rfl, rfl⟩
  · injection h with h; rw [← h]; exact ⟨rfl, rfl, rfl⟩

theorem keep_reading_eof (heap : Nat → Bool) (c : HttpClient)
    (s : Step) (h : reading_eof heap c = .ok s) :
    s.client.read_buffer = c.read_buffer ∧ s.client.timer = c.timer
      ∧ s.client.timeout = c.timeout := by
  unfold reading_eof at h
  split at h
  · split at h
    · exact keep_store_decoded _ _ _ s h
    · exact keep_finalize_remaining _ _ s h
  · injection h with h; rw [← h]; exact ⟨rfl, rfl, rfl⟩

theorem keep_receive_headers (heap : Nat → Bool) (c : HttpClient)
    (s : Step) (h : receive_headers heap c = .ok (.inr s)) : s.client = c := by
  unfold receive_headers at h
  split at h
  · split at h
    · cases h
    · cases h
    · split at h
      · have h1 := Sum.inr.inj (Exec.ok.inj h)
        rw [← h1]; rfl
      · cases h
  · cases h

/-- An error step of `reading_receive` holds the client as it was, or with the
received bytes appended when the reallocation was granted. -/
theorem keep_reading_receive (heap : Nat → Bool) (c : HttpClient) (bytes : List Nat)
    (s : Step) (h : reading_receive heap c bytes = .ok (.inr s)) :
    (s.client = c ∧ heap ((c.read_buffer_size + bytes.length) % SIZE_MOD) = false)
      ∨ s.client = { c with read_buffer := c.read_buffer ++ bytes } := by
  unfold reading_receive at h
  split at h
  · rename_i hh
    have h1 := Sum.inr.inj (Exec.ok.inj h)
    left
    refine ⟨by rw [← h1]; rfl, ?_⟩
    simpa using hh
  · split at h
    · cases h
    · right
      exact keep_receive_headers heap _ s h

/-- The read buffer after a step of the READING handler is the buffer before,
followed by the bytes received when there were any and the reallocation was
granted; `timer` and `timeout` are those before. -/
theorem keep_reading (heap : Nat → Bool) (r peek : Recv) (c : HttpClient)
    (s : Step) (h : http_client_work_reading heap r peek c = .ok s) :
    (s.client.read_buffer = c.read_buffer
        ∨ s.client.read_buffer
            = c.read_buffer ++ r.bytes.take (tcp_client_read r).toNat)
      ∧ s.client.timer = c.timer ∧ s.client.timeout = c.timeout := by
  unfold http_client_work_reading at h
  split at h
  · cases h
  · split at h
    · injection h with h; rw [← h]; exact ⟨Or.inl rfl, rfl, rfl⟩
    · split at h
      · injection h with h; rw [← h]; exact ⟨Or.inl rfl, rfl, rfl⟩
      · split at h
        · obtain ⟨k1, k2, k3⟩ := keep_reading_eof _ _ s h
          exact ⟨Or.inl k1, k2, k3⟩
        · split at h
          · cases h
          · cases h
          · rename_i s1 heq
            injection h with h
            rw [← h]
            rcases keep_reading_receive _ _ _ s1 heq with ⟨k, _⟩ | k
            · rw [k]; exact ⟨Or.inl rfl, rfl, rfl⟩
            · rw [k]; exact ⟨Or.inr rfl, rfl, rfl⟩
          · rename_i c1 heq
            obtain ⟨k1, k2, k3⟩ := keep_reading_complete _ _ _ s h
            obtain ⟨f1, _, _, _, _⟩ := reading_receive_frame heap c c1 _ heq
            obtain ⟨_, g2, g3⟩ := reading_receive_frame2 heap c c1 _ heq
            exact ⟨Or.inr (by rw [k1, f1]), by rw [k2, g2], by rw [k3, g3]⟩

theorem keep_send_request (sr : Send) (c : HttpClient)
    (s : Step) (h : send_request sr c = .ok s) :
    s.client.timer = c.timer ∧ s.client.timeout = c.timeout := by
  unfold send_request at h
  split at h
  · cases h
  · split at h
    · split at h
      · injection h with h; rw [← h]; exact ⟨rfl, rfl⟩
      · injection h with h; rw [← h]; exact ⟨rfl, rfl⟩
    · split at h
      · injection h with h; rw [← h]; exact ⟨rfl, rfl⟩
      · injection h with h; rw [← h]; exact ⟨rfl, rfl⟩

theorem keep_build_request (heap : Nat → Bool) (c c1 : HttpClient)
    (h : build_request heap c = some c1) : c1.timer = c.timer ∧ c1.timeout = c.timeout := by
  unfold build_request at h
  split at h
  · injection h with h; rw [← h]; exact ⟨rfl, rfl⟩
  · split at h
    · cases h
    · injection h with h; rw [← h]; exact ⟨rfl, rfl⟩

theorem keep_writing (heap : Nat → Bool) (sr : Send) (c : HttpClient)
    (s : Step) (h : http_client_work_writing heap sr c = .ok s) :
    s.client.timer = c.timer ∧ s.client.timeout = c.timeout := by
  unfold http_client_work_writing at h
  split at h
  · injection h with h; rw [← h]; exact ⟨rfl, rfl⟩
  · rename_i c1 heq
    obtain ⟨b1, b2⟩ := keep_build_request heap c c1 heq
    obtain ⟨k1, k2⟩ := keep_send_request sr c1 s h
    exact ⟨by rw [k1, b1], by rw [k2, b2]⟩

theorem keep_init (c : HttpClient) (s : Step) (h : http_client_work_init c = .ok s) :
    s.client.timer = c.timer ∧ s.client.timeout = c.timeout := by
  unfold http_client_work_init at h
  split at h
  · cases h
  · cases h
  · split at h
    · injection h with h; rw [← h]; exact ⟨rfl, rfl⟩
    · split at h
      · injection h with h; rw [← h]; exact ⟨rfl, rfl⟩
      · injection h with h; rw [← h]; exact ⟨rfl, rfl⟩

theorem keep_connect (heap : Nat → Bool) (gai : Option (List Candidate)) (c : HttpClient) :
    (http_client_work_connect heap gai c).client.timer = c.timer
      ∧ (http_client_work_connect heap gai c).client.timeout = c.timeout := by
  unfold http_client_work_connect
  split
  · exact ⟨rfl, rfl⟩
  · split
    · exact ⟨rfl, rfl⟩
    · exact ⟨rfl, rfl⟩

theorem keep_connecting (so : SockOpt) (c : HttpClient) :
    (http_client_work_connecting so c).client.timer = c.timer
      ∧ (http_client_work_connecting so c).client.timeout = c.timeout := by
  unfold http_client_work_connecting
  split
  · exact ⟨rfl, rfl⟩
  · split
    · exact ⟨rfl, rfl⟩
    · split
      · exact ⟨rfl, rfl⟩
      · split
        · exact ⟨rfl, rfl⟩
        · split
          · exact ⟨rfl, rfl⟩
          · exact ⟨rfl, rfl⟩

theorem tick_alive_client (s : Step) (c1 : HttpClient) (calls : List Call) (closed : List Int)
    (h : s.tick = .alive c1 calls closed) :
    c1.timer = s.client.timer ∧ c1.timeout = s.client.timeout := by
  unfold Step.tick at h
  injection h with h1 _ _
  rw [← h1]
  exact ⟨rfl, rfl⟩

theorem exec_tick_alive_client (e : Exec Step) (c1 : HttpClient) (calls : List Call)
    (closed : List Int) (h : e.tick = .alive c1 calls closed) :
    ∃ s, e = .ok s ∧ c1.timer = s.client.timer ∧ c1.timeout = s.client.timeout := by
  cases e with
  | ok s => exact ⟨s, rfl, tick_alive_client s c1 calls closed h⟩
  | fault => cases h
  | hang => cases h

theorem exec_tick_not_freed (e : Exec Step) (c1 : HttpClient) (calls : List Call)
    (h : e.tick = .freed c1 calls) : False := by
  cases e with
  | ok s => unfold Exec.tick Step.tick at h; cases h
  | fault => cases h
  | hang => cases h

/-- No state handler changes `timer` or `timeout`. -/
theorem keep_work_switch (env : Env) (c : HttpClient) :
    (∀ c1 calls closed, work_switch env c = .alive c1 calls closed →
        c1.timer = c.timer ∧ c1.timeout = c.timeout)
    ∧ (∀ c1 calls, work_switch env c = .freed c1 calls → c1 = c) := by
  constructor
  · intro c1 calls closed h
    unfold work_switch at h
    split at h
    · obtain ⟨s, hs, h1, h2⟩ := exec_tick_alive_client _ _ _ _ h
      obtain ⟨k1, k2⟩ := keep_init c s hs
      exact ⟨by rw [h1, k1], by rw [h2, k2]⟩
    · obtain ⟨h1, h2⟩ := tick_alive_client _ _ _ _ h
      obtain ⟨k1, k2⟩ := keep_connect env.heap env.gai c
      exact ⟨by rw [h1, k1], by rw [h2, k2]⟩
    · obtain ⟨h1, h2⟩ := tick_alive_client _ _ _ _ h
      obtain ⟨k1, k2⟩ := keep_connecting env.sockopt c
      exact ⟨by rw [h1, k1], by rw [h2, k2]⟩
    · obtain ⟨s, hs, h1, h2⟩ := exec_tick_alive_client _ _ _ _ h
      obtain ⟨k1, k2⟩ := keep_writing _ _ c s hs
      exact ⟨by rw [h1, k1], by rw [h2, k2]⟩
    · obtain ⟨s, hs, h1, h2⟩ := exec_tick_alive_client _ _ _ _ h
      obtain ⟨_, k1, k2⟩ := keep_reading _ _ _ c s hs
      exact ⟨by rw [h1, k1], by rw [h2, k2]⟩
    · obtain ⟨h1, h2⟩ := tick_alive_client _ _ _ _ h
      exact ⟨by rw [h1]; rfl, by rw [h2]; rfl⟩
    · cases h
  · intro c1 calls h
    unfold work_switch at h
    split at h
    · exact (exec_tick_not_freed _ _ _ h).elim
    · unfold Step.tick at h; cases h
    · unfold Step.tick at h; cases h
    · exact (exec_tick_not_freed _ _ _ h).elim
    · exact (exec_tick_not_freed _ _ _ h).elim
    · unfold Step.tick at h; cases h
    · injection h with h1 _
      exact h1.symm

/-- After a tick the client, registered or freed, has the `timeout` it had and
the `timer` it had, unless that was 0: then it is the time of the tick. -/
theorem keep_work (env : Env) (c : HttpClient) (t : Nat) :
    (∀ c1 calls closed, http_client_work env c t = .alive c1 calls closed →
        c1.timer = (if c.timer = 0 then t else c.timer) ∧ c1.timeout = c.timeout)
    ∧ (∀ c1 calls, http_client_work env c t = .freed c1 calls →
        c1.timer = (if c.timer = 0 then t else c.timer) ∧ c1.timeout = c.timeout) := by
  constructor
  · intro c1 calls closed h
    unfold http_client_work at h
    split at h
    · rename_i h0
      rw [if_pos h0]
      exact (keep_work_switch env { c with timer := t }).1 c1 calls closed h
    · rename_i h0
      rw [if_neg h0]
      split at h
      · cases h
      · exact (keep_work_switch env c).1 c1 calls closed h
  · intro c1 calls h
    unfold http_client_work at h
    split at h
    · rename_i h0
      rw [if_pos h0]
      rw [(keep_work_switch env { c with timer := t }).2 c1 calls h]
      exact ⟨rfl, rfl⟩
    · rename_i h0
      rw [if_neg h0]
      split at h
      · injection h with h1 _
        rw [← h1]
        exact ⟨rfl, rfl⟩
      · rw [(keep_work_switch env c).2 c1 calls h]
        exact ⟨rfl, rfl⟩

/-- Once `timer` is not 0, no sequence of ticks changes it or `timeout`. -/
theorem run_keeps_timer (ticks : List (Env × Nat)) :
    ∀ (c : HttpClient) (calls : List Call) (closed : List Int), c.timer ≠ 0 →
      (∀ c1 cs cl, run ticks c calls closed = .alive c1 cs cl →
          c1.timer = c.timer ∧ c1.timeout = c.timeout)
      ∧ (∀ c1 cs, run ticks c calls closed = .freed c1 cs →
          c1.timer = c.timer ∧ c1.timeout = c.timeout) := by
  induction ticks with
  | nil =>
    intro c calls closed _
    constructor
    · intro c1 cs cl h
      unfold run at h
      injection h with h1 _ _
      rw [← h1]; exact ⟨rfl, rfl⟩
    · intro c1 cs h
      unfold run at h
      cases h
  | cons p rest ih =>
    intro c calls closed hc
    obtain ⟨env, t⟩ := p
    have hk := keep_work env c t
    rw [if_neg hc] at hk
    constructor
    · intro c1 cs cl h
      unfold run at h
      split at h
      · rename_i c2 cs2 cl2 heq
        obtain ⟨k1, k2⟩ := hk.1 c2 cs2 cl2 heq
        obtain ⟨j1, j2⟩ := (ih c2 _ _ (by rw [k1]; exact hc)).1 c1 cs cl h
        exact ⟨by rw [j1, k1], by rw [j2, k2]⟩
      · cases h
      · cases h
      · cases h
    · intro c1 cs h
      unfold run at h
      split at h
      · rename_i c2 cs2 cl2 heq
        obtain ⟨k1, k2⟩ := hk.1 c2 cs2 cl2 heq
        obtain ⟨j1, j2⟩ := (ih c2 _ _ (by rw [k1]; exact hc)).2 c1 cs h
        exact ⟨by rw [j1, k1], by rw [j2, k2]⟩
      · rename_i c2 cs2 heq
        injection h with h1 _
        rw [← h1]
        exact hk.2 c2 cs2 heq
      · cases h
      · cases h

theorem run_first_tick (ticks : List (Env × Nat)) (env : Env) (t0 : Nat) (c : HttpClient)
    (calls : List Call) (closed : List Int) (hc : c.timer = 0) (ht : t0 ≠ 0) :
    (∀ c1 cs cl, run ((env, t0) :: ticks) c calls closed = .alive c1 cs cl →
        c1.timer = t0 ∧ c1.timeout = c.timeout)
    ∧ (∀ c1 cs, run ((env, t0) :: ticks) c calls closed = .freed c1 cs →
        c1.timer = t0 ∧ c1.timeout = c.timeout) := by
  have hk := keep_work env c t0
  rw [if_pos hc] at hk
  constructor
  · intro c1 cs cl h
    unfold run at h
    split at h
    · rename_i c2 cs2 cl2 heq
      obtain ⟨k1, k2⟩ := hk.1 c2 cs2 cl2 heq
      obtain ⟨j1, j2⟩ := (run_keeps_timer ticks c2 _ _ (by rw [k1]; exact ht)).1 c1 cs cl h
      exact ⟨by rw [j1, k1], by rw [j2, k2]⟩
    · cases h
    · cases h
    · cases h
  · intro c1 cs h
    unfold run at h
    split at h
    · rename_i c2 cs2 cl2 heq
      obtain ⟨k1, k2⟩ := hk.1 c2 cs2 cl2 heq
      obtain ⟨j1, j2⟩ := (run_keeps_timer ticks c2 _ _ (by rw [k1]; exact ht)).2 c1 cs h
      exact ⟨by rw [j1, k1], by rw [j2, k2]⟩
    · rename_i c2 cs2 heq
      injection h with h1 _
      rw [← h1]
      exact hk.2 c2 cs2 heq
    · cases h
    · cases h

/-! ## The start timestamp -/

/-- C33 (amended). For every client whose `timer` is still 0, every first tick at a
time `t0 ≠ 0` and every sequence of later ticks, with any results of the system
calls: as long as the client exists, registered or just freed, its `timer` is `t0`
and its `timeout` is the one it was created with, so the deadline `timer + timeout`
of the timeout check is the same on every tick. -/
theorem timer_set_once (ticks : List (Env × Nat)) (env : Env) (t0 : Nat) (c : HttpClient)
    (calls : List Call) (closed : List Int) (hc : c.timer = 0) (ht : t0 ≠ 0) :
    (∀ c1 cs cl, run ((env, t0) :: ticks) c calls closed = .alive c1 cs cl →
        c1.timer = t0 ∧ c1.timeout = c.timeout)
    ∧ (∀ c1 cs, run ((env, t0) :: ticks) c calls closed = .freed c1 cs →
        c1.timer = t0 ∧ c1.timeout = c.timeout) :=
  run_first_tick ticks env t0 c calls closed hc ht

/-- Witness for C33: the four ticks at times 1 to 4 that take a new client into
READING leave `timer = 1`. -/
theorem timer_set_once_witness :
    run [(env_ok heap_all (.fail EAGAIN) (.fail EAGAIN), 1),
         (env_ok heap_all (.fail EAGAIN) (.fail EAGAIN), 2),
         (env_ok heap_all (.fail EAGAIN) (.fail EAGAIN), 3),
         (env_ok heap_all (.fail EAGAIN) (.fail EAGAIN), 4)]
        (new_client true (str "http://example.com/status") 6 true) [] []
      = .alive reading_client [] []
    ∧ reading_client.timer = 1 ∧ reading_client.timeout = 6 :=
  ⟨by decide,
    (timer_set_once
      [(env_ok heap_all (.fail EAGAIN) (.fail EAGAIN), 2),
       (env_ok heap_all (.fail EAGAIN) (.fail EAGAIN), 3),
       (env_ok heap_all (.fail EAGAIN) (.fail EAGAIN), 4)]
      (env_ok heap_all (.fail EAGAIN) (.fail EAGAIN)) 1
      (new_client true (str "http://example.com/status") 6 true) [] [] rfl (by decide)).1
      reading_client [] [] (by decide)⟩

/-- Counterexample to C33 as stated: the tick times 0 ≤ 5 ≤ 7.  The first tick, at
`t0 = 0`, leaves `timer = 0`; the second tick finds `timer == 0` and stores 5, so a
later tick has changed `timer` and the deadline is `5 + 10`, not `0 + 10`. -/
theorem timer_changed_by_later_tick :
    (run [(env_ok heap_all (.fail EAGAIN) (.fail EAGAIN), 0)]
        (new_client true (str "http://example.com/status") 10 true) [] []).client?.map
          (fun c => c.timer) = some 0
    ∧ (run [(env_ok heap_all (.fail EAGAIN) (.fail EAGAIN), 0),
            (env_ok heap_all (.fail EAGAIN) (.fail EAGAIN), 5)]
        (new_client true (str "http://example.com/status") 10 true) [] []).client?.map
          (fun c => c.timer) = some 5
    ∧ (run [(env_ok heap_all (.fail EAGAIN) (.fail EAGAIN), 0),
            (env_ok heap_all (.fail EAGAIN) (.fail EAGAIN), 5),
            (env_ok heap_all (.fail EAGAIN) (.fail EAGAIN), 7)]
        (new_client true (str "http://example.com/status") 10 true) [] []).client?.map
          (fun c => (c.timer, c.timeout)) = some (5, 10) := by
  refine ⟨by decide, by decide, by decide⟩

/-! ## The header scan on buffers of 1, 2 and 3 bytes -/

theorem headerScan_short (buf : List Nat) (h0 : 0 < buf.length) (h4 : buf.length < 4) :
    ∀ (fuel i : Nat), i ≤ buf.length → buf.length + 1 ≤ fuel + i →
      headerScan buf fuel i = .fault := by
  intro fuel
  induction fuel with
  | zero => intro i _ _; rfl
  | succ n ih =>
    intro i hi hf
    have hbound : (buf.length + SIZE_MOD - 4) % SIZE_MOD = buf.length + SIZE_MOD - 4 := by
      apply Nat.mod_eq_of_lt
      unfold SIZE_MOD
      omega
    have hb3 : buf[i + 3]? = none := List.getElem?_eq_none (by omega)
    unfold headerScan
    rw [hbound, if_neg (by unfold SIZE_MOD; omega)]
    split
    · rfl
    · split
      · rfl
      · split
        · rfl
        · split
          · rfl
          · rw [if_neg (by rw [hb3]; simp), if_neg (by unfold INT_MAX; omega)]
            exact ih (i + 1) (by omega) (by omega)

/-- C34 (the code on short buffers). For every buffer of 1, 2 or 3 bytes, whatever
the bytes are, the header scan does not stay in bounds: the bound
`read_buffer_size - 4` of the loop `for (int i = 0; i <= client->read_buffer_size - 4;
i++)` wraps to `2^64 - 3`, `2^64 - 2` or `2^64 - 1`, so the loop is entered with fewer
than 4 bytes remaining and goes on until it reads `read_buffer[i]` at or beyond the
end of the buffer. -/
theorem header_scan_out_of_bounds (a b c : Nat) :
    header_scan [a] = .fault ∧ header_scan [a, b] = .fault
      ∧ header_scan [a, b, c] = .fault :=
  ⟨headerScan_short [a] (by simp) (by simp) _ 0 (by simp) (by simp),
   headerScan_short [a, b] (by simp) (by simp) _ 0 (by simp) (by simp),
   headerScan_short [a, b, c] (by simp) (by simp) _ 0 (by simp) (by simp)⟩

/-! ## Content-Length against the buffer -/

/-- C36 (the code at the failing input). The tick that delivers the header block
`Content-Length: 18446744073709551614` with no body byte leaves the client in DONE
with `body_start = 57`, `content_len = 2^64 - 2` and `read_buffer_size = 57`: the sum
`body_start + content_len` exceeds `read_buffer_size` as a natural number (it is the
wrapped sum, 55, that the completion test compared with 57). -/
theorem done_with_body_outside_buffer :
    ∃ c1, http_client_work
            (env_ok heap_glibc
              (.got (str "HTTP/1.1 200 OK\r\nContent-Length: 18446744073709551614\r\n\r\n"))
              (.fail EAGAIN)) reading_client 2 = .alive c1 [] []
      ∧ c1.state = .DONE
      ∧ c1.body_start = 57
      ∧ c1.content_len = 18446744073709551614
      ∧ c1.read_buffer_size = 57
      ∧ ¬ c1.body_start + c1.content_len ≤ c1.read_buffer_size
      ∧ (c1.body_start + c1.content_len) % SIZE_MOD = 55 := by
  refine ⟨_, rfl, ?_, ?_, ?_, ?_, ?_, ?_⟩ <;> decide

/-! ## The append of received bytes -/

theorem reading_appends (heap : Nat → Bool) (peek : Recv) (c : HttpClient)
    (bytes : List Nat) (s : Step) (hconn : c.tcp_conn ≠ none) (hb : bytes ≠ [])
    (hheap : heap ((c.read_buffer_size + bytes.length) % SIZE_MOD) = true)
    (h : http_client_work_reading heap (.got bytes) peek c = .ok s) :
    s.client.read_buffer = c.read_buffer ++ bytes := by
  rw [reading_data_tick heap peek c bytes hconn hb] at h
  split at h
  · cases h
  · cases h
  · rename_i s1 heq
    injection h with h
    rw [← h]
    rcases keep_reading_receive _ _ _ s1 heq with ⟨_, k⟩ | k
    · rw [hheap] at k; cases k
    · rw [k]
  · rename_i c1 heq
    obtain ⟨k1, _, _⟩ := keep_reading_complete _ _ _ s h
    obtain ⟨f1, _, _, _, _⟩ := reading_receive_frame heap c c1 _ heq
    rw [k1, f1]

theorem reading_never_shrinks (heap : Nat → Bool) (r peek : Recv) (c : HttpClient)
    (s : Step) (h : http_client_work_reading heap r peek c = .ok s) :
    c.read_buffer_size ≤ s.client.read_buffer_size := by
  unfold HttpClient.read_buffer_size
  rcases (keep_reading heap r peek c s h).1 with k | k
  · rw [k]
  · rw [k, List.length_append]
    omega

/-- C35. A step of the READING handler on a client with a connection: when `recv`
returns `n > 0` bytes and `realloc` grants the new size, every result the step
returns holds the old read buffer followed by exactly those bytes, and
`read_buffer_size` is larger by `n`; when `recv` would block the step returns the
client unchanged (buffer, `read_buffer_size`, `body_start`, `content_len`,
`status_code`, `body` and every other field) in READING; and whatever `recv`
returns, `read_buffer_size` after the step is at least what it was. -/
theorem exact_append (heap : Nat → Bool) (peek : Recv) (c : HttpClient)
    (hconn : c.tcp_conn ≠ none) :
    (∀ (bytes : List Nat) (s : Step), bytes ≠ [] →
        heap ((c.read_buffer_size + bytes.length) % SIZE_MOD) = true →
        http_client_work_reading heap (.got bytes) peek c = .ok s →
        s.client.read_buffer = c.read_buffer ++ bytes
          ∧ s.client.read_buffer_size = c.read_buffer_size + bytes.length)
    ∧ (∀ e : Nat, e = EAGAIN ∨ e = EWOULDBLOCK →
        http_client_work_reading heap (.fail e) peek c = .ok ⟨c, .READING, [], []⟩)
    ∧ (∀ (r : Recv) (s : Step), http_client_work_reading heap r peek c = .ok s →
        c.read_buffer_size ≤ s.client.read_buffer_size) := by
  refine ⟨?_, ?_, ?_⟩
  · intro bytes s hb hheap h
    have ha := reading_appends heap peek c bytes s hconn hb hheap h
    refine ⟨ha, ?_⟩
    unfold HttpClient.read_buffer_size
    rw [ha, List.length_append]
  · intro e he
    exact reading_would_block heap peek c e hconn he
  · intro r s h
    exact reading_never_shrinks heap r peek c s h

/-- Witness for C35: `hello_client` (24 bytes buffered) receives the two bytes `!!`;
a peek would block. -/
theorem exact_append_witness :
    http_client_work_reading heap_all (.got (str "!!")) (.fail EAGAIN) hello_client
      = .ok ⟨{ hello_client with read_buffer := str "HTTP/1.1 200 OK\r\n\r\nhello!!" },
          .READING, [], []⟩
    ∧ (str "HTTP/1.1 200 OK\r\n\r\nhello!!" = hello_client.read_buffer ++ str "!!"
        ∧ 26 = hello_client.read_buffer_size + 2)
    ∧ http_client_work_reading heap_all (.fail EAGAIN) (.fail EAGAIN) hello_client
        = .ok ⟨hello_client, .READING, [], []⟩
    ∧ hello_client.read_buffer_size ≤ 26 :=
  ⟨by decide,
   (exact_append heap_all (.fail EAGAIN) hello_client (by decide)).1 (str "!!")
      ⟨{ hello_client with read_buffer := str "HTTP/1.1 200 OK\r\n\r\nhello!!" },
          .READING, [], []⟩ (by decide) rfl (by decide),
   (exact_append heap_all (.fail EAGAIN) hello_client (by decide)).2.1 EAGAIN (Or.inl rfl),
   (exact_append heap_all (.fail EAGAIN) hello_client (by decide)).2.2 (.got (str "!!"))
      ⟨{ hello_client with read_buffer := str "HTTP/1.1 200 OK\r\n\r\nhello!!" },
          .READING, [], []⟩ (by decide)⟩

/-! ## Content-Length and chunked together -/

theorem known_length_first (heap : Nat → Bool) (peek : Recv) (c : HttpClient)
    (hb : c.body_start > 0) (hn : c.content_len > 0) :
    reading_complete heap peek c = complete_known_length heap c := by
  unfold reading_complete
  rw [if_pos hb, if_pos hn]

theorem known_length_done (heap : Nat → Bool) (c : HttpClient)
    (hb : c.body_start > 0) (hsize : c.read_buffer_size < SIZE_MOD)
    (hall : c.body_start + c.content_len ≤ c.read_buffer_size)
    (hheap : heap (c.content_len + 1) = true) :
    complete_known_length heap c
      = .ok ⟨{ c with body := some ((c.read_buffer.drop c.body_start).take c.content_len) },
          .DONE, [], []⟩ := by
  have h1 : (c.body_start + c.content_len) % SIZE_MOD = c.body_start + c.content_len :=
    Nat.mod_eq_of_lt (by omega)
  have h2 : (c.content_len + 1) % SIZE_MOD = c.content_len + 1 :=
    Nat.mod_eq_of_lt (by omega)
  unfold complete_known_length
  rw [h1, if_pos hall]
  unfold done_with_body
  rw [h2, if_neg (by simp [hheap]), if_neg (by omega)]

theorem known_length_waits (heap : Nat → Bool) (c : HttpClient)
    (hsum : c.body_start + c.content_len < SIZE_MOD)
    (hless : c.read_buffer_size < c.body_start + c.content_len) :
    complete_known_length heap c = .ok ⟨c, .READING, [], []⟩ := by
  unfold complete_known_length
  rw [Nat.mod_eq_of_lt hsum, if_neg (by omega)]

/-! ## The city search -/

theorem normalize_char_eq (c : Nat) :
    normalize_char c = if kept c then some (ascii_lower c) else none := by
  unfold normalize_char kept ascii_lower
  by_cases h1 : 65 ≤ c ∧ c ≤ 90
  · rw [if_pos h1]
    simp only [h1, true_or, decide_True, if_true, and_self]
    congr 1
    omega
  · rw [if_neg h1]
    by_cases h2 : 97 ≤ c ∧ c ≤ 122
    · simp [h1, h2]
    · rw [if_neg h2]
      by_cases h3 : 48 ≤ c ∧ c ≤ 57
      · simp [h1, h2, h3]
      · rw [if_neg h3]
        by_cases h4 : c = 32 ∨ c = 45 ∨ c = 95
        · simp [h1, h2, h3, h4]
        · simp [h1, h2, h3, h4]

theorem normalised_nil : normalised [] = [] := rfl

theorem normalised_cons (c : Nat) (rest : List Nat) :
    normalised (c :: rest)
      = if c = 0 then []
        else if kept c then ascii_lower c :: normalised rest else normalised rest := by
  unfold normalised cstr
  by_cases h0 : c = 0
  · simp [h0]
  · by_cases hk : kept c = true
    · simp [h0, hk, List.takeWhile_cons]
    · simp [h0, hk, List.takeWhile_cons]

/-- The loop of `normalize_query` stores the normalised form of the input, cut
to the room left in the output. -/
theorem normalizeLoop_eq (n : Nat) :
    ∀ (input : List Nat) (j : Nat),
      normalizeLoop n input j = (normalised input).take (n - 1 - j) := by
  intro input
  induction input with
  | nil => intro j; simp [normalizeLoop, normalised_nil]
  | cons c rest ih =>
    intro j
    unfold normalizeLoop
    rw [normalised_cons]
    by_cases h0 : c = 0
    · simp [h0]
    · by_cases hj : j + 1 < n
      · rw [if_neg (by simp [h0, hj]), if_neg h0, normalize_char_eq]
        by_cases hk : kept c = true
        · simp only [hk, if_true]
          rw [ih (j + 1)]
          have : n - 1 - j = (n - 1 - (j + 1)) + 1 := by omega
          rw [this, List.take_succ_cons]
        · simp only [hk]
          exact ih j
      · rw [if_pos (Or.inr hj)]
        have : n - 1 - j = 0 := by omega
        rw [this, List.take_zero]

theorem normalize_query_eq (input : List Nat) (n : Nat) :
    normalize_query input n = (normalised input).take (n - 1) := by
  unfold normalize_query
  rw [normalizeLoop_eq]
  rfl

theorem normalised_length_le (s : List Nat) : (normalised s).length ≤ (cstr s).length := by
  unfold normalised
  rw [List.length_map]
  exact List.length_filter_le _ _

/-- The comparison of the search loop is the prefix test of the specification. -/
theorem strncmp_eq_matches (query : List Nat) (city : PopularCity)
    (hname : (cstr city.name).length ≤ 127) :
    strncmp_eq (normalize_query city.name 128) (normalize_query query 256)
        (normalize_query query 256).length
      = city_matches query city := by
  have hc := normalised_length_le city.name
  have hcity : normalize_query city.name 128 = normalised city.name := by
    rw [normalize_query_eq]
    exact List.take_of_length_le (by omega)
  rw [hcity, normalize_query_eq]
  unfold strncmp_eq city_matches
  rw [Bool.eq_iff_iff]
  simp only [decide_eq_true_eq, List.isPrefixOf_iff_prefix]
  have htt : ((normalised query).take (256 - 1)).take ((normalised query).take (256 - 1)).length
      = (normalised query).take (256 - 1) := List.take_length _
  rw [htt]
  constructor
  · intro h
    have hlen : ((normalised query).take (256 - 1)).length ≤ (normalised city.name).length := by
      rw [← h, List.length_take]
      omega
    have hq : (normalised query).length ≤ 255 := by
      rw [List.length_take] at hlen
      omega
    have hqq : (normalised query).take (256 - 1) = normalised query :=
      List.take_of_length_le (by omega)
    rw [hqq] at h
    rw [← h]
    exact List.take_prefix _ _
  · intro h
    have hlen := h.length_le
    have hqq : (normalised query).take (256 - 1) = normalised query :=
      List.take_of_length_le (by omega)
    rw [hqq]
    exact List.prefix_iff_eq_take.mp h |>.symm

theorem query_short_iff (query : List Nat) :
    (normalize_query query 256).length < 2 ↔ (normalised query).length < 2 := by
  rw [normalize_query_eq, List.length_take]
  omega

/-- The search loop collects the references of the matching cities in order until
`max_results` are stored. -/
theorem searchLoop_eq (ref : Nat → CityRef) (query : List Nat) (max_results : Nat) :
    ∀ (cities : List PopularCity) (i : Nat) (results : List CityRef),
      (∀ c ∈ cities, (cstr c.name).length ≤ 127) → results.length ≤ max_results →
      searchLoop ref (normalize_query query 256) max_results cities i results
        = (results ++ (((cities.enumFrom i).filter (fun p => city_matches query p.2)).map
            (fun p => ref p.1))).take max_results := by
  intro cities
  induction cities with
  | nil =>
    intro i results _ hr
    simp [searchLoop, List.take_of_length_le hr]
  | cons c rest ih =>
    intro i results hn hr
    have hrest : ∀ c ∈ rest, (cstr c.name).length ≤ 127 :=
      fun x hx => hn x (List.mem_cons_of_mem _ hx)
    unfold searchLoop
    rw [strncmp_eq_matches query c (hn c (List.mem_cons_self _ _))]
    by_cases hfull : results.length < max_results
    · rw [if_neg (by simpa using hfull)]
      by_cases hm : city_matches query c = true
      · rw [if_pos hm, ih (i + 1) (results ++ [ref i]) hrest (by simp; omega)]
        simp [List.enumFrom_cons, hm, List.append_assoc]
      · rw [if_neg hm, ih (i + 1) results hrest hr]
        simp [List.enumFrom_cons, hm]
    · rw [if_pos (by simpa using hfull)]
      have : results.length = max_results := by omega
      rw [List.take_append_of_le_length (by omega), List.take_of_length_le (by omega)]

theorem searchLoop_length_le (ref : Nat → CityRef) (q : List Nat) (max_results : Nat) :
    ∀ (cities : List PopularCity) (i : Nat) (results : List CityRef),
      results.length ≤ max_results →
      (searchLoop ref q max_results cities i results).length ≤ max_results := by
  intro cities
  induction cities with
  | nil => intro i results hr; simpa [searchLoop] using hr
  | cons c rest ih =>
    intro i results hr
    unfold searchLoop
    split
    · exact hr
    · rename_i hlt
      split
      · exact ih (i + 1) _ (by simp at hlt ⊢; omega)
      · exact ih (i + 1) _ hr

theorem search_full_bound (db : PopularCitiesDB) (q : List Nat) (max_results : Nat) :
    (search_full db q max_results).ret = 0
      ∧ (search_full db q max_results).results.length ≤ max_results := by
  unfold search_full
  split
  · split
    · exact ⟨rfl, searchLoop_length_le _ _ _ _ _ _ (Nat.zero_le _)⟩
    · exact ⟨rfl, Nat.zero_le _⟩
  · exact ⟨rfl, Nat.zero_le _⟩

theorem search_bound (db : PopularCitiesDB) (query : List Nat) (max_results : Nat)
    (load : Option (List PopularCity)) (hq : 2 ≤ (normalised query).length) :
    (popular_cities_search db query max_results load).ret = 0
      ∧ (popular_cities_search db query max_results load).results.length ≤ max_results := by
  have hlen : ¬ (normalize_query query 256).length < 2 := by
    rw [query_short_iff]; omega
  unfold popular_cities_search
  rw [if_neg hlen]
  split
  · exact ⟨rfl, searchLoop_length_le _ _ _ _ _ _ (Nat.zero_le _)⟩
  · split
    · split
      · exact ⟨rfl, Nat.zero_le _⟩
      · exact search_full_bound _ _ _
    · exact search_full_bound _ _ _

theorem search_hot (db : PopularCitiesDB) (query : List Nat) (max_results : Nat)
    (load : Option (List PopularCity))
    (hnames : ∀ c ∈ db.hot_cities, (cstr c.name).length ≤ 127)
    (hq : 2 ≤ (normalised query).length) (hm : hot_matches db query ≠ []) :
    (popular_cities_search db query max_results load).results
      = ((hot_matches db query).take max_results).map CityRef.hot := by
  have hlen : ¬ (normalize_query query 256).length < 2 := by
    rw [query_short_iff]; omega
  have hloop := searchLoop_eq CityRef.hot query max_results db.hot_cities 0 [] hnames
    (Nat.zero_le _)
  have hshape : searchLoop CityRef.hot (normalize_query query 256) max_results db.hot_cities 0 []
      = ((hot_matches db query).take max_results).map CityRef.hot := by
    rw [hloop]
    unfold hot_matches List.enum
    simp only [List.nil_append, List.map_take, List.map_map]
    rfl
  unfold popular_cities_search
  rw [if_neg hlen, hshape]
  split
  · rfl
  · rename_i hzero
    have hnil : ((hot_matches db query).take max_results).map CityRef.hot = [] := by
      apply List.eq_nil_of_length_eq_zero
      omega
    rw [hnil]
    have hmax : max_results = 0 := by
      by_contra hne
      have : (hot_matches db query).take max_results = [] := by simpa using hnil
      rw [List.take_eq_nil_iff] at this
      rcases this with h | h
      · exact hne h
      · exact hm h
    split
    · split
      · rfl
      · rename_i cities
        have hb := (search_full_bound { db with full_cities := some cities, full_loaded := true }
          (normalize_query query 256) max_results).2
        rw [hmax] at hb
        rw [hmax]
        exact List.eq_nil_of_length_eq_zero (by omega)
    · have hb := (search_full_bound db (normalize_query query 256) max_results).2
      rw [hmax] at hb
      rw [hmax]
      exact List.eq_nil_of_length_eq_zero (by omega)

theorem search_short (db : PopularCitiesDB) (query : List Nat) (max_results : Nat)
    (load : Option (List PopularCity)) (hq : (normalised query).length < 2) :
    popular_cities_search db query max_results load = ⟨-1, [], db⟩ := by
  unfold popular_cities_search
  rw [if_pos ((query_short_iff query).mpr hq)]

/-- C32. For every database whose hot city names are strings of at most 127
characters (they are stored in `char name[128]`), every query, every `max_results`
and every outcome of the lazy load: when the normalised form of the query
(ASCII-lowercased, keeping only letters, digits, space, `-` and `_`) has at least 2
characters, `popular_cities_search` returns 0 with `count ≤ max_results`, and when
some hot city matches, the results are exactly the first `max_results` hot cities, in
database order, whose normalised name begins with the normalised query; when the
normalised form has fewer than 2 characters it returns -1 with `count = 0`. -/
theorem city_prefix_search (db : PopularCitiesDB) (query : List Nat) (max_results : Nat)
    (load : Option (List PopularCity))
    (hnames : ∀ c ∈ db.hot_cities, (cstr c.name).length ≤ 127) :
    (2 ≤ (normalised query).length →
        (popular_cities_search db query max_results load).ret = 0
        ∧ (popular_cities_search db query max_results load).results.length ≤ max_results
        ∧ (hot_matches db query ≠ [] →
            (popular_cities_search db query max_results load).results
              = ((hot_matches db query).take max_results).map CityRef.hot))
    ∧ ((normalised query).length < 2 →
        (popular_cities_search db query max_results load).ret = -1
        ∧ (popular_cities_search db query max_results load).results.length = 0) := by
  constructor
  · intro hq
    obtain ⟨h1, h2⟩ := search_bound db query max_results load hq
    exact ⟨h1, h2, search_hot db query max_results load hnames hq⟩
  · intro hq
    rw [search_short db query max_results load hq]
    exact ⟨rfl, rfl⟩

/-- Witness for C32: in `cities_db` the query `ST` matches all three hot cities and
`max_results = 2` keeps the first two; the query `S!`, whose normalised form is `s`,
is refused. -/
theorem city_prefix_search_witness :
    normalised (str "ST") = str "st"
    ∧ hot_matches cities_db (str "ST") = [0, 1, 2]
    ∧ popular_cities_search cities_db (str "ST") 2 none = ⟨0, [.hot 0, .hot 1], cities_db⟩
    ∧ (popular_cities_search cities_db (str "ST") 2 none).results
        = ((hot_matches cities_db (str "ST")).take 2).map CityRef.hot
    ∧ (popular_cities_search cities_db (str "S!") 2 none).ret = -1 :=
  ⟨by decide, by decide, by decide,
   ((city_prefix_search cities_db (str "ST") 2 none (by decide)).1 (by decide)).2.2 (by decide),
   ((city_prefix_search cities_db (str "S!") 2 none (by decide)).2 (by decide)).1⟩

/-! ## The linked list -/

theorem write_node_same (m : Nat → Option Node) (p : Nat) (nd : Node) :
    write_node m p nd p = some nd := by
  unfold write_node
  rw [if_pos rfl]

theorem write_node_other (m : Nat → Option Node) (p q : Nat) (nd : Node) (h : q ≠ p) :
    write_node m p nd q = m q := by
  unfold write_node
  rw [if_neg h]

theorem free_node_same (m : Nat → Option Node) (p : Nat) : free_node m p p = none := by
  unfold free_node
  rw [if_pos rfl]

theorem free_node_other (m : Nat → Option Node) (p q : Nat) (h : q ≠ p) :
    free_node m p q = m q := by
  unfold free_node
  rw [if_neg h]

theorem first_or_append (a b : List (Nat × Nat)) (next : Option Nat) :
    first_or (a ++ b) next = first_or a (first_or b next) := by
  cases a with
  | nil => rfl
  | cons c a => rfl

theorem last_or_append (a b : List (Nat × Nat)) (prev : Option Nat) :
    last_or (a ++ b) prev = last_or b (last_or a prev) := by
  induction a generalizing prev with
  | nil => rfl
  | cons c a ih => simp only [List.cons_append, last_or]; exact ih _

theorem links_cons (m : Nat → Option Node) (prev next : Option Nat) (c : Nat × Nat)
    (rest : List (Nat × Nat)) :
    Links m prev (c :: rest) next
      ↔ m c.1 = some ⟨prev, first_or rest next, c.2⟩ ∧ Links m (some c.1) rest next :=
  Iff.rfl

/-- A chain over `a ++ b` is a chain over `a` that leads to `b` and a chain over
`b` that comes from `a`. -/
theorem links_append (m : Nat → Option Node) (a b : List (Nat × Nat)) (next : Option Nat) :
    ∀ prev, Links m prev (a ++ b) next
      ↔ Links m prev a (first_or b next) ∧ Links m (last_or a prev) b next := by
  induction a with
  | nil => intro prev; simp [Links, last_or]
  | cons c a ih =>
    intro prev
    have h1 : (c :: a) ++ b = c :: (a ++ b) := rfl
    have h2 : last_or (c :: a) prev = last_or a (some c.1) := rfl
    rw [h1, h2, links_cons, links_cons, ih (some c.1), first_or_append]
    exact and_assoc.symm

/-- A chain is not affected by writes to other addresses. -/
theorem links_frame (m m1 : Nat → Option Node) (cells : List (Nat × Nat)) (next : Option Nat) :
    ∀ prev, (∀ c ∈ cells, m1 c.1 = m c.1) → Links m prev cells next →
      Links m1 prev cells next := by
  induction cells with
  | nil => intro _ _ _; trivial
  | cons c rest ih =>
    intro prev hsame h
    obtain ⟨h1, h2⟩ := h
    refine ⟨?_, ih (some c.1) (fun x hx => hsame x (List.mem_cons_of_mem _ hx)) h2⟩
    rw [hsame c (List.mem_cons_self _ _)]
    exact h1

/-- Every node of a chain is allocated. -/
theorem links_allocated (m : Nat → Option Node) (cells : List (Nat × Nat)) (next : Option Nat) :
    ∀ prev, Links m prev cells next → ∀ c ∈ cells, m c.1 ≠ none := by
  induction cells with
  | nil => intro _ _ c hc; cases hc
  | cons d rest ih =>
    intro prev h c hc
    obtain ⟨h1, h2⟩ := h
    rcases List.mem_cons.mp hc with rfl | hc
    · rw [h1]; simp
    · exact ih (some d.1) h2 c hc

/-- Following `k` front-links from the first node of a chain. -/
theorem walk_front_links (m : Nat → Option Node) (next : Option Nat) :
    ∀ (cells : List (Nat × Nat)) (prev : Option Nat) (k : Nat), Links m prev cells next →
      k ≤ cells.length →
      walk_front m k (first_or cells next) = .ok (first_or (cells.drop k) next) := by
  intro cells
  induction cells with
  | nil =>
    intro prev k _ hk
    have : k = 0 := by simpa using hk
    rw [this]
    rfl
  | cons c rest ih =>
    intro prev k h hk
    obtain ⟨h1, h2⟩ := h
    cases k with
    | zero => rfl
    | succ k =>
      simp only [first_or, List.drop_succ_cons]
      unfold walk_front
      simp only [h1]
      exact ih (some c.1) k h2 (by simpa using hk)

/-- Following `k` back-links from the last node of a chain. -/
theorem walk_back_links (m : Nat → Option Node) (prev : Option Nat) :
    ∀ (k : Nat) (cells : List (Nat × Nat)) (next : Option Nat),
      Links m prev cells next → k ≤ cells.length →
      walk_back m k (last_or cells prev)
        = .ok (last_or (cells.take (cells.length - k)) prev) := by
  intro k
  induction k with
  | zero =>
    intro cells _ _ _
    simp [walk_back]
  | succ k ih =>
    intro cells next h hk
    rcases List.eq_nil_or_concat cells with rfl | ⟨a, c, rfl⟩
    · simp at hk
    · rw [List.concat_eq_append] at h hk ⊢
      rw [links_append] at h
      obtain ⟨ha, hc, _⟩ := h
      rw [last_or_append]
      simp only [last_or]
      unfold walk_back
      simp only [hc]
      have hlen : k ≤ a.length := by simpa using hk
      rw [ih a _ ha hlen]
      have h1 : (a ++ [c]).length - (k + 1) = a.length - k := by simp
      rw [h1, List.take_append_of_le_length (by omega)]

theorem get_index_outside (s : ListState) (cells : List (Nat × Nat)) (i : Nat)
    (hwf : WellFormed s cells) (hi : cells.length ≤ i) :
    linked_list_get_index s.mem s.list i = .ok none := by
  obtain ⟨_, hsize, _, _, _, _⟩ := hwf
  unfold linked_list_get_index
  rw [if_pos (by omega)]

/-- The lookup returns the node at position `i`, and so does the walk from the
head. -/
theorem get_index_inside (s : ListState) (a b : List (Nat × Nat)) (c : Nat × Nat)
    (hwf : WellFormed s (a ++ c :: b)) :
    linked_list_get_index s.mem s.list a.length = .ok (some c.1)
      ∧ head_walk s a.length = .ok (some c.1) := by
  obtain ⟨_, hsize, _, hhead, htail, hlinks⟩ := hwf
  have hlen : (a ++ c :: b).length = a.length + b.length + 1 := by simp; omega
  have hfront : walk_front s.mem a.length s.list.head = .ok (some c.1) := by
    rw [hhead, walk_front_links s.mem none (a ++ c :: b) none a.length hlinks (by omega)]
    simp [first_or]
  refine ⟨?_, hfront⟩
  unfold linked_list_get_index
  rw [if_neg (by omega)]
  split
  · exact hfront
  · rw [htail, walk_back_links s.mem none _ (a ++ c :: b) none hlinks (by omega)]
    have h1 : (a ++ c :: b).length - (s.list.size - 1 - a.length) = a.length + 1 := by omega
    have h2 : (a ++ c :: b).take (a.length + 1) = a ++ [c] := by
      rw [List.take_append_eq_append_take]
      simp
    rw [h1, h2, last_or_append]
    rfl

theorem first_or_nonempty (c : Nat × Nat) (a : List (Nat × Nat)) (x y : Option Nat) :
    first_or (c :: a) x = first_or (c :: a) y := rfl

theorem first_or_concat (a : List (Nat × Nat)) (d : Nat × Nat) (x y : Option Nat) :
    first_or (a ++ [d]) x = first_or (a ++ [d]) y := by
  cases a with
  | nil => rfl
  | cons c a => rfl

/-- The last node of a chain gets a new `front`. -/
theorem links_relink_front (m : Nat → Option Node) (prev next v : Option Nat)
    (a : List (Nat × Nat)) (d : Nat × Nat)
    (h : Links m prev (a ++ [d]) next) (hnd : ∀ e ∈ a, e.1 ≠ d.1) :
    Links (write_node m d.1 ⟨last_or a prev, v, d.2⟩) prev (a ++ [d]) v := by
  rw [links_append] at h ⊢
  obtain ⟨ha, _⟩ := h
  refine ⟨links_frame m _ a _ prev (fun e he => write_node_other m d.1 e.1 _ (hnd e he)) ha, ?_⟩
  exact ⟨write_node_same m d.1 _, trivial⟩

/-- The first node of a chain gets a new `back`. -/
theorem links_relink_back (m : Nat → Option Node) (prev next v : Option Nat)
    (b : List (Nat × Nat)) (c : Nat × Nat)
    (h : Links m prev (c :: b) next) (hnd : ∀ e ∈ b, e.1 ≠ c.1) :
    Links (write_node m c.1 ⟨v, first_or b next, c.2⟩) v (c :: b) next := by
  obtain ⟨_, hb⟩ := h
  exact ⟨write_node_same m c.1 _,
    links_frame m _ b _ (some c.1) (fun e he => write_node_other m c.1 e.1 _ (hnd e he)) hb⟩

theorem nodup_parts (a b : List (Nat × Nat)) (c : Nat × Nat)
    (h : ((a ++ c :: b).map Prod.fst).Nodup) :
    (a.map Prod.fst).Nodup ∧ (b.map Prod.fst).Nodup ∧ (∀ e ∈ a, e.1 ≠ c.1)
      ∧ (∀ e ∈ b, e.1 ≠ c.1) ∧ (∀ e ∈ a, ∀ f ∈ b, e.1 ≠ f.1) := by
  rw [List.map_append, List.map_cons, List.nodup_append] at h
  obtain ⟨ha, hcb, hdis⟩ := h
  rw [List.nodup_cons] at hcb
  obtain ⟨hc, hb⟩ := hcb
  refine ⟨ha, hb, ?_, ?_, ?_⟩
  · intro e he heq
    exact hdis (List.mem_map_of_mem Prod.fst he) (by rw [heq]; exact List.mem_cons_self _ _)
  · intro e he heq
    exact hc (by rw [← heq]; exact List.mem_map_of_mem Prod.fst he)
  · intro e he f hf heq
    exact hdis (List.mem_map_of_mem Prod.fst he)
      (List.mem_cons_of_mem _ (by rw [heq]; exact List.mem_map_of_mem Prod.fst hf))

theorem nodup_join (a b : List (Nat × Nat))
    (ha : (a.map Prod.fst).Nodup) (hb : (b.map Prod.fst).Nodup)
    (hab : ∀ e ∈ a, ∀ f ∈ b, e.1 ≠ f.1) : ((a ++ b).map Prod.fst).Nodup := by
  rw [List.map_append, List.nodup_append]
  refine ⟨ha, hb, ?_⟩
  intro x hxa hxb
  obtain ⟨e, he, rfl⟩ := List.mem_map.mp hxa
  obtain ⟨f, hf, hef⟩ := List.mem_map.mp hxb
  exact hab e he f hf hef.symm

theorem set_front_of (m : Nat → Option Node) (p : Nat) (v : Option Nat) (nd : Node)
    (h : m p = some nd) : set_front m p v = some (write_node m p ⟨nd.back, v, nd.item⟩) := by
  unfold set_front
  rw [h]

theorem set_back_of (m : Nat → Option Node) (p : Nat) (v : Option Nat) (nd : Node)
    (h : m p = some nd) : set_back m p v = some (write_node m p ⟨v, nd.front, nd.item⟩) := by
  unfold set_back
  rw [h]

/-- The new node is linked in front of the node at position `a.length`. -/
theorem insert_before_spec (s : ListState) (a b : List (Nat × Nat)) (c : Nat × Nat)
    (item p : Nat) (hwf : WellFormed s (a ++ c :: b)) (hfresh : s.mem p = none)
    (hroom : (a ++ c :: b).length + 1 < SIZE_MOD) :
    ∃ s1, insert_before s c.1 item p = .ok (0, s1)
      ∧ WellFormed s1 (a ++ (p, item) :: c :: b) := by
  obtain ⟨hnd, hsize, _, hhead, htail, hlinks⟩ := hwf
  obtain ⟨hna, hnb, hac, hbc, hab⟩ := nodup_parts a b c hnd
  have halloc := links_allocated s.mem _ none none hlinks
  have hp : ∀ e ∈ a ++ c :: b, e.1 ≠ p := fun e he heq => halloc e he (by rw [heq]; exact hfresh)
  have hcp : c.1 ≠ p := hp c (by simp)
  have hap : ∀ e ∈ a, e.1 ≠ p := fun e he => hp e (by simp [he])
  have hbp : ∀ e ∈ b, e.1 ≠ p := fun e he => hp e (by simp [he])
  rw [links_append] at hlinks
  obtain ⟨hA, hB⟩ := hlinks
  have hT : s.mem c.1 = some ⟨last_or a none, first_or b none, c.2⟩ := hB.1
  have hlen : (a ++ (p, item) :: c :: b).length = (a ++ c :: b).length + 1 := by
    simp only [List.length_append, List.length_cons]
    omega
  have hnd1 : ((a ++ (p, item) :: c :: b).map Prod.fst).Nodup := by
    have h1 : ((((p, item) : Nat × Nat) :: c :: b).map Prod.fst).Nodup := by
      have h2 : (((c :: b) : List (Nat × Nat)).map Prod.fst).Nodup := by
        rw [List.map_cons, List.nodup_cons]
        refine ⟨?_, hnb⟩
        intro hmem
        obtain ⟨e, he, heq⟩ := List.mem_map.mp hmem
        exact hbc e he heq
      rw [List.map_cons, List.nodup_cons]
      refine ⟨?_, h2⟩
      intro hmem
      obtain ⟨e, he, heq⟩ := List.mem_map.mp hmem
      exact hp e (by simp at he ⊢; tauto) heq
    apply nodup_join a _ hna h1
    intro e he f hf
    rcases List.mem_cons.mp hf with rfl | hf
    · exact hap e he
    · rcases List.mem_cons.mp hf with rfl | hf
      · exact hac e he
      · exact hab e he f hf
  have htail1 : last_or (a ++ (p, item) :: c :: b) none = last_or (a ++ c :: b) none := by
    rw [last_or_append, last_or_append]
    rfl
  unfold insert_before
  rw [write_node_other _ _ _ _ hcp, hT]
  rcases List.eq_nil_or_concat a with rfl | ⟨a1, d, rfl⟩
  · simp only [last_or]
    rw [set_back_of _ c.1 (some p) ⟨none, first_or b none, c.2⟩
      (by rw [write_node_other _ _ _ _ hcp]; exact hT)]
    refine ⟨_, rfl, hnd1, ?_, ?_, rfl, ?_, ?_⟩
    · show (s.list.size + 1) % SIZE_MOD = _
      rw [hsize, hlen, Nat.mod_eq_of_lt hroom]
    · rw [hlen]; exact hroom
    · show s.list.tail = _
      rw [htail1]; exact htail
    · refine ⟨?_, ?_, ?_⟩
      · show write_node _ c.1 _ p = _
        rw [write_node_other _ _ _ _ (Ne.symm hcp), write_node_same]
        rfl
      · show write_node _ c.1 _ c.1 = _
        rw [write_node_same]
      · apply links_frame s.mem _ b none (some c.1) _ hB.2
        intro e he
        show write_node _ c.1 _ e.1 = s.mem e.1
        rw [write_node_other _ _ _ _ (hbc e he), write_node_other _ _ _ _ (hbp e he)]
  · rw [List.concat_eq_append] at *
    have hd : last_or (a1 ++ [d]) none = some d.1 := by rw [last_or_append]; rfl
    have hdp : d.1 ≠ p := hap d (by simp)
    have hdc : d.1 ≠ c.1 := hac d (by simp)
    have hA1 := hA
    rw [links_append] at hA1
    have hD : s.mem d.1 = some ⟨last_or a1 none, some c.1, d.2⟩ := hA1.2.1
    obtain ⟨_, _, ha1d, _, _⟩ := nodup_parts a1 [] d (by simpa using hna)
    simp only [hd]
    rw [set_front_of _ d.1 (some p) ⟨last_or a1 none, some c.1, d.2⟩
      (by rw [write_node_other _ _ _ _ hdp]; exact hD)]
    simp only []
    rw [set_back_of _ c.1 (some p) ⟨some d.1, first_or b none, c.2⟩
      (by rw [write_node_other _ _ _ _ (Ne.symm hdc), write_node_other _ _ _ _ hcp, hT, hd])]
    refine ⟨_, rfl, hnd1, ?_, ?_, ?_, ?_, ?_⟩
    · show (s.list.size + 1) % SIZE_MOD = _
      rw [hsize, hlen, Nat.mod_eq_of_lt hroom]
    · rw [hlen]; exact hroom
    · show s.list.head = _
      rw [hhead, first_or_append (a1 ++ [d]) (c :: b), first_or_append (a1 ++ [d]) (_ :: c :: b)]
      exact first_or_concat a1 d _ _
    · show s.list.tail = _
      rw [htail1]; exact htail
    · rw [links_append]
      constructor
      · -- the chain before the new node
        have h1 : Links (write_node s.mem p ⟨some d.1, some c.1, item⟩) none (a1 ++ [d])
            (some c.1) :=
          links_frame s.mem _ _ _ none
            (fun e he => write_node_other _ _ _ _ (hap e he)) hA
        have h2 := links_relink_front _ none (some c.1) (some p) a1 d h1 ha1d
        exact links_frame _ _ _ _ none
          (fun e he => write_node_other _ _ _ _ (hac e he)) h2
      · rw [hd]
        refine ⟨?_, ?_, ?_⟩
        · show write_node _ c.1 _ p = _
          rw [write_node_other _ _ _ _ (Ne.symm hcp), write_node_other _ _ _ _ (Ne.symm hdp),
            write_node_same]
          rfl
        · show write_node _ c.1 _ c.1 = _
          rw [write_node_same]
        · apply links_frame s.mem _ b none (some c.1) _ hB.2
          intro e he
          have hed : e.1 ≠ d.1 := fun h => hab d (by simp) e he h.symm
          show write_node _ c.1 _ e.1 = s.mem e.1
          rw [write_node_other _ _ _ _ (hbc e he), write_node_other _ _ _ _ hed,
            write_node_other _ _ _ _ (hbp e he)]

/-- Lines 106-110 on a well-formed list: the node before position `a.length` is
linked to the node after it. -/
theorem unlink_back_spec (s : ListState) (a b : List (Nat × Nat)) (c : Nat × Nat)
    (hna : (a.map Prod.fst).Nodup) (hac : ∀ e ∈ a, e.1 ≠ c.1)
    (hab : ∀ e ∈ a, ∀ f ∈ b, e.1 ≠ f.1)
    (hA : Links s.mem none a (some c.1))
    (hB : Links s.mem (last_or a none) (c :: b) none)
    (hhead : s.list.head = first_or (a ++ c :: b) none) :
    ∃ s1, unlink_back s (last_or a none) (first_or b none) = some s1
      ∧ Links s1.mem none a (first_or b none)
      ∧ Links s1.mem (last_or a none) (c :: b) none
      ∧ s1.list.head = first_or (a ++ b) none
      ∧ s1.list.tail = s.list.tail ∧ s1.list.size = s.list.size := by
  rcases List.eq_nil_or_concat a with rfl | ⟨a1, d, rfl⟩
  · exact ⟨⟨s.mem, { s.list with head := first_or b none }⟩, rfl, trivial, hB, rfl, rfl, rfl⟩
  · rw [List.concat_eq_append] at *
    have hd : last_or (a1 ++ [d]) none = some d.1 := by rw [last_or_append]; rfl
    have hA1 := hA
    rw [links_append] at hA1
    have hD : s.mem d.1 = some ⟨last_or a1 none, some c.1, d.2⟩ := hA1.2.1
    obtain ⟨_, _, ha1d, _, _⟩ := nodup_parts a1 [] d (by simpa using hna)
    have hdc : d.1 ≠ c.1 := hac d (by simp)
    rw [hd]
    unfold unlink_back
    simp only []
    rw [set_front_of _ d.1 _ ⟨last_or a1 none, some c.1, d.2⟩ hD]
    refine ⟨_, rfl, ?_, ?_, ?_, rfl, rfl⟩
    · exact links_relink_front s.mem none (some c.1) (first_or b none) a1 d hA ha1d
    · rw [← hd]
      apply links_frame s.mem _ (c :: b) none _ _ hB
      intro e he
      show write_node _ d.1 _ e.1 = s.mem e.1
      rcases List.mem_cons.mp he with rfl | he
      · exact write_node_other _ _ _ _ (Ne.symm hdc)
      · exact write_node_other _ _ _ _ (fun h => hab d (by simp) e he h.symm)
    · show s.list.head = _
      rw [hhead, first_or_append (a1 ++ [d]) (c :: b), first_or_append (a1 ++ [d]) b]
      exact first_or_concat a1 d _ _

/-- Lines 112-116 on a well-formed list: the node after position `a.length` is
linked to the node before it. -/
theorem unlink_front_spec (s : ListState) (a b : List (Nat × Nat)) (c : Nat × Nat)
    (hnb : (b.map Prod.fst).Nodup) (hbc : ∀ e ∈ b, e.1 ≠ c.1)
    (hab : ∀ e ∈ a, ∀ f ∈ b, e.1 ≠ f.1)
    (hA : Links s.mem none a (first_or b none))
    (hB : Links s.mem (last_or a none) (c :: b) none)
    (htail : s.list.tail = last_or (a ++ c :: b) none) :
    ∃ s1, unlink_front s (last_or a none) (first_or b none) = some s1
      ∧ Links s1.mem none a (first_or b none)
      ∧ Links s1.mem (last_or a none) b none
      ∧ s1.mem c.1 = s.mem c.1
      ∧ s1.list.head = s.list.head
      ∧ s1.list.tail = last_or (a ++ b) none ∧ s1.list.size = s.list.size := by
  cases b with
  | nil =>
    refine ⟨⟨s.mem, { s.list with tail := last_or a none }⟩, rfl, hA, trivial, rfl, rfl, ?_, rfl⟩
    show last_or a none = _
    rw [List.append_nil]
  | cons e b1 =>
    have hE : s.mem e.1 = some ⟨some c.1, first_or b1 none, e.2⟩ := hB.2.1
    have hec : e.1 ≠ c.1 := hbc e (List.mem_cons_self _ _)
    have hb1e : ∀ f ∈ b1, f.1 ≠ e.1 := by
      intro f hf heq
      rw [List.map_cons, List.nodup_cons] at hnb
      exact hnb.1 (by rw [← heq]; exact List.mem_map_of_mem Prod.fst hf)
    unfold unlink_front
    simp only [first_or]
    rw [set_back_of _ e.1 _ ⟨some c.1, first_or b1 none, e.2⟩ hE]
    refine ⟨_, rfl, ?_, ?_, ?_, rfl, ?_, rfl⟩
    · apply links_frame s.mem _ a _ none _ hA
      intro f hf
      show write_node _ e.1 _ f.1 = s.mem f.1
      exact write_node_other _ _ _ _ (hab f hf e (List.mem_cons_self _ _))
    · exact links_relink_back s.mem (some c.1) none (last_or a none) b1 e hB.2 hb1e
    · show write_node _ e.1 _ c.1 = s.mem c.1
      exact write_node_other _ _ _ _ (Ne.symm hec)
    · show s.list.tail = _
      rw [htail, last_or_append, last_or_append]
      rfl

/-- Removing the node at position `a.length` of a well-formed list. -/
theorem remove_spec (s : ListState) (a b : List (Nat × Nat)) (c : Nat × Nat)
    (free_function : Bool) (hwf : WellFormed s (a ++ c :: b)) :
    ∃ s1, linked_list_remove s (some c.1) free_function
          = .ok (0, s1, if free_function then [c.2] else [])
      ∧ WellFormed s1 (a ++ b) ∧ s1.mem c.1 = none := by
  obtain ⟨hnd, hsize, hlt, hhead, htail, hlinks⟩ := hwf
  obtain ⟨hna, hnb, hac, hbc, hab⟩ := nodup_parts a b c hnd
  rw [links_append] at hlinks
  obtain ⟨hA, hB⟩ := hlinks
  have hT : s.mem c.1 = some ⟨last_or a none, first_or b none, c.2⟩ := hB.1
  obtain ⟨s1, hs1, hA1, hB1, hhead1, htail1, hsize1⟩ :=
    unlink_back_spec s a b c hna hac hab hA hB hhead
  obtain ⟨s2, hs2, hA2, hB2, hmem2, hhead2, htail2, hsize2⟩ :=
    unlink_front_spec s1 a b c hnb hbc hab hA1 hB1 (by rw [htail1]; exact htail)
  have hT1 : s1.mem c.1 = some ⟨last_or a none, first_or b none, c.2⟩ := hB1.1
  have hlen : (a ++ c :: b).length = (a ++ b).length + 1 := by
    simp only [List.length_append, List.length_cons]
    omega
  unfold linked_list_remove
  simp only []
  rw [hT]
  simp only []
  rw [hs1]
  simp only []
  rw [hs2]
  simp only []
  rw [hmem2, hT1]
  simp only []
  refine ⟨_, rfl, ⟨nodup_join a b hna hnb hab, ?_, ?_, ?_, ?_, ?_⟩, ?_⟩
  · show (if s2.list.size = 0 then ULONG_MAX else s2.list.size - 1) = (a ++ b).length
    rw [hsize2, hsize1, hsize, hlen, if_neg (by omega)]
    omega
  · omega
  · show s2.list.head = first_or (a ++ b) none
    rw [hhead2, hhead1]
  · show s2.list.tail = last_or (a ++ b) none
    exact htail2
  · show Links (free_node s2.mem c.1) none (a ++ b) none
    rw [links_append]
    constructor
    · exact links_frame s2.mem _ a _ none
        (fun e he => free_node_other _ _ _ (hac e he)) hA2
    · exact links_frame s2.mem _ b _ _
        (fun e he => free_node_other _ _ _ (hbc e he)) hB2
  · show free_node s2.mem c.1 c.1 = none
    exact free_node_same _ _

theorem insert_spec (s : ListState) (a b : List (Nat × Nat)) (c : Nat × Nat)
    (item p : Nat) (hwf : WellFormed s (a ++ c :: b)) (hfresh : s.mem p = none)
    (hroom : (a ++ c :: b).length + 1 < SIZE_MOD) :
    ∃ s1, linked_list_insert s a.length item (some p) = .ok (0, s1)
      ∧ WellFormed s1 (a ++ (p, item) :: c :: b) := by
  have hsize : s.list.size = (a ++ c :: b).length := hwf.2.1
  have hlen : (a ++ c :: b).length = a.length + b.length + 1 := by
    simp only [List.length_append, List.length_cons]
    omega
  unfold linked_list_insert
  rw [if_neg (by omega), (get_index_inside s a b c hwf).1]
  exact insert_before_spec s a b c item p hwf hfresh hroom

theorem pop_spec (s : ListState) (a b : List (Nat × Nat)) (c : Nat × Nat)
    (free_function : Bool) (hwf : WellFormed s (a ++ c :: b)) :
    ∃ s1, linked_list_pop s a.length free_function
          = .ok (0, s1, if free_function then [c.2] else [])
      ∧ WellFormed s1 (a ++ b) ∧ s1.mem c.1 = none := by
  unfold linked_list_pop
  rw [(get_index_inside s a b c hwf).1]
  exact remove_spec s a b c free_function hwf

theorem cells_split (cells : List (Nat × Nat)) (i : Nat) (hi : i < cells.length) :
    cells = cells.take i ++ cells[i] :: cells.drop (i + 1) ∧ (cells.take i).length = i := by
  constructor
  · rw [← List.drop_eq_getElem_cons hi, List.take_append_drop]
  · rw [List.length_take]
    omega

/-- The well-formed list `three_nodes`. -/
theorem three_nodes_wf : WellFormed three_nodes [(100, 7), (200, 8), (300, 9)] := by
  unfold WellFormed
  refine ⟨by decide, rfl, by decide, rfl, rfl, ?_⟩
  exact ⟨rfl, rfl, rfl, trivial⟩

/-- C40. For every well-formed list holding the cells (node, item) `cells`:
`linked_list_get_index` returns NULL for every index `i ≥ n`; for every `i < n` it
returns what following `i` front-links from the head returns, the node of cell `i`,
whether it walks forward from the head or backward from the tail;
`linked_list_insert` at `i < n` with a fresh node from `calloc` returns 0 and leaves
a well-formed list whose cells are the old ones with the new item at position `i`,
the size larger by one; `linked_list_pop` at `i < n` returns 0, hands the item of
cell `i` to `free_function` when there is one, frees the node and leaves a
well-formed list holding the other cells in order, the size smaller by one. -/
theorem two_ended_lookup (s : ListState) (cells : List (Nat × Nat))
    (hwf : WellFormed s cells) :
    (∀ i, cells.length ≤ i → linked_list_get_index s.mem s.list i = .ok none)
    ∧ (∀ (i : Nat) (hi : i < cells.length),
        linked_list_get_index s.mem s.list i = head_walk s i
        ∧ head_walk s i = .ok (some cells[i].1)
        ∧ (∀ item p : Nat, s.mem p = none → cells.length + 1 < SIZE_MOD →
            ∃ s1, linked_list_insert s i item (some p) = .ok (0, s1)
              ∧ WellFormed s1 (cells.take i ++ (p, item) :: cells.drop i)
              ∧ s1.list.size = s.list.size + 1)
        ∧ (∀ free_function : Bool,
            ∃ s1, linked_list_pop s i free_function
                  = .ok (0, s1, if free_function then [cells[i].2] else [])
              ∧ WellFormed s1 (cells.eraseIdx i)
              ∧ s1.list.size + 1 = s.list.size
              ∧ s1.mem cells[i].1 = none)) := by
  refine ⟨fun i hi => get_index_outside s cells i hwf hi, ?_⟩
  intro i hi
  obtain ⟨hsplit, hlen⟩ := cells_split cells i hi
  have hwf1 : WellFormed s (cells.take i ++ cells[i] :: cells.drop (i + 1)) := by
    rw [← hsplit]; exact hwf
  have hsize : s.list.size = cells.length := hwf.2.1
  obtain ⟨hget, hwalk⟩ := get_index_inside s _ _ _ hwf1
  rw [hlen] at hget hwalk
  refine ⟨by rw [hget, hwalk], hwalk, ?_, ?_⟩
  · intro item p hfresh hroom
    obtain ⟨s1, hs1, hwf2⟩ := insert_spec s _ _ _ item p hwf1 hfresh
      (by rw [← hsplit]; exact hroom)
    rw [hlen] at hs1
    have hdrop : cells.drop i = cells[i] :: cells.drop (i + 1) := List.drop_eq_getElem_cons hi
    refine ⟨s1, hs1, by rw [hdrop]; exact hwf2, ?_⟩
    rw [hwf2.2.1, hsize]
    simp only [List.length_append, List.length_cons, List.length_take, List.length_drop]
    omega
  · intro free_function
    obtain ⟨s1, hs1, hwf2, hfree⟩ := pop_spec s _ _ _ free_function hwf1
    rw [hlen] at hs1
    have herase : cells.eraseIdx i = cells.take i ++ cells.drop (i + 1) :=
      List.eraseIdx_eq_take_drop_succ cells i
    refine ⟨s1, hs1, by rw [herase]; exact hwf2, ?_, hfree⟩
    rw [hwf2.2.1, hsize]
    simp only [List.length_append, List.length_take, List.length_drop]
    omega

/-- Witness for C40: in the list `three_nodes` (size 3) index 2 is looked up by the
backward walk from the tail and yields the node 300, the one two front-links from
the head; index 3 yields NULL; popping index 1 hands the item 8 to `free_function`
and leaves the nodes 100 and 300 linked to each other. -/
theorem two_ended_lookup_witness :
    linked_list_get_index three_nodes.mem three_nodes.list 2
        = walk_back three_nodes.mem 0 three_nodes.list.tail
    ∧ linked_list_get_index three_nodes.mem three_nodes.list 2 = head_walk three_nodes 2
    ∧ head_walk three_nodes 2 = .ok (some 300)
    ∧ linked_list_get_index three_nodes.mem three_nodes.list 3 = .ok none
    ∧ (∃ s1, linked_list_pop three_nodes 1 true = .ok (0, s1, [8])
        ∧ WellFormed s1 [(100, 7), (300, 9)]
        ∧ s1.list.size + 1 = 3 ∧ s1.mem 200 = none) :=
  ⟨rfl,
   ((two_ended_lookup three_nodes [(100, 7), (200, 8), (300, 9)] three_nodes_wf).2 2
      (by decide)).1,
   ((two_ended_lookup three_nodes [(100, 7), (200, 8), (300, 9)] three_nodes_wf).2 2
      (by decide)).2.1,
   (two_ended_lookup three_nodes [(100, 7), (200, 8), (300, 9)] three_nodes_wf).1 3
      (by decide),
   ((two_ended_lookup three_nodes [(100, 7), (200, 8), (300, 9)] three_nodes_wf).2 1
      (by decide)).2.2.2 true⟩

/-- The model run on `three_nodes`: inserting the item 5 at index 1 with the new
node at address 400, and popping index 2. -/
theorem three_nodes_runs :
    (∃ s1, linked_list_insert three_nodes 1 5 (some 400) = .ok (0, s1)
      ∧ s1.list = ⟨some 100, some 300, 4⟩
      ∧ s1.mem 100 = some ⟨none, some 400, 7⟩
      ∧ s1.mem 400 = some ⟨some 100, some 200, 5⟩
      ∧ s1.mem 200 = some ⟨some 400, some 300, 8⟩
      ∧ s1.mem 300 = some ⟨some 200, none, 9⟩)
    ∧ (∃ s1, linked_list_pop three_nodes 2 false = .ok (0, s1, [])
      ∧ s1.list = ⟨some 100, some 200, 2⟩
      ∧ s1.mem 200 = some ⟨some 100, none, 8⟩
      ∧ s1.mem 300 = none)
    ∧ (∃ s1, linked_list_insert three_nodes 3 5 (some 400) = .ok (0, s1)
      ∧ s1.list = ⟨some 100, some 400, 4⟩
      ∧ s1.mem 300 = some ⟨some 200, some 400, 9⟩
      ∧ s1.mem 400 = some ⟨some 300, none, 5⟩) :=
  ⟨⟨_, rfl, rfl, rfl, rfl, rfl, rfl⟩, ⟨_, rfl, rfl, rfl, rfl⟩, ⟨_, rfl, rfl, rfl, rfl⟩⟩

/-! ## The capacity of the cache -/

/-- C31 (the code at the failing input). A cache is created with `max_size = 0` and
one `cache_set` is made on it, every allocation succeeding.  The call returns 0 and
the cache then stores one entry, more than `max_size`: the test
`size >= max_size` holds, but there is no head to evict, and the new entry is
appended all the same; `cache_get` finds it.  With `max_size = 1` the same code keeps
to the limit: a second `cache_set` with a new key evicts the head entry. -/
theorem cache_of_size_zero_stores_entry :
    (∃ c0 c1, cache_create 0 60 true true = some c0
      ∧ cache_set c0 (str "a") [1, 2] 2 0 ⟨1000, some 500, true, true, some 600⟩ = .ok (0, c1)
      ∧ c1.max_size = 0
      ∧ c1.nodes.list = ⟨some 600, some 600, 1⟩
      ∧ c1.stored = 1
      ∧ c1.slots 500 = some ⟨str "a", [1, 2], 2, 1000, 1060⟩
      ∧ (∃ c2, cache_get c1 (str "a") 1001 true = .ok (some [1, 2], c2)))
    ∧ (∃ c0 c1 c2, cache_create 1 60 true true = some c0
      ∧ cache_set c0 (str "a") [1, 2] 2 0 ⟨1000, some 500, true, true, some 600⟩ = .ok (0, c1)
      ∧ cache_set c1 (str "b") [3] 1 0 ⟨1001, some 700, true, true, some 800⟩ = .ok (0, c2)
      ∧ c2.nodes.list = ⟨some 800, some 800, 1⟩
      ∧ c2.stored = 1
      ∧ c2.slots 500 = none
      ∧ c2.nodes.mem 600 = none
      ∧ c2.slots 700 = some ⟨str "b", [3], 1, 1001, 1061⟩) :=
  ⟨⟨_, _, rfl, rfl, rfl, rfl, rfl, rfl, ⟨_, rfl⟩⟩,
   ⟨_, _, _, rfl, rfl, rfl, rfl, rfl, rfl, rfl, rfl⟩⟩

/-! ## Chunks without a terminating chunk, any spelling of the size -/

theorem wireChunk_length (ch : List Nat × List Nat) :
    (wireChunk ch).length = ch.1.length + 2 + ch.2.length + 2 := by
  unfold wireChunk
  simp only [List.length_append, List.length_cons, List.length_nil]
  omega

theorem chunkData_length_le (chs : List (List Nat × List Nat)) :
    (chunkData chs).length ≤ (wireChunks chs).length := by
  induction chs with
  | nil => simp [chunkData, wireChunks]
  | cons ch rest ih =>
    unfold chunkData at ih ⊢
    simp only [wireChunks, List.map_cons, List.flatten_cons, List.length_append,
      wireChunk_length]
    omega

theorem wireChunks_length_ge (chs : List (List Nat × List Nat)) :
    chs.length ≤ (wireChunks chs).length := by
  induction chs with
  | nil => simp
  | cons ch rest ih =>
    simp only [wireChunks, List.length_cons, List.length_append, wireChunk_length]
    omega

/-- One well-formed chunk, followed by its `CR LF`, is consumed by one iteration
of the outer loop when the allocations are granted. -/
theorem decodeLoop_wireChunk (heap : Nat → Bool) (inp pre rest buf : List Nat)
    (ch : List Nat × List Nat) (alloc fuel : Nat)
    (hheap : ∀ n, n ≤ 2 * inp.length + 1024 → heap n = true)
    (hinp : inp = pre ++ (wireChunk ch ++ rest))
    (hch : WellFormedChunk ch) (hlen : inp.length ≤ PTRDIFF_MAX)
    (ha : AllocOK alloc) (hal : alloc ≤ 2 * inp.length + 1024)
    (hbp : buf.length ≤ pre.length) :
    ∃ a, AllocOK a ∧ a ≤ 2 * inp.length + 1024
      ∧ decodeLoop heap inp (fuel + 1) pre.length buf alloc
        = decodeLoop heap inp fuel (pre ++ wireChunk ch).length (buf ++ ch.2) a := by
  obtain ⟨hne, hhex, hval, hdata⟩ := hch
  have hinp2 : inp = pre ++ (ch.1 ++ 13 :: 10 :: (ch.2 ++ 13 :: 10 :: rest)) := by
    rw [hinp, wireChunk]; simp
  rcases decodeLoop_chunk_head heap inp pre ch.1 ch.2 (13 :: 10 :: rest) buf alloc
      fuel hinp2 hhex hne hval hdata hlen ha hal hbp with ⟨n, _, hn, hf, _, _⟩ | ⟨a, h1, h2, h3⟩
  · rw [hheap n hn] at hf
    cases hf
  · refine ⟨a, h1, h2, ?_⟩
    have hilen : inp.length
        = pre.length + ch.1.length + 2 + ch.2.length + 2 + rest.length := by
      rw [hinp2]; simp only [List.length_append, List.length_cons]; omega
    have hcr : inp[pre.length + ch.1.length + 2 + ch.2.length]? = some 13 := by
      have : inp = (pre ++ ch.1 ++ [13, 10] ++ ch.2) ++ (13 :: 10 :: rest) := by
        rw [hinp2]; simp
      have hl : (pre ++ ch.1 ++ [13, 10] ++ ch.2).length
          = pre.length + ch.1.length + 2 + ch.2.length := by
        simp only [List.length_append, List.length_cons, List.length_nil]
      rw [this, ← hl, List.getElem?_append_right (le_refl _)]
      simp
    have hlf : inp[pre.length + ch.1.length + 2 + ch.2.length + 1]? = some 10 := by
      have : inp = (pre ++ ch.1 ++ [13, 10] ++ ch.2 ++ [13]) ++ (10 :: rest) := by
        rw [hinp2]; simp
      have hl : (pre ++ ch.1 ++ [13, 10] ++ ch.2 ++ [13]).length
          = pre.length + ch.1.length + 2 + ch.2.length + 1 := by
        simp only [List.length_append, List.length_cons, List.length_nil]
      rw [this, ← hl, List.getElem?_append_right (le_refl _)]
      simp
    rw [h3, hcr, hlf, if_neg (by simp; omega)]
    congr 1
    rw [List.length_append, wireChunk_length]
    omega

/-- A run of well-formed chunks is consumed chunk by chunk. -/
theorem decodeLoop_wireChunks (heap : Nat → Bool) (inp : List Nat)
    (hheap : ∀ n, n ≤ 2 * inp.length + 1024 → heap n = true)
    (hlen : inp.length ≤ PTRDIFF_MAX) (rest : List Nat) (fuel : Nat) :
    ∀ (chs : List (List Nat × List Nat)) (pre buf : List Nat) (alloc : Nat),
      inp = pre ++ (wireChunks chs ++ rest) → (∀ ch ∈ chs, WellFormedChunk ch) →
      AllocOK alloc → alloc ≤ 2 * inp.length + 1024 → buf.length ≤ pre.length →
      ∃ a, AllocOK a ∧ a ≤ 2 * inp.length + 1024 ∧
        decodeLoop heap inp (fuel + chs.length) pre.length buf alloc
          = decodeLoop heap inp fuel (pre ++ wireChunks chs).length (buf ++ chunkData chs) a := by
  intro chs
  induction chs with
  | nil =>
    intro pre buf alloc _ _ ha hal _
    exact ⟨alloc, ha, hal, by simp [wireChunks, chunkData]⟩
  | cons ch chs ih =>
    intro pre buf alloc hinp hchs ha hal hbp
    have hinp1 : inp = pre ++ (wireChunk ch ++ (wireChunks chs ++ rest)) := by
      rw [hinp, wireChunks, List.append_assoc]
    obtain ⟨a1, ha1, hal1, hstep⟩ :=
      decodeLoop_wireChunk heap inp pre (wireChunks chs ++ rest) buf ch alloc (fuel + chs.length)
        hheap hinp1 (hchs ch (List.mem_cons_self _ _)) hlen ha hal hbp
    have hinp2 : inp = (pre ++ wireChunk ch) ++ (wireChunks chs ++ rest) := by
      rw [hinp1, List.append_assoc]
    have hbp2 : (buf ++ ch.2).length ≤ (pre ++ wireChunk ch).length := by
      simp only [List.length_append, wireChunk_length]
      omega
    obtain ⟨a2, ha2, hal2, hrest⟩ :=
      ih (pre ++ wireChunk ch) (buf ++ ch.2) a1 hinp2
        (fun x hx => hchs x (List.mem_cons_of_mem _ hx)) ha1 hal1 hbp2
    refine ⟨a2, ha2, hal2, ?_⟩
    have hf : fuel + (ch :: chs).length = fuel + chs.length + 1 := by simp; omega
    rw [hf, hstep, hrest]
    simp [wireChunks, chunkData, List.append_assoc]

theorem decode_wireChunks (heap : Nat → Bool) (chs : List (List Nat × List Nat))
    (hchs : ∀ ch ∈ chs, WellFormedChunk ch)
    (hlen : (wireChunks chs).length ≤ PTRDIFF_MAX)
    (hheap : ∀ n, n ≤ 2 * (wireChunks chs).length + 1024 → heap n = true) :
    decode_chunked heap (wireChunks chs) = .ok (chunkData chs) := by
  have hge := wireChunks_length_ge chs
  obtain ⟨a, _, hal, hrun⟩ :=
    decodeLoop_wireChunks heap (wireChunks chs) hheap hlen []
      ((wireChunks chs).length + 1 - chs.length) chs [] [] 1024
      (by simp) hchs allocOK_1024 (by omega) (le_refl _)
  have hfuel : (wireChunks chs).length + 1 - chs.length + chs.length
      = (wireChunks chs).length + 1 := by omega
  have hfuel2 : (wireChunks chs).length + 1 - chs.length
      = ((wireChunks chs).length - chs.length) + 1 := by omega
  have hfl := chunkData_length_le chs
  unfold decode_chunked
  rw [if_neg (by simp [hheap 1024 (by omega)])]
  rw [hfuel] at hrun
  simp only [List.length_nil] at hrun
  rw [hrun, hfuel2, List.nil_append, List.nil_append]
  unfold decodeLoop
  rw [if_pos (by omega)]
  unfold decodeFinish
  have hsmall : ((chunkData chs).length + 1) % SIZE_MOD = (chunkData chs).length + 1 := by
    apply Nat.mod_eq_of_lt
    unfold PTRDIFF_MAX at hlen
    unfold SIZE_MOD
    omega
  rw [hsmall]
  split
  · rw [if_pos (hheap _ (by omega))]
  · rfl

/-- C38. The decoder accepts input that ends without a terminating chunk: for every
sequence of zero or more well-formed non-zero chunks (size line in hexadecimal
digits of either case, `CR LF`, data of that length, `CR LF`), with no `0` chunk
behind it, `decode_chunked` returns 0 with the concatenated chunk data as output; the
empty input (no chunk at all) gives the empty output.  The input is a real object (at
most `PTRDIFF_MAX` bytes) and the allocator grants the requests the decoder
makes. -/
theorem missing_terminator_accepted (heap : Nat → Bool) (chs : List (List Nat × List Nat))
    (hchs : ∀ ch ∈ chs, WellFormedChunk ch)
    (hlen : (wireChunks chs).length ≤ PTRDIFF_MAX)
    (hheap : ∀ n, n ≤ 2 * (wireChunks chs).length + 1024 → heap n = true) :
    decode_chunked heap (wireChunks chs) = .ok (chunkData chs) :=
  decode_wireChunks heap chs hchs hlen hheap

/-- Witness for C38: the chunks `te` (size line `2`) and `0123456789` (size line
`0A`) without a terminating chunk, and the empty input. -/
theorem missing_terminator_accepted_witness :
    wireChunks [(str "2", str "te"), (str "0A", str "0123456789")]
        = str "2\r\nte\r\n0A\r\n0123456789\r\n"
      ∧ decode_chunked heap_all (wireChunks [(str "2", str "te"), (str "0A", str "0123456789")])
          = .ok (str "te0123456789")
      ∧ decode_chunked heap_all (wireChunks []) = .ok [] :=
  ⟨by decide,
   missing_terminator_accepted heap_all [(str "2", str "te"), (str "0A", str "0123456789")]
    (by
      intro ch hch
      simp only [List.mem_cons, List.mem_singleton, List.not_mem_nil, or_false] at hch
      rcases hch with rfl | rfl <;> exact ⟨by decide, by decide, by decide, by decide⟩)
    (by decide) (fun _ _ => rfl),
   missing_terminator_accepted heap_all [] (fun _ h => by cases h) (by decide)
    (fun _ _ => rfl)⟩


/-! ## Size lines in any spelling -/

theorem hexRun_count_ge (s : List Nat) : ∀ (acc n : Nat), n ≤ (hexRun s acc n).2 := by
  induction s with
  | nil => intro acc n; exact le_refl _
  | cons c cs ih =>
    intro acc n
    unfold hexRun
    split
    · exact le_trans (Nat.le_succ n) (ih _ _)
    · exact le_refl _

theorem hexRun_head_none (c : Nat) (cs : List Nat) (h : hexval c = none) :
    hexRun (c :: cs) 0 0 = (0, 0) := by
  unfold hexRun
  rw [h]

theorem hexRun_head_some (c : Nat) (cs : List Nat) (h : (hexval c).isSome) :
    (hexRun (c :: cs) 0 0).2 ≠ 0 := by
  obtain ⟨v, hv⟩ := Option.isSome_iff_exists.mp h
  unfold hexRun
  rw [hv]
  have := hexRun_count_ge cs (0 * 16 + v) (0 + 1)
  simp only at this ⊢
  omega

theorem skipHexPrefix_head (s : List Nat) :
    (∀ c cs, s = c :: cs → ∃ d ds, skipHexPrefix s = d :: ds
        ∧ ((hexval d).isSome ↔ (hexval c).isSome))
    ∧ (s = [] → skipHexPrefix s = []) := by
  constructor
  · intro c cs hs
    subst hs
    unfold skipHexPrefix
    split
    · rename_i x h r heq
      injection heq with h1 h2
      subst h1
      subst h2
      split
      · rename_i hcond
        exact ⟨h, r, rfl, by simp [hcond.2]; decide⟩
      · exact ⟨48, x :: h :: r, rfl, Iff.rfl⟩
    · exact ⟨c, cs, rfl, Iff.rfl⟩
  · intro hs
    subst hs
    rfl

/-- The function `strtoul` performs a conversion exactly when, behind white space and
a sign, the line begins with a hexadecimal digit. -/
theorem strtoul16_converts (line : List Nat) :
    (strtoul16 line).2 = begins_with_number line := by
  unfold strtoul16 begins_with_number
  simp only []
  cases hs : (takeSign (line.dropWhile isspace)).2 with
  | nil =>
    simp only [(skipHexPrefix_head []).2 rfl, hexRun, if_true]
  | cons c cs =>
    obtain ⟨d, ds, hskip, hiff⟩ := (skipHexPrefix_head (c :: cs)).1 c cs rfl
    rw [hskip]
    by_cases hc : (hexval c).isSome = true
    · have hd : (hexval d).isSome = true := hiff.mpr hc
      have hne := hexRun_head_some d ds hd
      rw [if_neg hne]
      simp only [hc]
      split
      · rfl
      · split
        · rfl
        · rfl
    · have hd : hexval d = none := by
        cases hv : hexval d with
        | none => rfl
        | some v => exact absurd (hiff.mp (by rw [hv]; rfl)) hc
      rw [hexRun_head_none d ds hd]
      simp only [if_true]
      simpa using hc

theorem crlfAt_in_line (line r : List Nat) (h : ∀ i, ¬ CRLFAt line i) :
    ∀ i, i < line.length → ¬ CRLFAt (line ++ 13 :: r) i := by
  intro i hi hc
  unfold CRLFAt at hc
  obtain ⟨h1, h2⟩ := hc
  rw [List.getElem?_append_left hi] at h1
  by_cases hlast : i + 1 < line.length
  · rw [List.getElem?_append_left hlast] at h2
    exact h i ⟨h1, h2⟩
  · have : i + 1 = line.length := by omega
    rw [this, List.getElem?_append_right (le_refl _), Nat.sub_self] at h2
    simp at h2

theorem crlfAt_after_line (line r : List Nat) :
    CRLFAt (line ++ 13 :: 10 :: r) line.length := by
  unfold CRLFAt
  constructor
  · rw [List.getElem?_append_right (le_refl _), Nat.sub_self]
    rfl
  · rw [List.getElem?_append_right (by omega)]
    have : line.length + 1 - line.length = 1 := by omega
    rw [this]
    simp

theorem no_cr_no_crlf (line : List Nat) (h : 13 ∉ line) : ∀ i, ¬ CRLFAt line i := by
  intro i hc
  obtain ⟨hi, he⟩ := List.getElem?_eq_some.mp hc.1
  apply h
  rw [← he]
  exact List.getElem_mem ..

theorem hexDigits_no_crlf (ds : List Nat) (h : ∀ c ∈ ds, (hexval c).isSome) :
    ∀ i, ¬ CRLFAt ds i := by
  intro i hc
  obtain ⟨hi, he⟩ := List.getElem?_eq_some.mp hc.1
  have hmem : (13 : Nat) ∈ ds := by
    rw [← he]
    exact List.getElem_mem ..
  have := hexval_range (h 13 hmem)
  omega

/-- A well-formed chunk whose data fits in memory is one the decoder reads. -/
theorem readable_of_wellFormed (ch : List Nat × List Nat) (h : WellFormedChunk ch)
    (hlen : ch.2.length ≤ ULONG_MAX) : ReadableChunk ch := by
  obtain ⟨hne, hhex, hval, hdata⟩ := h
  refine ⟨hne, hexDigits_no_crlf ch.1 hhex, ?_, hdata⟩
  rw [strtoul16_hexDigits ch.1 hhex hne, hval, if_neg (by omega)]

theorem mem_wireChunks_length (chs : List (List Nat × List Nat)) (ch : List Nat × List Nat)
    (h : ch ∈ chs) : ch.2.length ≤ (wireChunks chs).length := by
  induction chs with
  | nil => cases h
  | cons x rest ih =>
    simp only [wireChunks, List.length_append, wireChunk_length]
    rcases List.mem_cons.mp h with rfl | h
    · omega
    · have := ih h
      omega

theorem readable_of_nonZero (chs : List (List Nat × List Nat))
    (h : ∀ ch ∈ chs, NonZeroChunk ch) (hlen : (wireChunks chs).length ≤ PTRDIFF_MAX) :
    ∀ ch ∈ chs, ReadableChunk ch := by
  intro ch hch
  rcases h ch hch with hw | hr
  · refine readable_of_wellFormed ch hw ?_
    have := mem_wireChunks_length chs ch hch
    unfold PTRDIFF_MAX at hlen
    unfold ULONG_MAX
    omega
  · exact hr

/-- One chunk with the size line `line` from which `strtoul` reads the length of
`data`, up to the test for the `CR LF` behind the data: either an allocation fails
(error -5 or -8), or the data is appended and the test of line 103 decides. -/
theorem decodeLoop_line_head (heap : Nat → Bool) (inp pre line data tail buf : List Nat)
    (alloc fuel : Nat)
    (hinp : inp = pre ++ (line ++ 13 :: 10 :: (data ++ tail)))
    (hch : ReadableChunk (line, data)) (hlen : inp.length ≤ PTRDIFF_MAX)
    (ha : AllocOK alloc) (hal : alloc ≤ 2 * inp.length + 1024)
    (hbp : buf.length ≤ pre.length) :
    (∃ n rc, n ≤ 2 * inp.length + 1024 ∧ heap n = false ∧ (rc = -5 ∨ rc = -8)
        ∧ decodeLoop heap inp (fuel + 1) pre.length buf alloc = .error rc)
    ∨ (∃ a, AllocOK a ∧ a ≤ 2 * inp.length + 1024
        ∧ decodeLoop heap inp (fuel + 1) pre.length buf alloc
          = if pre.length + line.length + 2 + data.length + 1 ≥ inp.length
                ∨ inp[pre.length + line.length + 2 + data.length]? ≠ some 13
                ∨ inp[pre.length + line.length + 2 + data.length + 1]? ≠ some 10 then
              .error (-9)
            else decodeLoop heap inp fuel (pre.length + line.length + 2 + data.length + 2)
              (buf ++ data) a) := by
  obtain ⟨hne, hline, hconv, hdata⟩ := hch
  simp only [] at hne hline hconv hdata
  have hilen : inp.length = pre.length + line.length + 2 + data.length + tail.length := by
    rw [hinp]; simp only [List.length_append, List.length_cons]; omega
  have hclen : data.length ≠ 0 := by
    intro h0; exact hdata (List.length_eq_zero.mp h0)
  have hLlen : line.length ≠ 0 := by
    intro h0; exact hne (List.length_eq_zero.mp h0)
  have hPD : PTRDIFF_MAX = 9223372036854775807 := rfl
  have hSM : SIZE_MOD = 18446744073709551616 := rfl
  have hUM : ULONG_MAX = 18446744073709551615 := rfl
  have hdrop : inp.drop pre.length = line ++ 13 :: 10 :: (data ++ tail) := by
    rw [hinp, List.drop_left]
  have hscan : scanLine (inp.drop pre.length) pre.length = pre.length + line.length := by
    rw [hdrop]
    exact scanLine_first _ line.length (crlfAt_after_line line _)
      (crlfAt_in_line line _ hline) _
  have hhexline : (inp.drop pre.length).take (pre.length + line.length - pre.length) = line := by
    rw [hdrop, Nat.add_sub_cancel_left, List.take_left]
  have hcopy : (inp.drop (pre.length + line.length + 2)).take data.length = data := by
    have : inp = (pre ++ line ++ [13, 10]) ++ (data ++ tail) := by
      rw [hinp]; simp
    have hl : (pre ++ line ++ [13, 10]).length = pre.length + line.length + 2 := by
      simp only [List.length_append, List.length_cons, List.length_nil]
    rw [this, ← hl, List.drop_left, List.take_left]
  have hneed : (buf.length + data.length + 1) % SIZE_MOD = buf.length + data.length + 1 :=
    Nat.mod_eq_of_lt (by omega)
  obtain ⟨a, hg, haOK, hna, hgrow⟩ :=
    growAlloc_ok (buf.length + data.length + 1) alloc (by norm_num; omega) ha
  have hale : a ≤ 2 * inp.length + 1024 := by
    rcases hgrow with h | h <;> omega
  rw [decodeLoop]
  simp only [hscan, hhexline, hconv, hneed, hg]
  rw [if_neg (by omega), if_neg (by omega), if_neg (by omega)]
  by_cases h5 : heap (line.length + 1) = true
  · rw [if_neg (by simp [h5]), if_neg (by simp), if_neg hclen,
      if_neg (by rw [Nat.mod_eq_of_lt (by omega)]; omega)]
    by_cases h8 : buf.length + data.length + 1 > alloc ∧ ¬ heap a = true
    · left
      refine ⟨a, -8, hale, by simpa using h8.2, Or.inr rfl, ?_⟩
      rw [if_pos h8]
    · right
      refine ⟨a, haOK, hale, ?_⟩
      rw [if_neg h8, if_neg (by omega), hcopy]
  · left
    refine ⟨line.length + 1, -5, by omega, by simpa using h5, Or.inl rfl, ?_⟩
    rw [if_pos (by simpa using h5)]

/-- One readable chunk followed by its `CR LF`: unless an allocation fails, one
iteration of the outer loop consumes it. -/
theorem decodeLoop_readable (heap : Nat → Bool) (inp pre rest buf : List Nat)
    (ch : List Nat × List Nat) (alloc fuel : Nat)
    (hinp : inp = pre ++ (wireChunk ch ++ rest))
    (hch : ReadableChunk ch) (hlen : inp.length ≤ PTRDIFF_MAX)
    (ha : AllocOK alloc) (hal : alloc ≤ 2 * inp.length + 1024)
    (hbp : buf.length ≤ pre.length) :
    (∃ n rc, n ≤ 2 * inp.length + 1024 ∧ heap n = false ∧ (rc = -5 ∨ rc = -8)
        ∧ decodeLoop heap inp (fuel + 1) pre.length buf alloc = .error rc)
    ∨ (∃ a, AllocOK a ∧ a ≤ 2 * inp.length + 1024
        ∧ decodeLoop heap inp (fuel + 1) pre.length buf alloc
          = decodeLoop heap inp fuel (pre ++ wireChunk ch).length (buf ++ ch.2) a) := by
  have hinp2 : inp = pre ++ (ch.1 ++ 13 :: 10 :: (ch.2 ++ 13 :: 10 :: rest)) := by
    rw [hinp, wireChunk]; simp
  rcases decodeLoop_line_head heap inp pre ch.1 ch.2 (13 :: 10 :: rest) buf alloc
      fuel hinp2 hch hlen ha hal hbp with h | ⟨a, h1, h2, h3⟩
  · exact Or.inl h
  · right
    refine ⟨a, h1, h2, ?_⟩
    have hilen : inp.length
        = pre.length + ch.1.length + 2 + ch.2.length + 2 + rest.length := by
      rw [hinp2]; simp only [List.length_append, List.length_cons]; omega
    have hcr : inp[pre.length + ch.1.length + 2 + ch.2.length]? = some 13 := by
      have : inp = (pre ++ ch.1 ++ [13, 10] ++ ch.2) ++ (13 :: 10 :: rest) := by
        rw [hinp2]; simp
      have hl : (pre ++ ch.1 ++ [13, 10] ++ ch.2).length
          = pre.length + ch.1.length + 2 + ch.2.length := by
        simp only [List.length_append, List.length_cons, List.length_nil]
      rw [this, ← hl, List.getElem?_append_right (le_refl _)]
      simp
    have hlf : inp[pre.length + ch.1.length + 2 + ch.2.length + 1]? = some 10 := by
      have : inp = (pre ++ ch.1 ++ [13, 10] ++ ch.2 ++ [13]) ++ (10 :: rest) := by
        rw [hinp2]; simp
      have hl : (pre ++ ch.1 ++ [13, 10] ++ ch.2 ++ [13]).length
          = pre.length + ch.1.length + 2 + ch.2.length + 1 := by
        simp only [List.length_append, List.length_cons, List.length_nil]
      rw [this, ← hl, List.getElem?_append_right (le_refl _)]
      simp
    rw [h3, hcr, hlf, if_neg (by simp; omega)]
    congr 1
    rw [List.length_append, wireChunk_length]
    omega

/-- A run of readable chunks under an arbitrary allocator. -/
theorem decodeLoop_readables (heap : Nat → Bool) (inp : List Nat)
    (hlen : inp.length ≤ PTRDIFF_MAX) (rest : List Nat) (fuel : Nat) :
    ∀ (chs : List (List Nat × List Nat)) (pre buf : List Nat) (alloc : Nat),
      inp = pre ++ (wireChunks chs ++ rest) → (∀ ch ∈ chs, ReadableChunk ch) →
      AllocOK alloc → alloc ≤ 2 * inp.length + 1024 → buf.length ≤ pre.length →
      (∃ n rc, n ≤ 2 * inp.length + 1024 ∧ heap n = false ∧ (rc = -5 ∨ rc = -8)
          ∧ decodeLoop heap inp (fuel + chs.length) pre.length buf alloc = .error rc)
      ∨ (∃ a, AllocOK a ∧ a ≤ 2 * inp.length + 1024 ∧
          decodeLoop heap inp (fuel + chs.length) pre.length buf alloc
            = decodeLoop heap inp fuel (pre ++ wireChunks chs).length
                (buf ++ chunkData chs) a) := by
  intro chs
  induction chs with
  | nil =>
    intro pre buf alloc _ _ ha hal _
    exact Or.inr ⟨alloc, ha, hal, by simp [wireChunks, chunkData]⟩
  | cons ch chs ih =>
    intro pre buf alloc hinp hchs ha hal hbp
    have hinp1 : inp = pre ++ (wireChunk ch ++ (wireChunks chs ++ rest)) := by
      rw [hinp, wireChunks, List.append_assoc]
    have hf : fuel + (ch :: chs).length = fuel + chs.length + 1 := by simp; omega
    rcases decodeLoop_readable heap inp pre (wireChunks chs ++ rest) buf ch alloc
        (fuel + chs.length) hinp1 (hchs ch (List.mem_cons_self _ _)) hlen ha hal hbp
      with ⟨n, rc, h1, h2, h3, h4⟩ | ⟨a1, ha1, hal1, hstep⟩
    · exact Or.inl ⟨n, rc, h1, h2, h3, by rw [hf]; exact h4⟩
    · have hinp2 : inp = (pre ++ wireChunk ch) ++ (wireChunks chs ++ rest) := by
        rw [hinp1, List.append_assoc]
      have hbp2 : (buf ++ ch.2).length ≤ (pre ++ wireChunk ch).length := by
        simp only [List.length_append, wireChunk_length]
        omega
      rcases ih (pre ++ wireChunk ch) (buf ++ ch.2) a1 hinp2
          (fun x hx => hchs x (List.mem_cons_of_mem _ hx)) ha1 hal1 hbp2
        with ⟨n, rc, h1, h2, h3, h4⟩ | ⟨a2, ha2, hal2, hrest⟩
      · exact Or.inl ⟨n, rc, h1, h2, h3, by rw [hf, hstep]; exact h4⟩
      · refine Or.inr ⟨a2, ha2, hal2, ?_⟩
        rw [hf, hstep, hrest]
        simp [wireChunks, chunkData, List.append_assoc]

/-- The decoder on non-zero chunks in any spelling followed by more input: unless an
allocation fails, it reaches the position behind the chunks with their data as
output. -/
theorem decode_behind_chunks (heap : Nat → Bool) (chs : List (List Nat × List Nat))
    (rest : List Nat) (hchs : ∀ ch ∈ chs, NonZeroChunk ch) (hrest : rest ≠ [])
    (hlen : (wireChunks chs ++ rest).length ≤ PTRDIFF_MAX) :
    (∃ n rc, n ≤ 2 * (wireChunks chs ++ rest).length + 1024 ∧ heap n = false
        ∧ (rc = -2 ∨ rc = -5 ∨ rc = -8)
        ∧ decode_chunked heap (wireChunks chs ++ rest) = .error rc)
    ∨ (∃ a fuel, AllocOK a ∧ a ≤ 2 * (wireChunks chs ++ rest).length + 1024
        ∧ decode_chunked heap (wireChunks chs ++ rest)
          = decodeLoop heap (wireChunks chs ++ rest) (fuel + 1) (wireChunks chs).length
              (chunkData chs) a) := by
  have hge := wireChunks_length_ge chs
  have hpos : 0 < rest.length := List.length_pos.mpr hrest
  have hil : (wireChunks chs ++ rest).length = (wireChunks chs).length + rest.length :=
    List.length_append _ _
  have hread := readable_of_nonZero chs hchs (by omega)
  by_cases h2 : heap 1024 = true
  · have hd : decode_chunked heap (wireChunks chs ++ rest)
        = decodeLoop heap (wireChunks chs ++ rest)
            ((wireChunks chs ++ rest).length - chs.length + 1 + chs.length) 0 [] 1024 := by
      unfold decode_chunked
      rw [if_neg (by simp [h2])]
      congr 1
      omega
    rcases decodeLoop_readables heap (wireChunks chs ++ rest) hlen rest
        ((wireChunks chs ++ rest).length - chs.length + 1) chs [] [] 1024
        (by simp) hread allocOK_1024 (by omega) (le_refl _)
      with ⟨n, rc, h1, h3, h4, h5⟩ | ⟨a, ha, hal, hrun⟩
    · left
      refine ⟨n, rc, h1, h3, ?_, ?_⟩
      · rcases h4 with h | h
        · exact Or.inr (Or.inl h)
        · exact Or.inr (Or.inr h)
      · rw [hd]; exact h5
    · right
      refine ⟨a, (wireChunks chs ++ rest).length - chs.length, ha, hal, ?_⟩
      rw [hd]
      simp only [List.length_nil, List.nil_append] at hrun
      exact hrun
  · left
    refine ⟨1024, -2, by omega, by simpa using h2, Or.inl rfl, ?_⟩
    unfold decode_chunked
    rw [if_pos (by simpa using h2)]

/-- From the loop at the position behind the chunks to `decode_chunked`: when the
loop there ends in the error `k` unless an allocation is refused, the decoder returns
a non-zero error, which is `k` when every allocation is granted. -/
theorem decode_error_behind (heap : Nat → Bool) (chs : List (List Nat × List Nat))
    (rest : List Nat) (hchs : ∀ ch ∈ chs, NonZeroChunk ch) (hrest : rest ≠ [])
    (hlen : (wireChunks chs ++ rest).length ≤ PTRDIFF_MAX) (k : Int) (hk : k ≠ 0)
    (hloop : ∀ a fuel, AllocOK a → a ≤ 2 * (wireChunks chs ++ rest).length + 1024 →
      decodeLoop heap (wireChunks chs ++ rest) (fuel + 1) (wireChunks chs).length
          (chunkData chs) a = .error k
      ∨ ∃ n rc, n ≤ 2 * (wireChunks chs ++ rest).length + 1024 ∧ heap n = false ∧ rc ≠ 0
          ∧ decodeLoop heap (wireChunks chs ++ rest) (fuel + 1) (wireChunks chs).length
              (chunkData chs) a = .error rc) :
    ∃ rc, decode_chunked heap (wireChunks chs ++ rest) = .error rc ∧ rc ≠ 0
      ∧ ((∀ n, n ≤ 2 * (wireChunks chs ++ rest).length + 1024 → heap n = true) → rc = k) := by
  rcases decode_behind_chunks heap chs rest hchs hrest hlen
    with ⟨n, rc, h1, h2, h3, h4⟩ | ⟨a, fuel, ha, hal, hrun⟩
  · refine ⟨rc, h4, ?_, ?_⟩
    · rcases h3 with h | h | h <;> rw [h] <;> decide
    · intro hg
      rw [hg n h1] at h2
      cases h2
  · rcases hloop a fuel ha hal with h | ⟨n, rc, h1, h2, h3, h4⟩
    · exact ⟨k, by rw [hrun, h], hk, fun _ => rfl⟩
    · refine ⟨rc, by rw [hrun, h4], h3, ?_⟩
      intro hg
      rw [hg n h1] at h2
      cases h2

/-- Non-zero chunks in any spelling followed by the zero-size line: the decoder
returns their data, whatever stands behind the line. -/
theorem decode_zero_line (heap : Nat → Bool) (chs : List (List Nat × List Nat))
    (rest : List Nat) (hchs : ∀ ch ∈ chs, NonZeroChunk ch)
    (hlen : (wireChunks chs ++ 48 :: 13 :: 10 :: rest).length ≤ PTRDIFF_MAX)
    (hheap : ∀ n, n ≤ 2 * (wireChunks chs ++ 48 :: 13 :: 10 :: rest).length + 1024 →
      heap n = true) :
    decode_chunked heap (wireChunks chs ++ 48 :: 13 :: 10 :: rest) = .ok (chunkData chs) := by
  rcases decode_behind_chunks heap chs (48 :: 13 :: 10 :: rest) hchs (by simp) hlen
    with ⟨n, rc, h1, h2, _, _⟩ | ⟨a, fuel, _, _, hrun⟩
  · rw [hheap n h1] at h2
    cases h2
  · rw [hrun]
    exact decodeLoop_zero heap _ (wireChunks chs) rest (chunkData chs) a fuel hheap rfl hlen
      (chunkData_length_le chs)


/-! ## Size-line errors at any chunk position -/

/-- C24 (amended). The input consists of non-zero chunks in any spelling followed by
a non-empty rest, so that a chunk is expected where the rest begins (at the start of
the input when there is no chunk in front).  Then `decode_chunked` returns a
non-zero error, and produces no output, when (1) the rest begins with `CR LF` (an
empty size line: error -4), (2) no `CR LF` occurs in the rest (an unterminated size
line: error -3), or (3) `strtoul` finds no number in the size line, the bytes before
the first `CR LF` of the rest: behind optional white space and an optional sign the
line does not begin with a hexadecimal digit (error -6).  The error is the one named
when every allocation is granted, and one of -2, -5, -8 otherwise. -/
theorem size_line_errors (heap : Nat → Bool) (chs : List (List Nat × List Nat))
    (rest : List Nat) (hchs : ∀ ch ∈ chs, NonZeroChunk ch) (hrest : rest ≠ [])
    (hlen : (wireChunks chs ++ rest).length ≤ PTRDIFF_MAX) :
    (CRLFAt rest 0 →
      ∃ rc, decode_chunked heap (wireChunks chs ++ rest) = .error rc ∧ rc ≠ 0
        ∧ ((∀ n, n ≤ 2 * (wireChunks chs ++ rest).length + 1024 → heap n = true)
            → rc = -4))
    ∧ ((∀ i, ¬ CRLFAt rest i) →
      ∃ rc, decode_chunked heap (wireChunks chs ++ rest) = .error rc ∧ rc ≠ 0
        ∧ ((∀ n, n ≤ 2 * (wireChunks chs ++ rest).length + 1024 → heap n = true)
            → rc = -3))
    ∧ (∀ n, 0 < n → CRLFAt rest n → (∀ i, i < n → ¬ CRLFAt rest i) →
        begins_with_number (rest.take n) = false →
      ∃ rc, decode_chunked heap (wireChunks chs ++ rest) = .error rc ∧ rc ≠ 0
        ∧ ((∀ n, n ≤ 2 * (wireChunks chs ++ rest).length + 1024 → heap n = true)
            → rc = -6)) := by
  refine ⟨?_, ?_, ?_⟩
  · intro h0
    exact decode_error_behind heap chs rest hchs hrest hlen (-4) (by decide)
      (fun a fuel _ _ => Or.inl
        (decodeLoop_empty_line heap _ (wireChunks chs) rest _ a fuel rfl h0))
  · intro hno
    exact decode_error_behind heap chs rest hchs hrest hlen (-3) (by decide)
      (fun a fuel _ _ => Or.inl
        (decodeLoop_unterminated heap _ (wireChunks chs) rest _ a fuel rfl hrest hno))
  · intro n hn hcr hfirst hnum
    have hconv : (strtoul16 (rest.take n)).2 = false := by
      rw [strtoul16_converts]; exact hnum
    have hlt := crlfAt_lt rest n hcr
    apply decode_error_behind heap chs rest hchs hrest hlen (-6) (by decide)
    intro a fuel _ _
    have h := decodeLoop_no_number heap _ (wireChunks chs) rest (chunkData chs) a fuel n rfl
      hcr hn hfirst hconv
    by_cases hh : heap (n + 1) = true
    · rw [if_pos hh] at h
      exact Or.inl h
    · rw [if_neg hh] at h
      refine Or.inr ⟨n + 1, -5, ?_, by simpa using hh, by decide, h⟩
      rw [List.length_append]
      omega

/-- Witness for C24 (amended): behind the chunk `0A CRLF 0123456789 CRLF`, an empty
size line gives -4, the unterminated size line `5` gives -3, and the size line `xyz`
gives -6; at the start of the input the size line `;5` gives -6 as well.  The size
line `0x` begins with the hexadecimal digit `0` and is read as the number 0. -/
theorem size_line_errors_witness :
    decode_chunked heap_all (wireChunks [(str "0A", str "0123456789")] ++ str "\r\n")
        = .error (-4)
    ∧ decode_chunked heap_all (wireChunks [(str "0A", str "0123456789")] ++ str "5")
        = .error (-3)
    ∧ decode_chunked heap_all (wireChunks [(str "0A", str "0123456789")] ++ str "xyz\r\n")
        = .error (-6)
    ∧ decode_chunked heap_all (wireChunks [] ++ str ";5\r\nhello\r\n") = .error (-6)
    ∧ begins_with_number (str "0x") = true
    ∧ decode_chunked heap_all (str "0x\r\n") = .ok [] := by
  have hch : ∀ ch ∈ [(str "0A", str "0123456789")], NonZeroChunk ch := by
    intro ch hmem
    rw [List.mem_singleton] at hmem
    subst hmem
    exact Or.inl ⟨by decide, by decide, by decide, by decide⟩
  have h := fun rest => size_line_errors heap_all [(str "0A", str "0123456789")] rest hch
  have h0 := fun rest => size_line_errors heap_all [] rest (fun _ hm => by cases hm)
  refine ⟨?_, ?_, ?_, ?_, by decide, by decide⟩
  · obtain ⟨rc, h1, _, h3⟩ := (h (str "\r\n") (by decide) (by decide)).1
      (by unfold CRLFAt; decide)
    rw [h1, h3 (fun _ _ => rfl)]
  · obtain ⟨rc, h1, _, h3⟩ := (h (str "5") (by decide) (by decide)).2.1
      (by
        intro i hi
        have := crlfAt_lt _ i hi
        have hl : (str "5").length = 1 := rfl
        omega)
    rw [h1, h3 (fun _ _ => rfl)]
  · obtain ⟨rc, h1, _, h3⟩ := (h (str "xyz\r\n") (by decide) (by decide)).2.2 3
      (by decide) (by unfold CRLFAt; decide)
      (by
        intro i hi
        have : i = 0 ∨ i = 1 ∨ i = 2 := by omega
        rcases this with rfl | rfl | rfl <;> (unfold CRLFAt; decide))
      (by decide)
    rw [h1, h3 (fun _ _ => rfl)]
  · obtain ⟨rc, h1, _, h3⟩ := (h0 (str ";5\r\nhello\r\n") (by decide) (by decide)).2.2 2
      (by decide) (by unfold CRLFAt; decide)
      (by
        intro i hi
        have : i = 0 ∨ i = 1 := by omega
        rcases this with rfl | rfl <;> (unfold CRLFAt; decide))
      (by decide)
    rw [h1, h3 (fun _ _ => rfl)]

/-! ## The `CR LF` behind the data of a chunk -/

/-- C26. The input consists of non-zero chunks in any spelling followed by one more
non-zero chunk in any spelling (well-formed, or with whatever size line the decoder
reads: other case, leading zeros, a chunk extension) whose data is fully present, and
by a tail that does not begin with `CR LF` (it may have fewer than two bytes).  Then
`decode_chunked` returns a non-zero error: -9 when every allocation is granted, one
of -2, -5, -8 otherwise. -/
theorem crlf_after_chunk_data (heap : Nat → Bool) (chs : List (List Nat × List Nat))
    (line data tail : List Nat) (hchs : ∀ ch ∈ chs, NonZeroChunk ch)
    (hch : NonZeroChunk (line, data))
    (hlen : (wireChunks chs ++ (line ++ 13 :: 10 :: (data ++ tail))).length ≤ PTRDIFF_MAX)
    (htail : ¬ CRLFAt tail 0) :
    ∃ rc, decode_chunked heap (wireChunks chs ++ (line ++ 13 :: 10 :: (data ++ tail)))
          = .error rc ∧ rc ≠ 0
      ∧ ((∀ n, n ≤ 2 * (wireChunks chs ++ (line ++ 13 :: 10 :: (data ++ tail))).length + 1024
            → heap n = true) → rc = -9) := by
  have hread : ReadableChunk (line, data) := by
    rcases hch with hw | hr
    · refine readable_of_wellFormed _ hw ?_
      simp only [List.length_append, List.length_cons] at hlen
      unfold PTRDIFF_MAX at hlen
      unfold ULONG_MAX
      simp only []
      omega
    · exact hr
  apply decode_error_behind heap chs _ hchs (by simp) hlen (-9) (by decide)
  intro a fuel ha hal
  rcases decodeLoop_line_head heap _ (wireChunks chs) line data tail (chunkData chs) a fuel rfl
      hread hlen ha hal (chunkData_length_le chs)
    with ⟨n, rc, h1, h2, h3, h4⟩ | ⟨a1, _, _, h3⟩
  · refine Or.inr ⟨n, rc, h1, h2, ?_, h4⟩
    rcases h3 with h | h <;> rw [h] <;> decide
  · left
    rw [h3]
    have hsplit : wireChunks chs ++ (line ++ 13 :: 10 :: (data ++ tail))
        = (wireChunks chs ++ line ++ [13, 10] ++ data) ++ tail := by simp
    have hl : (wireChunks chs ++ line ++ [13, 10] ++ data).length
        = (wireChunks chs).length + line.length + 2 + data.length := by
      simp only [List.length_append, List.length_cons, List.length_nil]
    have e0 : (wireChunks chs ++ (line ++ 13 :: 10 :: (data ++ tail)))[
        (wireChunks chs).length + line.length + 2 + data.length]? = tail[0]? := by
      rw [hsplit, ← hl, List.getElem?_append_right (le_refl _), Nat.sub_self]
    have e1 : (wireChunks chs ++ (line ++ 13 :: 10 :: (data ++ tail)))[
        (wireChunks chs).length + line.length + 2 + data.length + 1]? = tail[1]? := by
      rw [hsplit, ← hl, List.getElem?_append_right (by omega)]
      congr 1
      omega
    rw [e0, e1]
    apply if_pos
    by_contra hc
    apply htail
    unfold CRLFAt
    constructor
    · by_contra h13
      exact hc (Or.inr (Or.inl h13))
    · by_contra h10
      exact hc (Or.inr (Or.inr h10))

/-- Witness for C26: after the complete chunk `5 CRLF hello` the bytes `XY` stand
where `CR LF` is expected, and the decoder returns -9; so it does behind the chunk
`0A CRLF 0123456789 CRLF` when the size line carries an extension, `5;ext=1`, and
when the input ends right behind the data. -/
theorem crlf_after_chunk_data_witness :
    decode_chunked heap_all (str "5\r\nhelloXY0\r\n\r\n") = .error (-9)
    ∧ decode_chunked heap_all (str "0A\r\n0123456789\r\n5;ext=1\r\nhelloXY") = .error (-9)
    ∧ decode_chunked heap_all (str "0A\r\n0123456789\r\n5;ext=1\r\nhello") = .error (-9) := by
  have hch : ∀ ch ∈ [(str "0A", str "0123456789")], NonZeroChunk ch := by
    intro ch hmem
    rw [List.mem_singleton] at hmem
    subst hmem
    exact Or.inl ⟨by decide, by decide, by decide, by decide⟩
  have hext : NonZeroChunk (str "5;ext=1", str "hello") :=
    Or.inr ⟨by decide, no_cr_no_crlf _ (by decide), by decide, by decide⟩
  refine ⟨?_, ?_, ?_⟩
  · obtain ⟨rc, h1, _, h3⟩ := crlf_after_chunk_data heap_all [] (str "5") (str "hello")
      (str "XY0\r\n\r\n") (fun _ hm => by cases hm)
      (Or.inl ⟨by decide, by decide, by decide, by decide⟩) (by decide)
      (by unfold CRLFAt; decide)
    have h4 := h3 (fun _ _ => rfl)
    rw [h4] at h1
    exact h1
  · obtain ⟨rc, h1, _, h3⟩ := crlf_after_chunk_data heap_all [(str "0A", str "0123456789")]
      (str "5;ext=1") (str "hello") (str "XY") hch hext (by decide)
      (by unfold CRLFAt; decide)
    have h4 := h3 (fun _ _ => rfl)
    rw [h4] at h1
    exact h1
  · obtain ⟨rc, h1, _, h3⟩ := crlf_after_chunk_data heap_all [(str "0A", str "0123456789")]
      (str "5;ext=1") (str "hello") [] hch hext (by decide)
      (by unfold CRLFAt; decide)
    have h4 := h3 (fun _ _ => rfl)
    rw [h4] at h1
    exact h1

/-! ## Bytes behind the zero-size line -/

/-- C27. For every sequence of non-zero chunks in any spelling (well-formed chunks
with hexadecimal digits of either case and leading zeros, or with whatever size line
the decoder reads) followed by the zero-size line `0 CRLF` and by any further bytes
`rest` (none, the trailing `CR LF`, or anything else), `decode_chunked` returns 0
with the data of the chunks as output: the result does not depend on `rest`.  The
input is a real object and the allocator grants the requests of the decoder. -/
theorem terminator_tolerance (heap : Nat → Bool) (chs : List (List Nat × List Nat))
    (rest : List Nat) (hchs : ∀ ch ∈ chs, NonZeroChunk ch)
    (hlen : (wireChunks chs ++ 48 :: 13 :: 10 :: rest).length ≤ PTRDIFF_MAX)
    (hheap : ∀ n, n ≤ 2 * (wireChunks chs ++ 48 :: 13 :: 10 :: rest).length + 1024 →
      heap n = true) :
    decode_chunked heap (wireChunks chs ++ 48 :: 13 :: 10 :: rest) = .ok (chunkData chs) :=
  decode_zero_line heap chs rest hchs hlen hheap

/-- Witness for C27: the chunks `te` (size line `2`) and `0123456789` (size line
`0A`) and the zero-size line decode to the same output when the input ends there,
when `CR LF` follows, and when `junk` follows. -/
theorem terminator_tolerance_witness :
    wireChunks [(str "2", str "te"), (str "0A", str "0123456789")] ++ 48 :: 13 :: 10 :: str "junk"
        = str "2\r\nte\r\n0A\r\n0123456789\r\n0\r\njunk"
    ∧ decode_chunked heap_all
        (wireChunks [(str "2", str "te"), (str "0A", str "0123456789")] ++ 48 :: 13 :: 10 :: [])
        = .ok (chunkData [(str "2", str "te"), (str "0A", str "0123456789")])
    ∧ decode_chunked heap_all
        (wireChunks [(str "2", str "te"), (str "0A", str "0123456789")]
          ++ 48 :: 13 :: 10 :: [13, 10])
        = .ok (chunkData [(str "2", str "te"), (str "0A", str "0123456789")])
    ∧ decode_chunked heap_all
        (wireChunks [(str "2", str "te"), (str "0A", str "0123456789")]
          ++ 48 :: 13 :: 10 :: str "junk")
        = .ok (chunkData [(str "2", str "te"), (str "0A", str "0123456789")])
    ∧ chunkData [(str "2", str "te"), (str "0A", str "0123456789")] = str "te0123456789" := by
  have hch : ∀ ch ∈ [(str "2", str "te"), (str "0A", str "0123456789")], NonZeroChunk ch := by
    intro ch hmem
    simp only [List.mem_cons, List.mem_singleton, List.not_mem_nil, or_false] at hmem
    rcases hmem with rfl | rfl <;> exact Or.inl ⟨by decide, by decide, by decide, by decide⟩
  exact ⟨by decide,
    terminator_tolerance heap_all _ [] hch (by decide) (fun _ _ => rfl),
    terminator_tolerance heap_all _ [13, 10] hch (by decide) (fun _ _ => rfl),
    terminator_tolerance heap_all _ (str "junk") hch (by decide) (fun _ _ => rfl),
    by decide⟩


/-! ## End-to-end chunked delivery, any spelling of the chunks -/

theorem wire_terminated_ends (chs : List (List Nat × List Nat)) :
    5 ≤ (wireChunks chs ++ zeroChunk).length
      ∧ ((wireChunks chs ++ zeroChunk).drop ((wireChunks chs ++ zeroChunk).length - 5)).take 5
          = TERM := by
  constructor
  · simp [zeroChunk]
  · have : (wireChunks chs ++ zeroChunk).length - 5 = (wireChunks chs).length := by
      simp [zeroChunk]
    rw [this, List.drop_left]
    rfl

/-- C4 (amended). End-to-end chunked delivery.  A client in READING with an empty
buffer receives, over any sequence of ticks before its deadline whose reads either
would block or return data, a header block that ends at its first `CR LF CR LF` and
whose text, the bytes before its first NUL, contains `Transfer-Encoding: chunked`
and no `Content-Length:`, followed by a chunk encoding of the payload: non-zero
chunks in any spelling (well-formed, or with whatever size line the decoder reads),
then the zero chunk `0 CR LF CR LF`, these five bytes standing nowhere earlier in
the encoding.  The response is shorter than `INT_MAX` bytes, allocations are granted
and no read leaves fewer than 4 bytes in the buffer.  Then after some tick the client
is in DONE with the payload, the concatenated chunk data, as body and its length as
`content_len`, and the callback has not been invoked. -/
theorem chunked_delivery (c : HttpClient) (H : List Nat) (chs : List (List Nat × List Nat))
    (ticks : List (Env × Nat))
    (hstate : c.state = .READING) (htimer : c.timer ≠ 0) (hconn : c.tcp_conn ≠ none)
    (hbuf : c.read_buffer = []) (hbs : c.body_start = 0)
    (hH : ChunkedHeaders H) (hchs : ∀ ch ∈ chs, NonZeroChunk ch)
    (hterm : ∀ j, j + 5 < (wireChunks chs ++ zeroChunk).length →
      ((wireChunks chs ++ zeroChunk).drop j).take 5 ≠ TERM)
    (hsize : (H ++ (wireChunks chs ++ zeroChunk)).length < INT_MAX)
    (hticks : ReadsDeliver ((c.timer + c.timeout) % SIZE_MOD) ticks 0
      (H ++ (wireChunks chs ++ zeroChunk))) :
    ∃ k c1, run (ticks.take k) c [] [] = .alive c1 [] [] ∧ c1.state = .DONE
      ∧ c1.body = some (chunkData chs) ∧ c1.content_len = (chunkData chs).length := by
  have hH4 := hH.1
  obtain ⟨hE5, hEend⟩ := wire_terminated_ends chs
  have hIM : INT_MAX = 2147483647 := rfl
  have hPD : PTRDIFF_MAX = 9223372036854775807 := rfl
  have hlen : (wireChunks chs ++ zeroChunk).length ≤ PTRDIFF_MAX := by
    rw [List.length_append] at hsize
    omega
  have hdec : ∀ heap : Nat → Bool, (∀ k, heap k = true) →
      decode_chunked heap (wireChunks chs ++ zeroChunk) = .ok (chunkData chs) :=
    fun heap hheap => decode_zero_line heap chs [13, 10] hchs hlen (fun k _ => hheap k)
  exact deliver_run H hH (wireChunks chs ++ zeroChunk) (chunkData chs) hE5 hEend hdec hterm
    hsize _ ticks 0 c
    ⟨hstate, htimer, rfl, hconn, by rw [hbuf]; rfl, Or.inl ⟨by omega, hbs⟩⟩
    (by rw [List.length_append]; omega) hticks

/-- Witness for C4 (scenario C): the response `header_c` followed by
`4 CRLF test CRLF 0 CRLF CRLF` arrives as `HTTP`, then a would-block tick, then the
bytes up to `te`, then the rest; the client reaches DONE with body `test`. -/
theorem chunked_delivery_witness :
    header_c ++ (wireChunks [(str "4", str "test")] ++ zeroChunk) = response_c
    ∧ chunkData [(str "4", str "test")] = str "test"
    ∧ ∃ k c1,
      run ([tick_at 2 (.got (response_c.take 4)), tick_at 3 (.fail EAGAIN),
            tick_at 4 (.got ((response_c.drop 4).take 48)),
            tick_at 5 (.got (response_c.drop 52))].take k) reading_client [] []
        = .alive c1 [] []
      ∧ c1.state = .DONE ∧ c1.body = some (chunkData [(str "4", str "test")])
      ∧ c1.content_len = (chunkData [(str "4", str "test")]).length :=
  ⟨by decide, by decide,
  chunked_delivery reading_client header_c [(str "4", str "test")] _
    (by decide) (by decide) (by decide) (by decide) (by decide) header_c_chunked
    (by
      intro ch hmem
      rw [List.mem_singleton] at hmem
      subst hmem
      exact Or.inl ⟨by decide, by decide, by decide, by decide⟩)
    (by intro j hj
        have hj2 : j < 9 := by
          have : (wireChunks [(str "4", str "test")] ++ zeroChunk).length = 14 := by decide
          omega
        interval_cases j <;> decide)
    (by decide)
    ⟨by decide, fun _ => rfl, Or.inr ⟨response_c.take 4, response_c.drop 4, rfl, by decide,
      by decide, by decide,
      ⟨by decide, fun _ => rfl, Or.inl ⟨EAGAIN, rfl, Or.inl rfl,
        ⟨by decide, fun _ => rfl, Or.inr ⟨(response_c.drop 4).take 48, response_c.drop 52, rfl,
          by decide, by decide, by decide,
          ⟨by decide, fun _ => rfl, Or.inr ⟨response_c.drop 52, [], rfl, by decide,
            by decide, by decide, rfl⟩⟩⟩⟩⟩⟩⟩⟩⟩


/-! ## The declared length read from the header block -/

theorem strstr_first (pat t : List Nat) (hpat : pat <+: t) (hne : t ≠ []) :
    ∀ pre : List Nat, (∀ j, j < pre.length → ¬ pat <+: (pre ++ t).drop j) →
      strstr pat (pre ++ t) = some t := by
  intro pre
  induction pre with
  | nil =>
    intro _
    obtain ⟨c, s, rfl⟩ := List.exists_cons_of_ne_nil hne
    show strstr pat (c :: s) = _
    unfold strstr
    rw [if_pos (List.isPrefixOf_iff_prefix.mpr hpat)]
  | cons a pre ih =>
    intro hfirst
    have h0 : ¬ pat <+: a :: (pre ++ t) := by
      have := hfirst 0 (by simp)
      simpa using this
    show strstr pat (a :: (pre ++ t)) = _
    unfold strstr
    rw [if_neg (by rw [List.isPrefixOf_iff_prefix]; exact h0)]
    apply ih
    intro j hj
    have := hfirst (j + 1) (by simp; omega)
    simpa using this

theorem decRun_digits (ds rest : List Nat) (hds : ∀ c ∈ ds, 48 ≤ c ∧ c ≤ 57)
    (hrest : ∀ c, rest.head? = some c → ¬ (48 ≤ c ∧ c ≤ 57)) :
    ∀ acc n, decRun (ds ++ rest) acc n
      = (ds.foldl (fun a c => a * 10 + (c - 48)) acc, n + ds.length, rest) := by
  induction ds with
  | nil =>
    intro acc n
    cases rest with
    | nil => rfl
    | cons c cs =>
      show decRun (c :: cs) acc n = _
      unfold decRun
      rw [if_neg (hrest c rfl)]
      rfl
  | cons d ds ih =>
    intro acc n
    show decRun (d :: (ds ++ rest)) acc n = _
    unfold decRun
    rw [if_pos (hds d (List.mem_cons_self _ _)),
      ih (fun c hc => hds c (List.mem_cons_of_mem _ hc))]
    simp only [List.foldl_cons, List.length_cons]
    congr 2
    omega

theorem dropWhile_space_digits (ws t : List Nat) (hws : ∀ c ∈ ws, isspace c = true)
    (ht : ∀ c, t.head? = some c → isspace c = false) :
    (ws ++ t).dropWhile isspace = t := by
  induction ws with
  | nil =>
    cases t with
    | nil => rfl
    | cons c cs =>
      show (c :: cs).dropWhile isspace = _
      rw [List.dropWhile_cons, ht c rfl]
      rfl
  | cons w ws ih =>
    show (w :: (ws ++ t)).dropWhile isspace = _
    rw [List.dropWhile_cons, hws w (List.mem_cons_self _ _)]
    exact ih (fun c hc => hws c (List.mem_cons_of_mem _ hc))

/-- The parser stores the declared length: `content_len` is the number behind the
first occurrence of `Content-Length:` in the text of the header block. -/
theorem scan_content_length_declared (H : List Nat) (N : Nat) (h : DeclaresLength H N) :
    scan_content_length H = N := by
  obtain ⟨pre, ws, ds, rest, hH, hfirst, hws, hne, hds, hrest, hval, hmax⟩ := h
  obtain ⟨d, ds1, hd⟩ := List.exists_cons_of_ne_nil hne
  have hdd : 48 ≤ d ∧ d ≤ 57 := hds d (by rw [hd]; exact List.mem_cons_self _ _)
  have hdspace : isspace d = false := by
    unfold isspace
    simp only [Bool.or_eq_false_iff, beq_eq_false_iff_ne, Bool.and_eq_false_iff,
      decide_eq_false_iff_not]
    omega
  have hhead : ∀ c, (ds ++ rest).head? = some c → isspace c = false := by
    intro c hc
    rw [hd] at hc
    simp only [List.cons_append, List.head?_cons, Option.some.injEq] at hc
    rw [← hc]; exact hdspace
  have h15 : (str "Content-Length:").length = 15 := by decide
  have hne2 : str "Content-Length:" ++ (ws ++ (ds ++ rest)) ≠ [] := by
    intro h0
    have h1 := congrArg List.length h0
    rw [List.length_append, h15, List.length_nil] at h1
    omega
  have hstr : strstr (str "Content-Length:") (cstr H)
      = some (str "Content-Length:" ++ (ws ++ (ds ++ rest))) := by
    rw [hH]
    apply strstr_first (str "Content-Length:") _ (List.prefix_append _ _) hne2
    intro j hj
    rw [← hH]
    exact hfirst j hj
  have hdrop : (str "Content-Length:" ++ (ws ++ (ds ++ rest))).drop 15 = ws ++ (ds ++ rest) := by
    rw [← h15, List.drop_left]
  have hsp := dropWhile_space_digits ws (ds ++ rest) hws hhead
  have hsp2 : (ds ++ rest).dropWhile isspace = ds ++ rest := by
    rw [hd]
    show (d :: (ds1 ++ rest)).dropWhile isspace = _
    rw [List.dropWhile_cons, hdspace]
    rfl
  have hsign : takeSign (ds ++ rest) = (false, ds ++ rest) := by
    rw [hd]
    show takeSign (d :: (ds1 ++ rest)) = _
    unfold takeSign
    split
    · rename_i heq
      injection heq with h1 _
      omega
    · rename_i heq
      injection heq with h1 _
      omega
    · rfl
  have hrun := decRun_digits ds rest hds hrest 0 0
  have hlen : ds.length ≠ 0 := fun h0 => hne (List.length_eq_zero.mp h0)
  unfold scan_content_length
  rw [hstr]
  simp only [hdrop, hsp]
  unfold scanNumber
  simp only [hsp2, hsign, hrun, Nat.zero_add]
  rw [if_neg hlen]
  simp only []
  unfold scanf_zu
  unfold decValue at hval
  rw [hval, if_neg (by omega)]
  simp

theorem headerScan_found_bound (buf : List Nat) :
    ∀ (fuel j i : Nat), headerScan buf fuel j = .found i → i + 4 ≤ buf.length := by
  intro fuel
  induction fuel with
  | zero =>
    intro j i h
    unfold headerScan at h
    cases h
  | succ n ih =>
    intro j i h
    unfold headerScan at h
    split at h
    · cases h
    · split at h
      · cases h
      · split at h
        · cases h
        · split at h
          · cases h
          · split at h
            · cases h
            · split at h
              · rename_i hm
                split at h
                · cases h
                · injection h with h
                  subst h
                  have h3 : buf[j + 3]? = some 10 := hm.2.2.2
                  obtain ⟨hlt, _⟩ := List.getElem?_eq_some.mp h3
                  omega
              · split at h
                · cases h
                · exact ih _ _ h

theorem header_scan_found_bound (buf : List Nat) (i : Nat) (h : header_scan buf = .found i) :
    i + 4 ≤ buf.length := by
  unfold header_scan at h
  exact headerScan_found_bound buf _ _ _ h

theorem headersInv_append (c : HttpClient) (bytes : List Nat) (hinv : HeadersInv c) :
    HeadersInv { c with read_buffer := c.read_buffer ++ bytes } := by
  rcases hinv with h1 | ⟨hle, hcl⟩
  · exact Or.inl h1
  · right
    refine ⟨?_, ?_⟩
    · show c.body_start ≤ (c.read_buffer ++ bytes).length
      rw [List.length_append]; omega
    · show c.content_len = scan_content_length ((c.read_buffer ++ bytes).take c.body_start)
      rw [List.take_append_of_le_length hle]
      exact hcl

theorem headersInv_headers (heap : Nat → Bool) (c c1 : HttpClient)
    (h : receive_headers heap c = .ok (.inl c1)) (hinv : HeadersInv c) : HeadersInv c1 := by
  unfold receive_headers at h
  split at h
  · split at h
    · cases h
    · injection h with h; injection h with h
      rw [← h]; exact hinv
    · rename_i i hscan
      split at h
      · cases h
      · rename_i c2 heq
        unfold parse_headers at heq
        split at heq
        · cases heq
        · injection heq with heq
          injection h with h; injection h with h
          rw [← h, ← heq]
          have hb : i + 4 ≤ c.read_buffer.length := header_scan_found_bound _ i hscan
          exact Or.inr ⟨hb, rfl⟩
  · injection h with h; injection h with h
    rw [← h]; exact hinv

/-- The header fields stay those of the header block through every receive. -/
theorem headersInv_receive (heap : Nat → Bool) (c c1 : HttpClient) (bytes : List Nat)
    (h : reading_receive heap c bytes = .ok (.inl c1)) (hinv : HeadersInv c) :
    HeadersInv c1 := by
  unfold reading_receive at h
  split at h
  · cases h
  · split at h
    · cases h
    · exact headersInv_headers heap _ c1 h (headersInv_append c bytes hinv)

/-- A new client has no parsed headers. -/
theorem headersInv_new (task : Bool) (url : List Nat) (timeout : Nat) (callback : Bool) :
    HeadersInv (new_client task url timeout callback) := Or.inl rfl

theorem declared_content_len (heap : Nat → Bool) (c c1 : HttpClient) (bytes : List Nat)
    (N : Nat) (h : reading_receive heap c bytes = .ok (.inl c1)) (hinv : HeadersInv c)
    (hb : c1.body_start > 0)
    (hdecl : DeclaresLength (c1.read_buffer.take c1.body_start) N) :
    c1.content_len = N := by
  rcases headersInv_receive heap c c1 bytes h hinv with h0 | ⟨_, hcl⟩
  · omega
  · rw [hcl]
    exact scan_content_length_declared _ N hdecl


/-! ## The header fields of every client the scheduler runs -/

theorem headersInv_fields (c c1 : HttpClient) (hb : c1.body_start = c.body_start)
    (hr : c1.read_buffer = c.read_buffer) (hc : c1.content_len = c.content_len)
    (h : HeadersInv c) : HeadersInv c1 := by
  unfold HeadersInv at *
  rw [hb, hr, hc]
  exact h

theorem keeps_fail (c : HttpClient) (msg : String) : KeepsHeaders (failStep c msg) :=
  Or.inr (Or.inl rfl)

theorem keeps_init (c : HttpClient) (s : Step) (h : http_client_work_init c = .ok s)
    (hinv : HeadersInv c) : KeepsHeaders s := by
  unfold http_client_work_init at h
  split at h
  · cases h
  · cases h
  · split at h
    · injection h with h; rw [← h]; exact keeps_fail _ _
    · split at h
      · injection h with h; rw [← h]; exact keeps_fail _ _
      · injection h with h; rw [← h]
        exact Or.inr (Or.inr (headersInv_fields c _ rfl rfl rfl hinv))

theorem keeps_connect (heap : Nat → Bool) (gai : Option (List Candidate)) (c : HttpClient)
    (hinv : HeadersInv c) : KeepsHeaders (http_client_work_connect heap gai c) := by
  unfold http_client_work_connect
  split
  · exact keeps_fail _ _
  · split
    · exact Or.inr (Or.inl rfl)
    · exact Or.inr (Or.inr (headersInv_fields c _ rfl rfl rfl hinv))

theorem keeps_connecting (so : SockOpt) (c : HttpClient) (hinv : HeadersInv c) :
    KeepsHeaders (http_client_work_connecting so c) := by
  unfold http_client_work_connecting
  split
  · exact Or.inr (Or.inl rfl)
  · split
    · exact Or.inr (Or.inl rfl)
    · split
      · exact Or.inr (Or.inl rfl)
      · split
        · exact Or.inr (Or.inr hinv)
        · split
          · exact Or.inr (Or.inr hinv)
          · exact keeps_fail _ _

theorem keeps_send (sr : Send) (c : HttpClient) (s : Step) (h : send_request sr c = .ok s)
    (hinv : HeadersInv c) : KeepsHeaders s := by
  unfold send_request at h
  split at h
  · cases h
  · split at h
    · split at h
      · injection h with h; rw [← h]; exact Or.inr (Or.inr hinv)
      · injection h with h; rw [← h]; exact keeps_fail _ _
    · split at h
      · injection h with h; rw [← h]
        exact Or.inr (Or.inr (headersInv_fields c _ rfl rfl rfl hinv))
      · injection h with h; rw [← h]
        exact Or.inr (Or.inr (headersInv_fields c _ rfl rfl rfl hinv))

theorem keeps_writing (heap : Nat → Bool) (sr : Send) (c : HttpClient) (s : Step)
    (h : http_client_work_writing heap sr c = .ok s) (hinv : HeadersInv c) :
    KeepsHeaders s := by
  unfold http_client_work_writing at h
  split at h
  · injection h with h; rw [← h]; exact keeps_fail _ _
  · rename_i c1 hb
    apply keeps_send sr c1 s h
    unfold build_request at hb
    split at hb
    · injection hb with hb; rw [← hb]; exact hinv
    · split at hb
      · cases hb
      · injection hb with hb; rw [← hb]
        exact headersInv_fields c _ rfl rfl rfl hinv

theorem keeps_done_with_body (heap : Nat → Bool) (c : HttpClient) (s : Step)
    (h : done_with_body heap c = .ok s) : KeepsHeaders s := by
  unfold done_with_body at h
  split at h
  · injection h with h; rw [← h]; exact Or.inl rfl
  · split at h
    · cases h
    · injection h with h; rw [← h]; exact Or.inl rfl

theorem keeps_finalize (heap : Nat → Bool) (c : HttpClient) (s : Step)
    (h : finalize_remaining heap c = .ok s) : KeepsHeaders s := by
  unfold finalize_remaining at h
  split at h
  · exact keeps_done_with_body heap _ s h
  · injection h with h; rw [← h]; exact Or.inl rfl

theorem keeps_store_decoded (heap : Nat → Bool) (c : HttpClient) (inp : List Nat) (s : Step)
    (h : store_decoded heap c inp = .ok s) : KeepsHeaders s := by
  unfold store_decoded at h
  split at h
  · injection h with h; rw [← h]; exact keeps_fail _ _
  · cases h
  · cases h
  · injection h with h; rw [← h]; exact Or.inl rfl

theorem keeps_eof (heap : Nat → Bool) (c : HttpClient) (s : Step)
    (h : reading_eof heap c = .ok s) : KeepsHeaders s := by
  unfold reading_eof at h
  split at h
  · split at h
    · exact keeps_store_decoded heap c _ s h
    · exact keeps_finalize heap c s h
  · injection h with h; rw [← h]; exact Or.inr (Or.inl rfl)

theorem keeps_complete (heap : Nat → Bool) (peek : Recv) (c : HttpClient) (s : Step)
    (h : reading_complete heap peek c = .ok s) (hinv : HeadersInv c) : KeepsHeaders s := by
  unfold reading_complete at h
  split at h
  · split at h
    · unfold complete_known_length at h
      split at h
      · exact keeps_done_with_body heap c s h
      · injection h with h; rw [← h]; exact Or.inr (Or.inr hinv)
    · split at h
      · unfold complete_chunked at h
        split at h
        · exact keeps_store_decoded heap c _ s h
        · injection h with h; rw [← h]; exact Or.inr (Or.inr hinv)
      · unfold complete_by_peek at h
        split at h
        · split at h
          · exact keeps_finalize heap c s h
          · split at h
            · split at h
              · injection h with h; rw [← h]; exact Or.inr (Or.inr hinv)
              · injection h with h; rw [← h]; exact keeps_fail _ _
            · injection h with h; rw [← h]; exact Or.inr (Or.inr hinv)
        · injection h with h; rw [← h]; exact Or.inr (Or.inr hinv)
  · injection h with h; rw [← h]; exact Or.inr (Or.inr hinv)

theorem receive_headers_inr (heap : Nat → Bool) (c : HttpClient) (s : Step)
    (h : receive_headers heap c = .ok (.inr s)) : KeepsHeaders s := by
  unfold receive_headers at h
  split at h
  · split at h
    · cases h
    · injection h with h; cases h
    · split at h
      · injection h with h; injection h with h
        rw [← h]; exact keeps_fail _ _
      · injection h with h; cases h
  · injection h with h; cases h

theorem reading_receive_inr (heap : Nat → Bool) (c : HttpClient) (bytes : List Nat) (s : Step)
    (h : reading_receive heap c bytes = .ok (.inr s)) : KeepsHeaders s := by
  unfold reading_receive at h
  split at h
  · injection h with h; injection h with h
    rw [← h]; exact keeps_fail _ _
  · split at h
    · cases h
    · exact receive_headers_inr heap _ s h

theorem keeps_reading (heap : Nat → Bool) (r peek : Recv) (c : HttpClient) (s : Step)
    (h : http_client_work_reading heap r peek c = .ok s) (hinv : HeadersInv c) :
    KeepsHeaders s := by
  unfold http_client_work_reading at h
  split at h
  · cases h
  · split at h
    · injection h with h; rw [← h]; exact keeps_fail _ _
    · split at h
      · injection h with h; rw [← h]; exact Or.inr (Or.inr hinv)
      · split at h
        · exact keeps_eof heap c s h
        · split at h
          · cases h
          · cases h
          · rename_i s1 hr
            injection h with h; rw [← h]
            exact reading_receive_inr heap c _ s1 hr
          · rename_i c1 hr
            exact keeps_complete heap peek c1 s h (headersInv_receive heap c c1 _ hr hinv)

theorem reach_tick (s : Step) (c1 : HttpClient) (cs : List Call) (cl : List Int)
    (h : s.tick = .alive c1 cs cl) (hk : KeepsHeaders s) : ReachInv c1 := by
  unfold Step.tick at h
  injection h with h _ _
  rw [← h]
  rcases hk with h1 | h1 | h1
  · exact Or.inl h1
  · exact Or.inr (Or.inl h1)
  · exact Or.inr (Or.inr (headersInv_fields s.client _ rfl rfl rfl h1))

theorem reach_exec (e : Exec Step) (c1 : HttpClient) (cs : List Call) (cl : List Int)
    (h : e.tick = .alive c1 cs cl) (hk : ∀ s, e = .ok s → KeepsHeaders s) : ReachInv c1 := by
  cases e with
  | ok s => exact reach_tick s c1 cs cl h (hk s rfl)
  | fault => cases h
  | hang => cases h

theorem reach_switch (env : Env) (c c1 : HttpClient) (cs : List Call) (cl : List Int)
    (h : work_switch env c = .alive c1 cs cl) (hinv : ReachInv c) : ReachInv c1 := by
  unfold work_switch at h
  split at h
  · rename_i hst
    have hi : HeadersInv c := by
      rcases hinv with h1 | h1 | h1
      · rw [hst] at h1; cases h1
      · rw [hst] at h1; cases h1
      · exact h1
    exact reach_exec _ c1 cs cl h (fun s hs => keeps_init c s hs hi)
  · rename_i hst
    have hi : HeadersInv c := by
      rcases hinv with h1 | h1 | h1
      · rw [hst] at h1; cases h1
      · rw [hst] at h1; cases h1
      · exact h1
    exact reach_tick _ c1 cs cl h (keeps_connect _ _ c hi)
  · rename_i hst
    have hi : HeadersInv c := by
      rcases hinv with h1 | h1 | h1
      · rw [hst] at h1; cases h1
      · rw [hst] at h1; cases h1
      · exact h1
    exact reach_tick _ c1 cs cl h (keeps_connecting _ c hi)
  · rename_i hst
    have hi : HeadersInv c := by
      rcases hinv with h1 | h1 | h1
      · rw [hst] at h1; cases h1
      · rw [hst] at h1; cases h1
      · exact h1
    exact reach_exec _ c1 cs cl h (fun s hs => keeps_writing _ _ c s hs hi)
  · rename_i hst
    have hi : HeadersInv c := by
      rcases hinv with h1 | h1 | h1
      · rw [hst] at h1; cases h1
      · rw [hst] at h1; cases h1
      · exact h1
    exact reach_exec _ c1 cs cl h (fun s hs => keeps_reading _ _ _ c s hs hi)
  · exact reach_tick _ c1 cs cl h (Or.inr (Or.inl rfl))
  · cases h

theorem reach_work (env : Env) (c c1 : HttpClient) (t : Nat) (cs : List Call) (cl : List Int)
    (h : http_client_work env c t = .alive c1 cs cl) (hinv : ReachInv c) : ReachInv c1 := by
  unfold http_client_work at h
  split at h
  · apply reach_switch env _ c1 cs cl h
    rcases hinv with h1 | h1 | h1
    · exact Or.inl h1
    · exact Or.inr (Or.inl h1)
    · exact Or.inr (Or.inr (headersInv_fields c _ rfl rfl rfl h1))
  · split at h
    · cases h
    · exact reach_switch env c c1 cs cl h hinv

theorem reach_run (ticks : List (Env × Nat)) :
    ∀ (c c1 : HttpClient) (calls cs : List Call) (closed cl : List Int),
      run ticks c calls closed = .alive c1 cs cl → ReachInv c → ReachInv c1 := by
  induction ticks with
  | nil =>
    intro c c1 calls cs closed cl h hinv
    unfold run at h
    injection h with h _ _
    rw [← h]; exact hinv
  | cons e rest ih =>
    intro c c1 calls cs closed cl h hinv
    obtain ⟨env, t⟩ := e
    unfold run at h
    split at h
    · rename_i c2 cs2 cl2 hw
      exact ih c2 c1 _ cs _ cl h (reach_work env c c2 t cs2 cl2 hw hinv)
    · cases h
    · cases h
    · cases h

/-- Every client the scheduler has in READING, after any number of ticks on a client
made by `http_client_get`, has the header fields of its header block: the condition
`HeadersInv` holds of every execution. -/
theorem headersInv_reachable (task : Bool) (url : List Nat) (timeout : Nat) (callback : Bool)
    (ticks : List (Env × Nat)) (c : HttpClient) (cs : List Call) (cl : List Int)
    (h : run ticks (new_client task url timeout callback) [] [] = .alive c cs cl)
    (hst : c.state = .READING) : HeadersInv c := by
  rcases reach_run ticks _ c [] cs [] cl h (Or.inr (Or.inr (Or.inl rfl))) with h1 | h1 | h1
  · rw [hst] at h1; cases h1
  · rw [hst] at h1; cases h1
  · exact h1


/-! ## Content-Length and chunked in one header block -/

/-- C37 (counterexample). The header block of `response_shadowed` contains a
`Content-Length` header with the value 14 and `Transfer-Encoding: chunked`, but the
header `X-Content-Length: 0` stands in front: `strstr` finds `Content-Length:` inside
it and `content_len` becomes 0.  The READING step then runs the chunked decoder and
reaches DONE with the decoded body `test`, not with the 14 raw bytes. -/
theorem content_length_shadowed :
    str "\r\nContent-Length: 14\r\n" <:+: response_shadowed.take 88
    ∧ str "Transfer-Encoding: chunked" <:+: response_shadowed.take 88
    ∧ http_client_work_reading heap_all (.got response_shadowed) (.fail EAGAIN) reading_client
      = .ok ⟨{ reading_client with
                read_buffer := response_shadowed, body_start := 88, status_code := 200,
                chunked := true, content_len := 4, body := some (str "test") },
            .DONE, [], []⟩
    ∧ (response_shadowed.drop 88).take 14 = str "4\r\ntest\r\n0\r\n\r\n" := by
  refine ⟨?_, ?_, by decide, by decide⟩
  · exact ⟨str "HTTP/1.1 200 OK\r\nX-Content-Length: 0", str "Transfer-Encoding: chunked\r\n\r\n",
      by decide⟩
  · exact ⟨str "HTTP/1.1 200 OK\r\nX-Content-Length: 0\r\nContent-Length: 14\r\n", str "\r\n\r\n",
      by decide⟩

/-- C37 (amended). A data tick of the READING handler on a client whose header
fields come from its header block (`HeadersInv`, which holds of every client the
scheduler has in READING, see `headersInv_reachable`), leaving the headers parsed
(client `c1` after the append and the header parse).  When the header block declares the length `N > 0`, that is, when
behind the first occurrence of `Content-Length:` in the text of the block stand
optional white space and the decimal number `N`, then, whether or not the block also
says `Transfer-Encoding: chunked`: `content_len` is `N`; the completion check is the
one for a known length and involves no chunked decoding; once `N` bytes are buffered
after `body_start` and `malloc(N + 1)` is granted, the step returns DONE with exactly
those `N` raw bytes as body; while fewer are buffered (and `body_start + N` is within
64 bits) it returns READING with `c1` unchanged. -/
theorem content_length_precedence (heap : Nat → Bool) (peek : Recv) (c c1 : HttpClient)
    (bytes : List Nat) (N : Nat) (hconn : c.tcp_conn ≠ none) (hbytes : bytes ≠ [])
    (hinv : HeadersInv c)
    (hrecv : reading_receive heap c bytes = .ok (.inl c1))
    (hb : c1.body_start > 0)
    (hdecl : DeclaresLength (c1.read_buffer.take c1.body_start) N) (hN : 0 < N) :
    c1.content_len = N
    ∧ http_client_work_reading heap (.got bytes) peek c = complete_known_length heap c1
    ∧ (c1.body_start + N ≤ c1.read_buffer_size →
        heap (N + 1) = true →
        http_client_work_reading heap (.got bytes) peek c
          = .ok ⟨{ c1 with
                    body := some ((c1.read_buffer.drop c1.body_start).take N) },
                .DONE, [], []⟩)
    ∧ (c1.read_buffer_size < c1.body_start + N →
        c1.body_start + N < SIZE_MOD →
        http_client_work_reading heap (.got bytes) peek c = .ok ⟨c1, .READING, [], []⟩) := by
  have hcl : c1.content_len = N := declared_content_len heap c c1 bytes N hrecv hinv hb hdecl
  have hstep : http_client_work_reading heap (.got bytes) peek c
      = complete_known_length heap c1 := by
    rw [reading_data_tick heap peek c bytes hconn hbytes, hrecv]
    exact known_length_first heap peek c1 hb (by omega)
  obtain ⟨_, _, _, _, hsize⟩ := reading_receive_frame heap c c1 bytes hrecv
  refine ⟨hcl, hstep, ?_, ?_⟩
  · intro hall hheap
    rw [hstep, ← hcl]
    exact known_length_done heap c1 hb hsize (by rw [hcl]; exact hall) (by rw [hcl]; exact hheap)
  · intro hless hsum
    rw [hstep]
    exact known_length_waits heap c1 (by rw [hcl]; exact hsum) (by rw [hcl]; exact hless)

theorem response_both_declares : DeclaresLength (parsed_both.read_buffer.take 67) 14 :=
  ⟨str "HTTP/1.1 200 OK\r\n", str " ", str "14", str "\r\nTransfer-Encoding: chunked\r\n\r\n",
    by decide, by decide, by decide, by decide, by decide, by decide, by decide, by decide⟩

/-- Witness for C37 (amended): `response_both` arrives in one read.  Its header
block declares the length 14 and says `Transfer-Encoding: chunked`; the step returns
DONE with the 14 raw bytes `4 CRLF test CRLF 0 CRLF CRLF` as body (decoding them would
give `test`). -/
theorem content_length_precedence_witness :
    reading_receive heap_all reading_client response_both = .ok (.inl parsed_both)
    ∧ parsed_both.chunked = true
    ∧ (parsed_both.read_buffer.drop parsed_both.body_start).take 14
        = str "4\r\ntest\r\n0\r\n\r\n"
    ∧ decode_chunked heap_all (str "4\r\ntest\r\n0\r\n\r\n") = .ok (str "test")
    ∧ http_client_work_reading heap_all (.got response_both) (.fail EAGAIN) reading_client
        = .ok ⟨{ parsed_both with
                  body := some ((parsed_both.read_buffer.drop parsed_both.body_start).take 14) },
              .DONE, [], []⟩ :=
  ⟨by decide, by decide, by decide, by decide,
   (content_length_precedence heap_all (.fail EAGAIN) reading_client parsed_both response_both 14
      (by decide) (by decide) (Or.inl rfl) (by decide) (by decide) response_both_declares
      (by decide)).2.2.1 (by decide) rfl⟩

end JustWeather
